import Mathlib

/-!
# DRAW_IT server: session registry, whiteboard rooms and drawing-guessing games

A shallow embedding of `server/index.js`.  Every class method and helper
function of the server is a Lean function over an explicit state; a method
that mutates `this` returns the new object, a method that can throw returns an
`Option` (`none` is the thrown `TypeError`).  Randomness (`Math.random`) and the
clock (`Date.now`, `new Date`) are explicit arguments.  Outbound `emit`s do not
change any state and are left out, except where a handler's emitted value is
returned next to the new state.  A handler that awaits the database
(`create-room`, `join-room`, `handleLeaveRoom`) is cut at its `await`: the part
before it runs with the event, the rest when the call settles, and other
events are handled in between (`Server.step`).
-/

namespace DrawIt

/-! ## JavaScript containers -/

/-- A JavaScript `Map` (and the string-keyed part of a plain object): entries in
insertion order, keys distinct. -/
abbrev JSMap (κ ν : Type) := List (κ × ν)

/-- The JavaScript `m.get(k)`, with `none` for `undefined`. -/
def mapGet {κ ν : Type} [DecidableEq κ] : JSMap κ ν → κ → Option ν
  | [], _ => none
  | (k', v) :: rest, k => if k' = k then some v else mapGet rest k

/-- The JavaScript `m.set(k, v)`: an existing key keeps its position, a new key
goes last. -/
def mapSet {κ ν : Type} [DecidableEq κ] : JSMap κ ν → κ → ν → JSMap κ ν
  | [], k, v => [(k, v)]
  | (k', v') :: rest, k, v =>
    if k' = k then (k, v) :: rest else (k', v') :: mapSet rest k v

/-- The JavaScript `m.delete(k)`. -/
def mapDelete {κ ν : Type} [DecidableEq κ] : JSMap κ ν → κ → JSMap κ ν
  | [], _ => []
  | (k', v') :: rest, k =>
    if k' = k then mapDelete rest k else (k', v') :: mapDelete rest k

/-- The JavaScript `Array.from(m.values())`. -/
def mapValues {κ ν : Type} (m : JSMap κ ν) : List ν := m.map Prod.snd

/-- The keys of a map, in insertion order. -/
def mapKeys {κ ν : Type} (m : JSMap κ ν) : List κ := m.map Prod.fst

/-- The JavaScript `m.size`. -/
def mapSize {κ ν : Type} (m : JSMap κ ν) : Nat := m.length

/-- The JavaScript `xs.slice(-k)` for `k > 0`: the last `k` elements, or all of
`xs` when it has fewer. -/
def sliceLast {α : Type} (k : Nat) (xs : List α) : List α :=
  xs.drop (xs.length - k)

/-! ## Whiteboard rooms (`class ActiveRoom`) -/

/-- One entry of a room's draw history: the client's payload as sent, stamped
with the sender and the time by the `draw` handler. -/
structure DrawEvent where
  data : String
  odraw : String
  timestamp : Nat
  deriving DecidableEq, Repr

/-- A value of `ActiveRoom.participants`. -/
structure Participant where
  id : String
  odraw : Option String
  name : String
  joinedAt : Nat
  isHost : Bool
  deriving DecidableEq, Repr

/-- The fields of `class ActiveRoom`.  `hostId` is `null` for a room restored
from the database by `join-room`; `dbRoom` records whether a database handle
is attached. -/
structure ActiveRoom where
  code : String
  hostId : Option String
  hostName : String
  participants : JSMap String Participant
  drawHistory : List DrawEvent
  createdAt : Nat
  dbRoom : Bool
  deriving DecidableEq, Repr

namespace ActiveRoom

/-- The constructor `new ActiveRoom(code, hostId, hostName, dbRoom)`. -/
def new (code : String) (hostId : Option String) (hostName : String)
    (dbRoom : Bool) (now : Nat) : ActiveRoom :=
  { code := code, hostId := hostId, hostName := hostName, participants := [],
    drawHistory := [], createdAt := now, dbRoom := dbRoom }

/-- The method `addParticipant(socketId, odraw, name)`. -/
def addParticipant (r : ActiveRoom) (socketId : String) (odraw : Option String)
    (name : String) (now : Nat) : ActiveRoom :=
  let entry : Participant :=
    { id := socketId, odraw := odraw, name := name, joinedAt := now,
      isHost := decide (some socketId = r.hostId) }
  { r with participants := mapSet r.participants socketId entry }

/-- The method `removeParticipant(socketId)`. -/
def removeParticipant (r : ActiveRoom) (socketId : String) : ActiveRoom :=
  { r with participants := mapDelete r.participants socketId }

/-- The method `getParticipantsList()`. -/
def getParticipantsList (r : ActiveRoom) : List Participant :=
  mapValues r.participants

/-- The method `addDrawEvent(event)`: push, then keep the last 5000 once the
length exceeds 10000. -/
def addDrawEvent (r : ActiveRoom) (event : DrawEvent) : ActiveRoom :=
  let pushed := r.drawHistory ++ [event]
  if pushed.length > 10000 then { r with drawHistory := sliceLast 5000 pushed }
  else { r with drawHistory := pushed }

/-- The method `clearHistory()`. -/
def clearHistory (r : ActiveRoom) : ActiveRoom :=
  { r with drawHistory := [] }

end ActiveRoom

/-- The room reached from `r` by one `addDrawEvent` per event of `es`, in order. -/
def addDrawEvents (r : ActiveRoom) (es : List DrawEvent) : ActiveRoom :=
  es.foldl ActiveRoom.addDrawEvent r

/-! ## JavaScript numbers and strings -/

/-- A finite non-negative binary64 value `mant * 2 ^ exp`. -/
structure Dyadic where
  mant : Nat
  exp : Int
  deriving DecidableEq, Repr

/-- Helper of `bitLength`, by structural recursion on a bound for the number of
bits. -/
def bitLengthAux : Nat → Nat → Nat
  | 0, _ => 0
  | fuel + 1, n => if n = 0 then 0 else bitLengthAux fuel (n / 2) + 1

/-- The number of binary digits of `n` (`0` for `0`). -/
def bitLength (n : Nat) : Nat := bitLengthAux n n

/-- The integer nearest to `p / q`, a tie going to the even one. -/
def roundHalfEven (p q : Nat) : Nat :=
  let m := p / q
  let r := p % q
  if 2 * r < q then m
  else if q < 2 * r then m + 1
  else if m % 2 = 0 then m else m + 1

/-- The binary64 value nearest to the rational `p / q` (round to nearest, ties to
even, 53 significant bits), as a JavaScript `/` or `*` delivers it.  The
exponent range of binary64 is not modelled: no operation of the server on
integers below `2 ^ 53` leaves it. -/
def round53 (p q : Nat) : Dyadic :=
  if p = 0 ∨ q = 0 then ⟨0, 0⟩
  else
    let s : Int := 53 - ((bitLength p : Int) - (bitLength q : Int))
    let n := p * 2 ^ s.toNat
    let d := q * 2 ^ (-s).toNat
    if n / d < 2 ^ 53 then ⟨roundHalfEven n d, -s⟩
    else ⟨roundHalfEven n (2 * d), 1 - s⟩

namespace Dyadic

/-- The JavaScript product `x * c` of a binary64 value and an integer `c`. -/
def mulNat (x : Dyadic) (c : Nat) : Dyadic :=
  round53 (x.mant * c * 2 ^ x.exp.toNat) (2 ^ (-x.exp).toNat)

/-- The JavaScript `Math.floor(x)` for `x >= 0`. -/
def floor (x : Dyadic) : Nat :=
  x.mant * 2 ^ x.exp.toNat / 2 ^ (-x.exp).toNat

/-- The least integer not below `x`; `Math.floor(-x)` is its negation. -/
def ceil (x : Dyadic) : Nat :=
  (x.mant * 2 ^ x.exp.toNat + (2 ^ (-x.exp).toNat - 1)) / 2 ^ (-x.exp).toNat

/-- The rational number a binary64 value stands for. -/
def toRat (x : Dyadic) : ℚ := (x.mant : ℚ) * (2 : ℚ) ^ x.exp

end Dyadic

/-- The JavaScript `Math.floor((timeLeft / roundTime) * 50)` for integers
`timeLeft` and `roundTime > 0`: the quotient is rounded to binary64, then the
product is, then the floor is taken.  For `roundTime = 0` JavaScript yields a
non-finite number; the constructor never stores `0` there (`|| 60`) and the
model gives `0`. -/
def timeBonusOf (timeLeft : Int) (roundTime : Nat) : Int :=
  if 0 ≤ timeLeft then (((round53 timeLeft.toNat roundTime).mulNat 50).floor : Int)
  else -(((round53 (-timeLeft).toNat roundTime).mulNat 50).ceil : Int)

/-- The simple lower-case mappings of Unicode 14.0 (`UnicodeData.txt`), in runs
`(lo, hi, stride, target)`: the code points `lo, lo + stride, .., hi` map to
`target, target + stride, ..`.  The source takes the table from the JavaScript
engine. -/
def lowerRuns : List (Nat × Nat × Nat × Nat) :=
  [(0x41, 0x5A, 1, 0x61), (0xC0, 0xD6, 1, 0xE0), (0xD8, 0xDE, 1, 0xF8), (0x100, 0x12E, 2, 0x101),
    (0x132, 0x136, 2, 0x133), (0x139, 0x147, 2, 0x13A), (0x14A, 0x176, 2, 0x14B),
    (0x178, 0x178, 1, 0xFF), (0x179, 0x17D, 2, 0x17A), (0x181, 0x181, 1, 0x253),
    (0x182, 0x184, 2, 0x183), (0x186, 0x186, 1, 0x254), (0x187, 0x187, 1, 0x188),
    (0x189, 0x18A, 1, 0x256), (0x18B, 0x18B, 1, 0x18C), (0x18E, 0x18E, 1, 0x1DD),
    (0x18F, 0x18F, 1, 0x259), (0x190, 0x190, 1, 0x25B), (0x191, 0x191, 1, 0x192),
    (0x193, 0x193, 1, 0x260), (0x194, 0x194, 1, 0x263), (0x196, 0x196, 1, 0x269),
    (0x197, 0x197, 1, 0x268), (0x198, 0x198, 1, 0x199), (0x19C, 0x19C, 1, 0x26F),
    (0x19D, 0x19D, 1, 0x272), (0x19F, 0x19F, 1, 0x275), (0x1A0, 0x1A4, 2, 0x1A1),
    (0x1A6, 0x1A6, 1, 0x280), (0x1A7, 0x1A7, 1, 0x1A8), (0x1A9, 0x1A9, 1, 0x283),
    (0x1AC, 0x1AC, 1, 0x1AD), (0x1AE, 0x1AE, 1, 0x288), (0x1AF, 0x1AF, 1, 0x1B0),
    (0x1B1, 0x1B2, 1, 0x28A), (0x1B3, 0x1B5, 2, 0x1B4), (0x1B7, 0x1B7, 1, 0x292),
    (0x1B8, 0x1B8, 1, 0x1B9), (0x1BC, 0x1BC, 1, 0x1BD), (0x1C4, 0x1C4, 1, 0x1C6),
    (0x1C5, 0x1C5, 1, 0x1C6), (0x1C7, 0x1C7, 1, 0x1C9), (0x1C8, 0x1C8, 1, 0x1C9),
    (0x1CA, 0x1CA, 1, 0x1CC), (0x1CB, 0x1DB, 2, 0x1CC), (0x1DE, 0x1EE, 2, 0x1DF),
    (0x1F1, 0x1F1, 1, 0x1F3), (0x1F2, 0x1F4, 2, 0x1F3), (0x1F6, 0x1F6, 1, 0x195),
    (0x1F7, 0x1F7, 1, 0x1BF), (0x1F8, 0x21E, 2, 0x1F9), (0x220, 0x220, 1, 0x19E),
    (0x222, 0x232, 2, 0x223), (0x23A, 0x23A, 1, 0x2C65), (0x23B, 0x23B, 1, 0x23C),
    (0x23D, 0x23D, 1, 0x19A), (0x23E, 0x23E, 1, 0x2C66), (0x241, 0x241, 1, 0x242),
    (0x243, 0x243, 1, 0x180), (0x244, 0x244, 1, 0x289), (0x245, 0x245, 1, 0x28C),
    (0x246, 0x24E, 2, 0x247), (0x370, 0x372, 2, 0x371), (0x376, 0x376, 1, 0x377),
    (0x37F, 0x37F, 1, 0x3F3), (0x386, 0x386, 1, 0x3AC), (0x388, 0x38A, 1, 0x3AD),
    (0x38C, 0x38C, 1, 0x3CC), (0x38E, 0x38F, 1, 0x3CD), (0x391, 0x3A1, 1, 0x3B1),
    (0x3A3, 0x3AB, 1, 0x3C3), (0x3CF, 0x3CF, 1, 0x3D7), (0x3D8, 0x3EE, 2, 0x3D9),
    (0x3F4, 0x3F4, 1, 0x3B8), (0x3F7, 0x3F7, 1, 0x3F8), (0x3F9, 0x3F9, 1, 0x3F2),
    (0x3FA, 0x3FA, 1, 0x3FB), (0x3FD, 0x3FF, 1, 0x37B), (0x400, 0x40F, 1, 0x450),
    (0x410, 0x42F, 1, 0x430), (0x460, 0x480, 2, 0x461), (0x48A, 0x4BE, 2, 0x48B),
    (0x4C0, 0x4C0, 1, 0x4CF), (0x4C1, 0x4CD, 2, 0x4C2), (0x4D0, 0x52E, 2, 0x4D1),
    (0x531, 0x556, 1, 0x561), (0x10A0, 0x10C5, 1, 0x2D00), (0x10C7, 0x10C7, 1, 0x2D27),
    (0x10CD, 0x10CD, 1, 0x2D2D), (0x13A0, 0x13EF, 1, 0xAB70), (0x13F0, 0x13F5, 1, 0x13F8),
    (0x1C90, 0x1CBA, 1, 0x10D0), (0x1CBD, 0x1CBF, 1, 0x10FD), (0x1E00, 0x1E94, 2, 0x1E01),
    (0x1E9E, 0x1E9E, 1, 0xDF), (0x1EA0, 0x1EFE, 2, 0x1EA1), (0x1F08, 0x1F0F, 1, 0x1F00),
    (0x1F18, 0x1F1D, 1, 0x1F10), (0x1F28, 0x1F2F, 1, 0x1F20), (0x1F38, 0x1F3F, 1, 0x1F30),
    (0x1F48, 0x1F4D, 1, 0x1F40), (0x1F59, 0x1F5F, 2, 0x1F51), (0x1F68, 0x1F6F, 1, 0x1F60),
    (0x1F88, 0x1F8F, 1, 0x1F80), (0x1F98, 0x1F9F, 1, 0x1F90), (0x1FA8, 0x1FAF, 1, 0x1FA0),
    (0x1FB8, 0x1FB9, 1, 0x1FB0), (0x1FBA, 0x1FBB, 1, 0x1F70), (0x1FBC, 0x1FBC, 1, 0x1FB3),
    (0x1FC8, 0x1FCB, 1, 0x1F72), (0x1FCC, 0x1FCC, 1, 0x1FC3), (0x1FD8, 0x1FD9, 1, 0x1FD0),
    (0x1FDA, 0x1FDB, 1, 0x1F76), (0x1FE8, 0x1FE9, 1, 0x1FE0), (0x1FEA, 0x1FEB, 1, 0x1F7A),
    (0x1FEC, 0x1FEC, 1, 0x1FE5), (0x1FF8, 0x1FF9, 1, 0x1F78), (0x1FFA, 0x1FFB, 1, 0x1F7C),
    (0x1FFC, 0x1FFC, 1, 0x1FF3), (0x2126, 0x2126, 1, 0x3C9), (0x212A, 0x212A, 1, 0x6B),
    (0x212B, 0x212B, 1, 0xE5), (0x2132, 0x2132, 1, 0x214E), (0x2160, 0x216F, 1, 0x2170),
    (0x2183, 0x2183, 1, 0x2184), (0x24B6, 0x24CF, 1, 0x24D0), (0x2C00, 0x2C2F, 1, 0x2C30),
    (0x2C60, 0x2C60, 1, 0x2C61), (0x2C62, 0x2C62, 1, 0x26B), (0x2C63, 0x2C63, 1, 0x1D7D),
    (0x2C64, 0x2C64, 1, 0x27D), (0x2C67, 0x2C6B, 2, 0x2C68), (0x2C6D, 0x2C6D, 1, 0x251),
    (0x2C6E, 0x2C6E, 1, 0x271), (0x2C6F, 0x2C6F, 1, 0x250), (0x2C70, 0x2C70, 1, 0x252),
    (0x2C72, 0x2C72, 1, 0x2C73), (0x2C75, 0x2C75, 1, 0x2C76), (0x2C7E, 0x2C7F, 1, 0x23F),
    (0x2C80, 0x2CE2, 2, 0x2C81), (0x2CEB, 0x2CED, 2, 0x2CEC), (0x2CF2, 0x2CF2, 1, 0x2CF3),
    (0xA640, 0xA66C, 2, 0xA641), (0xA680, 0xA69A, 2, 0xA681), (0xA722, 0xA72E, 2, 0xA723),
    (0xA732, 0xA76E, 2, 0xA733), (0xA779, 0xA77B, 2, 0xA77A), (0xA77D, 0xA77D, 1, 0x1D79),
    (0xA77E, 0xA786, 2, 0xA77F), (0xA78B, 0xA78B, 1, 0xA78C), (0xA78D, 0xA78D, 1, 0x265),
    (0xA790, 0xA792, 2, 0xA791), (0xA796, 0xA7A8, 2, 0xA797), (0xA7AA, 0xA7AA, 1, 0x266),
    (0xA7AB, 0xA7AB, 1, 0x25C), (0xA7AC, 0xA7AC, 1, 0x261), (0xA7AD, 0xA7AD, 1, 0x26C),
    (0xA7AE, 0xA7AE, 1, 0x26A), (0xA7B0, 0xA7B0, 1, 0x29E), (0xA7B1, 0xA7B1, 1, 0x287),
    (0xA7B2, 0xA7B2, 1, 0x29D), (0xA7B3, 0xA7B3, 1, 0xAB53), (0xA7B4, 0xA7C2, 2, 0xA7B5),
    (0xA7C4, 0xA7C4, 1, 0xA794), (0xA7C5, 0xA7C5, 1, 0x282), (0xA7C6, 0xA7C6, 1, 0x1D8E),
    (0xA7C7, 0xA7C9, 2, 0xA7C8), (0xA7D0, 0xA7D0, 1, 0xA7D1), (0xA7D6, 0xA7D8, 2, 0xA7D7),
    (0xA7F5, 0xA7F5, 1, 0xA7F6), (0xFF21, 0xFF3A, 1, 0xFF41), (0x10400, 0x10427, 1, 0x10428),
    (0x104B0, 0x104D3, 1, 0x104D8), (0x10570, 0x10594, 2, 0x10597), (0x10571, 0x1057A, 1, 0x10598),
    (0x1057D, 0x1058A, 1, 0x105A4), (0x1058D, 0x10592, 1, 0x105B4), (0x10595, 0x10595, 1, 0x105BC),
    (0x10C80, 0x10CB2, 1, 0x10CC0), (0x118A0, 0x118BF, 1, 0x118C0), (0x16E40, 0x16E5F, 1, 0x16E60),
    (0x1E900, 0x1E921, 1, 0x1E922)]

/-- The simple upper-case mappings of Unicode 14.0, in the runs of `lowerRuns`. -/
def upperRuns : List (Nat × Nat × Nat × Nat) :=
  [(0x61, 0x7A, 1, 0x41), (0xB5, 0xB5, 1, 0x39C), (0xE0, 0xF6, 1, 0xC0), (0xF8, 0xFE, 1, 0xD8),
    (0xFF, 0xFF, 1, 0x178), (0x101, 0x12F, 2, 0x100), (0x131, 0x131, 1, 0x49),
    (0x133, 0x137, 2, 0x132), (0x13A, 0x148, 2, 0x139), (0x14B, 0x177, 2, 0x14A),
    (0x17A, 0x17E, 2, 0x179), (0x17F, 0x17F, 1, 0x53), (0x180, 0x180, 1, 0x243),
    (0x183, 0x185, 2, 0x182), (0x188, 0x188, 1, 0x187), (0x18C, 0x18C, 1, 0x18B),
    (0x192, 0x192, 1, 0x191), (0x195, 0x195, 1, 0x1F6), (0x199, 0x199, 1, 0x198),
    (0x19A, 0x19A, 1, 0x23D), (0x19E, 0x19E, 1, 0x220), (0x1A1, 0x1A5, 2, 0x1A0),
    (0x1A8, 0x1A8, 1, 0x1A7), (0x1AD, 0x1AD, 1, 0x1AC), (0x1B0, 0x1B0, 1, 0x1AF),
    (0x1B4, 0x1B6, 2, 0x1B3), (0x1B9, 0x1B9, 1, 0x1B8), (0x1BD, 0x1BD, 1, 0x1BC),
    (0x1BF, 0x1BF, 1, 0x1F7), (0x1C5, 0x1C5, 1, 0x1C4), (0x1C6, 0x1C6, 1, 0x1C4),
    (0x1C8, 0x1C8, 1, 0x1C7), (0x1C9, 0x1C9, 1, 0x1C7), (0x1CB, 0x1CB, 1, 0x1CA),
    (0x1CC, 0x1CC, 1, 0x1CA), (0x1CE, 0x1DC, 2, 0x1CD), (0x1DD, 0x1DD, 1, 0x18E),
    (0x1DF, 0x1EF, 2, 0x1DE), (0x1F2, 0x1F2, 1, 0x1F1), (0x1F3, 0x1F3, 1, 0x1F1),
    (0x1F5, 0x1F5, 1, 0x1F4), (0x1F9, 0x21F, 2, 0x1F8), (0x223, 0x233, 2, 0x222),
    (0x23C, 0x23C, 1, 0x23B), (0x23F, 0x240, 1, 0x2C7E), (0x242, 0x242, 1, 0x241),
    (0x247, 0x24F, 2, 0x246), (0x250, 0x250, 1, 0x2C6F), (0x251, 0x251, 1, 0x2C6D),
    (0x252, 0x252, 1, 0x2C70), (0x253, 0x253, 1, 0x181), (0x254, 0x254, 1, 0x186),
    (0x256, 0x257, 1, 0x189), (0x259, 0x259, 1, 0x18F), (0x25B, 0x25B, 1, 0x190),
    (0x25C, 0x25C, 1, 0xA7AB), (0x260, 0x260, 1, 0x193), (0x261, 0x261, 1, 0xA7AC),
    (0x263, 0x263, 1, 0x194), (0x265, 0x265, 1, 0xA78D), (0x266, 0x266, 1, 0xA7AA),
    (0x268, 0x268, 1, 0x197), (0x269, 0x269, 1, 0x196), (0x26A, 0x26A, 1, 0xA7AE),
    (0x26B, 0x26B, 1, 0x2C62), (0x26C, 0x26C, 1, 0xA7AD), (0x26F, 0x26F, 1, 0x19C),
    (0x271, 0x271, 1, 0x2C6E), (0x272, 0x272, 1, 0x19D), (0x275, 0x275, 1, 0x19F),
    (0x27D, 0x27D, 1, 0x2C64), (0x280, 0x280, 1, 0x1A6), (0x282, 0x282, 1, 0xA7C5),
    (0x283, 0x283, 1, 0x1A9), (0x287, 0x287, 1, 0xA7B1), (0x288, 0x288, 1, 0x1AE),
    (0x289, 0x289, 1, 0x244), (0x28A, 0x28B, 1, 0x1B1), (0x28C, 0x28C, 1, 0x245),
    (0x292, 0x292, 1, 0x1B7), (0x29D, 0x29D, 1, 0xA7B2), (0x29E, 0x29E, 1, 0xA7B0),
    (0x345, 0x345, 1, 0x399), (0x371, 0x373, 2, 0x370), (0x377, 0x377, 1, 0x376),
    (0x37B, 0x37D, 1, 0x3FD), (0x3AC, 0x3AC, 1, 0x386), (0x3AD, 0x3AF, 1, 0x388),
    (0x3B1, 0x3C1, 1, 0x391), (0x3C2, 0x3C2, 1, 0x3A3), (0x3C3, 0x3CB, 1, 0x3A3),
    (0x3CC, 0x3CC, 1, 0x38C), (0x3CD, 0x3CE, 1, 0x38E), (0x3D0, 0x3D0, 1, 0x392),
    (0x3D1, 0x3D1, 1, 0x398), (0x3D5, 0x3D5, 1, 0x3A6), (0x3D6, 0x3D6, 1, 0x3A0),
    (0x3D7, 0x3D7, 1, 0x3CF), (0x3D9, 0x3EF, 2, 0x3D8), (0x3F0, 0x3F0, 1, 0x39A),
    (0x3F1, 0x3F1, 1, 0x3A1), (0x3F2, 0x3F2, 1, 0x3F9), (0x3F3, 0x3F3, 1, 0x37F),
    (0x3F5, 0x3F5, 1, 0x395), (0x3F8, 0x3F8, 1, 0x3F7), (0x3FB, 0x3FB, 1, 0x3FA),
    (0x430, 0x44F, 1, 0x410), (0x450, 0x45F, 1, 0x400), (0x461, 0x481, 2, 0x460),
    (0x48B, 0x4BF, 2, 0x48A), (0x4C2, 0x4CE, 2, 0x4C1), (0x4CF, 0x4CF, 1, 0x4C0),
    (0x4D1, 0x52F, 2, 0x4D0), (0x561, 0x586, 1, 0x531), (0x10D0, 0x10FA, 1, 0x1C90),
    (0x10FD, 0x10FF, 1, 0x1CBD), (0x13F8, 0x13FD, 1, 0x13F0), (0x1C80, 0x1C80, 1, 0x412),
    (0x1C81, 0x1C81, 1, 0x414), (0x1C82, 0x1C82, 1, 0x41E), (0x1C83, 0x1C84, 1, 0x421),
    (0x1C85, 0x1C85, 1, 0x422), (0x1C86, 0x1C86, 1, 0x42A), (0x1C87, 0x1C87, 1, 0x462),
    (0x1C88, 0x1C88, 1, 0xA64A), (0x1D79, 0x1D79, 1, 0xA77D), (0x1D7D, 0x1D7D, 1, 0x2C63),
    (0x1D8E, 0x1D8E, 1, 0xA7C6), (0x1E01, 0x1E95, 2, 0x1E00), (0x1E9B, 0x1E9B, 1, 0x1E60),
    (0x1EA1, 0x1EFF, 2, 0x1EA0), (0x1F00, 0x1F07, 1, 0x1F08), (0x1F10, 0x1F15, 1, 0x1F18),
    (0x1F20, 0x1F27, 1, 0x1F28), (0x1F30, 0x1F37, 1, 0x1F38), (0x1F40, 0x1F45, 1, 0x1F48),
    (0x1F51, 0x1F57, 2, 0x1F59), (0x1F60, 0x1F67, 1, 0x1F68), (0x1F70, 0x1F71, 1, 0x1FBA),
    (0x1F72, 0x1F75, 1, 0x1FC8), (0x1F76, 0x1F77, 1, 0x1FDA), (0x1F78, 0x1F79, 1, 0x1FF8),
    (0x1F7A, 0x1F7B, 1, 0x1FEA), (0x1F7C, 0x1F7D, 1, 0x1FFA), (0x1FB0, 0x1FB1, 1, 0x1FB8),
    (0x1FBE, 0x1FBE, 1, 0x399), (0x1FD0, 0x1FD1, 1, 0x1FD8), (0x1FE0, 0x1FE1, 1, 0x1FE8),
    (0x1FE5, 0x1FE5, 1, 0x1FEC), (0x214E, 0x214E, 1, 0x2132), (0x2170, 0x217F, 1, 0x2160),
    (0x2184, 0x2184, 1, 0x2183), (0x24D0, 0x24E9, 1, 0x24B6), (0x2C30, 0x2C5F, 1, 0x2C00),
    (0x2C61, 0x2C61, 1, 0x2C60), (0x2C65, 0x2C65, 1, 0x23A), (0x2C66, 0x2C66, 1, 0x23E),
    (0x2C68, 0x2C6C, 2, 0x2C67), (0x2C73, 0x2C73, 1, 0x2C72), (0x2C76, 0x2C76, 1, 0x2C75),
    (0x2C81, 0x2CE3, 2, 0x2C80), (0x2CEC, 0x2CEE, 2, 0x2CEB), (0x2CF3, 0x2CF3, 1, 0x2CF2),
    (0x2D00, 0x2D25, 1, 0x10A0), (0x2D27, 0x2D27, 1, 0x10C7), (0x2D2D, 0x2D2D, 1, 0x10CD),
    (0xA641, 0xA66D, 2, 0xA640), (0xA681, 0xA69B, 2, 0xA680), (0xA723, 0xA72F, 2, 0xA722),
    (0xA733, 0xA76F, 2, 0xA732), (0xA77A, 0xA77C, 2, 0xA779), (0xA77F, 0xA787, 2, 0xA77E),
    (0xA78C, 0xA78C, 1, 0xA78B), (0xA791, 0xA793, 2, 0xA790), (0xA794, 0xA794, 1, 0xA7C4),
    (0xA797, 0xA7A9, 2, 0xA796), (0xA7B5, 0xA7C3, 2, 0xA7B4), (0xA7C8, 0xA7CA, 2, 0xA7C7),
    (0xA7D1, 0xA7D1, 1, 0xA7D0), (0xA7D7, 0xA7D9, 2, 0xA7D6), (0xA7F6, 0xA7F6, 1, 0xA7F5),
    (0xAB53, 0xAB53, 1, 0xA7B3), (0xAB70, 0xABBF, 1, 0x13A0), (0xFF41, 0xFF5A, 1, 0xFF21),
    (0x10428, 0x1044F, 1, 0x10400), (0x104D8, 0x104FB, 1, 0x104B0), (0x10597, 0x105BB, 2, 0x10570),
    (0x10598, 0x105A1, 1, 0x10571), (0x105A4, 0x105B1, 1, 0x1057D), (0x105B4, 0x105B9, 1, 0x1058D),
    (0x105BC, 0x105BC, 1, 0x10595), (0x10CC0, 0x10CF2, 1, 0x10C80), (0x118C0, 0x118DF, 1, 0x118A0),
    (0x16E60, 0x16E7F, 1, 0x16E40), (0x1E922, 0x1E943, 1, 0x1E900)]

/-- The unconditional upper-case mappings to more than one code point
(`SpecialCasing.txt` of Unicode 14.0): sharp s to `SS`, the ligatures, the Greek
letters with iota subscript. -/
def upperSpecial : List (Nat × List Nat) :=
  [(0xDF, [0x53, 0x53]), (0x149, [0x2BC, 0x4E]), (0x1F0, [0x4A, 0x30C]),
    (0x390, [0x399, 0x308, 0x301]), (0x3B0, [0x3A5, 0x308, 0x301]), (0x587, [0x535, 0x552]),
    (0x1E96, [0x48, 0x331]), (0x1E97, [0x54, 0x308]), (0x1E98, [0x57, 0x30A]),
    (0x1E99, [0x59, 0x30A]), (0x1E9A, [0x41, 0x2BE]), (0x1F50, [0x3A5, 0x313]),
    (0x1F52, [0x3A5, 0x313, 0x300]), (0x1F54, [0x3A5, 0x313, 0x301]),
    (0x1F56, [0x3A5, 0x313, 0x342]), (0x1F80, [0x1F08, 0x399]), (0x1F81, [0x1F09, 0x399]),
    (0x1F82, [0x1F0A, 0x399]), (0x1F83, [0x1F0B, 0x399]), (0x1F84, [0x1F0C, 0x399]),
    (0x1F85, [0x1F0D, 0x399]), (0x1F86, [0x1F0E, 0x399]), (0x1F87, [0x1F0F, 0x399]),
    (0x1F88, [0x1F08, 0x399]), (0x1F89, [0x1F09, 0x399]), (0x1F8A, [0x1F0A, 0x399]),
    (0x1F8B, [0x1F0B, 0x399]), (0x1F8C, [0x1F0C, 0x399]), (0x1F8D, [0x1F0D, 0x399]),
    (0x1F8E, [0x1F0E, 0x399]), (0x1F8F, [0x1F0F, 0x399]), (0x1F90, [0x1F28, 0x399]),
    (0x1F91, [0x1F29, 0x399]), (0x1F92, [0x1F2A, 0x399]), (0x1F93, [0x1F2B, 0x399]),
    (0x1F94, [0x1F2C, 0x399]), (0x1F95, [0x1F2D, 0x399]), (0x1F96, [0x1F2E, 0x399]),
    (0x1F97, [0x1F2F, 0x399]), (0x1F98, [0x1F28, 0x399]), (0x1F99, [0x1F29, 0x399]),
    (0x1F9A, [0x1F2A, 0x399]), (0x1F9B, [0x1F2B, 0x399]), (0x1F9C, [0x1F2C, 0x399]),
    (0x1F9D, [0x1F2D, 0x399]), (0x1F9E, [0x1F2E, 0x399]), (0x1F9F, [0x1F2F, 0x399]),
    (0x1FA0, [0x1F68, 0x399]), (0x1FA1, [0x1F69, 0x399]), (0x1FA2, [0x1F6A, 0x399]),
    (0x1FA3, [0x1F6B, 0x399]), (0x1FA4, [0x1F6C, 0x399]), (0x1FA5, [0x1F6D, 0x399]),
    (0x1FA6, [0x1F6E, 0x399]), (0x1FA7, [0x1F6F, 0x399]), (0x1FA8, [0x1F68, 0x399]),
    (0x1FA9, [0x1F69, 0x399]), (0x1FAA, [0x1F6A, 0x399]), (0x1FAB, [0x1F6B, 0x399]),
    (0x1FAC, [0x1F6C, 0x399]), (0x1FAD, [0x1F6D, 0x399]), (0x1FAE, [0x1F6E, 0x399]),
    (0x1FAF, [0x1F6F, 0x399]), (0x1FB2, [0x1FBA, 0x399]), (0x1FB3, [0x391, 0x399]),
    (0x1FB4, [0x386, 0x399]), (0x1FB6, [0x391, 0x342]), (0x1FB7, [0x391, 0x342, 0x399]),
    (0x1FBC, [0x391, 0x399]), (0x1FC2, [0x1FCA, 0x399]), (0x1FC3, [0x397, 0x399]),
    (0x1FC4, [0x389, 0x399]), (0x1FC6, [0x397, 0x342]), (0x1FC7, [0x397, 0x342, 0x399]),
    (0x1FCC, [0x397, 0x399]), (0x1FD2, [0x399, 0x308, 0x300]), (0x1FD3, [0x399, 0x308, 0x301]),
    (0x1FD6, [0x399, 0x342]), (0x1FD7, [0x399, 0x308, 0x342]), (0x1FE2, [0x3A5, 0x308, 0x300]),
    (0x1FE3, [0x3A5, 0x308, 0x301]), (0x1FE4, [0x3A1, 0x313]), (0x1FE6, [0x3A5, 0x342]),
    (0x1FE7, [0x3A5, 0x308, 0x342]), (0x1FF2, [0x1FFA, 0x399]), (0x1FF3, [0x3A9, 0x399]),
    (0x1FF4, [0x38F, 0x399]), (0x1FF6, [0x3A9, 0x342]), (0x1FF7, [0x3A9, 0x342, 0x399]),
    (0x1FFC, [0x3A9, 0x399]), (0xFB00, [0x46, 0x46]), (0xFB01, [0x46, 0x49]),
    (0xFB02, [0x46, 0x4C]), (0xFB03, [0x46, 0x46, 0x49]), (0xFB04, [0x46, 0x46, 0x4C]),
    (0xFB05, [0x53, 0x54]), (0xFB06, [0x53, 0x54]), (0xFB13, [0x544, 0x546]),
    (0xFB14, [0x544, 0x535]), (0xFB15, [0x544, 0x53B]), (0xFB16, [0x54E, 0x546]),
    (0xFB17, [0x544, 0x53D])]

/-- The code points with the property `Cased` (`DerivedCoreProperties.txt` of
Unicode 14.0), in closed ranges. -/
def casedRanges : List (Nat × Nat) :=
  [(0x41, 0x5A), (0x61, 0x7A), (0xAA, 0xAA), (0xB5, 0xB5), (0xBA, 0xBA), (0xC0, 0xD6), (0xD8, 0xF6),
    (0xF8, 0x1BA), (0x1BC, 0x1BF), (0x1C4, 0x293), (0x295, 0x2B8), (0x2C0, 0x2C1), (0x2E0, 0x2E4),
    (0x345, 0x345), (0x370, 0x373), (0x376, 0x377), (0x37A, 0x37D), (0x37F, 0x37F), (0x386, 0x386),
    (0x388, 0x38A), (0x38C, 0x38C), (0x38E, 0x3A1), (0x3A3, 0x3F5), (0x3F7, 0x481), (0x48A, 0x52F),
    (0x531, 0x556), (0x560, 0x588), (0x10A0, 0x10C5), (0x10C7, 0x10C7), (0x10CD, 0x10CD),
    (0x10D0, 0x10FA), (0x10FD, 0x10FF), (0x13A0, 0x13F5), (0x13F8, 0x13FD), (0x1C80, 0x1C88),
    (0x1C90, 0x1CBA), (0x1CBD, 0x1CBF), (0x1D00, 0x1DBF), (0x1E00, 0x1F15), (0x1F18, 0x1F1D),
    (0x1F20, 0x1F45), (0x1F48, 0x1F4D), (0x1F50, 0x1F57), (0x1F59, 0x1F59), (0x1F5B, 0x1F5B),
    (0x1F5D, 0x1F5D), (0x1F5F, 0x1F7D), (0x1F80, 0x1FB4), (0x1FB6, 0x1FBC), (0x1FBE, 0x1FBE),
    (0x1FC2, 0x1FC4), (0x1FC6, 0x1FCC), (0x1FD0, 0x1FD3), (0x1FD6, 0x1FDB), (0x1FE0, 0x1FEC),
    (0x1FF2, 0x1FF4), (0x1FF6, 0x1FFC), (0x2071, 0x2071), (0x207F, 0x207F), (0x2090, 0x209C),
    (0x2102, 0x2102), (0x2107, 0x2107), (0x210A, 0x2113), (0x2115, 0x2115), (0x2119, 0x211D),
    (0x2124, 0x2124), (0x2126, 0x2126), (0x2128, 0x2128), (0x212A, 0x212D), (0x212F, 0x2134),
    (0x2139, 0x2139), (0x213C, 0x213F), (0x2145, 0x2149), (0x214E, 0x214E), (0x2160, 0x217F),
    (0x2183, 0x2184), (0x24B6, 0x24E9), (0x2C00, 0x2CE4), (0x2CEB, 0x2CEE), (0x2CF2, 0x2CF3),
    (0x2D00, 0x2D25), (0x2D27, 0x2D27), (0x2D2D, 0x2D2D), (0xA640, 0xA66D), (0xA680, 0xA69D),
    (0xA722, 0xA787), (0xA78B, 0xA78E), (0xA790, 0xA7CA), (0xA7D0, 0xA7D1), (0xA7D3, 0xA7D3),
    (0xA7D5, 0xA7D9), (0xA7F5, 0xA7F6), (0xA7F8, 0xA7FA), (0xAB30, 0xAB5A), (0xAB5C, 0xAB68),
    (0xAB70, 0xABBF), (0xFB00, 0xFB06), (0xFB13, 0xFB17), (0xFF21, 0xFF3A), (0xFF41, 0xFF5A),
    (0x10400, 0x1044F), (0x104B0, 0x104D3), (0x104D8, 0x104FB), (0x10570, 0x1057A),
    (0x1057C, 0x1058A), (0x1058C, 0x10592), (0x10594, 0x10595), (0x10597, 0x105A1),
    (0x105A3, 0x105B1), (0x105B3, 0x105B9), (0x105BB, 0x105BC), (0x10780, 0x10780),
    (0x10783, 0x10785), (0x10787, 0x107B0), (0x107B2, 0x107BA), (0x10C80, 0x10CB2),
    (0x10CC0, 0x10CF2), (0x118A0, 0x118DF), (0x16E40, 0x16E7F), (0x1D400, 0x1D454),
    (0x1D456, 0x1D49C), (0x1D49E, 0x1D49F), (0x1D4A2, 0x1D4A2), (0x1D4A5, 0x1D4A6),
    (0x1D4A9, 0x1D4AC), (0x1D4AE, 0x1D4B9), (0x1D4BB, 0x1D4BB), (0x1D4BD, 0x1D4C3),
    (0x1D4C5, 0x1D505), (0x1D507, 0x1D50A), (0x1D50D, 0x1D514), (0x1D516, 0x1D51C),
    (0x1D51E, 0x1D539), (0x1D53B, 0x1D53E), (0x1D540, 0x1D544), (0x1D546, 0x1D546),
    (0x1D54A, 0x1D550), (0x1D552, 0x1D6A5), (0x1D6A8, 0x1D6C0), (0x1D6C2, 0x1D6DA),
    (0x1D6DC, 0x1D6FA), (0x1D6FC, 0x1D714), (0x1D716, 0x1D734), (0x1D736, 0x1D74E),
    (0x1D750, 0x1D76E), (0x1D770, 0x1D788), (0x1D78A, 0x1D7A8), (0x1D7AA, 0x1D7C2),
    (0x1D7C4, 0x1D7CB), (0x1DF00, 0x1DF09), (0x1DF0B, 0x1DF1E), (0x1E900, 0x1E943),
    (0x1F130, 0x1F149), (0x1F150, 0x1F169), (0x1F170, 0x1F189)]

/-- The code points with the property `Case_Ignorable` (Unicode 14.0), in closed
ranges. -/
def caseIgnorableRanges : List (Nat × Nat) :=
  [(0x27, 0x27), (0x2E, 0x2E), (0x3A, 0x3A), (0x5E, 0x5E), (0x60, 0x60), (0xA8, 0xA8), (0xAD, 0xAD),
    (0xAF, 0xAF), (0xB4, 0xB4), (0xB7, 0xB8), (0x2B0, 0x36F), (0x374, 0x375), (0x37A, 0x37A),
    (0x384, 0x385), (0x387, 0x387), (0x483, 0x489), (0x559, 0x559), (0x55F, 0x55F), (0x591, 0x5BD),
    (0x5BF, 0x5BF), (0x5C1, 0x5C2), (0x5C4, 0x5C5), (0x5C7, 0x5C7), (0x5F4, 0x5F4), (0x600, 0x605),
    (0x610, 0x61A), (0x61C, 0x61C), (0x640, 0x640), (0x64B, 0x65F), (0x670, 0x670), (0x6D6, 0x6DD),
    (0x6DF, 0x6E8), (0x6EA, 0x6ED), (0x70F, 0x70F), (0x711, 0x711), (0x730, 0x74A), (0x7A6, 0x7B0),
    (0x7EB, 0x7F5), (0x7FA, 0x7FA), (0x7FD, 0x7FD), (0x816, 0x82D), (0x859, 0x85B), (0x888, 0x888),
    (0x890, 0x891), (0x898, 0x89F), (0x8C9, 0x902), (0x93A, 0x93A), (0x93C, 0x93C), (0x941, 0x948),
    (0x94D, 0x94D), (0x951, 0x957), (0x962, 0x963), (0x971, 0x971), (0x981, 0x981), (0x9BC, 0x9BC),
    (0x9C1, 0x9C4), (0x9CD, 0x9CD), (0x9E2, 0x9E3), (0x9FE, 0x9FE), (0xA01, 0xA02), (0xA3C, 0xA3C),
    (0xA41, 0xA42), (0xA47, 0xA48), (0xA4B, 0xA4D), (0xA51, 0xA51), (0xA70, 0xA71), (0xA75, 0xA75),
    (0xA81, 0xA82), (0xABC, 0xABC), (0xAC1, 0xAC5), (0xAC7, 0xAC8), (0xACD, 0xACD), (0xAE2, 0xAE3),
    (0xAFA, 0xAFF), (0xB01, 0xB01), (0xB3C, 0xB3C), (0xB3F, 0xB3F), (0xB41, 0xB44), (0xB4D, 0xB4D),
    (0xB55, 0xB56), (0xB62, 0xB63), (0xB82, 0xB82), (0xBC0, 0xBC0), (0xBCD, 0xBCD), (0xC00, 0xC00),
    (0xC04, 0xC04), (0xC3C, 0xC3C), (0xC3E, 0xC40), (0xC46, 0xC48), (0xC4A, 0xC4D), (0xC55, 0xC56),
    (0xC62, 0xC63), (0xC81, 0xC81), (0xCBC, 0xCBC), (0xCBF, 0xCBF), (0xCC6, 0xCC6), (0xCCC, 0xCCD),
    (0xCE2, 0xCE3), (0xD00, 0xD01), (0xD3B, 0xD3C), (0xD41, 0xD44), (0xD4D, 0xD4D), (0xD62, 0xD63),
    (0xD81, 0xD81), (0xDCA, 0xDCA), (0xDD2, 0xDD4), (0xDD6, 0xDD6), (0xE31, 0xE31), (0xE34, 0xE3A),
    (0xE46, 0xE4E), (0xEB1, 0xEB1), (0xEB4, 0xEBC), (0xEC6, 0xEC6), (0xEC8, 0xECD), (0xF18, 0xF19),
    (0xF35, 0xF35), (0xF37, 0xF37), (0xF39, 0xF39), (0xF71, 0xF7E), (0xF80, 0xF84), (0xF86, 0xF87),
    (0xF8D, 0xF97), (0xF99, 0xFBC), (0xFC6, 0xFC6), (0x102D, 0x1030), (0x1032, 0x1037),
    (0x1039, 0x103A), (0x103D, 0x103E), (0x1058, 0x1059), (0x105E, 0x1060), (0x1071, 0x1074),
    (0x1082, 0x1082), (0x1085, 0x1086), (0x108D, 0x108D), (0x109D, 0x109D), (0x10FC, 0x10FC),
    (0x135D, 0x135F), (0x1712, 0x1714), (0x1732, 0x1733), (0x1752, 0x1753), (0x1772, 0x1773),
    (0x17B4, 0x17B5), (0x17B7, 0x17BD), (0x17C6, 0x17C6), (0x17C9, 0x17D3), (0x17D7, 0x17D7),
    (0x17DD, 0x17DD), (0x180B, 0x180F), (0x1843, 0x1843), (0x1885, 0x1886), (0x18A9, 0x18A9),
    (0x1920, 0x1922), (0x1927, 0x1928), (0x1932, 0x1932), (0x1939, 0x193B), (0x1A17, 0x1A18),
    (0x1A1B, 0x1A1B), (0x1A56, 0x1A56), (0x1A58, 0x1A5E), (0x1A60, 0x1A60), (0x1A62, 0x1A62),
    (0x1A65, 0x1A6C), (0x1A73, 0x1A7C), (0x1A7F, 0x1A7F), (0x1AA7, 0x1AA7), (0x1AB0, 0x1ACE),
    (0x1B00, 0x1B03), (0x1B34, 0x1B34), (0x1B36, 0x1B3A), (0x1B3C, 0x1B3C), (0x1B42, 0x1B42),
    (0x1B6B, 0x1B73), (0x1B80, 0x1B81), (0x1BA2, 0x1BA5), (0x1BA8, 0x1BA9), (0x1BAB, 0x1BAD),
    (0x1BE6, 0x1BE6), (0x1BE8, 0x1BE9), (0x1BED, 0x1BED), (0x1BEF, 0x1BF1), (0x1C2C, 0x1C33),
    (0x1C36, 0x1C37), (0x1C78, 0x1C7D), (0x1CD0, 0x1CD2), (0x1CD4, 0x1CE0), (0x1CE2, 0x1CE8),
    (0x1CED, 0x1CED), (0x1CF4, 0x1CF4), (0x1CF8, 0x1CF9), (0x1D2C, 0x1D6A), (0x1D78, 0x1D78),
    (0x1D9B, 0x1DFF), (0x1FBD, 0x1FBD), (0x1FBF, 0x1FC1), (0x1FCD, 0x1FCF), (0x1FDD, 0x1FDF),
    (0x1FED, 0x1FEF), (0x1FFD, 0x1FFE), (0x200B, 0x200F), (0x2018, 0x2019), (0x2024, 0x2024),
    (0x2027, 0x2027), (0x202A, 0x202E), (0x2060, 0x2064), (0x2066, 0x206F), (0x2071, 0x2071),
    (0x207F, 0x207F), (0x2090, 0x209C), (0x20D0, 0x20F0), (0x2C7C, 0x2C7D), (0x2CEF, 0x2CF1),
    (0x2D6F, 0x2D6F), (0x2D7F, 0x2D7F), (0x2DE0, 0x2DFF), (0x2E2F, 0x2E2F), (0x3005, 0x3005),
    (0x302A, 0x302D), (0x3031, 0x3035), (0x303B, 0x303B), (0x3099, 0x309E), (0x30FC, 0x30FE),
    (0xA015, 0xA015), (0xA4F8, 0xA4FD), (0xA60C, 0xA60C), (0xA66F, 0xA672), (0xA674, 0xA67D),
    (0xA67F, 0xA67F), (0xA69C, 0xA69F), (0xA6F0, 0xA6F1), (0xA700, 0xA721), (0xA770, 0xA770),
    (0xA788, 0xA78A), (0xA7F2, 0xA7F4), (0xA7F8, 0xA7F9), (0xA802, 0xA802), (0xA806, 0xA806),
    (0xA80B, 0xA80B), (0xA825, 0xA826), (0xA82C, 0xA82C), (0xA8C4, 0xA8C5), (0xA8E0, 0xA8F1),
    (0xA8FF, 0xA8FF), (0xA926, 0xA92D), (0xA947, 0xA951), (0xA980, 0xA982), (0xA9B3, 0xA9B3),
    (0xA9B6, 0xA9B9), (0xA9BC, 0xA9BD), (0xA9CF, 0xA9CF), (0xA9E5, 0xA9E6), (0xAA29, 0xAA2E),
    (0xAA31, 0xAA32), (0xAA35, 0xAA36), (0xAA43, 0xAA43), (0xAA4C, 0xAA4C), (0xAA70, 0xAA70),
    (0xAA7C, 0xAA7C), (0xAAB0, 0xAAB0), (0xAAB2, 0xAAB4), (0xAAB7, 0xAAB8), (0xAABE, 0xAABF),
    (0xAAC1, 0xAAC1), (0xAADD, 0xAADD), (0xAAEC, 0xAAED), (0xAAF3, 0xAAF4), (0xAAF6, 0xAAF6),
    (0xAB5B, 0xAB5F), (0xAB69, 0xAB6B), (0xABE5, 0xABE5), (0xABE8, 0xABE8), (0xABED, 0xABED),
    (0xFB1E, 0xFB1E), (0xFBB2, 0xFBC2), (0xFE00, 0xFE0F), (0xFE13, 0xFE13), (0xFE20, 0xFE2F),
    (0xFE52, 0xFE52), (0xFE55, 0xFE55), (0xFEFF, 0xFEFF), (0xFF07, 0xFF07), (0xFF0E, 0xFF0E),
    (0xFF1A, 0xFF1A), (0xFF3E, 0xFF3E), (0xFF40, 0xFF40), (0xFF70, 0xFF70), (0xFF9E, 0xFF9F),
    (0xFFE3, 0xFFE3), (0xFFF9, 0xFFFB), (0x101FD, 0x101FD), (0x102E0, 0x102E0), (0x10376, 0x1037A),
    (0x10780, 0x10785), (0x10787, 0x107B0), (0x107B2, 0x107BA), (0x10A01, 0x10A03),
    (0x10A05, 0x10A06), (0x10A0C, 0x10A0F), (0x10A38, 0x10A3A), (0x10A3F, 0x10A3F),
    (0x10AE5, 0x10AE6), (0x10D24, 0x10D27), (0x10EAB, 0x10EAC), (0x10F46, 0x10F50),
    (0x10F82, 0x10F85), (0x11001, 0x11001), (0x11038, 0x11046), (0x11070, 0x11070),
    (0x11073, 0x11074), (0x1107F, 0x11081), (0x110B3, 0x110B6), (0x110B9, 0x110BA),
    (0x110BD, 0x110BD), (0x110C2, 0x110C2), (0x110CD, 0x110CD), (0x11100, 0x11102),
    (0x11127, 0x1112B), (0x1112D, 0x11134), (0x11173, 0x11173), (0x11180, 0x11181),
    (0x111B6, 0x111BE), (0x111C9, 0x111CC), (0x111CF, 0x111CF), (0x1122F, 0x11231),
    (0x11234, 0x11234), (0x11236, 0x11237), (0x1123E, 0x1123E), (0x112DF, 0x112DF),
    (0x112E3, 0x112EA), (0x11300, 0x11301), (0x1133B, 0x1133C), (0x11340, 0x11340),
    (0x11366, 0x1136C), (0x11370, 0x11374), (0x11438, 0x1143F), (0x11442, 0x11444),
    (0x11446, 0x11446), (0x1145E, 0x1145E), (0x114B3, 0x114B8), (0x114BA, 0x114BA),
    (0x114BF, 0x114C0), (0x114C2, 0x114C3), (0x115B2, 0x115B5), (0x115BC, 0x115BD),
    (0x115BF, 0x115C0), (0x115DC, 0x115DD), (0x11633, 0x1163A), (0x1163D, 0x1163D),
    (0x1163F, 0x11640), (0x116AB, 0x116AB), (0x116AD, 0x116AD), (0x116B0, 0x116B5),
    (0x116B7, 0x116B7), (0x1171D, 0x1171F), (0x11722, 0x11725), (0x11727, 0x1172B),
    (0x1182F, 0x11837), (0x11839, 0x1183A), (0x1193B, 0x1193C), (0x1193E, 0x1193E),
    (0x11943, 0x11943), (0x119D4, 0x119D7), (0x119DA, 0x119DB), (0x119E0, 0x119E0),
    (0x11A01, 0x11A0A), (0x11A33, 0x11A38), (0x11A3B, 0x11A3E), (0x11A47, 0x11A47),
    (0x11A51, 0x11A56), (0x11A59, 0x11A5B), (0x11A8A, 0x11A96), (0x11A98, 0x11A99),
    (0x11C30, 0x11C36), (0x11C38, 0x11C3D), (0x11C3F, 0x11C3F), (0x11C92, 0x11CA7),
    (0x11CAA, 0x11CB0), (0x11CB2, 0x11CB3), (0x11CB5, 0x11CB6), (0x11D31, 0x11D36),
    (0x11D3A, 0x11D3A), (0x11D3C, 0x11D3D), (0x11D3F, 0x11D45), (0x11D47, 0x11D47),
    (0x11D90, 0x11D91), (0x11D95, 0x11D95), (0x11D97, 0x11D97), (0x11EF3, 0x11EF4),
    (0x13430, 0x13438), (0x16AF0, 0x16AF4), (0x16B30, 0x16B36), (0x16B40, 0x16B43),
    (0x16F4F, 0x16F4F), (0x16F8F, 0x16F9F), (0x16FE0, 0x16FE1), (0x16FE3, 0x16FE4),
    (0x1AFF0, 0x1AFF3), (0x1AFF5, 0x1AFFB), (0x1AFFD, 0x1AFFE), (0x1BC9D, 0x1BC9E),
    (0x1BCA0, 0x1BCA3), (0x1CF00, 0x1CF2D), (0x1CF30, 0x1CF46), (0x1D167, 0x1D169),
    (0x1D173, 0x1D182), (0x1D185, 0x1D18B), (0x1D1AA, 0x1D1AD), (0x1D242, 0x1D244),
    (0x1DA00, 0x1DA36), (0x1DA3B, 0x1DA6C), (0x1DA75, 0x1DA75), (0x1DA84, 0x1DA84),
    (0x1DA9B, 0x1DA9F), (0x1DAA1, 0x1DAAF), (0x1E000, 0x1E006), (0x1E008, 0x1E018),
    (0x1E01B, 0x1E021), (0x1E023, 0x1E024), (0x1E026, 0x1E02A), (0x1E130, 0x1E13D),
    (0x1E2AE, 0x1E2AE), (0x1E2EC, 0x1E2EF), (0x1E8D0, 0x1E8D6), (0x1E944, 0x1E94B),
    (0x1F3FB, 0x1F3FF), (0xE0001, 0xE0001), (0xE0020, 0xE007F), (0xE0100, 0xE01EF)]

/-- The image of code point `c` under a table of runs, if a run holds it. -/
def findRun (runs : List (Nat × Nat × Nat × Nat)) (c : Nat) : Option Nat :=
  match runs.find? (fun r => r.1 ≤ c && c ≤ r.2.1 && (c - r.1) % r.2.2.1 == 0) with
  | some r => some (r.2.2.2 + (c - r.1))
  | none => none

/-- Membership of a code point in a list of closed ranges. -/
def inRanges (ranges : List (Nat × Nat)) (c : Nat) : Bool :=
  ranges.any fun r => r.1 ≤ c && c ≤ r.2

/-- The Unicode property `Cased`. -/
def isCased (c : Char) : Bool := inRanges casedRanges c.toNat

/-- The Unicode property `Case_Ignorable`. -/
def isCaseIgnorable (c : Char) : Bool := inRanges caseIgnorableRanges c.toNat

/-- The full lower-case mapping of one character out of context: the ASCII
letters directly, U+0130 to `i` and a combining dot (the one unconditional
entry of `SpecialCasing.txt`), the others by `lowerRuns`. -/
def lowerChar (c : Char) : List Char :=
  if c.toNat < 128 then [c.toLower]
  else if c.toNat = 0x130 then [Char.ofNat 0x69, Char.ofNat 0x307]
  else match findRun lowerRuns c.toNat with
    | some n => [Char.ofNat n]
    | none => [c]

/-- The condition `Final_Sigma` of `SpecialCasing.txt`: going back over
case-ignorable characters there is a cased one, and going forward over
case-ignorable characters there is none.  `before` holds the preceding
characters, the nearest first. -/
def finalSigma (before after : List Char) : Bool :=
  (match before.dropWhile isCaseIgnorable with
    | c :: _ => isCased c
    | [] => false) &&
  (match after.dropWhile isCaseIgnorable with
    | c :: _ => !isCased c
    | [] => true)

/-- Lower-casing of the characters after `before` (the nearest first): a
capital sigma in the context `Final_Sigma` becomes the final small sigma. -/
def lowerFrom (before : List Char) : List Char → List Char
  | [] => []
  | c :: rest =>
    (if c.toNat = 0x3A3 && finalSigma before rest then [Char.ofNat 0x3C2] else lowerChar c) ++
      lowerFrom (c :: before) rest

/-- The JavaScript `s.toLowerCase()`: the locale-independent full case mapping
of the Unicode Standard (ECMA-262, `String.prototype.toLowerCase`), over the
code points of the string. -/
def toLowerCase (s : String) : String := String.mk (lowerFrom [] s.data)

/-- The full upper-case mapping of one character: the ASCII letters directly,
then the entries of `upperSpecial`, the others by `upperRuns`. -/
def upperChar (c : Char) : List Char :=
  if c.toNat < 128 then [c.toUpper]
  else match upperSpecial.lookup c.toNat with
    | some l => l.map Char.ofNat
    | none =>
      match findRun upperRuns c.toNat with
      | some n => [Char.ofNat n]
      | none => [c]

/-- The JavaScript `s.toUpperCase()`: the locale-independent full case mapping
of the Unicode Standard; it has no context-dependent entry. -/
def toUpperCase (s : String) : String := String.mk (s.data.map upperChar).flatten

/-- The UTF-16 code units of a character: JavaScript strings are sequences of
them, and a character outside the Basic Multilingual Plane takes two. -/
def utf16Units (c : Char) : List Nat :=
  if c.toNat < 0x10000 then [c.toNat]
  else [0xD800 + (c.toNat - 0x10000) / 0x400, 0xDC00 + (c.toNat - 0x10000) % 0x400]

/-- The JavaScript `name.charAt(0).toUpperCase()`, as UTF-16 code units:
`charAt(0)` is the first code unit of the name, so a first character outside the
Basic Multilingual Plane leaves its high surrogate alone, which no case mapping
changes; the empty name gives the empty string. -/
def avatarOf (name : String) : List Nat :=
  match name.data with
  | [] => []
  | c :: _ =>
    if c.toNat < 0x10000 then ((upperChar c).map utf16Units).flatten
    else (utf16Units c).take 1

/-- The characters `String.prototype.trim` strips: ECMAScript white space and
line terminators. -/
def isTrimChar (c : Char) : Bool :=
  let n := c.toNat
  n = 0x09 || n = 0x0A || n = 0x0B || n = 0x0C || n = 0x0D || n = 0x20 ||
  n = 0xA0 || n = 0x1680 || (0x2000 ≤ n && n ≤ 0x200A) || n = 0x2028 ||
  n = 0x2029 || n = 0x202F || n = 0x205F || n = 0x3000 || n = 0xFEFF

/-- The JavaScript `s.trim()`. -/
def trim (s : String) : String :=
  String.mk ((s.data.dropWhile isTrimChar).reverse.dropWhile isTrimChar).reverse

/-- The property key JavaScript uses for `obj[k]` when `k` may be `null`. -/
def propKey : Option String → String
  | some k => k
  | none => "null"

/-! ## The word bank -/

/-- The constant `WORD_CATEGORIES`, as the lookup `WORD_CATEGORIES[difficulty]`
(`none` for `undefined` and for inherited properties, which have no `filter`). -/
def WORD_CATEGORIES (difficulty : String) : Option (List String) :=
  if difficulty = "easy" then
    some ["cat", "dog", "sun", "moon", "star", "tree", "house", "car", "fish", "bird",
      "apple", "banana", "pizza", "cake", "flower", "heart", "rainbow", "ball",
      "balloon", "book", "phone", "clock", "chair", "table", "door", "window",
      "hat", "shoe", "boat", "train", "bus", "bike", "key", "cup", "fork", "spoon"]
  else if difficulty = "medium" then
    some ["elephant", "giraffe", "butterfly", "dinosaur", "rocket", "airplane", "submarine",
      "basketball", "football", "skateboard", "guitar", "piano", "camera", "television",
      "computer", "headphones", "umbrella", "lighthouse", "mountain", "waterfall"]
  else if difficulty = "hard" then
    some ["astronaut", "skyscraper", "rollercoaster", "thunderstorm", "helicopter",
      "firefighter", "parachute", "windmill", "caterpillar", "xylophone",
      "chandelier", "trampoline", "aquarium", "carousel", "escalator"]
  else none

/-! ## Games (`class GameRoom`) -/

/-- The values of `GameRoom.status`. -/
inductive Status where
  | lobby | playing | roundEnd | gameEnd
  deriving DecidableEq, Repr

/-- The strings `endTurn` returns. -/
inductive TurnResult where
  | gameEnd | roundEnd | nextTurn
  deriving DecidableEq, Repr

/-- The `type` tag of a chat message. -/
inductive MessageType where
  | correct | chat
  deriving DecidableEq, Repr

/-- A value of `GameRoom.players`. -/
structure Player where
  id : String
  name : String
  isHost : Bool
  isReady : Bool
  avatar : List Nat
  color : String
  deriving DecidableEq, Repr

/-- The object `GameRoom.settings`. -/
structure Settings where
  maxPlayers : Nat
  roundTime : Nat
  totalRounds : Nat
  difficulty : String
  deriving DecidableEq, Repr

/-- The `settings` argument of `game:create`; a missing field is `none`. -/
structure SettingsInput where
  maxPlayers : Option Nat
  roundTime : Option Nat
  totalRounds : Option Nat
  difficulty : Option String
  deriving DecidableEq, Repr

/-- An element of `GameRoom.messages`. -/
structure ChatMessage where
  id : Nat
  playerId : String
  playerName : String
  message : String
  type : MessageType
  timestamp : Nat
  deriving DecidableEq, Repr

/-- The fields of `class GameRoom`.  `timerInterval` holds the handle returned
by `setInterval`, `drawHistory` the payloads pushed by `game:draw`. -/
structure GameRoom where
  code : String
  hostId : String
  hostName : String
  status : Status
  players : JSMap String Player
  settings : Settings
  currentRound : Nat
  currentTurn : Nat
  currentDrawerId : Option String
  currentWord : Option String
  wordHint : String
  timeLeft : Int
  timerInterval : Option Nat
  scores : JSMap String Int
  correctGuessers : List String
  messages : List ChatMessage
  usedWords : List String
  drawHistory : List String
  createdAt : Nat
  deriving DecidableEq, Repr

/-- The objects `submitGuess` returns: `{correct: false, isDrawer: true}`,
`{correct: false, alreadyGuessed: true}`, `{correct: true, points}` and
`{correct: false}`. -/
inductive GuessResult where
  | isDrawer
  | alreadyGuessed
  | correct (points : Int)
  | incorrect
  deriving DecidableEq, Repr

/-- The field `correct` of a guess result. -/
def GuessResult.isCorrect : GuessResult → Bool
  | .correct _ => true
  | _ => false

/-- The object `startNewTurn` returns. -/
structure TurnInfo where
  drawerId : String
  drawerName : String
  word : String
  hint : String
  deriving DecidableEq, Repr

/-- The JavaScript `x || d` on an optional number: `undefined` and `0` give `d`. -/
def orDefault (x : Option Nat) (d : Nat) : Nat :=
  match x with
  | some n => if n = 0 then d else n
  | none => d

/-- The JavaScript `x || d` on an optional string: `undefined` and `''` give `d`. -/
def orDefaultStr (x : Option String) (d : String) : String :=
  match x with
  | some s => if s = "" then d else s
  | none => d

/-- The text 🎉 Guessed correctly! of a correct guess's chat message. -/
def celebration : String := "🎉 Guessed correctly!"

/-- The hint `word.split('').map(c => c === ' ' ? '  ' : '_').join(' ')`. -/
def hintOf (word : String) : String :=
  String.intercalate " " (word.data.map fun c => if c = ' ' then "  " else "_")

/-- The score read `scores[id] || 0`. -/
def scoreOf (scores : JSMap String Int) (id : String) : Int :=
  (mapGet scores id).getD 0

namespace GameRoom

/-- The constructor `new GameRoom(code, hostId, hostName, settings)`. -/
def new (code hostId hostName : String) (settings : SettingsInput) (now : Nat) : GameRoom :=
  let st : Settings :=
    { maxPlayers := orDefault settings.maxPlayers 8,
      roundTime := orDefault settings.roundTime 60,
      totalRounds := orDefault settings.totalRounds 3,
      difficulty := orDefaultStr settings.difficulty "medium" }
  { code := code, hostId := hostId, hostName := hostName, status := .lobby, players := [],
    settings := st, currentRound := 0, currentTurn := 0, currentDrawerId := none,
    currentWord := none, wordHint := "", timeLeft := st.roundTime, timerInterval := none,
    scores := [], correctGuessers := [], messages := [], usedWords := [], drawHistory := [],
    createdAt := now }

/-- The method `addPlayer(socketId, name)`; returns the created player too. -/
def addPlayer (g : GameRoom) (socketId name : String) : Player × GameRoom :=
  let isHost := decide (socketId = g.hostId)
  let player : Player :=
    { id := socketId, name := name, isHost := isHost, isReady := isHost,
      avatar := avatarOf name,
      color := "hsl(" ++ toString (mapSize g.players * 45) ++ ", 70%, 60%)" }
  (player, { g with players := mapSet g.players socketId player,
                    scores := mapSet g.scores socketId 0 })

/-- The method `removePlayer(socketId)`. -/
def removePlayer (g : GameRoom) (socketId : String) : GameRoom :=
  { g with players := mapDelete g.players socketId,
           scores := mapDelete g.scores socketId }

/-- The method `getPlayersList()`. -/
def getPlayersList (g : GameRoom) : List Player := mapValues g.players

/-- The method `setPlayerReady(socketId, isReady)`. -/
def setPlayerReady (g : GameRoom) (socketId : String) (isReady : Bool) : GameRoom :=
  match mapGet g.players socketId with
  | some player => { g with players := mapSet g.players socketId { player with isReady := isReady } }
  | none => g

/-- The method `canStart()`. -/
def canStart (g : GameRoom) : Bool := decide (mapSize g.players ≥ 2)

/-- The loop `this.scores = {}; this.players.forEach((_, id) => this.scores[id] = 0)`. -/
def zeroScores (players : JSMap String Player) : JSMap String Int :=
  (mapKeys players).foldl (fun sc id => mapSet sc id 0) []

/-- The method `getRandomWord()`.  `rnd` is the random draw: the index
`Math.floor(Math.random() * n)` is `rnd % n`.  `none`: the tier lookup is
`undefined` and `words.filter` throws.  The word is `none` for `undefined`. -/
def getRandomWord (g : GameRoom) (rnd : Nat) : Option (Option String × GameRoom) :=
  match WORD_CATEGORIES g.settings.difficulty with
  | none => none
  | some words =>
    let availableWords := words.filter fun w => !(g.usedWords.contains w)
    if availableWords.length = 0 then
      some (words[rnd % words.length]?, { g with usedWords := [] })
    else
      match availableWords[rnd % availableWords.length]? with
      | some word => some (some word, { g with usedWords := g.usedWords ++ [word] })
      | none => none

/-- The method `startNewTurn()`.  `none`: a `TypeError` is thrown (no player, so
`drawer` is `undefined`; no tier; no word). -/
def startNewTurn (g : GameRoom) (rnd : Nat) : Option (TurnInfo × GameRoom) :=
  let playersArray := g.getPlayersList
  let drawerIndex := g.currentTurn % playersArray.length
  match playersArray[drawerIndex]? with
  | none => none
  | some drawer =>
    let g1 := { g with currentDrawerId := some drawer.id }
    match g1.getRandomWord rnd with
    | none => none
    | some (none, _) => none
    | some (some word, g2) =>
      let g3 := { g2 with currentWord := some word, wordHint := hintOf word,
                          timeLeft := g2.settings.roundTime, correctGuessers := [],
                          drawHistory := [] }
      some ({ drawerId := drawer.id, drawerName := drawer.name, word := word,
              hint := g3.wordHint }, g3)

/-- The method `startGame()`. -/
def startGame (g : GameRoom) (rnd : Nat) : Option GameRoom :=
  let g1 := { g with status := .playing, currentRound := 1, currentTurn := 0,
                     scores := zeroScores g.players }
  (g1.startNewTurn rnd).map Prod.snd

/-- The method `submitGuess(socketId, playerName, guess)`; `now` is `Date.now()`.
`none`: `currentWord` is `null` and `toLowerCase` throws. -/
def submitGuess (g : GameRoom) (socketId playerName guess : String) (now : Nat) :
    Option (GuessResult × GameRoom) :=
  if some socketId = g.currentDrawerId then some (.isDrawer, g)
  else if socketId ∈ g.correctGuessers then some (.alreadyGuessed, g)
  else
    match g.currentWord with
    | none => none
    | some currentWord =>
      let isCorrect := decide (trim (toLowerCase guess) = trim (toLowerCase currentWord))
      let g1 := { g with messages := g.messages ++
        [{ id := now, playerId := socketId, playerName := playerName,
           message := if isCorrect then celebration else guess,
           type := if isCorrect then .correct else .chat, timestamp := now }] }
      if isCorrect then
        let basePoints : Int := 100
        let timeBonus := timeBonusOf g1.timeLeft g1.settings.roundTime
        let orderBonus : Int := max 0 (30 - (g1.correctGuessers.length : Int) * 10)
        let points := basePoints + timeBonus + orderBonus
        let g2 := { g1 with correctGuessers := g1.correctGuessers ++ [socketId] }
        let g3 := { g2 with scores := mapSet g2.scores socketId (scoreOf g2.scores socketId + points) }
        let drawerPoints : Int := 10 + (if g3.correctGuessers.length = 1 then 15 else 0)
        let drawerKey := propKey g3.currentDrawerId
        let g4 := { g3 with scores := mapSet g3.scores drawerKey (scoreOf g3.scores drawerKey + drawerPoints) }
        some (.correct points, g4)
      else some (.incorrect, g1)

/-- The method `endTurn()`. -/
def endTurn (g : GameRoom) : TurnResult × GameRoom :=
  let playersArray := g.getPlayersList
  let turnsPerRound := playersArray.length
  let g1 := { g with currentTurn := g.currentTurn + 1 }
  if g1.currentTurn ≥ turnsPerRound * g1.currentRound then
    if g1.currentRound ≥ g1.settings.totalRounds then
      (.gameEnd, { g1 with status := .gameEnd })
    else
      (.roundEnd, { g1 with currentRound := g1.currentRound + 1, status := .roundEnd })
  else (.nextTurn, g1)

/-- The method `restart()`. -/
def restart (g : GameRoom) : GameRoom :=
  { g with status := .lobby, currentRound := 0, currentTurn := 0, currentDrawerId := none,
           currentWord := none, wordHint := "", timeLeft := g.settings.roundTime,
           correctGuessers := [], messages := [], usedWords := [], drawHistory := [],
           scores := zeroScores g.players }

end GameRoom

/-- An operation on a game that leaves the roster, the settings and the two
counters as they are, as `startNewTurn` and `submitGuess` do. -/
def KeepsRoster (f : GameRoom → GameRoom) : Prop :=
  ∀ s, (f s).players = s.players ∧ (f s).settings = s.settings ∧
    (f s).currentTurn = s.currentTurn ∧ (f s).currentRound = s.currentRound

/-- The state in which the `(k + 1)`-th call of `endTurn` is made: `between 0`
stands for what happens to the game before the first call and `between (j + 1)`
for what happens between the `(j + 1)`-th call and the next. -/
def endTurns (between : Nat → GameRoom → GameRoom) : Nat → GameRoom → GameRoom
  | 0, g => between 0 g
  | k + 1, g => between (k + 1) (endTurns between k g).endTurn.2

/-- The game after the mutation of `game:next-round`, `game.status = 'playing'`
followed by `startNewTurn()`; the game as it was when that call throws. -/
def turnStart (rnd : Nat) (g : GameRoom) : GameRoom :=
  ((({ g with status := .playing }).startNewTurn rnd).map Prod.snd).getD g

/-! ## The connection handlers -/

/-- The per-connection fields the handlers read and write: `socket.id`,
`socket.roomCode`, `socket.gameCode` and `socket.userId` (`none` for `undefined`
and `null`). -/
structure Socket where
  id : String
  roomCode : Option String
  gameCode : Option String
  userId : Option String
  deriving DecidableEq, Repr

/-- A countdown started by `setInterval` and not yet cleared: its handle, the
code of the game whose `timeLeft` it decrements and the connection that
started it. -/
structure Interval where
  handle : Nat
  gameCode : String
  socketId : String
  deriving DecidableEq, Repr

/-- The process-wide state: the registries `activeRooms` and `activeGames` and
the live intervals. -/
structure Engine where
  activeRooms : JSMap String ActiveRoom
  activeGames : JSMap String GameRoom
  intervals : List Interval
  nextHandle : Nat
  deriving DecidableEq, Repr

/-- The call `clearInterval(handle)`; clearing `null` does nothing. -/
def clearInterval (E : Engine) (handle : Option Nat) : Engine :=
  match handle with
  | some h => { E with intervals := E.intervals.filter fun i => i.handle ≠ h }
  | none => E

/-- The function `handleTurnEnd(gameCode)`; the second component is the
`result` it emits in `game:turn-end`, `none` when it returns early. -/
def handleTurnEnd (E : Engine) (gameCode : Option String) : Engine × Option TurnResult :=
  match gameCode with
  | none => (E, none)
  | some code =>
    match mapGet E.activeGames code with
    | none => (E, none)
    | some game =>
      let (result, game1) := game.endTurn
      ({ E with activeGames := mapSet E.activeGames code game1 }, some result)

/-- The handler of `game:guess`.  The second component is the `result` of the
turn-end it triggers, if any.  `none`: `submitGuess` throws. -/
def onGameGuess (E : Engine) (socket : Socket) (guess : String) (now : Nat) :
    Option (Engine × Option TurnResult) :=
  match socket.gameCode with
  | none => some (E, none)
  | some code =>
    match mapGet E.activeGames code with
    | none => some (E, none)
    | some game =>
      if game.status ≠ .playing then some (E, none)
      else
        match mapGet game.players socket.id with
        | none => some (E, none)
        | some player =>
          match game.submitGuess socket.id player.name guess now with
          | none => none
          | some (_, game1) =>
            let E1 := { E with activeGames := mapSet E.activeGames code game1 }
            let nonDrawers := game1.getPlayersList.filter
              fun p => decide (some p.id ≠ game1.currentDrawerId)
            if game1.correctGuessers.length ≥ nonDrawers.length then
              some (handleTurnEnd (clearInterval E1 game1.timerInterval) socket.gameCode)
            else some (E1, none)

/-- The assignment `newHost.isHost = true` on the first value of the players
map. -/
def markFirstHost : JSMap String Player → JSMap String Player
  | [] => []
  | (k, p) :: rest => (k, { p with isHost := true }) :: rest

/-- The function `handleLeaveRoom(socket)` run in one go: as it runs when it
reaches no `await` (the connection is anonymous, or the room has no database
handle), and as it runs when the save it awaits is fulfilled before anything
else is handled.  `leaveRoomBegin` and `leaveRoomEnd` are the parts before and
after the `await`. -/
def handleLeaveRoom (E : Engine) (socket : Socket) : Engine × Socket :=
  match socket.roomCode with
  | none => (E, socket)
  | some code =>
    match mapGet E.activeRooms code with
    | none => (E, socket)
    | some room =>
      let room1 := room.removeParticipant socket.id
      let E1 :=
        if mapSize room1.participants = 0 then
          { E with activeRooms := mapDelete E.activeRooms code }
        else if some socket.id = room1.hostId then
          match room1.getParticipantsList with
          | newHost :: _ =>
            let room2 := { room1 with hostId := some newHost.id }
            { E with activeRooms := mapSet E.activeRooms code room2 }
          | [] => { E with activeRooms := mapSet E.activeRooms code room1 }
        else { E with activeRooms := mapSet E.activeRooms code room1 }
      (E1, { socket with roomCode := none, userId := none })

/-- The function `handleLeaveGame(socket)`. -/
def handleLeaveGame (E : Engine) (socket : Socket) : Engine × Socket :=
  match socket.gameCode with
  | none => (E, socket)
  | some code =>
    match mapGet E.activeGames code with
    | none => (E, socket)
    | some game =>
      let game1 := game.removePlayer socket.id
      let E1 :=
        if mapSize game1.players = 0 then
          { clearInterval E game1.timerInterval with
            activeGames := mapDelete E.activeGames code }
        else if socket.id = game1.hostId then
          match game1.getPlayersList with
          | newHost :: _ =>
            let game2 := { game1 with hostId := newHost.id, players := markFirstHost game1.players }
            { E with activeGames := mapSet E.activeGames code game2 }
          | [] => { E with activeGames := mapSet E.activeGames code game1 }
        else if game1.status = .playing ∧ some socket.id = game1.currentDrawerId then
          let E2 := { E with activeGames := mapSet E.activeGames code game1 }
          (handleTurnEnd (clearInterval E2 game1.timerInterval) socket.gameCode).1
        else { E with activeGames := mapSet E.activeGames code game1 }
      (E1, { socket with gameCode := none })

/-- The acknowledgement a handler passes to its `callback`: `{success: true, ...}`
or `{success: false, error}`. -/
inductive Ack where
  | success
  | failure (error : String)
  deriving DecidableEq, Repr

/-- The call `setInterval(...)` of `game:start` and `game:next-round` for the game
registered under `code`, followed by the assignment to `game.timerInterval`. -/
def startCountdown (E : Engine) (socket : Socket) (code : String) (game : GameRoom) : Engine :=
  let handle := E.nextHandle
  let game1 := { game with timerInterval := some handle }
  { E with activeGames := mapSet E.activeGames code game1,
           intervals := E.intervals ++ [⟨handle, code, socket.id⟩],
           nextHandle := handle + 1 }

/-- The handler of `game:create`; `code` is the value of `generateRoomCode()`. -/
def onGameCreate (E : Engine) (socket : Socket) (userName : String) (settings : SettingsInput)
    (code : String) (now : Nat) : Engine × Socket × Ack :=
  let game := GameRoom.new code socket.id userName settings now
  let game1 := (game.addPlayer socket.id userName).2
  ({ E with activeGames := mapSet E.activeGames code game1 },
    { socket with gameCode := some code }, .success)

/-- The handler of `game:join`. -/
def onGameJoin (E : Engine) (socket : Socket) (gameCode userName : String) :
    Engine × Socket × Ack :=
  let code := toUpperCase gameCode
  match mapGet E.activeGames code with
  | none => (E, socket, .failure "Game not found")
  | some game =>
    if game.status ≠ .lobby then (E, socket, .failure "Game already in progress")
    else if mapSize game.players ≥ game.settings.maxPlayers then
      (E, socket, .failure "Game is full")
    else
      let game1 := (game.addPlayer socket.id userName).2
      ({ E with activeGames := mapSet E.activeGames code game1 },
        { socket with gameCode := some code }, .success)

/-- The handler of `game:ready`. -/
def onGameReady (E : Engine) (socket : Socket) (isReady : Bool) : Engine :=
  match socket.gameCode with
  | none => E
  | some code =>
    match mapGet E.activeGames code with
    | none => E
    | some game =>
      { E with activeGames := mapSet E.activeGames code (game.setPlayerReady socket.id isReady) }

/-- The handler of `game:start`.  `none`: `startGame` throws, after the guards,
and nothing catches it. -/
def onGameStart (E : Engine) (socket : Socket) (rnd : Nat) : Option (Engine × Ack) :=
  match socket.gameCode with
  | none => some (E, .failure "Not in a game")
  | some code =>
    match mapGet E.activeGames code with
    | none => some (E, .failure "Game not found")
    | some game =>
      if socket.id ≠ game.hostId then some (E, .failure "Only host can start the game")
      else if !game.canStart then some (E, .failure "Need at least 2 players")
      else
        match game.startGame rnd with
        | none => none
        | some game1 => some (startCountdown E socket code game1, .success)

/-- The handler of `game:draw`. -/
def onGameDraw (E : Engine) (socket : Socket) (data : String) : Engine :=
  match socket.gameCode with
  | none => E
  | some code =>
    match mapGet E.activeGames code with
    | none => E
    | some game =>
      if game.status ≠ .playing then E
      else if some socket.id ≠ game.currentDrawerId then E
      else
        let game1 := { game with drawHistory := game.drawHistory ++ [data] }
        { E with activeGames := mapSet E.activeGames code game1 }

/-- The handler of `game:clear-canvas`. -/
def onGameClearCanvas (E : Engine) (socket : Socket) : Engine :=
  match socket.gameCode with
  | none => E
  | some code =>
    match mapGet E.activeGames code with
    | none => E
    | some game =>
      if game.status ≠ .playing then E
      else if some socket.id ≠ game.currentDrawerId then E
      else
        let game1 := { game with drawHistory := [] }
        { E with activeGames := mapSet E.activeGames code game1 }

/-- The handler of `game:next-round`.  `none`: `startNewTurn` throws. -/
def onGameNextRound (E : Engine) (socket : Socket) (rnd : Nat) : Option Engine :=
  match socket.gameCode with
  | none => some E
  | some code =>
    match mapGet E.activeGames code with
    | none => some E
    | some game =>
      match ({ game with status := .playing }).startNewTurn rnd with
      | none => none
      | some (_, game1) => some (startCountdown E socket code game1)

/-- The handler of `game:restart`. -/
def onGameRestart (E : Engine) (socket : Socket) : Engine :=
  match socket.gameCode with
  | none => E
  | some code =>
    match mapGet E.activeGames code with
    | none => E
    | some game => { E with activeGames := mapSet E.activeGames code game.restart }

/-- One tick of the live interval `handle`, the callback passed to `setInterval`;
`socket` is the connection that started it, as it is now.  The interval holds
the game object it was started for: while that game is registered under its
code the tick decrements its `timeLeft` and, at zero, clears the game's current
interval and runs `handleTurnEnd(socket.gameCode)`.  Once the game has been
deleted the tick still counts on the unregistered object; `deadExpired` tells
whether that count has reached zero.  The second component is the emitted
turn-end result. -/
def onTick (E : Engine) (socket : Socket) (handle : Nat) (deadExpired : Bool) :
    Engine × Option TurnResult :=
  match E.intervals.find? fun i => i.handle = handle with
  | none => (E, none)
  | some interval =>
    match mapGet E.activeGames interval.gameCode with
    | some game =>
      let game1 := { game with timeLeft := game.timeLeft - 1 }
      let E1 := { E with activeGames := mapSet E.activeGames interval.gameCode game1 }
      if game1.timeLeft ≤ 0 then
        handleTurnEnd (clearInterval E1 game1.timerInterval) socket.gameCode
      else (E1, none)
    | none => if deadExpired then handleTurnEnd E socket.gameCode else (E, none)

/-- The events of the game protocol a connection can deliver, and the tick of a
countdown. -/
inductive GameEvent where
  | create (userName : String) (settings : SettingsInput) (code : String) (now : Nat)
  | join (gameCode userName : String)
  | ready (isReady : Bool)
  | start (rnd : Nat)
  | guess (guess : String) (now : Nat)
  | draw (data : String)
  | clearCanvas
  | nextRound (rnd : Nat)
  | restart
  | leave
  | tick (handle : Nat) (deadExpired : Bool)
  deriving DecidableEq, Repr

/-- The effect of one event on the registry and on the connection that delivers
it (for a tick: the connection that started the countdown).  `none`: the
handler throws and the process stops. -/
def runEvent (E : Engine) (socket : Socket) : GameEvent → Option (Engine × Socket)
  | .create userName settings code now =>
    let r := onGameCreate E socket userName settings code now
    some (r.1, r.2.1)
  | .join gameCode userName =>
    let r := onGameJoin E socket gameCode userName
    some (r.1, r.2.1)
  | .ready isReady => some (onGameReady E socket isReady, socket)
  | .start rnd => (onGameStart E socket rnd).map fun r => (r.1, socket)
  | .guess guess now => (onGameGuess E socket guess now).map fun r => (r.1, socket)
  | .draw data => some (onGameDraw E socket data, socket)
  | .clearCanvas => some (onGameClearCanvas E socket, socket)
  | .nextRound rnd => (onGameNextRound E socket rnd).map fun E1 => (E1, socket)
  | .restart => some (onGameRestart E socket, socket)
  | .leave => some (handleLeaveGame E socket)
  | .tick handle deadExpired => some ((onTick E socket handle deadExpired).1, socket)

/-- The registry and the per-connection records of all connections seen so far. -/
structure World where
  engine : Engine
  sockets : JSMap String Socket
  deriving DecidableEq, Repr

/-- The record of connection `id`; a connection not seen before has no room and
no game. -/
def World.socket (W : World) (id : String) : Socket :=
  (mapGet W.sockets id).getD { id := id, roomCode := none, gameCode := none, userId := none }

/-- Delivery of event `ev` from connection `id`. -/
def World.deliver (W : World) (id : String) (ev : GameEvent) : Option World :=
  (runEvent W.engine (W.socket id) ev).map fun r =>
    { engine := r.1, sockets := mapSet W.sockets id r.2 }

/-- Delivery of a sequence of events, each with the connection it comes from. -/
def World.run (W : World) : List (String × GameEvent) → Option World
  | [] => some W
  | (id, ev) :: rest => (W.deliver id ev).bind fun W1 => W1.run rest

/-- The world of a server that has just started. -/
def World.initial : World :=
  { engine := { activeRooms := [], activeGames := [], intervals := [], nextHandle := 0 },
    sockets := [] }

/-! ## Well-formed maps and sample sessions -/

/-- What a JavaScript `Map` filled by `addPlayer` guarantees: keys are distinct
and every player is stored under its own id. -/
def PlayersWF (players : JSMap String Player) : Prop :=
  (mapKeys players).Nodup ∧ ∀ e ∈ players, e.2.id = e.1

/-- The players whose `isHost` flag is set. -/
def hostsOf (g : GameRoom) : List Player := g.getPlayersList.filter fun p => p.isHost

/-- The participants whose `isHost` flag is set. -/
def roomHostsOf (r : ActiveRoom) : List Participant :=
  r.getParticipantsList.filter fun p => p.isHost

/-- A lobby with the players `ids` joined in that order, the first being the
creator, as `game:create` and `game:join` build it. -/
def lobbyOf (settings : SettingsInput) (ids : List String) : GameRoom :=
  ids.foldl (fun g id => (g.addPlayer id id).2)
    (GameRoom.new "GAME01" (ids.headD "") (ids.headD "") settings 0)

/-- A registry holding the one game `g` and nothing else. -/
def engineOf (g : GameRoom) : Engine :=
  { activeRooms := [], activeGames := [(g.code, g)], intervals := [], nextHandle := 0 }

/-- The connection `id` while it is in the game with code `code`. -/
def gameSocket (id code : String) : Socket :=
  { id := id, roomCode := none, gameCode := some code, userId := none }

/-- A room created by `a` and then joined by `b`, as `create-room` and
`join-room` build it for anonymous users. -/
def roomOfTwo : ActiveRoom :=
  ((ActiveRoom.new "ROOM01" (some "a") "Ann" false 0).addParticipant "a" none "Ann" 0).addParticipant
    "b" none "Bob" 1

/-- The time bonus as the specification writes it, in exact arithmetic:
`floor(timeLeft / roundTime * 50)`. -/
def specTimeBonus (timeLeft : Int) (roundTime : Nat) : Int :=
  ⌊(timeLeft : ℚ) / (roundTime : ℚ) * 50⌋

/-- The game after `k` ticks of its countdown, each one `game.timeLeft--`. -/
def afterTicks (k : Nat) (g : GameRoom) : GameRoom :=
  { g with timeLeft := g.timeLeft - k }

/-- Four players in a game of the given turn length, started (the drawer is
`p0`, the word is `car`) and `k` seconds into the first turn. -/
def runningGame (roundTime k : Nat) : GameRoom :=
  let lobby := lobbyOf ⟨none, some roundTime, none, some "easy"⟩ ["p0", "p1", "p2", "p3"]
  afterTicks k ((lobby.startGame 7).getD lobby)

/-- The game after the guess `guess` of player `id` at time `0`. -/
def afterGuess (g : GameRoom) (id guess : String) : GameRoom :=
  ((g.submitGuess id id guess 0).map Prod.snd).getD g

/-- The lobby of the specification's scenario: two players `p0` (creator) and
`p1`, 30-second turns, the easy tier, and the given number of rounds. -/
def duel (rounds : Nat) : GameRoom :=
  lobbyOf ⟨none, some 30, some rounds, some "easy"⟩ ["p0", "p1"]

/-- The game `duel rounds` once started; the drawer is `p0` and the word `car`. -/
def startedDuel (rounds : Nat) : GameRoom :=
  ((duel rounds).startGame 7).getD (duel rounds)

/-- The game `duel 2` once started with the word `key`, the 33rd of the easy
tier; the drawer is `p0`. -/
def keyDuel : GameRoom :=
  ((duel 2).startGame 32).getD (duel 2)

/-- A lobby with the code `BOSS01`, created by `p0`. -/
def bossLobby : GameRoom :=
  ((GameRoom.new "BOSS01" "p0" "p0" ⟨none, none, none, none⟩ 0).addPlayer "p0" "p0").2

/-- The `currentDrawerId` that `startNewTurn` sets when it is called with
`currentTurn = t`; `none` when the call throws. -/
def drawerOfTurn (g : GameRoom) (t rnd : Nat) : Option String :=
  (({ g with currentTurn := t }).startNewTurn rnd).bind fun r => r.2.currentDrawerId

/-- A lobby of three players `p0`, `p1`, `p2` joined in that order. -/
def trio : GameRoom :=
  lobbyOf ⟨none, none, none, none⟩ ["p0", "p1", "p2"]

/-- A registry holding the one room `r` and nothing else. -/
def engineOfRoom (r : ActiveRoom) : Engine :=
  { activeRooms := [(r.code, r)], activeGames := [], intervals := [], nextHandle := 0 }

/-- The anonymous connection `id` while it is in the room with code `code`. -/
def roomSocket (id code : String) : Socket :=
  { id := id, roomCode := some code, gameCode := none, userId := none }

/-- The words returned by one call of `getRandomWord` per random draw of the
list, in order, and the game after them; `none` when a call throws or returns
`undefined`. -/
def drawWords (g : GameRoom) : List Nat → Option (List String × GameRoom)
  | [] => some ([], g)
  | rnd :: rest =>
    match g.getRandomWord rnd with
    | some (some w, g1) => (drawWords g1 rest).map fun r => (w :: r.1, r.2)
    | _ => none

/-- Helper of `splitOn`: `acc` holds the current token, reversed. -/
def splitOnAux (sep : Char) : List Char → List Char → List String
  | acc, [] => [String.mk acc.reverse]
  | acc, c :: cs =>
    if c = sep then String.mk acc.reverse :: splitOnAux sep [] cs
    else splitOnAux sep (c :: acc) cs

/-- The JavaScript `s.split(sep)` for a separator of one character. -/
def splitOn (sep : Char) (s : String) : List String := splitOnAux sep [] s.data

/-- A lobby of two players on the hard tier, whose 15 words have all been drawn
once (by 15 calls of `getRandomWord`). -/
def exhaustedGame : GameRoom :=
  let lobby := lobbyOf ⟨none, none, none, some "hard"⟩ ["p0", "p1"]
  ((drawWords lobby (List.replicate 15 0)).map Prod.snd).getD lobby

/-- What C18 says of one word: its hint splits on single spaces into one `_` per
character, and every character of the hint is `_` or a space. -/
def HintHidesWord (w : String) : Prop :=
  splitOn ' ' (hintOf w) = List.replicate w.length "_" ∧
  (splitOn ' ' (hintOf w)).length = w.length ∧
  (∀ c ∈ (hintOf w).data, c = '_' ∨ c = ' ') ∧
  (∀ c ∈ (hintOf w).data, c ∉ w.data)

instance (w : String) : Decidable (HintHidesWord w) := by
  unfold HintHidesWord
  infer_instance

/-- The events of the specification's lobby: `p0` creates the game `GAME01` on
the given tier, then `p1` and `p2` join it. -/
def lobbyEvents (difficulty : String) : List (String × GameEvent) :=
  [("p0", .create "Ann" ⟨none, none, none, some difficulty⟩ "GAME01" 0),
   ("p1", .join "game01" "Bob"), ("p2", .join "GAME01" "Cy")]

/-- The world after the given events, from a server that has just started; the
initial world when a handler throws on the way. -/
def worldAfter (events : List (String × GameEvent)) : World :=
  (World.initial.run events).getD World.initial

/-- What an observer sees of a game and its countdowns. -/
structure GameView where
  status : Status
  currentTurn : Nat
  currentDrawerId : Option String
  hostId : String
  players : List String
  scoreKeys : List String
  timerInterval : Option Nat
  liveIntervals : List Nat
  deriving DecidableEq, Repr

/-- The view of the game registered as `GAME01`, if any. -/
def gameView (W : World) : Option GameView :=
  (mapGet W.engine.activeGames "GAME01").map fun g =>
    { status := g.status, currentTurn := g.currentTurn, currentDrawerId := g.currentDrawerId,
      hostId := g.hostId, players := mapKeys g.players, scoreKeys := mapKeys g.scores,
      timerInterval := g.timerInterval,
      liveIntervals := W.engine.intervals.map fun i => i.handle }

/-- The status of the game registered as `GAME01`, if any. -/
def statusView (W : World) : Option Status :=
  (mapGet W.engine.activeGames "GAME01").map fun g => g.status

/-- The events of a short match: `p0` creates `GAME01` with turns of 2 seconds
and a single round, `p1` joins, `p0` starts (drawer `p0`, word `car`). -/
def shortMatch : List (String × GameEvent) :=
  [("p0", .create "Ann" ⟨none, some 2, some 1, some "easy"⟩ "GAME01" 0),
   ("p1", .join "GAME01" "Bob"), ("p0", .start 7)]

/-! ## Leaderboard and state snapshot -/

/-- An element of the leaderboard: the object `{ ...p, score }`. -/
structure LeaderboardEntry extends Player where
  score : Int
  deriving DecidableEq, Repr

/-- The comparator `(a, b) => b.score - a.score` passed to `sort`. -/
def compareScore (a b : LeaderboardEntry) : Int := b.score - a.score

/-- The JavaScript `xs.sort(compareScore)`.  `Array.prototype.sort` is stable: `a`
stays before `b` unless the comparator is positive on them.  Insertion from the
right is such a sort. -/
def sortByScore (xs : List LeaderboardEntry) : List LeaderboardEntry :=
  xs.insertionSort fun a b => compareScore a b ≤ 0

/-- The method `getLeaderboard()`. -/
def GameRoom.getLeaderboard (g : GameRoom) : List LeaderboardEntry :=
  sortByScore (g.getPlayersList.map fun p => { toPlayer := p, score := scoreOf g.scores p.id })

/-- The method `getWinner()`, with `none` for `null`. -/
def GameRoom.getWinner (g : GameRoom) : Option LeaderboardEntry :=
  g.getLeaderboard.head?

/-- The object `getGameState()` returns. -/
structure GameState where
  gameCode : String
  status : Status
  players : List Player
  hostId : String
  settings : Settings
  currentRound : Nat
  totalRounds : Nat
  currentTurn : Nat
  currentDrawerId : Option String
  wordHint : String
  timeLeft : Int
  scores : JSMap String Int
  correctGuessers : List String
  messages : List ChatMessage
  deriving DecidableEq, Repr

/-- The method `getGameState()`. -/
def GameRoom.getGameState (g : GameRoom) : GameState :=
  { gameCode := g.code, status := g.status, players := g.getPlayersList, hostId := g.hostId,
    settings := g.settings, currentRound := g.currentRound,
    totalRounds := g.settings.totalRounds, currentTurn := g.currentTurn,
    currentDrawerId := g.currentDrawerId, wordHint := g.wordHint, timeLeft := g.timeLeft,
    scores := g.scores, correctGuessers := g.correctGuessers,
    messages := sliceLast 50 g.messages }

/-- The players of a game annotated with their scores, in join order: the array
`getLeaderboard` sorts. -/
def scoredPlayers (g : GameRoom) : List LeaderboardEntry :=
  g.getPlayersList.map fun p => { toPlayer := p, score := scoreOf g.scores p.id }

/-- The game `trio` with the scores 40, 250 and 40 for `p0`, `p1` and `p2`. -/
def scoredTrio : GameRoom :=
  { trio with scores := [("p0", 40), ("p1", 250), ("p2", 40)] }

/-- The template literal of `addPlayer`: the colour with the hue `hue` written in
decimal, saturation 70% and lightness 60%. -/
def hslColor (hue : Nat) : String := "hsl(" ++ toString hue ++ ", 70%, 60%)"

/-- The number a string of decimal digits denotes; `none` for any other string. -/
def digitsToNat (cs : List Char) : Option Nat :=
  if cs = [] then none
  else cs.foldl (fun acc c => acc.bind fun n =>
    if c.isDigit then some (n * 10 + (c.toNat - '0'.toNat)) else none) (some 0)

/-- The hue written in a colour string: the number between `hsl(` and the first
comma. -/
def hueOf (color : String) : Option Nat :=
  if color.data.take 4 = ['h', 's', 'l', '('] then
    digitsToNat ((color.data.drop 4).takeWhile fun c => c ≠ ',')
  else none

/-- The events of a crowded lobby: `p0` creates `GAME01` for up to 10 players and
`p1` to `p8` join it. -/
def crowdEvents : List (String × GameEvent) :=
  ("p0", .create "Ann" ⟨some 10, none, none, none⟩ "GAME01" 0) ::
    ["p1", "p2", "p3", "p4", "p5", "p6", "p7", "p8"].map fun id => (id, .join "GAME01" id)

/-- The colour of player `id` of the game registered as `GAME01`. -/
def colourView (W : World) (id : String) : Option String :=
  (mapGet W.engine.activeGames "GAME01").bind fun g => (mapGet g.players id).map fun p => p.color

/-- A game in its first turn and the same game with another secret word, other
used words and some strokes drawn. -/
def otherWord (g : GameRoom) : GameRoom :=
  { g with currentWord := some "dog", usedWords := ["dog"], drawHistory := ["stroke"] }

/-- Five players in a game of the given turn length, started (the drawer is
`p0`, the word is `car`), `k` seconds into the first turn, after `p1`, `p2` and
`p3` have guessed the word. -/
def crowdedTurn (roundTime k : Nat) : GameRoom :=
  let lobby := lobbyOf ⟨none, some roundTime, none, some "easy"⟩ ["p0", "p1", "p2", "p3", "p4"]
  let turn := afterTicks k ((lobby.startGame 7).getD lobby)
  afterGuess (afterGuess (afterGuess turn "p1" "car") "p2" "car") "p3" "car"

/-- What an observer sees of the turn of a game: status, turn counter, drawer,
secret word, words used so far, time left and scores. -/
structure TurnView where
  status : Status
  currentTurn : Nat
  currentDrawerId : Option String
  currentWord : Option String
  usedWords : List String
  timeLeft : Int
  scores : JSMap String Int
  correctGuessers : List String
  deriving DecidableEq, Repr

/-- The turn view of the game registered as `GAME01`, if any. -/
def turnView (W : World) : Option TurnView :=
  (mapGet W.engine.activeGames "GAME01").map fun g =>
    { status := g.status, currentTurn := g.currentTurn, currentDrawerId := g.currentDrawerId,
      currentWord := g.currentWord, usedWords := g.usedWords, timeLeft := g.timeLeft,
      scores := g.scores, correctGuessers := g.correctGuessers }

/-- The events of a match of three with turns of 2 seconds: `p0` creates
`GAME01` on the easy tier, `p1` and `p2` join, `p0` starts (drawer `p0`, word
`car`, countdown 0). -/
def quickMatch : List (String × GameEvent) :=
  [("p0", .create "Ann" ⟨none, some 2, none, some "easy"⟩ "GAME01" 0),
   ("p1", .join "GAME01" "Bob"), ("p2", .join "GAME01" "Cy"), ("p0", .start 7)]

/-! ## The whiteboard handlers and the whole server -/

/-- JavaScript truthiness of an optional string: `undefined`, `null` and `''`
are falsy. -/
def truthy : Option String → Bool
  | some s => decide (s ≠ "")
  | none => false

/-- The handler of `create-room` from the point where the database calls that
it awaits for an authenticated user (`Room.create`, then
`User.findByIdAndUpdate`) have settled; for an anonymous user, who reaches no
`await`, that is the whole handler.  `code` is the value of
`generateRoomCode()`, drawn before the calls.  `dbOk` tells whether the calls
succeeded; when one fails the `catch` answers and nothing is registered. -/
def onCreateRoom (E : Engine) (socket : Socket) (userName : String) (userId : Option String)
    (code : String) (now : Nat) (dbOk : Bool) : Engine × Socket × Ack :=
  if truthy userId && !dbOk then (E, socket, .failure "Failed to create room")
  else
    let room := ActiveRoom.new code (some socket.id) userName (truthy userId) now
    let room1 := room.addParticipant socket.id userId userName now
    ({ E with activeRooms := mapSet E.activeRooms code room1 },
      { socket with roomCode := some code, userId := userId }, .success)

/-- The handler of `join-room` when a live room has the upper-cased code: the
connection joins it at once, before any `await` (what the handler awaits after
that changes neither the registry nor the connection).  `none`: no live room
has the code, and the handler awaits `Room.findOne`. -/
def onJoinRoom (E : Engine) (socket : Socket) (roomCode userName : String)
    (userId : Option String) (now : Nat) : Option (Engine × Socket) :=
  let code := toUpperCase roomCode
  match mapGet E.activeRooms code with
  | none => none
  | some room =>
    let room1 := room.addParticipant socket.id userId userName now
    some ({ E with activeRooms := mapSet E.activeRooms code room1 },
      { socket with roomCode := some code, userId := userId })

/-- The handler of `join-room` from the point where `Room.findOne` and
`User.findById` have returned a stored room: a new room object without host id
is registered under the code, in place of whatever is registered there by then
(the handler does not look again), and the connection joins it.  `hostName` is
`hostUser?.name || 'Host'`. -/
def joinRestored (E : Engine) (socket : Socket) (code hostName userName : String)
    (userId : Option String) (now : Nat) : Engine × Socket :=
  let room := ActiveRoom.new code none hostName true now
  let room1 := room.addParticipant socket.id userId userName now
  ({ E with activeRooms := mapSet E.activeRooms code room1 },
    { socket with roomCode := some code, userId := userId })

/-- The handler of `draw`. -/
def onDraw (E : Engine) (socket : Socket) (data : String) (now : Nat) : Engine :=
  match socket.roomCode with
  | none => E
  | some code =>
    match mapGet E.activeRooms code with
    | none => E
    | some room =>
      { E with activeRooms := mapSet E.activeRooms code (room.addDrawEvent ⟨data, socket.id, now⟩) }

/-- The handler of `clear-canvas`. -/
def onClearCanvas (E : Engine) (socket : Socket) : Engine :=
  match socket.roomCode with
  | none => E
  | some code =>
    match mapGet E.activeRooms code with
    | none => E
    | some room => { E with activeRooms := mapSet E.activeRooms code room.clearHistory }

/-- The room object that a suspended `handleLeaveRoom` holds in its variable
`room`: the object registered under `code` while `detached` is `none`, and
else an object that has left the registry, in the state `detached` it had then
(nothing changes the participants of an object outside the registry). -/
structure HeldRoom where
  code : String
  detached : Option ActiveRoom
  deriving DecidableEq, Repr

/-- The state of a held room object.  An object that is not detached is
registered under its code; the blank room stands for the case that does not
arise. -/
def HeldRoom.room (held : HeldRoom) (E : Engine) : ActiveRoom :=
  match held.detached with
  | some r => r
  | none => (mapGet E.activeRooms held.code).getD (ActiveRoom.new held.code none "" false 0)

/-- The function `handleLeaveRoom(socket)` up to its `await`: the registry
after `room.removeParticipant(socket.id)`, the code the room was found under,
and whether the function goes on to await `room.dbRoom.removeParticipant`
(`socket.userId && room.dbRoom`).  `none`: the function returns at once. -/
def leaveRoomBegin (E : Engine) (socket : Socket) : Option (Engine × String × Bool) :=
  match socket.roomCode with
  | none => none
  | some code =>
    match mapGet E.activeRooms code with
    | none => none
    | some room =>
      some ({ E with activeRooms := mapSet E.activeRooms code (room.removeParticipant socket.id) },
        code, truthy socket.userId && room.dbRoom)

/-- The function `handleLeaveRoom(socket)` after its `await`, with the room
object it holds: `room.participants.size === 0` reads the held object,
`activeRooms.delete(socket.roomCode)` the room code that the connection has by
then (deleting `null` does nothing); the new host id is written to the held
object, which shows in the registry while the object is registered and nowhere
in it otherwise. -/
def leaveRoomEnd (E : Engine) (socket : Socket) (held : HeldRoom) : Engine × Socket :=
  let room := held.room E
  let E1 :=
    if mapSize room.participants = 0 then
      match socket.roomCode with
      | some code => { E with activeRooms := mapDelete E.activeRooms code }
      | none => E
    else if some socket.id = room.hostId then
      match room.getParticipantsList, held.detached with
      | newHost :: _, none =>
        let room2 := { room with hostId := some newHost.id }
        { E with activeRooms := mapSet E.activeRooms held.code room2 }
      | _, _ => E
    else E
  (E1, { socket with roomCode := none, userId := none })

/-- What a call `handleLeaveRoom(socket)` does before it gives control back:
all of the function when it reaches no `await`, and else the part before the
`await`. -/
def leaveRoomNow (E : Engine) (socket : Socket) : Engine × Socket :=
  match leaveRoomBegin E socket with
  | none => (E, socket)
  | some (E1, code, awaits) =>
    if awaits then (E1, socket) else leaveRoomEnd E1 socket ⟨code, none⟩

/-- The handler of `disconnect`: `handleLeaveRoom(socket)`, which is not
awaited, then `handleLeaveGame(socket)`. -/
def onDisconnect (E : Engine) (socket : Socket) : Engine × Socket :=
  let r := leaveRoomNow E socket
  handleLeaveGame r.1 r.2

/-- The events that change the state of the server: those of the whiteboard
protocol, those of the game protocol and the loss of a connection.
(`stroke-end` and `cursor-move` are relayed only; `save-snapshot` writes to the
database only.) -/
inductive ServerEvent where
  | createRoom (userName : String) (userId : Option String) (code : String) (now : Nat)
  | joinRoom (roomCode userName : String) (userId : Option String) (now : Nat)
  | draw (data : String) (now : Nat)
  | clearCanvas
  | leaveRoom
  | game (ev : GameEvent)
  | disconnect
  deriving DecidableEq, Repr

/-- The effect of one event on the registries and on the connection that
delivers it, up to the point where its handler returns or is suspended at an
`await` on the database (`suspension` tells what is left then).  `none`: the
handler throws and the process stops. -/
def serverStep (E : Engine) (socket : Socket) : ServerEvent → Option (Engine × Socket)
  | .createRoom userName userId code now =>
    if truthy userId then some (E, socket)
    else
      let r := onCreateRoom E socket userName userId code now true
      some (r.1, r.2.1)
  | .joinRoom roomCode userName userId now =>
    some ((onJoinRoom E socket roomCode userName userId now).getD (E, socket))
  | .draw data now => some (onDraw E socket data now, socket)
  | .clearCanvas => some (onClearCanvas E socket, socket)
  | .leaveRoom => some (leaveRoomNow E socket)
  | .game ev => runEvent E socket ev
  | .disconnect => some (onDisconnect E socket)

/-- A handler suspended at an `await` on the database, with the connection it
serves and the local variables it goes on with.  Two calls that a handler
awaits one after the other, doing nothing in between (`Room.create` and
`User.findByIdAndUpdate` in `create-room`, `Room.findOne` and `User.findById`
in `join-room`), count as one suspension. -/
inductive Suspended where
  | createRoom (socketId userName : String) (userId : Option String) (code : String)
  | joinRoom (socketId userName : String) (userId : Option String) (code : String)
  | leaveRoom (socketId : String) (held : HeldRoom)
  deriving DecidableEq, Repr

/-- The connection a suspended handler serves. -/
def Suspended.socketId : Suspended → String
  | .createRoom id _ _ _ => id
  | .joinRoom id _ _ _ => id
  | .leaveRoom id _ => id

/-- The handler that an event leaves suspended: `create-room` of an
authenticated user at `Room.create`, `join-room` of a code without live room at
`Room.findOne`, `handleLeaveRoom` of an authenticated connection in a room with
a database handle at `room.dbRoom.removeParticipant`. -/
def suspension (E : Engine) (socket : Socket) : ServerEvent → Option Suspended
  | .createRoom userName userId code _ =>
    if truthy userId then some (.createRoom socket.id userName userId code) else none
  | .joinRoom roomCode userName userId _ =>
    match mapGet E.activeRooms (toUpperCase roomCode) with
    | none => some (.joinRoom socket.id userName userId (toUpperCase roomCode))
    | some _ => none
  | .leaveRoom | .disconnect =>
    match leaveRoomBegin E socket with
    | some (_, code, true) => some (.leaveRoom socket.id ⟨code, none⟩)
    | _ => none
  | _ => none

/-- The room object that `activeRooms.set(code, room)` of a new object, or
`activeRooms.delete(code)`, takes out of the registry, with its code. -/
def roomAt (E : Engine) (code : String) : Option (String × ActiveRoom) :=
  (mapGet E.activeRooms code).map fun r => (code, r)

/-- The room object that `leaveRoomEnd` takes out of the registry, if any. -/
def leaveRoomDrops (E : Engine) (socket : Socket) (held : HeldRoom) :
    Option (String × ActiveRoom) :=
  if mapSize (held.room E).participants = 0 then socket.roomCode.bind (roomAt E) else none

/-- The room object that an event takes out of the registry before its handler
returns or is suspended: `create-room` of an anonymous user registers a new
object under its code, a leave that goes through at once may delete the room. -/
def released (E : Engine) (socket : Socket) : ServerEvent → Option (String × ActiveRoom)
  | .createRoom _ userId code _ => if truthy userId then none else roomAt E code
  | .leaveRoom | .disconnect =>
    match leaveRoomBegin E socket with
    | some (E1, code, false) => leaveRoomDrops E1 socket ⟨code, none⟩
    | _ => none
  | _ => none

/-- A suspended `handleLeaveRoom` that holds the room object registered under
`gone.1` keeps it, in its state `gone.2`, when the object leaves the
registry. -/
def Suspended.detach (gone : Option (String × ActiveRoom)) : Suspended → Suspended
  | .leaveRoom id ⟨code, none⟩ =>
    match gone with
    | some (c, r) => if c = code then .leaveRoom id ⟨code, some r⟩ else .leaveRoom id ⟨code, none⟩
    | none => .leaveRoom id ⟨code, none⟩
  | p => p

/-- How a database call settles: it is rejected or fulfilled.  For the lookup
of `join-room`, `stored` is the host name of the stored active room with the
code (`hostUser?.name || 'Host'`), `none` when there is no such room; the other
calls do not use it. -/
inductive DbResult where
  | rejected
  | fulfilled (stored : Option String)
  deriving DecidableEq, Repr

/-- The server: the registries, the connection records, and the handlers that
are suspended at an `await`, the oldest first. -/
structure Server extends World where
  pending : List Suspended
  deriving DecidableEq, Repr

/-- The rest of a suspended handler, run at time `now` when its database call
settles.  A rejected call ends `create-room` and `join-room` in their `catch`
with nothing changed.  `handleLeaveRoom` has no `catch` and nothing awaits it:
the rest of the function is skipped.  (A platform that ends the process on an
unhandled rejection ends the run there; the states kept here are then the
reachable ones and more.) -/
def Server.resume (S : Server) (now : Nat) : Suspended → DbResult → Server
  | _, .rejected => S
  | .createRoom id userName userId code, .fulfilled _ =>
    let r := onCreateRoom S.engine (S.socket id) userName userId code now true
    { engine := r.1, sockets := mapSet S.sockets id r.2.1,
      pending := S.pending.map (Suspended.detach (roomAt S.engine code)) }
  | .joinRoom _ _ _ _, .fulfilled none => S
  | .joinRoom id userName userId code, .fulfilled (some hostName) =>
    let r := joinRestored S.engine (S.socket id) code hostName userName userId now
    { engine := r.1, sockets := mapSet S.sockets id r.2,
      pending := S.pending.map (Suspended.detach (roomAt S.engine code)) }
  | .leaveRoom id held, .fulfilled _ =>
    let r := leaveRoomEnd S.engine (S.socket id) held
    { engine := r.1, sockets := mapSet S.sockets id r.2,
      pending := S.pending.map (Suspended.detach (leaveRoomDrops S.engine (S.socket id) held)) }

/-- What the server handles in one go: an event of a connection, up to the
return or the suspension of its handler, or the settling of the database call
of the suspended handler at position `index`, at time `now`. -/
inductive ServerAction where
  | request (id : String) (ev : ServerEvent)
  | settle (index : Nat) (result : DbResult) (now : Nat)
  deriving DecidableEq, Repr

/-- One action of the server.  `none`: a handler throws and the process
stops. -/
def Server.step (S : Server) : ServerAction → Option Server
  | .request id ev =>
    (serverStep S.engine (S.socket id) ev).map fun r =>
      { engine := r.1, sockets := mapSet S.sockets id r.2,
        pending := S.pending.map (Suspended.detach (released S.engine (S.socket id) ev)) ++
          (suspension S.engine (S.socket id) ev).toList }
  | .settle index result now =>
    match S.pending[index]? with
    | none => some S
    | some p => some (Server.resume { S with pending := S.pending.eraseIdx index } now p result)

/-- A sequence of actions of the server. -/
def Server.run (S : Server) : List ServerAction → Option Server
  | [] => some S
  | a :: rest => (S.step a).bind fun S1 => S1.run rest

/-- The server that has just started. -/
def Server.initial : Server :=
  { toWorld := World.initial, pending := [] }

/-- The ways one game event changes a game that stays registered: `g` is the
game before the event delivered by `socket`, the last argument the game after
it. -/
inductive GameChange (socket : Socket) : GameEvent → GameRoom → GameRoom → Prop where
  | join (gameCode userName : String) (g : GameRoom) (hlobby : g.status = .lobby) :
      GameChange socket (.join gameCode userName) g (g.addPlayer socket.id userName).2
  | ready (isReady : Bool) (g : GameRoom) :
      GameChange socket (.ready isReady) g (g.setPlayerReady socket.id isReady)
  | start (rnd handle : Nat) (g g1 : GameRoom) (hstart : g.startGame rnd = some g1) :
      GameChange socket (.start rnd) g { g1 with timerInterval := some handle }
  | guess (guess : String) (now : Nat) (g g1 : GameRoom) (name : String) (r : GuessResult)
      (hplaying : g.status = .playing)
      (hguess : g.submitGuess socket.id name guess now = some (r, g1)) :
      GameChange socket (.guess guess now) g g1
  | guessEnd (guess : String) (now : Nat) (g g1 : GameRoom) (name : String) (r : GuessResult)
      (hplaying : g.status = .playing)
      (hguess : g.submitGuess socket.id name guess now = some (r, g1)) :
      GameChange socket (.guess guess now) g g1.endTurn.2
  | draw (data : String) (g : GameRoom) :
      GameChange socket (.draw data) g { g with drawHistory := g.drawHistory ++ [data] }
  | clearCanvas (g : GameRoom) :
      GameChange socket .clearCanvas g { g with drawHistory := [] }
  | nextRound (rnd handle : Nat) (g g1 : GameRoom) (info : TurnInfo)
      (hturn : ({ g with status := .playing }).startNewTurn rnd = some (info, g1)) :
      GameChange socket (.nextRound rnd) g { g1 with timerInterval := some handle }
  | restart (g : GameRoom) : GameChange socket .restart g g.restart
  | leave (g : GameRoom) (hrest : (g.removePlayer socket.id).players ≠ []) :
      GameChange socket .leave g (g.removePlayer socket.id)
  | leaveHost (g : GameRoom) (newHost : Player)
      (hrest : (g.removePlayer socket.id).players ≠ []) :
      GameChange socket .leave g
        { g.removePlayer socket.id with
          hostId := newHost.id, players := markFirstHost (g.removePlayer socket.id).players }
  | leaveDrawer (g : GameRoom) (hrest : (g.removePlayer socket.id).players ≠ [])
      (hplaying : g.status = .playing) :
      GameChange socket .leave g (g.removePlayer socket.id).endTurn.2
  | tick (handle : Nat) (deadExpired : Bool) (g : GameRoom) :
      GameChange socket (.tick handle deadExpired) g { g with timeLeft := g.timeLeft - 1 }
  | tickEnd (handle : Nat) (deadExpired : Bool) (g : GameRoom) :
      GameChange socket (.tick handle deadExpired) g
        ({ g with timeLeft := g.timeLeft - 1 }).endTurn.2
  | tickOther (handle : Nat) (deadExpired : Bool) (g : GameRoom) :
      GameChange socket (.tick handle deadExpired) g g.endTurn.2

/-- A game event that is neither `game:start`, nor `game:restart`, nor the
`game:create` of the code `code`. -/
def QuietFor (code : String) (ev : GameEvent) : Prop :=
  (∀ rnd, ev ≠ .start rnd) ∧ ev ≠ .restart ∧
    ∀ userName settings now, ev ≠ .create userName settings code now

/-- The game registered as `GAME01`; a blank game when there is none. -/
def gameOf (W : World) : GameRoom :=
  (mapGet W.engine.activeGames "GAME01").getD (GameRoom.new "" "" "" ⟨none, none, none, none⟩ 0)

/-- Both non-drawers of `quickMatch` guess the word, `p1` and then `p2`. -/
def twoGuesses : List (String × GameEvent) :=
  [("p1", .guess "car" 5), ("p2", .guess "car" 6)]

/-- The server after the given actions, from its start; the server at its start
when a handler throws on the way. -/
def serverAfter (actions : List ServerAction) : Server :=
  (Server.initial.run actions).getD Server.initial

/-- The rooms of a server with the ids of their participants, and the games
with the ids of their players. -/
def Server.members (S : Server) : List (String × List String) × List (String × List String) :=
  (S.engine.activeRooms.map fun e => (e.1, mapKeys e.2.participants),
    S.engine.activeGames.map fun e => (e.1, mapKeys e.2.players))

/-- The events by which a connection enters a whiteboard room. -/
def EntersRoom : ServerEvent → Prop
  | .createRoom _ _ _ _ => True
  | .joinRoom _ _ _ _ => True
  | _ => False

/-- The events by which a connection enters a game. -/
def EntersGame : ServerEvent → Prop
  | .game (.create _ _ _ _) => True
  | .game (.join _ _) => True
  | _ => False

/-- An event is orderly for a connection when it asks to create or join a room
only while the connection has no room code, and to create or join a game only
while it has no game code. -/
def Orderly (socket : Socket) (ev : ServerEvent) : Prop :=
  (EntersRoom ev → socket.roomCode = none) ∧ (EntersGame ev → socket.gameCode = none)

/-- The check of `Orderly`. -/
def orderly (socket : Socket) : ServerEvent → Bool
  | .createRoom _ _ _ _ => socket.roomCode.isNone
  | .joinRoom _ _ _ _ => socket.roomCode.isNone
  | .game (.create _ _ _ _) => socket.gameCode.isNone
  | .game (.join _ _) => socket.gameCode.isNone
  | _ => true

/-- The events whose handlers may be suspended at an `await`: those by which a
connection enters or leaves a whiteboard room. -/
def roomRequest : ServerEvent → Bool
  | .createRoom _ _ _ _ => true
  | .joinRoom _ _ _ _ => true
  | .leaveRoom => true
  | .disconnect => true
  | _ => false

/-- Whether a handler serving connection `id` is suspended. -/
def Server.awaits (S : Server) (id : String) : Bool :=
  S.pending.any fun p => decide (p.socketId = id)

/-- An action is disciplined when it is the settling of a database call, or an
orderly event of a connection that, if it is one of `create-room`, `join-room`,
`leave-room` and `disconnect`, comes while no handler serving that connection
is suspended. -/
def disciplined (S : Server) : ServerAction → Bool
  | .request id ev => orderly (S.socket id) ev && (!roomRequest ev || !S.awaits id)
  | .settle _ _ _ => true

/-- A run in which every action is disciplined in the state it is taken in. -/
def disciplinedRun : Server → List ServerAction → Bool
  | _, [] => true
  | S, a :: rest =>
    disciplined S a &&
      match S.step a with
      | some S1 => disciplinedRun S1 rest
      | none => true

/-- Every member of a registered session is a connection whose room code (game
code) is the code of that session, and every connection record carries its own
id. -/
def Attached (E : Engine) (σ : String → Socket) : Prop :=
  (∀ id, (σ id).id = id) ∧
  (∀ code room, mapGet E.activeRooms code = some room →
    ∀ x ∈ mapKeys room.participants, (σ x).roomCode = some code) ∧
  (∀ code game, mapGet E.activeGames code = some game →
    ∀ x ∈ mapKeys game.players, (σ x).gameCode = some code)

/-- What holds of a suspended handler in a disciplined run: the connection of a
suspended `create-room` or `join-room` has no room code, and the connection of
a suspended `handleLeaveRoom` is a participant of no registered room. -/
def Suspended.Safe (E : Engine) (σ : String → Socket) : Suspended → Prop
  | .createRoom id _ _ _ => (σ id).roomCode = none
  | .joinRoom id _ _ _ => (σ id).roomCode = none
  | .leaveRoom id _ =>
    ∀ code room, mapGet E.activeRooms code = some room → id ∉ mapKeys room.participants

/-- The invariant of disciplined runs: every member is attached to its session,
no connection has two suspended handlers, and every suspended handler is
safe. -/
def Server.Tidy (S : Server) : Prop :=
  Attached S.engine S.socket ∧ (S.pending.map Suspended.socketId).Nodup ∧
    ∀ p ∈ S.pending, p.Safe S.engine S.socket

/-- The actions of a double entry: `p0` creates the game `GAME01` and the room
`ROOM01`, then, still in both, creates the game `GAME02` and the room
`ROOM02`. -/
def doubleEntry : List ServerAction :=
  [.request "p0" (.game (.create "Ann" ⟨none, none, none, none⟩ "GAME01" 0)),
   .request "p0" (.createRoom "Ann" none "ROOM01" 1),
   .request "p0" (.game (.create "Ann" ⟨none, none, none, none⟩ "GAME02" 2)),
   .request "p0" (.createRoom "Ann" none "ROOM02" 3)]

/-- The actions of a hasty entry: the authenticated user `u1` on connection `a`
sends `create-room` twice before the database has answered the first request;
then both database calls are fulfilled. -/
def hastyEntry : List ServerAction :=
  [.request "a" (.createRoom "Ann" (some "u1") "ROOM01" 0),
   .request "a" (.createRoom "Ann" (some "u1") "ROOM02" 1),
   .settle 0 (.fulfilled none) 2,
   .settle 0 (.fulfilled none) 3]

/-- The actions of a visit: the authenticated user `u1` on connection `a`
creates the room `ROOM01`, which the database stores, and the anonymous `b`
joins it; `a` creates the game `GAME01` and `b` joins it; then `a` leaves the
room, the database saving that, and the game, and `b` disconnects. -/
def visit : List ServerAction :=
  [.request "a" (.createRoom "Ann" (some "u1") "ROOM01" 0),
   .settle 0 (.fulfilled none) 1,
   .request "b" (.joinRoom "room01" "Bob" none 2),
   .request "a" (.game (.create "Ann" ⟨none, none, none, none⟩ "GAME01" 3)),
   .request "b" (.game (.join "GAME01" "Bob")),
   .request "a" .leaveRoom,
   .settle 0 (.fulfilled none) 4,
   .request "a" (.game .leave),
   .request "b" .disconnect]

/-- The actions of a last leave: the authenticated user `u1` on connection `a`
creates the room `ROOM01`, which the database stores, and then leaves it; the
handler is suspended at the save of the stored room. -/
def lastLeave : List ServerAction :=
  [.request "a" (.createRoom "Ann" (some "u1") "ROOM01" 0),
   .settle 0 (.fulfilled none) 1,
   .request "a" .leaveRoom]

/-! ## Theorems -/

theorem mapGet_mapSet_same {κ ν : Type} [DecidableEq κ] (m : JSMap κ ν) (k : κ) (v : ν) :
    mapGet (mapSet m k v) k = some v := by
  induction m with
  | nil => simp [mapSet, mapGet]
  | cons e rest ih =>
    obtain ⟨k', v'⟩ := e
    by_cases h : k' = k
    · simp [mapSet, mapGet, h]
    · simp [mapSet, mapGet, h, ih]

theorem mapGet_mapSet_ne {κ ν : Type} [DecidableEq κ] (m : JSMap κ ν) (k k0 : κ) (v : ν)
    (hne : k0 ≠ k) : mapGet (mapSet m k v) k0 = mapGet m k0 := by
  induction m with
  | nil => simp [mapSet, mapGet, Ne.symm hne]
  | cons e rest ih =>
    obtain ⟨k', v'⟩ := e
    by_cases h : k' = k
    · subst h
      simp [mapSet, mapGet, Ne.symm hne]
    · by_cases h0 : k' = k0
      · subst h0
        simp [mapSet, mapGet, h]
      · simp [mapSet, mapGet, h, h0, ih]

theorem scoreOf_mapSet_same (m : JSMap String Int) (k : String) (v : Int) :
    scoreOf (mapSet m k v) k = v := by
  simp [scoreOf, mapGet_mapSet_same]

theorem scoreOf_mapSet_ne (m : JSMap String Int) (k k0 : String) (v : Int) (hne : k0 ≠ k) :
    scoreOf (mapSet m k v) k0 = scoreOf m k0 := by
  simp [scoreOf, mapGet_mapSet_ne _ _ _ _ hne]

theorem addDrawEvent_history (r : ActiveRoom) (e : DrawEvent) :
    (r.addDrawEvent e).drawHistory =
      if r.drawHistory.length + 1 > 10000 then sliceLast 5000 (r.drawHistory ++ [e])
      else r.drawHistory ++ [e] := by
  simp only [ActiveRoom.addDrawEvent, List.length_append, List.length_singleton]
  split <;> simp

theorem addDrawEvents_short (r : ActiveRoom) (es : List DrawEvent)
    (h : r.drawHistory.length + es.length ≤ 10000) :
    (addDrawEvents r es).drawHistory = r.drawHistory ++ es := by
  induction es generalizing r with
  | nil => simp [addDrawEvents]
  | cons e es ih =>
    have h1 : ¬ (r.drawHistory.length + 1 > 10000) := by
      simp only [List.length_cons] at h; omega
    have h2 : (r.addDrawEvent e).drawHistory = r.drawHistory ++ [e] := by
      rw [addDrawEvent_history, if_neg h1]
    have h3 := ih (r.addDrawEvent e) (by
      rw [h2]; simp only [List.length_append, List.length_singleton, List.length_cons,
        List.length_nil] at h ⊢
      omega)
    simp only [addDrawEvents, List.foldl_cons] at h3 ⊢
    rw [h3, h2]; simp


theorem range_split_5001 :
    List.range' 1 10001 = List.range' 1 5001 ++ List.range' 5002 5000 := by
  have h := List.range'_append_1 1 5001 5000
  simpa using h.symm

theorem range_concat_10001 : List.range' 1 10001 = List.range' 1 10000 ++ [10001] :=
  List.range'_1_concat 1 10000

theorem addDrawEvent_full (r : ActiveRoom) (e : DrawEvent)
    (h : r.drawHistory.length = 10000) :
    (r.addDrawEvent e).drawHistory = (r.drawHistory ++ [e]).drop 5001 := by
  rw [addDrawEvent_history, if_pos (by omega)]
  simp only [sliceLast, List.length_append, List.length_singleton, h]

theorem addDrawEvents_first_10000 (ev : Nat → DrawEvent) (r0 : ActiveRoom)
    (h0 : r0.drawHistory = []) :
    (addDrawEvents r0 ((List.range' 1 10000).map ev)).drawHistory =
      (List.range' 1 10000).map ev := by
  rw [addDrawEvents_short r0 _ (by simp [h0]), h0, List.nil_append]

theorem addDrawEvents_concat (r : ActiveRoom) (es : List DrawEvent) (e : DrawEvent) :
    addDrawEvents r (es ++ [e]) = (addDrawEvents r es).addDrawEvent e := by
  simp only [addDrawEvents, List.foldl_append, List.foldl_cons, List.foldl_nil]

theorem addDrawEvents_10001 (ev : Nat → DrawEvent) (r0 : ActiveRoom)
    (h0 : r0.drawHistory = []) :
    (addDrawEvents r0 ((List.range' 1 10001).map ev)).drawHistory =
      (List.range' 5002 5000).map ev := by
  have hsplit : (List.range' 1 10001).map ev = (List.range' 1 10000).map ev ++ [ev 10001] := by
    rw [range_concat_10001, List.map_append, List.map_singleton]
  have hfirst := addDrawEvents_first_10000 ev r0 h0
  have hlen : (addDrawEvents r0 ((List.range' 1 10000).map ev)).drawHistory.length = 10000 := by
    rw [hfirst, List.length_map, List.length_range']
  rw [hsplit, addDrawEvents_concat, addDrawEvent_full _ _ hlen, hfirst, ← hsplit,
    range_split_5001, List.map_append]
  exact List.drop_left' (by rw [List.length_map, List.length_range'])

/-- C1: `addDrawEvent` appends while the history holds fewer than 10000 events;
on a history of exactly 10000 events the result is the last 5000 elements of the
extended history, in order; after events 1..10001 are appended to an empty
history it holds events 5002..10001. -/
theorem addDrawEvent_compaction (r : ActiveRoom) (e : DrawEvent) :
    (r.drawHistory.length < 10000 →
      (r.addDrawEvent e).drawHistory = r.drawHistory ++ [e]) ∧
    (r.drawHistory.length = 10000 →
      (r.addDrawEvent e).drawHistory = (r.drawHistory ++ [e]).drop 5001 ∧
      (r.addDrawEvent e).drawHistory.length = 5000 ∧
      r.drawHistory ++ [e] = (r.drawHistory ++ [e]).take 5001 ++ (r.addDrawEvent e).drawHistory) ∧
    (∀ (ev : Nat → DrawEvent) (r0 : ActiveRoom), r0.drawHistory = [] →
      (addDrawEvents r0 ((List.range' 1 10001).map ev)).drawHistory =
        (List.range' 5002 5000).map ev) := by
  refine ⟨?_, ?_, addDrawEvents_10001⟩
  · intro h
    rw [addDrawEvent_history, if_neg (by omega)]
  · intro h
    refine ⟨addDrawEvent_full r e h, ?_, ?_⟩
    · rw [addDrawEvent_full r e h]
      simp only [List.length_drop, List.length_append, List.length_singleton, h]
    · rw [addDrawEvent_full r e h, List.take_append_drop]

/-- C1 at a concrete input: a short history grows by one, and a full history of
10000 events is cut to 5000. -/
theorem addDrawEvent_compaction_witness :
    ((ActiveRoom.new "ROOM01" (some "a") "Ann" false 0).addDrawEvent ⟨"line", "a", 1⟩).drawHistory =
        [⟨"line", "a", 1⟩] ∧
      (({ ActiveRoom.new "ROOM01" (some "a") "Ann" false 0 with
          drawHistory := List.replicate 10000 ⟨"line", "a", 1⟩ }).addDrawEvent
            ⟨"line", "a", 2⟩).drawHistory.length = 5000 :=
  ⟨(addDrawEvent_compaction _ _).1 (by decide),
   ((addDrawEvent_compaction _ _).2.1 (List.length_replicate _ _)).2.1⟩


/-- The points `submitGuess` computes for a correct guess in state `g`. -/
theorem submitGuess_correct_eq (g : GameRoom) (socketId playerName guess w : String) (now : Nat)
    (pts : Int) (sc : JSMap String Int)
    (hd : some socketId ≠ g.currentDrawerId) (hg : socketId ∉ g.correctGuessers)
    (hw : g.currentWord = some w)
    (heq : trim (toLowerCase guess) = trim (toLowerCase w))
    (hpts : pts = 100 + timeBonusOf g.timeLeft g.settings.roundTime +
      max 0 (30 - (g.correctGuessers.length : Int) * 10))
    (hsc : sc = mapSet g.scores socketId (scoreOf g.scores socketId + pts)) :
    g.submitGuess socketId playerName guess now =
      some (.correct pts,
        { g with
          messages := g.messages ++ [⟨now, socketId, playerName, celebration, .correct, now⟩]
          correctGuessers := g.correctGuessers ++ [socketId]
          scores := mapSet sc (propKey g.currentDrawerId)
            (scoreOf sc (propKey g.currentDrawerId) +
              (10 + (if (g.correctGuessers ++ [socketId]).length = 1 then 15 else 0))) }) := by
  subst hpts hsc
  simp only [GameRoom.submitGuess, if_neg hd, if_neg hg, hw, heq, decide_True, if_true]


theorem specTimeBonus_eq_div (t r : Nat) : specTimeBonus t r = ((t * 50 / r : Nat) : Int) := by
  unfold specTimeBonus
  have h : ((t : Int) : ℚ) / (r : ℚ) * 50 = ((t * 50 : Nat) : ℚ) / (r : ℚ) := by
    push_cast
    ring
  rw [h, Rat.floor_natCast_div_natCast]
  norm_cast

theorem bitLengthAux_zero (fuel : Nat) : bitLengthAux fuel 0 = 0 := by
  cases fuel <;> simp [bitLengthAux]

theorem bitLengthAux_spec (fuel : Nat) : ∀ n, n ≤ fuel → 0 < n →
    2 ^ (bitLengthAux fuel n - 1) ≤ n ∧ n < 2 ^ bitLengthAux fuel n := by
  induction fuel with
  | zero => intro n h1 h2; omega
  | succ fuel ih =>
    intro n h1 h2
    have hne : n ≠ 0 := by omega
    simp only [bitLengthAux, if_neg hne, Nat.add_sub_cancel]
    by_cases h : n / 2 = 0
    · have hn1 : n = 1 := by omega
      subst hn1
      simp [bitLengthAux_zero]
    · obtain ⟨i1, i2⟩ := ih (n / 2) (by omega) (by omega)
      have hb : 1 ≤ bitLengthAux fuel (n / 2) := by
        by_contra hc
        have : bitLengthAux fuel (n / 2) = 0 := by omega
        rw [this] at i2
        simp at i2
        exact h i2
      have hp : 2 ^ bitLengthAux fuel (n / 2) = 2 * 2 ^ (bitLengthAux fuel (n / 2) - 1) := by
        rw [← pow_succ']
        congr 1
        omega
      constructor
      · rw [hp]; omega
      · rw [pow_succ]; omega

theorem bitLength_spec (n : Nat) (hn : 0 < n) :
    2 ^ (bitLength n - 1) ≤ n ∧ n < 2 ^ bitLength n :=
  bitLengthAux_spec n n (le_refl n) hn

theorem roundHalfEven_err (p q : Nat) (hq : 0 < q) :
    2 * (roundHalfEven p q * q) ≤ 2 * p + q ∧ 2 * p ≤ 2 * (roundHalfEven p q * q) + q := by
  have hdm := Nat.div_add_mod p q
  have hlt := Nat.mod_lt p hq
  have hmul : (p / q + 1) * q = q * (p / q) + q := by ring
  have hmul0 : (p / q) * q = q * (p / q) := by ring
  unfold roundHalfEven
  simp only
  split
  · rw [hmul0]; omega
  · split
    · rw [hmul]; omega
    · split
      · rw [hmul0]; omega
      · rw [hmul]; omega


theorem two_zpow_toNat (s : Int) :
    ((2 : ℚ) ^ s.toNat) / ((2 : ℚ) ^ (-s).toNat) = (2 : ℚ) ^ s := by
  rcases le_or_lt 0 s with h | h
  · obtain ⟨k, rfl⟩ := Int.eq_ofNat_of_zero_le h
    have h1 : (-(k : Int)).toNat = 0 := by
      apply Int.toNat_eq_zero.mpr; omega
    simp [h1]
  · obtain ⟨k, hk⟩ := Int.eq_ofNat_of_zero_le (show 0 ≤ -s by omega)
    have hs : s = -(k : Int) := by omega
    subst hs
    have h1 : (-(k : Int)).toNat = 0 := by
      apply Int.toNat_eq_zero.mpr; omega
    simp [h1]

theorem scaled_err (R W m : ℚ) (hW : 0 < W) (hm : |m - R| ≤ 1 / 2) (hR : (2 : ℚ) ^ 52 ≤ R) :
    |m * W - R * W| ≤ R * W / 2 ^ 53 := by
  have h1 : m * W - R * W = (m - R) * W := by ring
  rw [h1, abs_mul, abs_of_pos hW]
  have h2 : |m - R| * W ≤ 1 / 2 * W := mul_le_mul_of_nonneg_right hm hW.le
  have h4 : (1 : ℚ) / 2 ≤ R / 2 ^ 53 := by
    rw [le_div_iff₀ (by positivity)]
    calc (1 : ℚ) / 2 * 2 ^ 53 = 2 ^ 52 := by norm_num
      _ ≤ R := hR
  have h3 : 1 / 2 * W ≤ R * W / 2 ^ 53 := by
    have h5 : R * W / 2 ^ 53 = R / 2 ^ 53 * W := by ring
    rw [h5]
    exact mul_le_mul_of_nonneg_right h4 hW.le
  exact h2.trans h3

theorem roundHalfEven_abs (n d : Nat) (hd : 0 < d) :
    |(roundHalfEven n d : ℚ) - (n : ℚ) / d| ≤ 1 / 2 := by
  obtain ⟨h1, h2⟩ := roundHalfEven_err n d hd
  have hdq : (0 : ℚ) < d := by exact_mod_cast hd
  have e1 : (2 : ℚ) * (roundHalfEven n d * d) ≤ 2 * n + d := by exact_mod_cast h1
  have e2 : (2 : ℚ) * n ≤ 2 * (roundHalfEven n d * d) + d := by exact_mod_cast h2
  rw [abs_le]
  constructor
  · rw [le_sub_iff_add_le, ← sub_eq_neg_add, sub_le_iff_le_add, div_le_iff₀ hdq]
    linarith
  · rw [sub_le_iff_le_add, ← sub_le_iff_le_add', le_div_iff₀ hdq]
    linarith


theorem round53_err (p q : Nat) (hp : 0 < p) (hq : 0 < q) :
    |(round53 p q).toRat - (p : ℚ) / q| ≤ (p : ℚ) / q / 2 ^ 53 := by
  obtain ⟨hp1, hp2⟩ := bitLength_spec p hp
  obtain ⟨-, hq2⟩ := bitLength_spec q hq
  have hlp : 1 ≤ bitLength p := by
    by_contra hc
    have : bitLength p = 0 := by omega
    rw [this] at hp2
    simp at hp2
    omega
  have hP : (2 : ℚ) ^ bitLength p ≤ 2 * p := by
    have h : 2 ^ bitLength p ≤ 2 * p := by
      have e : 2 ^ bitLength p = 2 * 2 ^ (bitLength p - 1) := by
        rw [← pow_succ']; congr 1; omega
      omega
    exact_mod_cast h
  have hQ : (q : ℚ) ≤ 2 ^ bitLength q := by exact_mod_cast hq2.le
  have hpq : (0 : ℚ) < p := by exact_mod_cast hp
  have hqq : (0 : ℚ) < q := by exact_mod_cast hq
  generalize hs : (53 - ((bitLength p : Int) - (bitLength q : Int)) : Int) = s
  have hpow : (2 : ℚ) ^ s * 2 ^ bitLength p = 2 ^ 53 * 2 ^ bitLength q := by
    have e1 : (2 : ℚ) ^ bitLength p = (2 : ℚ) ^ (bitLength p : Int) := (zpow_natCast _ _).symm
    have e2 : (2 : ℚ) ^ bitLength q = (2 : ℚ) ^ (bitLength q : Int) := (zpow_natCast _ _).symm
    have e3 : (2 : ℚ) ^ 53 = (2 : ℚ) ^ (53 : Int) := by norm_num
    rw [e1, e2, e3, ← zpow_add₀ (two_ne_zero), ← zpow_add₀ (two_ne_zero)]
    congr 1
    omega
  have hW : (0 : ℚ) < 2 ^ s := by positivity
  have hlow : (2 : ℚ) ^ 52 ≤ (p : ℚ) / q * 2 ^ s := by
    have hPpos : (0 : ℚ) < 2 ^ bitLength p := by positivity
    have e : (2 : ℚ) ^ s = 2 ^ 53 * 2 ^ bitLength q / 2 ^ bitLength p := by
      rw [eq_div_iff hPpos.ne']; exact hpow
    rw [e, div_mul_div_comm, le_div_iff₀ (by positivity)]
    have h1 : (q : ℚ) * 2 ^ bitLength p ≤ 2 ^ bitLength q * (2 * p) :=
      mul_le_mul hQ hP hPpos.le (by positivity)
    nlinarith
  have hratio : ((p * 2 ^ s.toNat : ℕ) : ℚ) / ((q * 2 ^ (-s).toNat : ℕ) : ℚ) =
      (p : ℚ) / q * 2 ^ s := by
    push_cast
    rw [← two_zpow_toNat s]
    field_simp
  have hdpos : 0 < q * 2 ^ (-s).toNat := by positivity
  have hinv : (2 : ℚ) ^ s * 2 ^ (-s) = 1 := by
    rw [← zpow_add₀ (two_ne_zero)]; simp
  unfold round53
  have hne : ¬ (p = 0 ∨ q = 0) := by omega
  simp only [if_neg hne, hs]
  split
  · have h := scaled_err _ ((2 : ℚ) ^ (-s)) _ (by positivity)
      (roundHalfEven_abs (p * 2 ^ s.toNat) (q * 2 ^ (-s).toNat) hdpos) (by rw [hratio]; exact hlow)
    rw [hratio] at h
    have e : (p : ℚ) / q * 2 ^ s * 2 ^ (-s) = (p : ℚ) / q := by rw [mul_assoc, hinv, mul_one]
    rw [e] at h
    exact h
  · rename_i hbig
    have hbig2 : 2 ^ 53 * (q * 2 ^ (-s).toNat) ≤ p * 2 ^ s.toNat :=
      (Nat.le_div_iff_mul_le hdpos).mp (by omega)
    have hd2 : 0 < 2 * (q * 2 ^ (-s).toNat) := by positivity
    have hR : ((p * 2 ^ s.toNat : ℕ) : ℚ) / ((2 * (q * 2 ^ (-s).toNat) : ℕ) : ℚ) =
        (p : ℚ) / q * 2 ^ s / 2 := by
      rw [← hratio]; push_cast; field_simp; ring
    have hR52 : (2 : ℚ) ^ 52 ≤ ((p * 2 ^ s.toNat : ℕ) : ℚ) / ((2 * (q * 2 ^ (-s).toNat) : ℕ) : ℚ) := by
      rw [le_div_iff₀ (by exact_mod_cast hd2)]
      have h' : ((2 ^ 53 * (q * 2 ^ (-s).toNat) : ℕ) : ℚ) ≤ ((p * 2 ^ s.toNat : ℕ) : ℚ) := by
        exact_mod_cast hbig2
      push_cast at h' ⊢
      linarith
    have h := scaled_err _ ((2 : ℚ) ^ (1 - s)) _ (by positivity)
      (roundHalfEven_abs (p * 2 ^ s.toNat) (2 * (q * 2 ^ (-s).toNat)) hd2) hR52
    rw [hR] at h
    have e : (p : ℚ) / q * 2 ^ s / 2 * 2 ^ (1 - s) = (p : ℚ) / q := by
      have e1 : (2 : ℚ) ^ (1 - s) = 2 * 2 ^ (-s) := by
        rw [sub_eq_add_neg, zpow_add₀ (two_ne_zero)]; simp
      rw [e1]
      have : (p : ℚ) / q * 2 ^ s / 2 * (2 * 2 ^ (-s)) = (p : ℚ) / q * (2 ^ s * 2 ^ (-s)) := by ring
      rw [this, hinv, mul_one]
    rw [e] at h
    exact h


theorem Dyadic.toRat_eq_div (x : Dyadic) :
    x.toRat = ((x.mant * 2 ^ x.exp.toNat : ℕ) : ℚ) / ((2 ^ (-x.exp).toNat : ℕ) : ℚ) := by
  unfold Dyadic.toRat
  push_cast
  rw [← two_zpow_toNat x.exp]
  ring

theorem Dyadic.floor_le (x : Dyadic) : (x.floor : ℚ) ≤ x.toRat ∧ x.toRat < x.floor + 1 := by
  have h : x.floor = ⌊x.toRat⌋₊ := by
    rw [Dyadic.toRat_eq_div, Nat.floor_div_eq_div]
    rfl
  have hnn : 0 ≤ x.toRat := by
    unfold Dyadic.toRat; positivity
  rw [h]
  exact ⟨Nat.floor_le hnn, Nat.lt_floor_add_one _⟩

theorem Dyadic.mulNat_err (x : Dyadic) (c : Nat) (hx : 0 < x.mant) (hc : 0 < c) :
    |(x.mulNat c).toRat - c * x.toRat| ≤ c * x.toRat / 2 ^ 53 := by
  have h := round53_err (x.mant * c * 2 ^ x.exp.toNat) (2 ^ (-x.exp).toNat)
    (by positivity) (by positivity)
  have e : ((x.mant * c * 2 ^ x.exp.toNat : ℕ) : ℚ) / ((2 ^ (-x.exp).toNat : ℕ) : ℚ) =
      c * x.toRat := by
    rw [Dyadic.toRat_eq_div]
    push_cast
    ring
  rw [e] at h
  exact h

/-- The binary64 time bonus is the exact `floor(timeLeft * 50 / roundTime)` or
one less. -/
theorem timeBonusOf_near (t r : Nat) (hr : 0 < r) (ht : t ≤ r) (hbig : r ≤ 2 ^ 45) :
    timeBonusOf t r ≤ ((t * 50 / r : Nat) : Int) ∧
    ((t * 50 / r : Nat) : Int) ≤ timeBonusOf t r + 1 := by
  have hunf : timeBonusOf t r = (((round53 t r).mulNat 50).floor : Int) := by
    simp [timeBonusOf]
  rw [hunf]
  rcases Nat.eq_zero_or_pos t with h0 | htpos
  · subst h0
    have : ((round53 0 r).mulNat 50).floor = 0 := by
      simp [round53, Dyadic.mulNat, Dyadic.floor]
    rw [this]
    simp
  · have hrq : (0 : ℚ) < r := by exact_mod_cast hr
    have htq : (0 : ℚ) < t := by exact_mod_cast htpos
    have hu1 : (t : ℚ) / r ≤ 1 := by
      rw [div_le_one hrq]; exact_mod_cast ht
    have hu0 : (0 : ℚ) < (t : ℚ) / r := by positivity
    have hX := abs_le.mp (round53_err t r htpos hr)
    have hmant : 0 < (round53 t r).mant := by
      rcases Nat.eq_zero_or_pos (round53 t r).mant with hz | hpos
      · have hz2 : (round53 t r).toRat = 0 := by simp [Dyadic.toRat, hz]
        rw [hz2] at hX
        have h1 := hX.1
        have h2 : (t : ℚ) / r / 2 ^ 53 < (t : ℚ) / r := by
          apply div_lt_self hu0; norm_num
        linarith
      · exact hpos
    have hY := abs_le.mp (Dyadic.mulNat_err (round53 t r) 50 hmant (by norm_num))
    obtain ⟨hB0, hB1⟩ := Dyadic.floor_le ((round53 t r).mulNat 50)
    have hE0 : (t * 50 / r) * r ≤ t * 50 := Nat.div_mul_le_self _ _
    have hE1 : t * 50 < (t * 50 / r + 1) * r := by
      rw [Nat.mul_comm (t * 50 / r + 1) r]
      exact Nat.lt_mul_div_succ (t * 50) hr
    have hE0q : ((t * 50 / r : ℕ) : ℚ) ≤ 50 * ((t : ℚ) / r) := by
      have : ((t * 50 / r : ℕ) : ℚ) * r ≤ (t : ℚ) * 50 := by exact_mod_cast hE0
      rw [show (50 : ℚ) * ((t : ℚ) / r) = (t : ℚ) * 50 / r by ring, le_div_iff₀ hrq]
      exact this
    have hE1q : 50 * ((t : ℚ) / r) + 1 / r ≤ ((t * 50 / r : ℕ) : ℚ) + 1 := by
      have : (t : ℚ) * 50 + 1 ≤ (((t * 50 / r : ℕ) : ℚ) + 1) * r := by exact_mod_cast hE1
      rw [show (50 : ℚ) * ((t : ℚ) / r) + 1 / r = ((t : ℚ) * 50 + 1) / r by ring, div_le_iff₀ hrq]
      exact this
    have hw : (1 : ℚ) / 2 ^ 45 ≤ 1 / r := by
      apply one_div_le_one_div_of_le hrq
      exact_mod_cast hbig
    have hE50 : ((t * 50 / r : ℕ) : ℚ) ≤ 50 := by linarith
    constructor
    · have hlt : (((round53 t r).mulNat 50).floor : ℚ) < ((t * 50 / r : ℕ) : ℚ) + 1 := by
        have h1 := hX.2
        have h2 := hY.2
        norm_num at h1 h2 hw hE1q ⊢
        linarith
      have : ((round53 t r).mulNat 50).floor < t * 50 / r + 1 := by exact_mod_cast hlt
      omega
    · have hlt : ((t * 50 / r : ℕ) : ℚ) < (((round53 t r).mulNat 50).floor : ℚ) + 2 := by
        have h1 := hX.1
        have h2 := hY.1
        norm_num at h1 h2 hE0q ⊢
        linarith
      have : t * 50 / r < ((round53 t r).mulNat 50).floor + 2 := by exact_mod_cast hlt
      omega

set_option maxRecDepth 100000 in
theorem timeBonusOf_exact_30 :
    ∀ t < 31, timeBonusOf (t : Nat) 30 = ((t * 50 / 30 : Nat) : Int) := by
  decide

set_option maxRecDepth 100000 in
theorem timeBonusOf_exact_60 :
    ∀ t < 61, timeBonusOf (t : Nat) 60 = ((t * 50 / 60 : Nat) : Int) := by
  decide

set_option maxRecDepth 100000 in
theorem timeBonusOf_exact_90 :
    ∀ t < 91, timeBonusOf (t : Nat) 90 = ((t * 50 / 90 : Nat) : Int) := by
  decide

set_option maxRecDepth 100000 in
theorem timeBonusOf_exact_120 :
    ∀ t < 121, timeBonusOf (t : Nat) 120 = ((t * 50 / 120 : Nat) : Int) := by
  decide

/-- For the four turn lengths the lobby offers, the binary64 time bonus is the
exact `floor(timeLeft / roundTime * 50)`. -/
theorem timeBonusOf_exact_offered (timeLeft : Int) (roundTime : Nat)
    (hr : roundTime ∈ [30, 60, 90, 120]) (h0 : 0 ≤ timeLeft) (h1 : timeLeft ≤ roundTime) :
    timeBonusOf timeLeft roundTime = specTimeBonus timeLeft roundTime := by
  obtain ⟨t, rfl⟩ := Int.eq_ofNat_of_zero_le h0
  have ht : t ≤ roundTime := by exact_mod_cast h1
  rw [specTimeBonus_eq_div]
  simp only [List.mem_cons, List.mem_singleton, List.not_mem_nil, or_false] at hr
  rcases hr with rfl | rfl | rfl | rfl
  · exact timeBonusOf_exact_30 t (by omega)
  · exact timeBonusOf_exact_60 t (by omega)
  · exact timeBonusOf_exact_90 t (by omega)
  · exact timeBonusOf_exact_120 t (by omega)

/-- C2, as stated, fails: 58 seconds before the end of a 100-second turn the
first correct guesser gets 158 points, while the formula in exact arithmetic
gives 159.  The quotient `58 / 100` is the binary64 number
`5224175567749775 * 2 ^ -53` (bits `0x3FE28F5C28F5C28F`), its product with 50
rounds to `8162774324609023 * 2 ^ -48` (bits `0x403CFFFFFFFFFFFF`, printed as
`28.999999999999996`), and the floor of that is 28. -/
theorem guess_points_counterexample :
    (runningGame 100 42).status = .playing ∧
    (runningGame 100 42).currentWord = some "car" ∧
    (runningGame 100 42).currentDrawerId = some "p0" ∧
    (runningGame 100 42).correctGuessers = [] ∧
    (runningGame 100 42).settings.roundTime = 100 ∧
    (runningGame 100 42).timeLeft = 58 ∧
    round53 58 100 = ⟨5224175567749775, -53⟩ ∧
    (round53 58 100).mulNat 50 = ⟨8162774324609023, -48⟩ ∧
    ((runningGame 100 42).submitGuess "p1" "p1" "car" 0).map Prod.fst = some (.correct 158) ∧
    (100 : Int) + specTimeBonus 58 100 + max 0 (30 - 10 * 0) = 159 := by
  refine ⟨by decide, by decide, by decide, by decide, by decide, by decide, by decide,
    by decide, by decide, ?_⟩
  rw [show (58 : Int) = ((58 : Nat) : Int) from rfl, specTimeBonus_eq_div]
  decide

/-- C2 (amended): a correct guess by a non-drawer who has not yet guessed returns
`100 + B + max(0, 30 - 10 * n)` points, `n` being the number of earlier correct
guessers and `B` the floor of `(timeLeft / roundTime) * 50` as computed in
binary64; `B` is the exact `floor(timeLeft / roundTime * 50)` or one less, for
the turn lengths 30, 60, 90 and 120 it is the exact value, and at
`roundTime = timeLeft = 60` the first guesser gets 180 and the second 170. -/
theorem submitGuess_points (g : GameRoom) (socketId playerName guess w : String) (now : Nat)
    (hd : some socketId ≠ g.currentDrawerId) (hg : socketId ∉ g.correctGuessers)
    (hw : g.currentWord = some w)
    (heq : trim (toLowerCase guess) = trim (toLowerCase w))
    (hr : 0 < g.settings.roundTime) (h0 : 0 ≤ g.timeLeft)
    (h1 : g.timeLeft ≤ g.settings.roundTime) :
    (g.submitGuess socketId playerName guess now).map Prod.fst =
      some (.correct (100 + timeBonusOf g.timeLeft g.settings.roundTime +
        max 0 (30 - 10 * (g.correctGuessers.length : Int)))) ∧
    (g.settings.roundTime ≤ 2 ^ 45 →
      specTimeBonus g.timeLeft g.settings.roundTime - 1 ≤
        timeBonusOf g.timeLeft g.settings.roundTime ∧
      timeBonusOf g.timeLeft g.settings.roundTime ≤
        specTimeBonus g.timeLeft g.settings.roundTime) ∧
    (g.settings.roundTime ∈ [30, 60, 90, 120] →
      (g.submitGuess socketId playerName guess now).map Prod.fst =
        some (.correct (100 + specTimeBonus g.timeLeft g.settings.roundTime +
          max 0 (30 - 10 * (g.correctGuessers.length : Int))))) ∧
    (g.settings.roundTime = 60 → g.timeLeft = 60 →
      (g.correctGuessers.length = 0 →
        (g.submitGuess socketId playerName guess now).map Prod.fst = some (.correct 180)) ∧
      (g.correctGuessers.length = 1 →
        (g.submitGuess socketId playerName guess now).map Prod.fst = some (.correct 170))) := by
  have hmain := submitGuess_correct_eq g socketId playerName guess w now _ _ hd hg hw heq rfl rfl
  have hres : (g.submitGuess socketId playerName guess now).map Prod.fst =
      some (.correct (100 + timeBonusOf g.timeLeft g.settings.roundTime +
        max 0 (30 - 10 * (g.correctGuessers.length : Int)))) := by
    rw [hmain, Option.map_some', mul_comm]
  refine ⟨hres, ?_, ?_, ?_⟩
  · intro hbig
    obtain ⟨t, ht⟩ := Int.eq_ofNat_of_zero_le h0
    rw [ht] at h1 ⊢
    have hle : t ≤ g.settings.roundTime := by exact_mod_cast h1
    obtain ⟨b1, b2⟩ := timeBonusOf_near t g.settings.roundTime hr hle hbig
    rw [specTimeBonus_eq_div]
    constructor <;> omega
  · intro hmem
    rw [hres, timeBonusOf_exact_offered _ _ hmem h0 h1]
  · intro h60 ht
    have hb : timeBonusOf g.timeLeft g.settings.roundTime = 50 := by
      rw [h60, ht]; decide
    refine ⟨fun hn => ?_, fun hn => ?_⟩
    · rw [hres, hb, hn]; rfl
    · rw [hres, hb, hn]; rfl

/-- C2 (amended) at a concrete input: at the start of a 60-second turn the
first guess is worth 180 points. -/
theorem submitGuess_points_witness :
    ((runningGame 60 0).submitGuess "p1" "p1" "Car " 0).map Prod.fst = some (.correct 180) :=
  ((submitGuess_points (runningGame 60 0) "p1" "p1" "Car " "car" 0 (by decide) (by decide)
    (by decide) (by decide) (by decide) (by decide) (by decide)).2.2.2 (by decide) (by decide)).1
      (by decide)


/-- C3: a correct guess by `socketId` (not the drawer `d`, not yet among the
correct guessers) adds the returned points to the guesser's score, adds 25 to
the drawer's score when it is the first correct guess of the turn and 10
otherwise, leaves every other score entry as it was, and appends the guesser
to `correctGuessers`. -/
theorem submitGuess_ledger (g : GameRoom) (socketId playerName guess w d : String) (now : Nat)
    (hdr : g.currentDrawerId = some d) (hd : socketId ≠ d)
    (hg : socketId ∉ g.correctGuessers) (hw : g.currentWord = some w)
    (heq : trim (toLowerCase guess) = trim (toLowerCase w)) :
    ∃ points g1, g.submitGuess socketId playerName guess now = some (.correct points, g1) ∧
      scoreOf g1.scores socketId = scoreOf g.scores socketId + points ∧
      scoreOf g1.scores d =
        scoreOf g.scores d + (if g.correctGuessers = [] then 25 else 10) ∧
      (∀ other, other ≠ socketId → other ≠ d → mapGet g1.scores other = mapGet g.scores other) ∧
      g1.correctGuessers = g.correctGuessers ++ [socketId] := by
  have hd1 : some socketId ≠ g.currentDrawerId := by
    rw [hdr]; exact fun h => hd (Option.some.inj h)
  refine ⟨_, _, submitGuess_correct_eq g socketId playerName guess w now _ _ hd1 hg hw heq rfl rfl,
    ?_, ?_, ?_, rfl⟩
  · simp only [hdr, propKey]
    rw [scoreOf_mapSet_ne _ _ _ _ hd, scoreOf_mapSet_same]
  · simp only [hdr, propKey]
    rw [scoreOf_mapSet_same, scoreOf_mapSet_ne _ _ _ _ (Ne.symm hd)]
    cases hc : g.correctGuessers with
    | nil => simp
    | cons a rest => simp
  · intro other ho hod
    simp only [hdr, propKey]
    rw [mapGet_mapSet_ne _ _ _ _ hod, mapGet_mapSet_ne _ _ _ _ ho]

/-- C3 at a concrete input: `p1` guesses the word `car` drawn by `p0`. -/
theorem submitGuess_ledger_witness :
    ∃ points g1, (runningGame 60 0).submitGuess "p1" "p1" "car" 0 = some (.correct points, g1) ∧
      scoreOf g1.scores "p1" = scoreOf (runningGame 60 0).scores "p1" + points ∧
      scoreOf g1.scores "p0" =
        scoreOf (runningGame 60 0).scores "p0" +
          (if (runningGame 60 0).correctGuessers = [] then 25 else 10) ∧
      (∀ other, other ≠ "p1" → other ≠ "p0" →
        mapGet g1.scores other = mapGet (runningGame 60 0).scores other) ∧
      g1.correctGuessers = (runningGame 60 0).correctGuessers ++ ["p1"] :=
  submitGuess_ledger (runningGame 60 0) "p1" "p1" "car" "car" "p0" 0 (by decide) (by decide)
    (by decide) (by decide) (by decide)


/-- C4: a guess of the current drawer returns `{correct: false, isDrawer: true}`
and a guess of a player already among the correct guessers returns
`{correct: false, alreadyGuessed: true}`; in both cases the game is returned
unchanged in every field, whatever the guess text. -/
theorem submitGuess_rejected (g : GameRoom) (socketId playerName guess : String) (now : Nat) :
    (some socketId = g.currentDrawerId →
      g.submitGuess socketId playerName guess now = some (.isDrawer, g)) ∧
    (socketId ∈ g.correctGuessers → some socketId ≠ g.currentDrawerId →
      g.submitGuess socketId playerName guess now = some (.alreadyGuessed, g)) ∧
    GuessResult.isDrawer.isCorrect = false ∧ GuessResult.alreadyGuessed.isCorrect = false := by
  refine ⟨fun h => ?_, fun hg hd => ?_, rfl, rfl⟩
  · simp only [GameRoom.submitGuess, if_pos h]
  · simp only [GameRoom.submitGuess, if_neg hd, if_pos hg]

/-- C4 at concrete inputs: the drawer `p0` guesses its own word, and `p1`
guesses it a second time. -/
theorem submitGuess_rejected_witness :
    (runningGame 60 0).submitGuess "p0" "p0" "car" 0 = some (.isDrawer, runningGame 60 0) ∧
    (afterGuess (runningGame 60 0) "p1" "car").submitGuess "p1" "p1" "car" 0 =
      some (.alreadyGuessed, afterGuess (runningGame 60 0) "p1" "car") :=
  ⟨(submitGuess_rejected (runningGame 60 0) "p0" "p0" "car" 0).1 (by decide),
   (submitGuess_rejected (afterGuess (runningGame 60 0) "p1" "car") "p1" "p1" "car" 0).2.1
     (by decide) (by decide)⟩

theorem lowerFrom_plain (l : List Char) : ∀ before : List Char,
    (∀ c ∈ l, c.toNat ≠ 0x3A3) → lowerFrom before l = (l.map lowerChar).flatten := by
  induction l with
  | nil => intro _ _; rfl
  | cons c rest ih =>
    intro before h
    have hc : c.toNat ≠ 0x3A3 := h c (List.mem_cons_self _ _)
    have hrest := ih (c :: before) (fun x hx => h x (List.mem_cons_of_mem _ hx))
    simp only [lowerFrom, hrest, List.map_cons, List.flatten_cons]
    simp [hc]

theorem lowerChar_ascii (c : Char) (h : c.toNat < 128) : lowerChar c = [c.toLower] := by
  simp [lowerChar, h]

theorem isTrimChar_cases (c : Char) (h : isTrimChar c = true) :
    c.toNat ∈ [0x09, 0x0A, 0x0B, 0x0C, 0x0D, 0x20, 0xA0, 0x1680, 0x2000, 0x2001, 0x2002, 0x2003,
      0x2004, 0x2005, 0x2006, 0x2007, 0x2008, 0x2009, 0x200A, 0x2028, 0x2029, 0x202F, 0x205F,
      0x3000, 0xFEFF] := by
  simp only [isTrimChar, Bool.or_eq_true, decide_eq_true_eq, Bool.and_eq_true] at h
  simp only [List.mem_cons, List.mem_singleton, List.mem_nil_iff, or_false]
  omega

set_option maxRecDepth 100000 in
theorem lowerChar_trimChar (c : Char) (h : isTrimChar c = true) : lowerChar c = [c] := by
  have hc : c = Char.ofNat c.toNat := (Char.ofNat_toNat c).symm
  have hm := isTrimChar_cases c h
  generalize c.toNat = n at hc hm
  subst hc
  simp only [List.mem_cons, List.mem_singleton, List.mem_nil_iff, or_false] at hm
  rcases hm with h | h | h | h | h | h | h | h | h | h | h | h | h | h | h | h | h | h | h | h |
    h | h | h | h | h <;> subst h <;> decide

theorem dropWhile_append_all {α : Type} (p : α → Bool) (pre l : List α)
    (h : ∀ c ∈ pre, p c = true) : (pre ++ l).dropWhile p = l.dropWhile p := by
  induction pre with
  | nil => rfl
  | cons a rest ih =>
    have ha : p a = true := h a (List.mem_cons_self _ _)
    simp only [List.cons_append, List.dropWhile_cons, ha, if_true]
    exact ih (fun c hc => h c (List.mem_cons_of_mem _ hc))

theorem dropWhile_append_keep {α : Type} (p : α → Bool) (l post : List α)
    (h : l.dropWhile p ≠ []) : (l ++ post).dropWhile p = l.dropWhile p ++ post := by
  induction l with
  | nil => exact absurd rfl h
  | cons a rest ih =>
    by_cases ha : p a = true
    · simp only [List.cons_append, List.dropWhile_cons, ha, if_true] at h ⊢
      exact ih h
    · simp only [List.cons_append, List.dropWhile_cons, ha, if_false, Bool.false_eq_true]

theorem dropWhile_all {α : Type} (p : α → Bool) (l : List α)
    (h : ∀ c ∈ l, p c = true) : l.dropWhile p = [] := by
  have := dropWhile_append_all p l [] h
  simpa using this

theorem all_of_dropWhile_nil {α : Type} (p : α → Bool) (l : List α)
    (h : l.dropWhile p = []) : ∀ c ∈ l, p c = true := by
  induction l with
  | nil => intro c hc; cases hc
  | cons a rest ih =>
    by_cases ha : p a = true
    · simp only [List.dropWhile_cons, ha, if_true] at h
      intro c hc
      rcases List.mem_cons.1 hc with rfl | hc
      · exact ha
      · exact ih h c hc
    · simp [List.dropWhile_cons, ha] at h

/-- White space around a string does not change what `trim` returns. -/
theorem trim_wrapped (pre core post : List Char) (hpre : ∀ c ∈ pre, isTrimChar c = true)
    (hpost : ∀ c ∈ post, isTrimChar c = true) :
    trim (String.mk (pre ++ core ++ post)) = trim (String.mk core) := by
  unfold trim
  congr 2
  simp only [List.append_assoc]
  rw [dropWhile_append_all isTrimChar pre _ hpre]
  by_cases hk : core.dropWhile isTrimChar = []
  · have hall := all_of_dropWhile_nil _ _ hk
    rw [hk, dropWhile_all isTrimChar (core ++ post)]
    intro c hc
    rcases List.mem_append.1 hc with hc | hc
    · exact hall c hc
    · exact hpost c hc
  · rw [dropWhile_append_keep _ _ _ hk, List.reverse_append]
    exact dropWhile_append_all isTrimChar post.reverse _
      (fun c hc => hpost c (List.mem_reverse.1 hc))

/-- Lower-casing a string of ASCII characters wrapped in white space lower-cases
the ASCII letters and keeps the rest. -/
theorem toLowerCase_wrapped (pre core post : List Char) (hpre : ∀ c ∈ pre, isTrimChar c = true)
    (hpost : ∀ c ∈ post, isTrimChar c = true) (hcore : ∀ c ∈ core, c.toNat < 128) :
    toLowerCase (String.mk (pre ++ core ++ post)) =
      String.mk (pre ++ core.map Char.toLower ++ post) := by
  have hplain : ∀ l : List Char, (∀ c ∈ l, isTrimChar c = true) →
      (l.map lowerChar).flatten = l := by
    intro l hl
    induction l with
    | nil => rfl
    | cons a rest ih =>
      simp only [List.map_cons, List.flatten_cons,
        lowerChar_trimChar a (hl a (List.mem_cons_self _ _)),
        ih (fun c hc => hl c (List.mem_cons_of_mem _ hc))]
      rfl
  have hascii : ∀ l : List Char, (∀ c ∈ l, c.toNat < 128) →
      (l.map lowerChar).flatten = l.map Char.toLower := by
    intro l hl
    induction l with
    | nil => rfl
    | cons a rest ih =>
      simp only [List.map_cons, List.flatten_cons,
        lowerChar_ascii a (hl a (List.mem_cons_self _ _)),
        ih (fun c hc => hl c (List.mem_cons_of_mem _ hc))]
      rfl
  have hsig : ∀ c ∈ pre ++ core ++ post, c.toNat ≠ 0x3A3 := by
    intro c hc
    rcases List.mem_append.1 hc with hc | hc
    · rcases List.mem_append.1 hc with hc | hc
      · have := isTrimChar_cases c (hpre c hc)
        simp only [List.mem_cons, List.mem_singleton, List.mem_nil_iff, or_false] at this
        omega
      · have := hcore c hc
        omega
    · have := isTrimChar_cases c (hpost c hc)
      simp only [List.mem_cons, List.mem_singleton, List.mem_nil_iff, or_false] at this
      omega
  unfold toLowerCase
  rw [lowerFrom_plain _ _ hsig]
  simp only [List.map_append, List.flatten_append, hplain pre hpre, hplain post hpost,
    hascii core hcore]

/-- C5: an accepted guess (the caller is neither the drawer nor among the
correct guessers) is correct exactly when the guess and the word agree after
lower-casing and trimming, so a guess that is the word in another ASCII letter
case with white space around it is correct; it appends one message, of type
`correct` with the celebratory text when correct and of type `chat` with the
guess text otherwise; an incorrect guess changes nothing else, so no score and
not `correctGuessers`. -/
theorem submitGuess_accepted (g : GameRoom) (socketId playerName guess w : String) (now : Nat)
    (hd : some socketId ≠ g.currentDrawerId) (hg : socketId ∉ g.correctGuessers)
    (hw : g.currentWord = some w) :
    ∃ res g1, g.submitGuess socketId playerName guess now = some (res, g1) ∧
      (res.isCorrect = true ↔ trim (toLowerCase guess) = trim (toLowerCase w)) ∧
      (∀ pre core post : List Char,
        (∀ c ∈ pre, isTrimChar c = true) → (∀ c ∈ post, isTrimChar c = true) →
        (∀ c ∈ core, c.toNat < 128) → (∀ c ∈ w.data, c.toNat < 128) →
        core.map Char.toLower = w.data.map Char.toLower →
        guess = String.mk (pre ++ core ++ post) → res.isCorrect = true) ∧
      (res.isCorrect = true →
        g1.messages = g.messages ++ [⟨now, socketId, playerName, celebration, .correct, now⟩]) ∧
      (res.isCorrect = false →
        res = .incorrect ∧
        g1 = { g with messages := g.messages ++ [⟨now, socketId, playerName, guess, .chat, now⟩] } ∧
        g1.scores = g.scores ∧ g1.correctGuessers = g.correctGuessers) := by
  have hfold : ∀ pre core post : List Char,
      (∀ c ∈ pre, isTrimChar c = true) → (∀ c ∈ post, isTrimChar c = true) →
      (∀ c ∈ core, c.toNat < 128) → (∀ c ∈ w.data, c.toNat < 128) →
      core.map Char.toLower = w.data.map Char.toLower →
      guess = String.mk (pre ++ core ++ post) →
      trim (toLowerCase guess) = trim (toLowerCase w) := by
    intro pre core post hpre hpost hcore hword hsame hguess
    have h1 := toLowerCase_wrapped pre core post hpre hpost hcore
    have h2 := toLowerCase_wrapped [] w.data [] (fun _ h => nomatch h) (fun _ h => nomatch h) hword
    simp only [List.nil_append, List.append_nil] at h2
    have h3 : toLowerCase w = String.mk (w.data.map Char.toLower) := h2
    rw [hguess, h1, h3, trim_wrapped pre _ post hpre hpost, hsame]
  by_cases heq : trim (toLowerCase guess) = trim (toLowerCase w)
  · refine ⟨_, _,
      submitGuess_correct_eq g socketId playerName guess w now _ _ hd hg hw heq rfl rfl,
      ?_, ?_, ?_, ?_⟩
    · simp [GuessResult.isCorrect, heq]
    · intro _ _ _ _ _ _ _ _ _; rfl
    · intro _; rfl
    · intro h; simp [GuessResult.isCorrect] at h
  · refine ⟨.incorrect,
      { g with messages := g.messages ++ [⟨now, socketId, playerName, guess, .chat, now⟩] },
      ?_, ?_, ?_, ?_, ?_⟩
    · simp [GameRoom.submitGuess, if_neg hd, if_neg hg, hw, heq]
    · simp [GuessResult.isCorrect, heq]
    · intro pre core post hpre hpost hcore hword hsame hguess
      exact absurd (hfold pre core post hpre hpost hcore hword hsame hguess) heq
    · intro h; simp [GuessResult.isCorrect] at h
    · intro _; exact ⟨rfl, rfl, rfl, rfl⟩

set_option maxRecDepth 100000 in
/-- C5 at concrete inputs, the word being `key`: the guess of `p1` written with
the Kelvin sign U+212A, capitals and white space around it is correct and
appends the celebratory message; the guess `Kay` is incorrect and appends a
chat message with its text, the scores and `correctGuessers` staying as they
were. -/
theorem submitGuess_accepted_witness :
    (∃ res g1, keyDuel.submitGuess "p1" "Bob" " \u212AEY\t" 5 = some (res, g1) ∧
      res.isCorrect = true ∧
      g1.messages = keyDuel.messages ++ [⟨5, "p1", "Bob", celebration, .correct, 5⟩]) ∧
    (∃ res g1, keyDuel.submitGuess "p1" "Bob" " KeY\n" 5 = some (res, g1) ∧
      res.isCorrect = true) ∧
    (∃ res g1, keyDuel.submitGuess "p1" "Bob" "Kay" 5 = some (res, g1) ∧
      res = .incorrect ∧
      g1 = { keyDuel with
        messages := keyDuel.messages ++ [⟨5, "p1", "Bob", "Kay", .chat, 5⟩] } ∧
      g1.scores = keyDuel.scores ∧ g1.correctGuessers = keyDuel.correctGuessers) :=
  ⟨(submitGuess_accepted keyDuel "p1" "Bob" " \u212AEY\t" "key" 5 (by decide) (by decide)
      (by decide)).elim fun res h => h.elim fun g1 h =>
      ⟨res, g1, h.1, h.2.1.mpr (by decide), h.2.2.2.1 (h.2.1.mpr (by decide))⟩,
   (submitGuess_accepted keyDuel "p1" "Bob" " KeY\n" "key" 5 (by decide) (by decide)
      (by decide)).elim fun res h => h.elim fun g1 h =>
      ⟨res, g1, h.1, h.2.2.1 [' '] ['K', 'e', 'Y'] ['\n'] (by decide) (by decide) (by decide)
        (by decide) (by decide) (by decide)⟩,
   (submitGuess_accepted keyDuel "p1" "Bob" "Kay" "key" 5 (by decide) (by decide)
      (by decide)).elim fun res h => h.elim fun g1 h =>
      have hres : res.isCorrect = false :=
        Bool.eq_false_iff.mpr fun hc => absurd (h.2.1.mp hc) (by decide)
      ⟨res, g1, h.1, h.2.2.2.2 hres⟩⟩


theorem getRandomWord_frame (g g1 : GameRoom) (rnd : Nat) (w : Option String)
    (h : g.getRandomWord rnd = some (w, g1)) :
    ∃ used, g1 = { g with usedWords := used } := by
  unfold GameRoom.getRandomWord at h
  split at h
  · simp at h
  · simp only at h
    split at h
    · simp only [Option.some.injEq, Prod.mk.injEq] at h
      exact ⟨[], h.2.symm⟩
    · split at h
      · simp only [Option.some.injEq, Prod.mk.injEq] at h
        exact ⟨_, h.2.symm⟩
      · simp at h

theorem startNewTurn_fields (g g1 : GameRoom) (rnd : Nat) (info : TurnInfo)
    (h : g.startNewTurn rnd = some (info, g1)) :
    ∃ drawer, g.getPlayersList[g.currentTurn % g.getPlayersList.length]? = some drawer ∧
      g1.currentDrawerId = some drawer.id ∧ info.drawerId = drawer.id ∧
      g1.currentWord = some info.word ∧ g1.wordHint = hintOf info.word ∧
      g1.timeLeft = g.settings.roundTime ∧ g1.correctGuessers = [] ∧ g1.drawHistory = [] ∧
      g1.status = g.status ∧ g1.currentRound = g.currentRound ∧
      g1.currentTurn = g.currentTurn ∧ g1.players = g.players ∧ g1.settings = g.settings ∧
      g1.scores = g.scores ∧ g1.hostId = g.hostId ∧ g1.code = g.code ∧
      g1.messages = g.messages ∧ g1.timerInterval = g.timerInterval := by
  unfold GameRoom.startNewTurn at h
  simp only at h
  split at h
  · simp at h
  · rename_i drawer hdrawer
    split at h
    · simp at h
    · simp at h
    · rename_i word g2 hword
      obtain ⟨used, rfl⟩ := getRandomWord_frame _ _ _ _ hword
      simp only [Option.some.injEq, Prod.mk.injEq] at h
      obtain ⟨rfl, rfl⟩ := h
      exact ⟨drawer, hdrawer, rfl, rfl, rfl, rfl, rfl, rfl, rfl, rfl, rfl, rfl, rfl, rfl, rfl,
        rfl, rfl, rfl, rfl⟩

theorem startGame_fields (g g0 : GameRoom) (rnd : Nat) (h : g.startGame rnd = some g0) :
    g0.status = .playing ∧ g0.currentRound = 1 ∧ g0.currentTurn = 0 ∧
      g0.players = g.players ∧ g0.settings = g.settings ∧ g0.correctGuessers = [] ∧
      g0.scores = GameRoom.zeroScores g.players ∧ g0.code = g.code ∧
      (∃ w, g0.currentWord = some w) ∧
      g0.currentDrawerId = (g.getPlayersList.head?).map fun p => p.id := by
  unfold GameRoom.startGame at h
  simp only [Option.map_eq_some', Prod.exists, exists_eq_right] at h
  obtain ⟨info, h⟩ := h
  obtain ⟨drawer, hdr, h1, -, h3, -, -, h6, -, h8, h9, h10, h11, h12, h13, -, h15, -, -⟩ :=
    startNewTurn_fields _ _ _ _ h
  refine ⟨h8, h9, h10, h11, h12, h6, h13, h15, ⟨_, h3⟩, ?_⟩
  rw [h1]
  simp only [GameRoom.getPlayersList, Nat.zero_mod] at hdr
  simp only [GameRoom.getPlayersList]
  cases hl : mapValues g.players with
  | nil => rw [hl] at hdr; simp at hdr
  | cons a rest => rw [hl] at hdr; simp at hdr; simp [hdr]


theorem round_complete_iff (n j : Nat) (hn : 0 < n) :
    n * (j / n + 1) ≤ j + 1 ↔ n ∣ j + 1 := by
  have hdm := Nat.div_add_mod j n
  have hlt := Nat.mod_lt j hn
  constructor
  · intro h
    refine ⟨j / n + 1, ?_⟩
    rw [Nat.mul_add, Nat.mul_one] at h ⊢
    omega
  · rintro ⟨c, hc⟩
    have hjc : j / n < c := Nat.div_lt_of_lt_mul (by omega)
    calc n * (j / n + 1) ≤ n * c := Nat.mul_le_mul_left n hjc
      _ = j + 1 := hc.symm

/-- One call of `endTurn` in the state reached after `j` turns of a match with
`n` players and `R` rounds. -/
theorem endTurn_step (s : GameRoom) (n R j : Nat) (hn : 0 < n)
    (hlen : s.getPlayersList.length = n) (hR : s.settings.totalRounds = R)
    (hturn : s.currentTurn = j) (hround : s.currentRound = j / n + 1) (hj : j + 1 ≤ n * R) :
    s.endTurn.2.currentTurn = j + 1 ∧ s.endTurn.2.players = s.players ∧
    s.endTurn.2.settings = s.settings ∧
    (n ∣ j + 1 → j + 1 = n * R → s.endTurn.1 = .gameEnd ∧ s.endTurn.2.status = .gameEnd) ∧
    (n ∣ j + 1 → j + 1 < n * R →
      s.endTurn.1 = .roundEnd ∧ s.endTurn.2.status = .roundEnd ∧
      s.endTurn.2.currentRound = s.currentRound + 1) ∧
    (¬ n ∣ j + 1 →
      s.endTurn.1 = .nextTurn ∧ s.endTurn.2.status = s.status ∧
      s.endTurn.2.currentRound = s.currentRound) := by
  have hcond : (s.currentTurn + 1 ≥ s.getPlayersList.length * s.currentRound) ↔ n ∣ j + 1 := by
    rw [hlen, hturn, hround]
    exact round_complete_iff n j hn
  have hsucc := Nat.succ_div j n
  have hunf : s.endTurn =
      if s.currentTurn + 1 ≥ s.getPlayersList.length * s.currentRound then
        if s.currentRound ≥ s.settings.totalRounds then
          (.gameEnd, { s with currentTurn := s.currentTurn + 1, status := .gameEnd })
        else
          (.roundEnd, { s with currentTurn := s.currentTurn + 1,
                               currentRound := s.currentRound + 1, status := .roundEnd })
      else (.nextTurn, { s with currentTurn := s.currentTurn + 1 }) := rfl
  by_cases hdvd : n ∣ j + 1
  · have hq : (j + 1) / n = j / n + 1 := by rw [hsucc, if_pos hdvd]
    have hmul : n * ((j + 1) / n) = j + 1 := Nat.mul_div_cancel' hdvd
    by_cases hend : j + 1 = n * R
    · have hge : s.currentRound ≥ s.settings.totalRounds := by
        rw [hround, hR, ← hq]
        have : n * R = n * ((j + 1) / n) := by rw [hmul, hend]
        exact Nat.le_of_eq (Nat.eq_of_mul_eq_mul_left hn this)
      rw [hunf, if_pos (hcond.mpr hdvd), if_pos hge]
      refine ⟨by simp [hturn], rfl, rfl, fun _ _ => ⟨rfl, rfl⟩, fun _ hlt => ?_, fun h => ?_⟩
      · omega
      · exact absurd hdvd h
    · have hlt : j + 1 < n * R := by omega
      have hnge : ¬ s.currentRound ≥ s.settings.totalRounds := by
        rw [hround, hR, ← hq]
        intro hge
        have : n * R ≤ n * ((j + 1) / n) := Nat.mul_le_mul_left n hge
        omega
      rw [hunf, if_pos (hcond.mpr hdvd), if_neg hnge]
      refine ⟨by simp [hturn], rfl, rfl, fun _ h => absurd h hend, fun _ _ => ⟨rfl, rfl, rfl⟩,
        fun h => absurd hdvd h⟩
  · rw [hunf, if_neg (fun h => hdvd (hcond.mp h))]
    refine ⟨by simp [hturn], rfl, rfl, fun h => absurd h hdvd, fun h => absurd h hdvd,
      fun _ => ⟨rfl, rfl, rfl⟩⟩

theorem turnStart_keepsRoster (rnd : Nat) : KeepsRoster (turnStart rnd) := by
  intro s
  unfold turnStart
  cases h : GameRoom.startNewTurn { s with status := .playing } rnd with
  | none => exact ⟨rfl, rfl, rfl, rfl⟩
  | some r =>
    obtain ⟨info, g1⟩ := r
    obtain ⟨-, -, -, -, -, -, -, -, -, -, h10, h11, h12, h13, -⟩ :=
      startNewTurn_fields _ _ _ _ h
    exact ⟨h12, h13, h11, h10⟩

/-- The counters before the `(j + 1)`-th call of `endTurn`, as long as the match
is not over. -/
theorem endTurns_counters (between : Nat → GameRoom → GameRoom) (g0 : GameRoom) (n R : Nat)
    (hbetween : ∀ j, KeepsRoster (between j)) (hn : 0 < n)
    (hlen : g0.getPlayersList.length = n) (hR : g0.settings.totalRounds = R)
    (hturn : g0.currentTurn = 0) (hround : g0.currentRound = 1) :
    ∀ j, j < n * R →
      (endTurns between j g0).currentTurn = j ∧
      (endTurns between j g0).currentRound = j / n + 1 ∧
      (endTurns between j g0).players = g0.players ∧
      (endTurns between j g0).settings = g0.settings := by
  intro j
  induction j with
  | zero =>
    intro _
    obtain ⟨b1, b2, b3, b4⟩ := hbetween 0 g0
    refine ⟨b3.trans hturn, ?_, b1, b2⟩
    show (between 0 g0).currentRound = 0 / n + 1
    rw [b4, hround, Nat.zero_div]
  | succ j ih =>
    intro hj
    obtain ⟨h1, h2, h3, h4⟩ := ih (by omega)
    have hlen1 : (endTurns between j g0).getPlayersList.length = n := by
      rw [GameRoom.getPlayersList, h3]; exact hlen
    have hR1 : (endTurns between j g0).settings.totalRounds = R := by rw [h4]; exact hR
    obtain ⟨s1, s2, s3, -, s5, s6⟩ :=
      endTurn_step (endTurns between j g0) n R j hn hlen1 hR1 h1 h2 (by omega)
    obtain ⟨b1, b2, b3, b4⟩ := hbetween (j + 1) (endTurns between j g0).endTurn.2
    refine ⟨b3.trans s1, ?_, b1.trans (s2.trans h3), b2.trans (s3.trans h4)⟩
    show (between (j + 1) (endTurns between j g0).endTurn.2).currentRound = (j + 1) / n + 1
    rw [b4, Nat.succ_div]
    by_cases hdvd : n ∣ j + 1
    · rw [if_pos hdvd, (s5 hdvd hj).2.2, h2]
    · rw [if_neg hdvd, (s6 hdvd).2.2, h2]

/-- C6: in a match started by `startGame` with `n >= 1` players and `R >= 1`
rounds, whatever roster-keeping events `between` happen before and between the
calls, the `(j + 1)`-th call of `endTurn` sets `currentTurn` to `j + 1`; it
returns `gameEnd` (and sets that status) exactly when `j + 1 = n * R`, returns
`roundEnd` (setting that status and adding one to `currentRound`) exactly when
`n` divides `j + 1 < n * R`, and returns `nextTurn` (status and `currentRound`
unchanged) otherwise; with two players and three rounds the six results are
nextTurn, roundEnd, nextTurn, roundEnd, nextTurn, gameEnd. -/
theorem endTurn_round_arithmetic (between : Nat → GameRoom → GameRoom) (g g0 : GameRoom)
    (rnd n R : Nat) (hbetween : ∀ j, KeepsRoster (between j))
    (hstart : g.startGame rnd = some g0)
    (hlen : g.getPlayersList.length = n) (hn : 1 ≤ n)
    (hR : g.settings.totalRounds = R) (hR1 : 1 ≤ R) :
    (∀ j, j + 1 ≤ n * R →
      (endTurns between j g0).endTurn.2.currentTurn = j + 1 ∧
      ((endTurns between j g0).endTurn.1 = .gameEnd ↔ j + 1 = n * R) ∧
      ((endTurns between j g0).endTurn.1 = .gameEnd →
        (endTurns between j g0).endTurn.2.status = .gameEnd) ∧
      ((endTurns between j g0).endTurn.1 = .roundEnd ↔ (n ∣ j + 1 ∧ j + 1 < n * R)) ∧
      ((endTurns between j g0).endTurn.1 = .roundEnd →
        (endTurns between j g0).endTurn.2.status = .roundEnd ∧
        (endTurns between j g0).endTurn.2.currentRound =
          (endTurns between j g0).currentRound + 1) ∧
      ((endTurns between j g0).endTurn.1 = .nextTurn ↔
        (¬ j + 1 = n * R ∧ ¬ (n ∣ j + 1 ∧ j + 1 < n * R))) ∧
      ((endTurns between j g0).endTurn.1 = .nextTurn →
        (endTurns between j g0).endTurn.2.status = (endTurns between j g0).status ∧
        (endTurns between j g0).endTurn.2.currentRound =
          (endTurns between j g0).currentRound)) ∧
    (n = 2 → R = 3 →
      (List.range 6).map (fun j => (endTurns between j g0).endTurn.1) =
        [.nextTurn, .roundEnd, .nextTurn, .roundEnd, .nextTurn, .gameEnd]) := by
  obtain ⟨-, f2, f3, f4, f5, -⟩ := startGame_fields g g0 rnd hstart
  have hlen0 : g0.getPlayersList.length = n := by
    rw [GameRoom.getPlayersList, f4]; exact hlen
  have hR0 : g0.settings.totalRounds = R := by rw [f5]; exact hR
  have hstep : ∀ j, j + 1 ≤ n * R →
      (endTurns between j g0).endTurn.2.currentTurn = j + 1 ∧
      (n ∣ j + 1 → j + 1 = n * R →
        (endTurns between j g0).endTurn.1 = .gameEnd ∧
        (endTurns between j g0).endTurn.2.status = .gameEnd) ∧
      (n ∣ j + 1 → j + 1 < n * R →
        (endTurns between j g0).endTurn.1 = .roundEnd ∧
        (endTurns between j g0).endTurn.2.status = .roundEnd ∧
        (endTurns between j g0).endTurn.2.currentRound =
          (endTurns between j g0).currentRound + 1) ∧
      (¬ n ∣ j + 1 →
        (endTurns between j g0).endTurn.1 = .nextTurn ∧
        (endTurns between j g0).endTurn.2.status = (endTurns between j g0).status ∧
        (endTurns between j g0).endTurn.2.currentRound =
          (endTurns between j g0).currentRound) := by
    intro j hj
    obtain ⟨h1, h2, h3, h4⟩ :=
      endTurns_counters between g0 n R hbetween hn hlen0 hR0 f3 f2 j (by omega)
    have hl : (endTurns between j g0).getPlayersList.length = n := by
      rw [GameRoom.getPlayersList, h3]; exact hlen0
    have hr : (endTurns between j g0).settings.totalRounds = R := by rw [h4]; exact hR0
    obtain ⟨s1, -, -, s4, s5, s6⟩ :=
      endTurn_step (endTurns between j g0) n R j hn hl hr h1 h2 hj
    exact ⟨s1, s4, s5, s6⟩
  refine ⟨fun j hj => ?_, fun h2 h3 => ?_⟩
  · obtain ⟨s1, s4, s5, s6⟩ := hstep j hj
    have hdvdend : j + 1 = n * R → n ∣ j + 1 := fun h => ⟨R, h⟩
    by_cases hdvd : n ∣ j + 1
    · by_cases hend : j + 1 = n * R
      · obtain ⟨r1, r2⟩ := s4 hdvd hend
        rw [r1]
        refine ⟨s1, by simp [hend], fun _ => r2, by simp [hend], by simp, by simp [hend], by simp⟩
      · have hlt : j + 1 < n * R := by omega
        obtain ⟨r1, r2, r3⟩ := s5 hdvd hlt
        rw [r1]
        refine ⟨s1, by simp [hend], by simp, by simp [hdvd, hlt], fun _ => ⟨r2, r3⟩,
          by simp [hdvd, hlt], by simp⟩
    · have hend : ¬ j + 1 = n * R := fun h => hdvd (hdvdend h)
      obtain ⟨r1, r2, r3⟩ := s6 hdvd
      rw [r1]
      refine ⟨s1, by simp [hend], by simp, by simp [hdvd], by simp, by simp [hend, hdvd],
        fun _ => ⟨r2, r3⟩⟩
  · subst h2 h3
    have e0 := ((hstep 0 (by omega)).2.2.2 (by decide)).1
    have e1 := ((hstep 1 (by omega)).2.2.1 (by decide) (by omega)).1
    have e2 := ((hstep 2 (by omega)).2.2.2 (by decide)).1
    have e3 := ((hstep 3 (by omega)).2.2.1 (by decide) (by omega)).1
    have e4 := ((hstep 4 (by omega)).2.2.2 (by decide)).1
    have e5 := ((hstep 5 (by omega)).2.1 (by decide) (by omega)).1
    simp only [List.range, List.range.loop, List.map_cons, List.map_nil, e0, e1, e2, e3, e4, e5]

/-- C6 at a concrete input: the two-player, three-round game started from the
lobby `duel 3`, with a new turn started after every call. -/
theorem endTurn_round_arithmetic_witness :
    (List.range 6).map
        (fun j => (endTurns (fun k => turnStart (k + 3)) j (startedDuel 3)).endTurn.1) =
      [.nextTurn, .roundEnd, .nextTurn, .roundEnd, .nextTurn, .gameEnd] :=
  (endTurn_round_arithmetic (fun k => turnStart (k + 3)) (duel 3) (startedDuel 3) 7 2 3
    (fun k => turnStart_keepsRoster (k + 3)) (by decide) (by decide) (by decide) (by decide)
    (by decide)).2 rfl rfl

theorem WORD_CATEGORIES_ne_nil (difficulty : String) (words : List String)
    (h : WORD_CATEGORIES difficulty = some words) : words ≠ [] := by
  unfold WORD_CATEGORIES at h
  split at h
  · cases h; simp
  · split at h
    · cases h; simp
    · split at h
      · cases h; simp
      · cases h

theorem getElem?_mod_isSome {α : Type} (xs : List α) (i : Nat) (h : xs ≠ []) :
    ∃ x, xs[i % xs.length]? = some x := by
  have hlt : i % xs.length < xs.length := Nat.mod_lt _ (List.length_pos.mpr h)
  exact ⟨xs[i % xs.length], List.getElem?_eq_getElem hlt⟩

theorem getRandomWord_total (g : GameRoom) (rnd : Nat)
    (htier : (WORD_CATEGORIES g.settings.difficulty).isSome) :
    ∃ word g2, g.getRandomWord rnd = some (some word, g2) := by
  obtain ⟨words, hwords⟩ := Option.isSome_iff_exists.mp htier
  have hne := WORD_CATEGORIES_ne_nil _ _ hwords
  unfold GameRoom.getRandomWord
  rw [hwords]
  simp only
  split
  · obtain ⟨x, hx⟩ := getElem?_mod_isSome words rnd hne
    exact ⟨x, _, by rw [hx]⟩
  · rename_i hav
    have hav2 : List.filter (fun w => !g.usedWords.contains w) words ≠ [] := by
      intro h; exact hav (by rw [h]; rfl)
    obtain ⟨x, hx⟩ := getElem?_mod_isSome _ rnd hav2
    exact ⟨x, _, by rw [hx]⟩

theorem drawerOfTurn_eq (g : GameRoom) (t rnd : Nat) (hn : g.getPlayersList ≠ [])
    (htier : (WORD_CATEGORIES g.settings.difficulty).isSome) :
    ∃ drawer, g.getPlayersList[t % g.getPlayersList.length]? = some drawer ∧
      drawerOfTurn g t rnd = some drawer.id := by
  obtain ⟨drawer, hdrawer⟩ := getElem?_mod_isSome g.getPlayersList t hn
  refine ⟨drawer, hdrawer, ?_⟩
  obtain ⟨word, g2, hword⟩ := getRandomWord_total
    { g with currentTurn := t, currentDrawerId := some drawer.id } rnd htier
  obtain ⟨used, rfl⟩ := getRandomWord_frame _ _ _ _ hword
  unfold drawerOfTurn GameRoom.startNewTurn
  have hd : (GameRoom.getPlayersList { g with currentTurn := t })[t %
      (GameRoom.getPlayersList { g with currentTurn := t }).length]? = some drawer := hdrawer
  simp only [hd, hword, Option.some_bind]


/-- C7: with the roster `ps` (in join order, not empty) and an existing word
tier, `startNewTurn` called with `currentTurn = t` returns and sets
`currentDrawerId` to the id of `ps[t mod n]`, whatever the random draw; the
drawer of turn `t + n` is the drawer of turn `t`; for three players the
drawers of turns 0..5 are p0, p1, p2, p0, p1, p2. -/
theorem startNewTurn_rotation (g : GameRoom) (ps : List Player)
    (hps : g.getPlayersList = ps) (hn : 1 ≤ ps.length)
    (htier : (WORD_CATEGORIES g.settings.difficulty).isSome) :
    (∀ t rnd, ∃ drawer, ps[t % ps.length]? = some drawer ∧
      drawerOfTurn g t rnd = some drawer.id) ∧
    (∀ t rnd rnd2, drawerOfTurn g t rnd = drawerOfTurn g t rnd2) ∧
    (∀ t rnd, drawerOfTurn g (t + ps.length) rnd = drawerOfTurn g t rnd) ∧
    (∀ p0 p1 p2 rnd, ps = [p0, p1, p2] →
      (List.range 6).map (fun t => drawerOfTurn g t rnd) =
        [some p0.id, some p1.id, some p2.id, some p0.id, some p1.id, some p2.id]) := by
  have hne : g.getPlayersList ≠ [] := by
    rw [hps]; intro h; rw [h] at hn; simp at hn
  have hmain : ∀ t rnd, ∃ drawer, ps[t % ps.length]? = some drawer ∧
      drawerOfTurn g t rnd = some drawer.id := by
    intro t rnd
    obtain ⟨drawer, h1, h2⟩ := drawerOfTurn_eq g t rnd hne htier
    rw [hps] at h1
    exact ⟨drawer, h1, h2⟩
  refine ⟨hmain, ?_, ?_, ?_⟩
  · intro t rnd rnd2
    obtain ⟨d1, h1, e1⟩ := hmain t rnd
    obtain ⟨d2, h2, e2⟩ := hmain t rnd2
    rw [h1] at h2
    cases h2
    rw [e1, e2]
  · intro t rnd
    obtain ⟨d1, h1, e1⟩ := hmain (t + ps.length) rnd
    obtain ⟨d2, h2, e2⟩ := hmain t rnd
    rw [Nat.add_mod_right, h2] at h1
    cases h1
    rw [e1, e2]
  · intro p0 p1 p2 rnd hps3
    subst hps3
    have key : ∀ t, ∀ p, [p0, p1, p2][t % 3]? = some p → drawerOfTurn g t rnd = some p.id := by
      intro t p hp
      obtain ⟨d, h1, e⟩ := hmain t rnd
      have h3 : [p0, p1, p2][t % 3]? = some d := h1
      rw [hp] at h3
      cases h3
      exact e
    simp only [List.range, List.range.loop, List.map_cons, List.map_nil,
      key 0 p0 rfl, key 1 p1 rfl, key 2 p2 rfl, key 3 p0 rfl, key 4 p1 rfl, key 5 p2 rfl]

/-- C7 at a concrete input: the three-player lobby `trio`. -/
theorem startNewTurn_rotation_witness :
    (List.range 6).map (fun t => drawerOfTurn trio t 11) =
      [some "p0", some "p1", some "p2", some "p0", some "p1", some "p2"] :=
  (startNewTurn_rotation trio trio.getPlayersList rfl (by decide) (by decide)).2.2.2
    ⟨"p0", "p0", true, true, [0x50], "hsl(0, 70%, 60%)"⟩
    ⟨"p1", "p1", false, false, [0x50], "hsl(45, 70%, 60%)"⟩
    ⟨"p2", "p2", false, false, [0x50], "hsl(90, 70%, 60%)"⟩ 11 (by decide)


theorem clearInterval_activeGames (E : Engine) (h : Option Nat) :
    (clearInterval E h).activeGames = E.activeGames := by
  cases h <;> rfl

/-- C8, as stated, fails: in the two-player, two-round game the guess of the
single non-drawer ends the turn, but that first `endTurn` returns `nextTurn`
and leaves the status `playing` and `currentRound = 1`, since `1 >= 2 * 1` is
false. -/
theorem guess_ends_turn_counterexample :
    (startedDuel 2).status = .playing ∧ mapSize (startedDuel 2).players = 2 ∧
    (startedDuel 2).settings.totalRounds = 2 ∧ (startedDuel 2).currentRound = 1 ∧
    (startedDuel 2).currentTurn = 0 ∧ (startedDuel 2).currentDrawerId = some "p0" ∧
    (startedDuel 2).currentWord = some "car" ∧
    (onGameGuess (engineOf (startedDuel 2)) (gameSocket "p1" "GAME01") "car" 5).map
        (fun r => (r.2, (mapGet r.1.activeGames "GAME01").map
          fun g => (g.currentTurn, g.status, g.currentRound))) =
      some (some .nextTurn, some (1, .playing, 1)) ∧
    (onGameGuess (engineOf (startedDuel 2)) (gameSocket "p1" "GAME01") "car" 5).map
        (fun r => (r.2, (mapGet r.1.activeGames "GAME01").map
          fun g => (g.currentTurn, g.status, g.currentRound))) ≠
      some (some .roundEnd, some (1, .roundEnd, 2)) := by
  decide


theorem submitGuess_correct_frame (g : GameRoom) (socketId playerName guess w : String)
    (now : Nat) (hd : some socketId ≠ g.currentDrawerId) (hg : socketId ∉ g.correctGuessers)
    (hw : g.currentWord = some w)
    (heq : trim (toLowerCase guess) = trim (toLowerCase w)) :
    ∃ points g1, g.submitGuess socketId playerName guess now = some (.correct points, g1) ∧
      g1.correctGuessers = g.correctGuessers ++ [socketId] ∧ g1.players = g.players ∧
      g1.status = g.status ∧ g1.currentRound = g.currentRound ∧
      g1.currentTurn = g.currentTurn ∧ g1.currentDrawerId = g.currentDrawerId ∧
      g1.timerInterval = g.timerInterval ∧ g1.settings = g.settings :=
  ⟨_, _, submitGuess_correct_eq g socketId playerName guess w now _ _ hd hg hw heq rfl rfl,
    rfl, rfl, rfl, rfl, rfl, rfl, rfl, rfl⟩

theorem handleTurnEnd_registered (E : Engine) (code : String) (g : GameRoom)
    (h : mapGet E.activeGames code = some g) :
    handleTurnEnd E (some code) =
      ({ E with activeGames := mapSet E.activeGames code g.endTurn.2 }, some g.endTurn.1) := by
  simp only [handleTurnEnd, h]

/-- C8 (amended): in a game of exactly 2 players and `totalRounds = 2`, after
`startGame`, when the single non-drawer submits the exact word the guess is
correct, the countdown is cleared and the turn ends at once; that first
`endTurn` sets `currentTurn = 1`, returns `nextTurn` and leaves the status
`playing` and `currentRound = 1`. -/
theorem guess_ends_turn (E : Engine) (socket : Socket) (lobby g0 : GameRoom) (player : Player)
    (code w : String) (rnd now : Nat)
    (hstart : lobby.startGame rnd = some g0)
    (h2 : lobby.getPlayersList.length = 2) (_hR : lobby.settings.totalRounds = 2)
    (hsock : socket.gameCode = some code) (hreg : mapGet E.activeGames code = some g0)
    (hplayer : mapGet g0.players socket.id = some player)
    (hnd : some socket.id ≠ g0.currentDrawerId)
    (hsingle : (g0.getPlayersList.filter
      fun p => decide (some p.id ≠ g0.currentDrawerId)).length = 1)
    (hw : g0.currentWord = some w) :
    ∃ E1 g1 points g2,
      g0.submitGuess socket.id player.name w now = some (.correct points, g1) ∧
      g1.endTurn = (.nextTurn, g2) ∧
      onGameGuess E socket w now = some (E1, some .nextTurn) ∧
      mapGet E1.activeGames code = some g2 ∧
      E1.intervals = (clearInterval E g0.timerInterval).intervals ∧
      g2.correctGuessers = [socket.id] ∧
      g2.currentTurn = 1 ∧ g2.status = .playing ∧ g2.currentRound = 1 := by
  obtain ⟨f1, f2, f3, f4, f5, f6, -, -, -, -⟩ := startGame_fields lobby g0 rnd hstart
  have hg : socket.id ∉ g0.correctGuessers := by rw [f6]; simp
  obtain ⟨points, g1, hsub, c1, c2, c3, c4, c5, c6, c7, c8⟩ :=
    submitGuess_correct_frame g0 socket.id player.name w w now hnd hg hw rfl
  have hlen : g1.getPlayersList.length = 2 := by
    rw [GameRoom.getPlayersList, c2, f4]; exact h2
  have hend : g1.endTurn = (.nextTurn, { g1 with currentTurn := 1 }) := by
    have hnot : ¬ (1 ≥ g1.getPlayersList.length * g1.currentRound) := by
      rw [hlen, c4, f2]; decide
    have hturn : g1.currentTurn + 1 = 1 := by rw [c5, f3]
    simp only [GameRoom.endTurn, hturn]
    rw [if_neg hnot]
  have hcount : g1.correctGuessers.length ≥ (g1.getPlayersList.filter
      fun p => decide (some p.id ≠ g1.currentDrawerId)).length := by
    rw [GameRoom.getPlayersList, c2, c6, c1, f6]
    rw [GameRoom.getPlayersList] at hsingle
    rw [hsingle]
    simp
  have hE : mapGet (clearInterval { E with activeGames := mapSet E.activeGames code g1 }
      g1.timerInterval).activeGames code = some g1 := by
    rw [clearInterval_activeGames]; exact mapGet_mapSet_same _ _ _
  have hrun : onGameGuess E socket w now =
      some (handleTurnEnd (clearInterval { E with activeGames := mapSet E.activeGames code g1 }
        g1.timerInterval) (some code)) := by
    unfold onGameGuess
    simp only [hsock, hreg, f1, ne_eq, not_true_eq_false, if_false, hplayer, hsub, if_pos hcount]
  rw [handleTurnEnd_registered _ _ _ hE, hend] at hrun
  refine ⟨_, g1, points, _, hsub, hend, hrun, mapGet_mapSet_same _ _ _, ?_, ?_, rfl, ?_, ?_⟩
  · rw [c7]
    cases g0.timerInterval <;> rfl
  · show g1.correctGuessers = [socket.id]
    rw [c1, f6]; rfl
  · show g1.status = .playing
    rw [c3, f1]
  · show g1.currentRound = 1
    rw [c4, f2]

/-- C8 (amended) at a concrete input: `p1` guesses `car` in the started
two-player, two-round game. -/
theorem guess_ends_turn_witness :
    ∃ E1 g1 points g2,
      (startedDuel 2).submitGuess "p1" "p1" "car" 5 = some (.correct points, g1) ∧
      g1.endTurn = (.nextTurn, g2) ∧
      onGameGuess (engineOf (startedDuel 2)) (gameSocket "p1" "GAME01") "car" 5 =
        some (E1, some .nextTurn) ∧
      mapGet E1.activeGames "GAME01" = some g2 ∧
      E1.intervals =
        (clearInterval (engineOf (startedDuel 2)) (startedDuel 2).timerInterval).intervals ∧
      g2.correctGuessers = ["p1"] ∧
      g2.currentTurn = 1 ∧ g2.status = .playing ∧ g2.currentRound = 1 :=
  guess_ends_turn (engineOf (startedDuel 2)) (gameSocket "p1" "GAME01") (duel 2) (startedDuel 2)
    ⟨"p1", "p1", false, false, [0x50], "hsl(45, 70%, 60%)"⟩ "GAME01" "car" 7 5
    (by decide) (by decide) (by decide) (by decide) (by decide) (by decide) (by decide)
    (by decide) (by decide)


theorem mapDelete_eq_filter {κ ν : Type} [DecidableEq κ] (m : JSMap κ ν) (k : κ) :
    mapDelete m k = m.filter fun e => decide (e.1 ≠ k) := by
  induction m with
  | nil => rfl
  | cons e rest ih =>
    obtain ⟨k', v'⟩ := e
    by_cases h : k' = k
    · simp [mapDelete, h, ih]
    · simp [mapDelete, h, ih]

theorem mapDelete_of_not_mem {κ ν : Type} [DecidableEq κ] (m : JSMap κ ν) (k : κ)
    (h : k ∉ mapKeys m) : mapDelete m k = m := by
  induction m with
  | nil => rfl
  | cons e rest ih =>
    obtain ⟨k', v'⟩ := e
    simp only [mapKeys, List.map_cons, List.mem_cons, not_or] at h
    have hne : ¬ k' = k := fun he => h.1 he.symm
    simp only [mapDelete, if_neg hne]
    rw [ih h.2]

theorem mapDelete_length {κ ν : Type} [DecidableEq κ] (m : JSMap κ ν) (k : κ)
    (hnd : (mapKeys m).Nodup) : m.length ≤ (mapDelete m k).length + 1 := by
  induction m with
  | nil => simp [mapDelete]
  | cons e rest ih =>
    obtain ⟨k', v'⟩ := e
    simp only [mapKeys, List.map_cons, List.nodup_cons] at hnd
    by_cases h : k' = k
    · subst h
      simp only [mapDelete, if_true]
      rw [mapDelete_of_not_mem rest k' hnd.1]
      simp
    · simp only [mapDelete, if_neg h, List.length_cons]
      have := ih hnd.2
      omega

theorem mapValues_markFirstHost (m : JSMap String Player) (p : Player) (rest : List Player)
    (h : mapValues m = p :: rest) :
    mapValues (markFirstHost m) = { p with isHost := true } :: rest := by
  cases m with
  | nil => simp [mapValues] at h
  | cons e tl =>
    obtain ⟨k, v⟩ := e
    simp only [mapValues, List.map_cons, List.cons.injEq] at h
    obtain ⟨rfl, rfl⟩ := h
    rfl

/-- Removing the host from a well-formed roster in which only the host is
flagged leaves players none of whom is flagged. -/
theorem hosts_after_removal (players : JSMap String Player) (hostId : String)
    (hwf : PlayersWF players)
    (hone : ((mapValues players).filter fun p => p.isHost).map (fun p => p.id) = [hostId]) :
    ∀ p ∈ mapValues (mapDelete players hostId), p.isHost = false := by
  intro p hp
  rw [mapDelete_eq_filter, mapValues, List.mem_map] at hp
  obtain ⟨e, he, rfl⟩ := hp
  rw [List.mem_filter] at he
  obtain ⟨hmem, hkey⟩ := he
  have hid : e.2.id = e.1 := hwf.2 e hmem
  cases hflag : e.2.isHost with
  | false => rfl
  | true =>
    have hin : e.2.id ∈ ((mapValues players).filter fun p => p.isHost).map (fun p => p.id) := by
      rw [List.mem_map]
      refine ⟨e.2, ?_, rfl⟩
      rw [List.mem_filter]
      exact ⟨List.mem_map.mpr ⟨e, hmem, rfl⟩, hflag⟩
    rw [hone, List.mem_singleton, hid] at hin
    simp [hin] at hkey


theorem mem_mapSet {κ ν : Type} [DecidableEq κ] (m : JSMap κ ν) (k : κ) (v : ν) (e : κ × ν)
    (he : e ∈ mapSet m k v) : e = (k, v) ∨ e ∈ m := by
  induction m with
  | nil => simp [mapSet] at he; exact Or.inl he
  | cons x rest ih =>
    obtain ⟨k', v'⟩ := x
    by_cases h : k' = k
    · simp only [mapSet, if_pos h, List.mem_cons] at he
      rcases he with he | he
      · exact Or.inl he
      · exact Or.inr (List.mem_cons_of_mem _ he)
    · simp only [mapSet, if_neg h, List.mem_cons] at he
      rcases he with he | he
      · exact Or.inr (by rw [he]; exact List.mem_cons_self _ _)
      · rcases ih he with h1 | h1
        · exact Or.inl h1
        · exact Or.inr (List.mem_cons_of_mem _ h1)

theorem mapKeys_mapSet {κ ν : Type} [DecidableEq κ] (m : JSMap κ ν) (k : κ) (v : ν) :
    mapKeys (mapSet m k v) = if k ∈ mapKeys m then mapKeys m else mapKeys m ++ [k] := by
  induction m with
  | nil => simp [mapSet, mapKeys]
  | cons x rest ih =>
    obtain ⟨k', v'⟩ := x
    simp only [mapKeys] at ih ⊢
    by_cases h : k' = k
    · subst h
      simp [mapSet]
    · have h2 : ¬ k = k' := fun e => h e.symm
      simp only [mapSet, if_neg h, List.map_cons, ih, List.mem_cons, h2, false_or]
      split <;> simp

/-- The players map stays well formed when `addPlayer` and `removePlayer` change
it, and the constructor's empty map is well formed. -/
theorem playersWF_preserved (g : GameRoom) (socketId name : String) (hwf : PlayersWF g.players) :
    PlayersWF (g.addPlayer socketId name).2.players ∧
    PlayersWF (g.removePlayer socketId).players ∧ PlayersWF ([] : JSMap String Player) := by
  refine ⟨⟨?_, ?_⟩, ⟨?_, ?_⟩, ⟨List.nodup_nil, fun e he => absurd he (List.not_mem_nil e)⟩⟩
  · show (mapKeys (mapSet g.players socketId _)).Nodup
    rw [mapKeys_mapSet]
    split
    · exact hwf.1
    · rename_i hnot
      exact List.Nodup.append hwf.1 (List.nodup_singleton _) (by simpa using hnot)
  · intro e he
    rcases mem_mapSet _ _ _ _ he with h | h
    · rw [h]
    · exact hwf.2 e h
  · show (mapKeys (mapDelete g.players socketId)).Nodup
    rw [mapDelete_eq_filter]
    exact (hwf.1.sublist (List.Sublist.map _ (List.filter_sublist _)))
  · intro e he
    have he2 : e ∈ mapDelete g.players socketId := he
    rw [mapDelete_eq_filter] at he2
    exact hwf.2 e (List.mem_of_mem_filter he2)

theorem mapValues_mapDelete (players : JSMap String Player) (k : String)
    (hwf : ∀ e ∈ players, e.2.id = e.1) :
    mapValues (mapDelete players k) = (mapValues players).filter fun p => decide (p.id ≠ k) := by
  induction players with
  | nil => rfl
  | cons e rest ih =>
    obtain ⟨k', v'⟩ := e
    have hid : v'.id = k' := hwf (k', v') (List.mem_cons_self _ _)
    have ih1 := ih fun e he => hwf e (List.mem_cons_of_mem _ he)
    simp only [mapValues] at ih1 ⊢
    by_cases h : k' = k
    · simp [mapDelete, h, ih1, hid]
    · simp [mapDelete, h, ih1, hid]

/-- C9: when the host of a game with at least two players leaves (the roster is
a well-formed map in which exactly one player is flagged `isHost`, the one
whose id is `hostId`), `handleLeaveGame` leaves the game registered with the
remaining players in join order, `hostId` is the id of the first of them, and
that player is the only one flagged `isHost`. -/
theorem game_host_migration (E : Engine) (socket : Socket) (g : GameRoom) (code : String)
    (hsock : socket.gameCode = some code) (hreg : mapGet E.activeGames code = some g)
    (hwf : PlayersWF g.players) (h2 : 2 ≤ mapSize g.players)
    (hhost : socket.id = g.hostId)
    (hone : (hostsOf g).map (fun p => p.id) = [g.hostId]) :
    ∃ g1 newHost rest,
      mapGet (handleLeaveGame E socket).1.activeGames code = some g1 ∧
      g.getPlayersList.filter (fun p => decide (p.id ≠ g.hostId)) = newHost :: rest ∧
      g1.getPlayersList = { newHost with isHost := true } :: rest ∧
      g1.hostId = newHost.id ∧
      g1.hostId ∈ g1.getPlayersList.map (fun p => p.id) ∧
      hostsOf g1 = [{ newHost with isHost := true }] ∧
      (hostsOf g1).map (fun p => p.id) = [g1.hostId] := by
  have hlen := mapDelete_length g.players socket.id hwf.1
  have hL : ∃ newHost rest, mapValues (mapDelete g.players socket.id) = newHost :: rest := by
    cases hm : mapDelete g.players socket.id with
    | nil => rw [hm] at hlen; simp only [mapSize] at h2; simp at hlen; omega
    | cons e tl => exact ⟨e.2, mapValues tl, rfl⟩
  obtain ⟨newHost, rest, hL⟩ := hL
  have hsize : ¬ mapSize (g.removePlayer socket.id).players = 0 := by
    intro h0
    have : (mapValues (mapDelete g.players socket.id)).length = 0 := by
      simpa [mapValues, mapSize, GameRoom.removePlayer] using h0
    rw [hL] at this
    simp at this
  have hh : socket.id = (g.removePlayer socket.id).hostId := hhost
  have hL1 : (g.removePlayer socket.id).getPlayersList = newHost :: rest := hL
  have hrun : ∃ g2, (handleLeaveGame E socket).1.activeGames = mapSet E.activeGames code g2 ∧
      g2.players = markFirstHost (mapDelete g.players socket.id) ∧ g2.hostId = newHost.id := by
    refine ⟨{ g.removePlayer socket.id with
      hostId := newHost.id, players := markFirstHost (g.removePlayer socket.id).players },
      ?_, rfl, rfl⟩
    unfold handleLeaveGame
    simp only [hsock, hreg, if_neg hsize, if_pos hh, hL1]
  obtain ⟨g2, hrun, hp2, hh2⟩ := hrun
  have hvals : mapValues (markFirstHost (mapDelete g.players socket.id)) =
      { newHost with isHost := true } :: rest := mapValues_markFirstHost _ _ _ hL
  have hflags := hosts_after_removal g.players g.hostId hwf hone
  rw [← hhost, hL] at hflags
  have hrest : rest.filter (fun p => p.isHost) = [] := by
    rw [List.filter_eq_nil_iff]
    intro p hp
    simp [hflags p (List.mem_cons_of_mem _ hp)]
  have hhosts : List.filter (fun p => p.isHost) ({ newHost with isHost := true } :: rest) =
      [{ newHost with isHost := true }] := by
    rw [List.filter_cons_of_pos (by rfl), hrest]
  have hvals2 : g2.getPlayersList = { newHost with isHost := true } :: rest := by
    rw [GameRoom.getPlayersList, hp2]; exact hvals
  refine ⟨g2, newHost, rest, by rw [hrun]; exact mapGet_mapSet_same _ _ _, ?_, hvals2, hh2,
    ?_, ?_, ?_⟩
  · rw [← hL, ← hhost]
    exact (mapValues_mapDelete g.players socket.id hwf.2).symm
  · rw [hvals2, hh2]
    simp
  · rw [hostsOf, hvals2, hhosts]
  · rw [hostsOf, hvals2, hhosts, hh2]
    rfl

/-- C9 at a concrete input: `p0`, the creator of the three-player lobby `trio`,
leaves. -/
theorem game_host_migration_witness :
    ∃ g1 newHost rest,
      mapGet (handleLeaveGame (engineOf trio) (gameSocket "p0" "GAME01")).1.activeGames "GAME01" =
        some g1 ∧
      trio.getPlayersList.filter (fun p => decide (p.id ≠ trio.hostId)) = newHost :: rest ∧
      g1.getPlayersList = { newHost with isHost := true } :: rest ∧
      g1.hostId = newHost.id ∧
      g1.hostId ∈ g1.getPlayersList.map (fun p => p.id) ∧
      hostsOf g1 = [{ newHost with isHost := true }] ∧
      (hostsOf g1).map (fun p => p.id) = [g1.hostId] :=
  game_host_migration (engineOf trio) (gameSocket "p0" "GAME01") trio "GAME01" (by decide)
    (by decide) ⟨by decide, by decide⟩ (by decide) (by decide) (by decide)


/-- C10 fails on the code: in the room created by `a` and joined by `b`, `a` is
the host and the only participant flagged `isHost`; after `a` leaves,
`handleLeaveRoom` makes `b` the host (`hostId`), `b` is the only participant,
and no participant is flagged `isHost`. -/
theorem room_host_migration_flag_lost :
    roomOfTwo.hostId = some "a" ∧
    roomOfTwo.getParticipantsList.map (fun p => p.id) = ["a", "b"] ∧
    (roomHostsOf roomOfTwo).map (fun p => p.id) = ["a"] ∧
    (mapGet (handleLeaveRoom (engineOfRoom roomOfTwo) (roomSocket "a" "ROOM01")).1.activeRooms
        "ROOM01").map
      (fun r => (r.hostId, r.getParticipantsList.map (fun p => (p.id, p.isHost)), roomHostsOf r)) =
      some (some "b", [("b", false)], []) := by
  decide


/-- C11: `restart` is idempotent: restarting a restarted game changes no field. -/
theorem restart_idempotent (g : GameRoom) : g.restart.restart = g.restart := rfl

theorem mapGet_foldl_zero (ks : List String) (sc : JSMap String Int) (id : String) :
    mapGet (ks.foldl (fun sc id => mapSet sc id 0) sc) id =
      if id ∈ ks then some 0 else mapGet sc id := by
  induction ks generalizing sc with
  | nil => simp
  | cons k rest ih =>
    rw [List.foldl_cons, ih]
    by_cases h1 : id ∈ rest
    · simp [h1]
    · by_cases h2 : id = k
      · subst h2
        simp [h1, mapGet_mapSet_same]
      · simp [h1, h2, mapGet_mapSet_ne _ _ _ _ h2]

theorem mapGet_zeroScores (players : JSMap String Player) (id : String) :
    mapGet (GameRoom.zeroScores players) id =
      if id ∈ mapKeys players then some 0 else none := by
  unfold GameRoom.zeroScores
  rw [mapGet_foldl_zero]
  rfl

theorem mapGet_isSome_iff_mem {κ ν : Type} [DecidableEq κ] (m : JSMap κ ν) (k : κ) :
    (mapGet m k).isSome ↔ k ∈ mapKeys m := by
  induction m with
  | nil => simp [mapGet, mapKeys]
  | cons e rest ih =>
    obtain ⟨k', v'⟩ := e
    simp only [mapKeys] at ih
    by_cases h : k' = k
    · simp [mapGet, mapKeys, h]
    · have h2 : ¬ k = k' := fun e => h e.symm
      simp [mapGet, mapKeys, h, h2, ih]

/-- C12: `restart` keeps `players`, `hostId`, `code` and `settings`, sets the
status to `lobby`, both counters to 0, the drawer and the word to `null`, the
hint to the empty string, `timeLeft` to `settings.roundTime`, empties
`correctGuessers`, `messages`, `usedWords` and `drawHistory`, and leaves a
`scores` object whose keys are exactly the keys of `players`, each with value 0. -/
theorem restart_fields (g : GameRoom) :
    g.restart.players = g.players ∧ g.restart.hostId = g.hostId ∧
    g.restart.code = g.code ∧ g.restart.settings = g.settings ∧
    g.restart.status = .lobby ∧ g.restart.currentRound = 0 ∧ g.restart.currentTurn = 0 ∧
    g.restart.currentDrawerId = none ∧ g.restart.currentWord = none ∧
    g.restart.wordHint = "" ∧ g.restart.timeLeft = g.settings.roundTime ∧
    g.restart.correctGuessers = [] ∧ g.restart.messages = [] ∧
    g.restart.usedWords = [] ∧ g.restart.drawHistory = [] ∧
    (∀ id, id ∈ mapKeys g.restart.scores ↔ id ∈ mapKeys g.players) ∧
    (∀ id, id ∈ mapKeys g.players → mapGet g.restart.scores id = some 0) ∧
    (∀ id score, mapGet g.restart.scores id = some score → score = 0) := by
  refine ⟨rfl, rfl, rfl, rfl, rfl, rfl, rfl, rfl, rfl, rfl, rfl, rfl, rfl, rfl, rfl, ?_, ?_, ?_⟩
  · intro id
    rw [← mapGet_isSome_iff_mem]
    show (mapGet (GameRoom.zeroScores g.players) id).isSome ↔ _
    rw [mapGet_zeroScores]
    split <;> simp [*]
  · intro id hid
    show mapGet (GameRoom.zeroScores g.players) id = some 0
    rw [mapGet_zeroScores, if_pos hid]
  · intro id score h
    have h1 : mapGet (GameRoom.zeroScores g.players) id = some score := h
    rw [mapGet_zeroScores] at h1
    split at h1
    · exact (Option.some.inj h1).symm
    · cases h1


theorem WORD_CATEGORIES_nodup (difficulty : String) (words : List String)
    (h : WORD_CATEGORIES difficulty = some words) : words.Nodup := by
  unfold WORD_CATEGORIES at h
  split at h
  · cases h; decide
  · split at h
    · cases h; decide
    · split at h
      · cases h; decide
      · cases h

/-- A duplicate-free list that is shorter than a duplicate-free list containing
it misses one of that list's elements. -/
theorem exists_unused (words used : List String) (hw : words.Nodup)
    (hlt : used.length < words.length) : ∃ w ∈ words, w ∉ used := by
  by_contra hc
  have hsub : words ⊆ used := by
    intro w hwm
    by_contra hn
    exact hc ⟨w, hwm, hn⟩
  have := (List.subperm_of_subset hw hsub).length_le
  omega

/-- A call of `getRandomWord` while some tier word is unused. -/
theorem getRandomWord_fresh (g : GameRoom) (rnd : Nat) (words : List String)
    (htier : WORD_CATEGORIES g.settings.difficulty = some words)
    (hfree : ∃ w ∈ words, w ∉ g.usedWords) :
    ∃ w, g.getRandomWord rnd = some (some w, { g with usedWords := g.usedWords ++ [w] }) ∧
      w ∈ words ∧ w ∉ g.usedWords := by
  obtain ⟨w0, hw0, hn0⟩ := hfree
  have hav : List.filter (fun w => !g.usedWords.contains w) words ≠ [] := by
    intro h
    have hm : w0 ∈ List.filter (fun w => !g.usedWords.contains w) words := by
      rw [List.mem_filter]
      exact ⟨hw0, by simpa using hn0⟩
    rw [h] at hm
    exact absurd hm (List.not_mem_nil _)
  obtain ⟨w, hw⟩ := getElem?_mod_isSome _ rnd hav
  have hmem : w ∈ List.filter (fun w => !g.usedWords.contains w) words :=
    List.getElem?_mem hw
  rw [List.mem_filter] at hmem
  refine ⟨w, ?_, hmem.1, by simpa using hmem.2⟩
  unfold GameRoom.getRandomWord
  have hlen : ¬ (List.filter (fun w => !g.usedWords.contains w) words).length = 0 := by
    intro h
    exact hav (List.length_eq_zero.mp h)
  simp only [htier, if_neg hlen, hw]

theorem drawWords_distinct (words : List String) (hw : words.Nodup) :
    ∀ (rnds : List Nat) (g : GameRoom),
      WORD_CATEGORIES g.settings.difficulty = some words → g.usedWords.Nodup →
      g.usedWords ⊆ words → g.usedWords.length + rnds.length ≤ words.length →
      ∃ ws g1, drawWords g rnds = some (ws, g1) ∧ ws.length = rnds.length ∧
        g1.usedWords = g.usedWords ++ ws ∧
        (g.usedWords ++ ws).Nodup ∧ g.usedWords ++ ws ⊆ words := by
  intro rnds
  induction rnds with
  | nil =>
    intro g _ hnd hsub _
    exact ⟨[], g, rfl, rfl, by simp, by simpa using hnd, by simpa using hsub⟩
  | cons rnd rest ih =>
    intro g htier hnd hsub hlen
    simp only [List.length_cons] at hlen
    obtain ⟨w, hcall, hwm, hwn⟩ :=
      getRandomWord_fresh g rnd words htier (exists_unused words g.usedWords hw (by omega))
    have hnd1 : (g.usedWords ++ [w]).Nodup := by
      rw [List.nodup_append]
      refine ⟨hnd, List.nodup_singleton _, ?_⟩
      intro a ha hb
      rw [List.mem_singleton] at hb
      subst hb
      exact hwn ha
    have hsub1 : g.usedWords ++ [w] ⊆ words := by
      intro a ha
      rw [List.mem_append, List.mem_singleton] at ha
      rcases ha with ha | ha
      · exact hsub ha
      · rw [ha]; exact hwm
    obtain ⟨ws, g1, hrest, hl, hu, hn, hs⟩ :=
      ih { g with usedWords := g.usedWords ++ [w] } htier hnd1 hsub1
        (by simp only [List.length_append, List.length_singleton]; omega)
    refine ⟨w :: ws, g1, ?_, by simp [hl], ?_, ?_, ?_⟩
    · simp only [drawWords, hcall, hrest, Option.map_some']
    · rw [hu]; simp
    · simpa using hn
    · simpa using hs

/-- C16: while some word of the tier is not in `usedWords`, `getRandomWord`
returns a tier word that was not in `usedWords`, whatever the random draw; so
from an empty `usedWords` the first `N` calls, `N` the size of the tier, return
every word of the tier exactly once. -/
theorem getRandomWord_no_repetition (g : GameRoom) (words : List String)
    (htier : WORD_CATEGORIES g.settings.difficulty = some words) :
    (∀ rnd, (∃ w ∈ words, w ∉ g.usedWords) →
      ∃ w g1, g.getRandomWord rnd = some (some w, g1) ∧ w ∈ words ∧ w ∉ g.usedWords) ∧
    (g.usedWords = [] → ∀ rnds : List Nat, rnds.length = words.length →
      ∃ ws g1, drawWords g rnds = some (ws, g1) ∧ ws.length = words.length ∧
        ws.Nodup ∧ ws.Perm words) := by
  constructor
  · intro rnd hfree
    obtain ⟨w, h1, h2, h3⟩ := getRandomWord_fresh g rnd words htier hfree
    exact ⟨w, _, h1, h2, h3⟩
  · intro hused rnds hlen
    have hw := WORD_CATEGORIES_nodup _ _ htier
    obtain ⟨ws, g1, h1, h2, -, h4, h5⟩ := drawWords_distinct words hw rnds g htier
      (by rw [hused]; exact List.nodup_nil) (by rw [hused]; exact List.nil_subset _)
      (by rw [hused, hlen]; simp)
    rw [hused, List.nil_append] at h4 h5
    refine ⟨ws, g1, h1, h2.trans hlen, h4, ?_⟩
    exact (List.subperm_of_subset h4 h5).perm_of_length_le (by rw [h2, hlen])

/-- C16 at a concrete input: fifteen draws on the hard tier, from the lobby of
two players. -/
theorem getRandomWord_no_repetition_witness :
    ∃ ws g1, drawWords (lobbyOf ⟨none, none, none, some "hard"⟩ ["p0", "p1"])
        [3, 1, 4, 1, 5, 9, 2, 6, 5, 3, 5, 8, 9, 7, 9] = some (ws, g1) ∧
      ws.length = 15 ∧ ws.Nodup ∧
      ws.Perm ["astronaut", "skyscraper", "rollercoaster", "thunderstorm", "helicopter",
        "firefighter", "parachute", "windmill", "caterpillar", "xylophone",
        "chandelier", "trampoline", "aquarium", "carousel", "escalator"] :=
  (getRandomWord_no_repetition (lobbyOf ⟨none, none, none, some "hard"⟩ ["p0", "p1"])
    ["astronaut", "skyscraper", "rollercoaster", "thunderstorm", "helicopter",
      "firefighter", "parachute", "windmill", "caterpillar", "xylophone",
      "chandelier", "trampoline", "aquarium", "carousel", "escalator"]
    (by decide)).2 (by decide) [3, 1, 4, 1, 5, 9, 2, 6, 5, 3, 5, 8, 9, 7, 9] (by decide)

/-- C17 fails on the code: once all 15 words of the hard tier are in
`usedWords`, `getRandomWord` empties `usedWords` and returns `helicopter`
without pushing it, so the returned word is not in `usedWords` after the call,
and the next call may return `helicopter` again. -/
theorem getRandomWord_exhausted_not_pushed :
    exhaustedGame.usedWords.length = 15 ∧
    (exhaustedGame.getRandomWord 4).map (fun r => (r.1, r.2.usedWords)) =
      some (some "helicopter", []) ∧
    ((exhaustedGame.getRandomWord 4).bind fun r => r.2.getRandomWord 4).map
        (fun r => (r.1, r.2.usedWords)) =
      some (some "helicopter", ["helicopter"]) := by
  decide


theorem getRandomWord_mem (g g1 : GameRoom) (rnd : Nat) (w : String)
    (h : g.getRandomWord rnd = some (some w, g1)) :
    ∃ words, WORD_CATEGORIES g.settings.difficulty = some words ∧ w ∈ words := by
  unfold GameRoom.getRandomWord at h
  split at h
  · cases h
  · rename_i words hwords
    refine ⟨words, hwords, ?_⟩
    simp only at h
    split at h
    · simp only [Option.some.injEq, Prod.mk.injEq] at h
      exact List.getElem?_mem h.1
    · split at h
      · rename_i word hword
        simp only [Option.some.injEq, Prod.mk.injEq] at h
        have hm := List.getElem?_mem hword
        rw [List.mem_filter] at hm
        rw [← h.1]
        exact hm.1
      · cases h

set_option maxRecDepth 100000 in
theorem hint_hides_tier_words (difficulty : String) (words : List String)
    (h : WORD_CATEGORIES difficulty = some words) : ∀ w ∈ words, HintHidesWord w := by
  unfold WORD_CATEGORIES at h
  split at h
  · cases h; decide
  · split at h
    · cases h; decide
    · split at h
      · cases h; decide
      · cases h

/-- C18: the hint of every word of `WORD_CATEGORIES`, split on single spaces, has
one token `_` per character of the word, and no character of the hint is a
character of the word; `startNewTurn` stores that hint for the tier word it
selects. -/
theorem wordHint_underscores (difficulty : String) (words : List String) (w : String)
    (htier : WORD_CATEGORIES difficulty = some words) (hw : w ∈ words) :
    (splitOn ' ' (hintOf w)).length = w.length ∧
    (∀ token ∈ splitOn ' ' (hintOf w), token = "_") ∧
    (∀ c ∈ (hintOf w).data, c ∉ w.data) ∧
    (∀ (g g1 : GameRoom) (rnd : Nat) (info : TurnInfo),
      g.startNewTurn rnd = some (info, g1) →
      g1.wordHint = hintOf info.word ∧ g1.currentWord = some info.word ∧
      HintHidesWord info.word ∧
      ∃ tier, WORD_CATEGORIES g.settings.difficulty = some tier ∧ info.word ∈ tier) := by
  obtain ⟨h1, h2, -, h4⟩ := hint_hides_tier_words difficulty words htier w hw
  refine ⟨h2, ?_, h4, ?_⟩
  · intro token ht
    rw [h1] at ht
    exact List.eq_of_mem_replicate ht
  · intro g g1 rnd info hturn
    obtain ⟨drawer, -, -, -, c3, c4, -⟩ := startNewTurn_fields g g1 rnd info hturn
    have hmem : ∃ tier, WORD_CATEGORIES g.settings.difficulty = some tier ∧
        info.word ∈ tier := by
      unfold GameRoom.startNewTurn at hturn
      simp only at hturn
      split at hturn
      · cases hturn
      · split at hturn
        · cases hturn
        · cases hturn
        · rename_i word g2 hword
          simp only [Option.some.injEq, Prod.mk.injEq] at hturn
          obtain ⟨rfl, -⟩ := hturn
          have hm := getRandomWord_mem _ _ _ _ hword
          exact hm
    obtain ⟨tier, ht1, ht2⟩ := hmem
    exact ⟨c4, c3, hint_hides_tier_words _ tier ht1 _ ht2, tier, ht1, ht2⟩

/-- C18 at a concrete input: the word `rollercoaster` of the hard tier. -/
theorem wordHint_underscores_witness :
    (splitOn ' ' (hintOf "rollercoaster")).length = "rollercoaster".length ∧
    (∀ token ∈ splitOn ' ' (hintOf "rollercoaster"), token = "_") :=
  ⟨(wordHint_underscores "hard" _ "rollercoaster" rfl (by decide)).1,
   (wordHint_underscores "hard" _ "rollercoaster" rfl (by decide)).2.1⟩


theorem toUpperCase_ascii (s : String) (h : ∀ c ∈ s.data, c.toNat < 128) :
    toUpperCase s = String.mk (s.data.map Char.toUpper) := by
  unfold toUpperCase
  congr 1
  have : ∀ l : List Char, (∀ c ∈ l, c.toNat < 128) →
      (l.map upperChar).flatten = l.map Char.toUpper := by
    intro l hl
    induction l with
    | nil => rfl
    | cons a rest ih =>
      have ha : a.toNat < 128 := hl a (List.mem_cons_self _ _)
      simp only [List.map_cons, List.flatten_cons, upperChar, if_pos ha,
        ih (fun c hc => hl c (List.mem_cons_of_mem _ hc))]
      rfl
  exact this s.data h

/-- C19: `game:join` succeeds exactly when the upper-cased code names a
registered game in status `lobby` with fewer players than `maxPlayers`; then
the player is added and the connection is associated with the game; otherwise
the answer is `Game not found`, `Game already in progress` or `Game is full`,
in this order of checks, and the registry and the connection are unchanged.
In particular a code of ASCII characters is looked up with its letters in
upper case. -/
theorem onGameJoin_spec (E : Engine) (socket : Socket) (gameCode userName : String) :
    ((onGameJoin E socket gameCode userName).2.2 = .success ↔
      ∃ game, mapGet E.activeGames (toUpperCase gameCode) = some game ∧
        game.status = .lobby ∧ mapSize game.players < game.settings.maxPlayers) ∧
    (mapGet E.activeGames (toUpperCase gameCode) = none →
      onGameJoin E socket gameCode userName = (E, socket, .failure "Game not found")) ∧
    (∀ game, mapGet E.activeGames (toUpperCase gameCode) = some game →
      (game.status ≠ .lobby →
        onGameJoin E socket gameCode userName =
          (E, socket, .failure "Game already in progress")) ∧
      (game.status = .lobby → game.settings.maxPlayers ≤ mapSize game.players →
        onGameJoin E socket gameCode userName = (E, socket, .failure "Game is full")) ∧
      (game.status = .lobby → mapSize game.players < game.settings.maxPlayers →
        onGameJoin E socket gameCode userName =
          ({ E with
              activeGames :=
                mapSet E.activeGames (toUpperCase gameCode) (game.addPlayer socket.id userName).2 },
            { socket with gameCode := some (toUpperCase gameCode) }, .success))) ∧
    ((∀ c ∈ gameCode.data, c.toNat < 128) →
      ∀ game, mapGet E.activeGames (String.mk (gameCode.data.map Char.toUpper)) = some game →
        game.status = .lobby → mapSize game.players < game.settings.maxPlayers →
        (onGameJoin E socket gameCode userName).2.2 = .success) := by
  have hnone : mapGet E.activeGames (toUpperCase gameCode) = none →
      onGameJoin E socket gameCode userName = (E, socket, .failure "Game not found") := by
    intro h
    simp only [onGameJoin, h]
  have hsome : ∀ game, mapGet E.activeGames (toUpperCase gameCode) = some game →
      (game.status ≠ .lobby →
        onGameJoin E socket gameCode userName =
          (E, socket, .failure "Game already in progress")) ∧
      (game.status = .lobby → game.settings.maxPlayers ≤ mapSize game.players →
        onGameJoin E socket gameCode userName = (E, socket, .failure "Game is full")) ∧
      (game.status = .lobby → mapSize game.players < game.settings.maxPlayers →
        onGameJoin E socket gameCode userName =
          ({ E with
              activeGames :=
                mapSet E.activeGames (toUpperCase gameCode) (game.addPlayer socket.id userName).2 },
            { socket with gameCode := some (toUpperCase gameCode) }, .success)) := by
    intro game h
    refine ⟨fun hs => ?_, fun hs hfull => ?_, fun hs hroom => ?_⟩
    · simp only [onGameJoin, h, if_pos hs]
    · have hnot : ¬ game.status ≠ .lobby := fun hc => hc hs
      simp only [onGameJoin, h, if_neg hnot, ge_iff_le, if_pos hfull]
    · have hnot : ¬ game.status ≠ .lobby := fun hc => hc hs
      have hnf : ¬ game.settings.maxPlayers ≤ mapSize game.players := by omega
      simp only [onGameJoin, h, if_neg hnot, ge_iff_le, if_neg hnf]
  refine ⟨?_, hnone, hsome, ?_⟩
  swap
  · intro hascii game hget hs hroom
    rw [← toUpperCase_ascii gameCode hascii] at hget
    rw [(hsome game hget).2.2 hs hroom]
  cases hget : mapGet E.activeGames (toUpperCase gameCode) with
  | none =>
    rw [hnone hget]
    simp
  | some game =>
    obtain ⟨h1, h2, h3⟩ := hsome game hget
    by_cases hs : game.status = .lobby
    · by_cases hroom : mapSize game.players < game.settings.maxPlayers
      · rw [h3 hs hroom]
        simp only [true_iff]
        exact ⟨game, rfl, hs, hroom⟩
      · rw [h2 hs (by omega)]
        simp only [reduceCtorEq, false_iff, not_exists, not_and]
        intro game2 he _
        cases he
        exact hroom
    · rw [h1 hs]
      simp only [reduceCtorEq, false_iff, not_exists, not_and]
      intro game2 he hs2
      cases he
      exact absurd hs2 hs

set_option maxRecDepth 100000 in
/-- C19 at concrete inputs: `p2` joins the lobby `GAME01` with a lower-case
code; the lobby `BOSS01` is joined with codes written with the long s U+017F
and with the sharp s U+00DF, which upper-casing turns into `S` and `SS`; `p9`
asks for a code that is not registered. -/
theorem onGameJoin_spec_witness :
    (onGameJoin (engineOf (duel 2)) ⟨"p2", none, none, none⟩ "game01" "Cy").2.2 = .success ∧
    (onGameJoin (engineOf bossLobby) ⟨"p2", none, none, none⟩ "bo\u017Fs01" "Cy").2.2 =
      .success ∧
    (onGameJoin (engineOf bossLobby) ⟨"p3", none, none, none⟩ "bo\u00DF01" "Di").2.2 =
      .success ∧
    onGameJoin (engineOf (duel 2)) ⟨"p9", none, none, none⟩ "nogame" "Di" =
      (engineOf (duel 2), ⟨"p9", none, none, none⟩, .failure "Game not found") :=
  ⟨(onGameJoin_spec (engineOf (duel 2)) ⟨"p2", none, none, none⟩ "game01" "Cy").1.mpr
      ⟨duel 2, by decide, by decide, by decide⟩,
   (onGameJoin_spec (engineOf bossLobby) ⟨"p2", none, none, none⟩ "bo\u017Fs01" "Cy").1.mpr
      ⟨bossLobby, by decide, by decide, by decide⟩,
   (onGameJoin_spec (engineOf bossLobby) ⟨"p3", none, none, none⟩ "bo\u00DF01" "Di").1.mpr
      ⟨bossLobby, by decide, by decide, by decide⟩,
   (onGameJoin_spec (engineOf (duel 2)) ⟨"p9", none, none, none⟩ "nogame" "Di").2.1 (by decide)⟩


/-- C13 fails on the code: `p0` creates a game, `p1` and `p2` join, `p0` starts it
and is the first drawer, then leaves; `removePlayer` deletes its score entry,
but it stays `currentDrawerId`, and the correct guess of `p1` writes
`scores[p0]` again: the score keys are `p1`, `p2`, `p0` while the players are
`p1`, `p2`. -/
theorem scores_entry_for_departed_drawer :
    gameView (worldAfter (lobbyEvents "easy" ++ [("p0", .start 7), ("p0", .leave)])) =
      some ⟨.playing, 0, some "p0", "p1", ["p1", "p2"], ["p1", "p2"], some 0, [0]⟩ ∧
    gameView (worldAfter (lobbyEvents "easy" ++
        [("p0", .start 7), ("p0", .leave), ("p1", .guess "car" 9)])) =
      some ⟨.playing, 0, some "p0", "p1", ["p1", "p2"], ["p1", "p2", "p0"], some 0, [0]⟩ := by
  decide

/-- C14 fails on the code: in the started game `GAME01` the host `p0` is the
drawer of turn 0 and interval 0 is live; when `p0` leaves, `handleLeaveGame`
takes the host branch only: `p1` becomes host, `currentTurn` is still 0, so
`endTurn` was not applied, and interval 0 is still live. -/
theorem host_drawer_leave_keeps_turn :
    gameView (worldAfter (lobbyEvents "easy" ++ [("p0", .start 7)])) =
      some ⟨.playing, 0, some "p0", "p0", ["p0", "p1", "p2"], ["p0", "p1", "p2"], some 0, [0]⟩ ∧
    gameView (worldAfter (lobbyEvents "easy" ++ [("p0", .start 7), ("p0", .leave)])) =
      some ⟨.playing, 0, some "p0", "p1", ["p1", "p2"], ["p1", "p2"], some 0, [0]⟩ := by
  decide

/-- When the departing drawer of a playing game is not the host and another
player remains, `handleLeaveGame` clears the game's interval and runs
`handleTurnEnd` once. -/
theorem drawer_leave_ends_turn (E : Engine) (socket : Socket) (g : GameRoom) (code : String)
    (hsock : socket.gameCode = some code) (hreg : mapGet E.activeGames code = some g)
    (hrest : mapSize (g.removePlayer socket.id).players ≠ 0)
    (hhost : socket.id ≠ g.hostId) (hplaying : g.status = .playing)
    (hdrawer : g.currentDrawerId = some socket.id) :
    (handleLeaveGame E socket).1 =
      (handleTurnEnd
        (clearInterval
          { E with activeGames := mapSet E.activeGames code (g.removePlayer socket.id) }
          g.timerInterval) (some code)).1 := by
  have hh : ¬ socket.id = (g.removePlayer socket.id).hostId := hhost
  have hp : (g.removePlayer socket.id).status = .playing ∧
      some socket.id = (g.removePlayer socket.id).currentDrawerId := ⟨hplaying, hdrawer.symm⟩
  unfold handleLeaveGame
  simp only [hsock, hreg, if_neg hrest, if_neg hh, if_pos hp]
  rfl

theorem startNewTurn_total (g : GameRoom) (rnd : Nat) (hn : g.getPlayersList ≠ [])
    (htier : (WORD_CATEGORIES g.settings.difficulty).isSome) :
    ∃ r, g.startNewTurn rnd = some r := by
  obtain ⟨drawer, hdrawer⟩ := getElem?_mod_isSome g.getPlayersList g.currentTurn hn
  obtain ⟨word, g2, hword⟩ :=
    getRandomWord_total { g with currentDrawerId := some drawer.id } rnd htier
  unfold GameRoom.startNewTurn
  simp only [hdrawer, hword]
  exact ⟨_, rfl⟩

theorem startGame_total (g : GameRoom) (rnd : Nat) (hn : g.getPlayersList ≠ [])
    (htier : (WORD_CATEGORIES g.settings.difficulty).isSome) :
    ∃ g1, g.startGame rnd = some g1 := by
  unfold GameRoom.startGame
  obtain ⟨r, hr⟩ := startNewTurn_total
    { g with status := .playing, currentRound := 1, currentTurn := 0,
             scores := GameRoom.zeroScores g.players } rnd hn htier
  exact ⟨r.2, by simp only [hr, Option.map_some']⟩

/-- The guards of `game:start`, and its success when `startGame` returns. -/
theorem onGameStart_spec (E : Engine) (socket : Socket) (rnd : Nat) :
    (socket.gameCode = none → onGameStart E socket rnd = some (E, .failure "Not in a game")) ∧
    (∀ code, socket.gameCode = some code →
      (mapGet E.activeGames code = none →
        onGameStart E socket rnd = some (E, .failure "Game not found")) ∧
      (∀ game, mapGet E.activeGames code = some game →
        (socket.id ≠ game.hostId →
          onGameStart E socket rnd = some (E, .failure "Only host can start the game")) ∧
        (socket.id = game.hostId → mapSize game.players < 2 →
          onGameStart E socket rnd = some (E, .failure "Need at least 2 players")) ∧
        (socket.id = game.hostId → 2 ≤ mapSize game.players →
          (WORD_CATEGORIES game.settings.difficulty).isSome →
          ∃ game1, game.startGame rnd = some game1 ∧
            onGameStart E socket rnd = some (startCountdown E socket code game1, .success)))) := by
  refine ⟨fun h => ?_, fun code hcode => ⟨fun h => ?_, fun game hgame => ⟨fun h => ?_,
    fun hh hs => ?_, fun hh hs ht => ?_⟩⟩⟩
  · simp only [onGameStart, h]
  · simp only [onGameStart, hcode, h]
  · simp only [onGameStart, hcode, hgame, if_pos h]
  · have hnot : ¬ socket.id ≠ game.hostId := fun hc => hc hh
    have hcs : game.canStart = false := by
      simp only [GameRoom.canStart, decide_eq_false_iff_not]; omega
    simp [onGameStart, hcode, hgame, hnot, hcs]
  · have hnot : ¬ socket.id ≠ game.hostId := fun hc => hc hh
    have hcs : game.canStart = true := by
      simp only [GameRoom.canStart, decide_eq_true_eq]; omega
    have hne : game.getPlayersList ≠ [] := by
      intro hnil
      have : mapSize game.players = 0 := by
        have h0 : (mapValues game.players).length = 0 := by
          rw [show mapValues game.players = game.getPlayersList from rfl, hnil]; rfl
        simpa [mapValues, mapSize] using h0
      omega
    obtain ⟨game1, hstart⟩ := startGame_total game rnd hne ht
    refine ⟨game1, hstart, ?_⟩
    simp [onGameStart, hcode, hgame, hnot, hcs, hstart]

/-- C20 fails on the code: `p0` creates `GAME01` with `difficulty: 'extreme'`,
which `game:create` accepts, and `p1`, `p2` join; `p0` is the host of a
registered game of three players, yet its `game:start` neither succeeds nor
answers an error: `startGame` throws in `getRandomWord`, where
`WORD_CATEGORIES['extreme']` is `undefined`. -/
theorem start_throws_on_unknown_tier :
    gameView (worldAfter (lobbyEvents "extreme")) =
      some ⟨.lobby, 0, none, "p0", ["p0", "p1", "p2"], ["p0", "p1", "p2"], none, []⟩ ∧
    (worldAfter (lobbyEvents "extreme")).socket "p0" = ⟨"p0", none, some "GAME01", none⟩ ∧
    onGameStart (worldAfter (lobbyEvents "extreme")).engine
      ((worldAfter (lobbyEvents "extreme")).socket "p0") 7 = none := by
  decide


theorem mapGet_mapDelete {κ ν : Type} [DecidableEq κ] (m : JSMap κ ν) (k code : κ) (v : ν)
    (h : mapGet (mapDelete m k) code = some v) : code ≠ k ∧ mapGet m code = some v := by
  induction m with
  | nil => simp [mapDelete, mapGet] at h
  | cons e rest ih =>
    obtain ⟨k', v'⟩ := e
    by_cases hk : k' = k
    · simp only [mapDelete, if_pos hk] at h
      obtain ⟨h1, h2⟩ := ih h
      refine ⟨h1, ?_⟩
      have hne : ¬ k' = code := fun e => h1 (e.symm.trans hk)
      simp only [mapGet, if_neg hne]
      exact h2
    · simp only [mapDelete, if_neg hk, mapGet] at h
      by_cases hc : k' = code
      · rw [if_pos hc] at h
        refine ⟨fun e => hk (hc.trans e), ?_⟩
        simp only [mapGet, if_pos hc]
        exact h
      · rw [if_neg hc] at h
        obtain ⟨h1, h2⟩ := ih h
        refine ⟨h1, ?_⟩
        simp only [mapGet, if_neg hc]
        exact h2

/-- The game found under `code` after `mapSet m c game1` is the old one or, for
`code = c`, the new one. -/
theorem status_of_mapSet (m : JSMap String GameRoom) (c code : String)
    (game game1 g g1 : GameRoom) (hc : mapGet m c = some game) (hg : mapGet m code = some g)
    (hg1 : mapGet (mapSet m c game1) code = some g1) :
    g1 = g ∨ (code = c ∧ g = game ∧ g1 = game1) := by
  by_cases h : code = c
  · subst h
    rw [mapGet_mapSet_same] at hg1
    rw [hc] at hg
    exact Or.inr ⟨rfl, (Option.some.inj hg).symm, (Option.some.inj hg1).symm⟩
  · rw [mapGet_mapSet_ne _ _ _ _ h, hg] at hg1
    exact Or.inl (Option.some.inj hg1).symm

theorem endTurn_status (g : GameRoom) :
    g.endTurn.2.status = g.status ∨ g.endTurn.2.status = .roundEnd ∨
      g.endTurn.2.status = .gameEnd := by
  unfold GameRoom.endTurn
  simp only
  split
  · split
    · exact Or.inr (Or.inr rfl)
    · exact Or.inr (Or.inl rfl)
  · exact Or.inl rfl

theorem handleTurnEnd_status (E : Engine) (gameCode : Option String) (code : String)
    (g g1 : GameRoom) (hg : mapGet E.activeGames code = some g)
    (hg1 : mapGet (handleTurnEnd E gameCode).1.activeGames code = some g1) :
    g1.status = g.status ∨
      (gameCode = some code ∧ (g1.status = .roundEnd ∨ g1.status = .gameEnd)) := by
  unfold handleTurnEnd at hg1
  cases gameCode with
  | none =>
    simp only at hg1
    rw [hg] at hg1
    exact Or.inl (by rw [Option.some.inj hg1])
  | some c =>
    simp only at hg1
    cases hc : mapGet E.activeGames c with
    | none =>
      rw [hc] at hg1
      simp only at hg1
      rw [hg] at hg1
      exact Or.inl (by rw [Option.some.inj hg1])
    | some game =>
      rw [hc] at hg1
      simp only at hg1
      rcases status_of_mapSet _ _ _ _ _ _ _ hc hg hg1 with h | ⟨h1, h2, h3⟩
      · exact Or.inl (by rw [h])
      · rw [h3, h2, h1]
        rcases endTurn_status game with e | e
        · exact Or.inl e
        · exact Or.inr ⟨rfl, e⟩

theorem submitGuess_status (g g1 : GameRoom) (socketId playerName guess : String) (now : Nat)
    (r : GuessResult) (h : g.submitGuess socketId playerName guess now = some (r, g1)) :
    g1.status = g.status := by
  unfold GameRoom.submitGuess at h
  split at h
  · cases h; rfl
  · split at h
    · cases h; rfl
    · split at h
      · cases h
      · simp only at h
        split at h
        · cases h; rfl
        · cases h; rfl


theorem guess_status_step (E E1 : Engine) (socket : Socket) (guess : String) (now : Nat)
    (res : Option TurnResult) (code : String) (g g1 : GameRoom)
    (hrun : onGameGuess E socket guess now = some (E1, res))
    (hg : mapGet E.activeGames code = some g) (hg1 : mapGet E1.activeGames code = some g1) :
    g1.status = g.status ∨
      (g.status = .playing ∧ (g1.status = .roundEnd ∨ g1.status = .gameEnd)) := by
  have same : ∀ E2, E2 = E → mapGet E2.activeGames code = some g1 → g1.status = g.status := by
    intro E2 h2 h3
    rw [h2, hg] at h3
    rw [Option.some.inj h3]
  unfold onGameGuess at hrun
  split at hrun
  · cases hrun; exact Or.inl (same _ rfl hg1)
  · rename_i c hc
    split at hrun
    · cases hrun; exact Or.inl (same _ rfl hg1)
    · rename_i game hgame
      split at hrun
      · cases hrun; exact Or.inl (same _ rfl hg1)
      · rename_i hplaying
        have hpl : game.status = .playing := by
          by_contra hn; exact hplaying hn
        split at hrun
        · cases hrun; exact Or.inl (same _ rfl hg1)
        · split at hrun
          · cases hrun
          · rename_i r game1 hsub
            have hst := submitGuess_status _ _ _ _ _ _ _ hsub
            simp only at hrun
            split at hrun
            · simp only [Option.some.injEq] at hrun
              have hE1 : E1 = (handleTurnEnd (clearInterval
                  { E with activeGames := mapSet E.activeGames c game1 } game1.timerInterval)
                  socket.gameCode).1 := by rw [hrun]
              rw [hE1] at hg1
              cases hmid : mapGet (mapSet E.activeGames c game1) code with
              | none =>
                by_cases hcc : code = c
                · rw [hcc, mapGet_mapSet_same] at hmid; cases hmid
                · rw [mapGet_mapSet_ne _ _ _ _ hcc, hg] at hmid; cases hmid
              | some g2 =>
                have hmid2 : mapGet (clearInterval
                    { E with activeGames := mapSet E.activeGames c game1 }
                    game1.timerInterval).activeGames code = some g2 := by
                  rw [clearInterval_activeGames]; exact hmid
                have h2 : g2.status = g.status := by
                  rcases status_of_mapSet _ _ _ _ _ _ _ hgame hg hmid with h | ⟨-, h2, h3⟩
                  · rw [h]
                  · rw [h3, h2]; exact hst
                rcases handleTurnEnd_status _ _ _ _ _ hmid2 hg1 with h | ⟨hcode, h⟩
                · exact Or.inl (h.trans h2)
                · have hcc : c = code := by
                    rw [hc] at hcode; exact Option.some.inj hcode
                  subst hcc
                  rw [hgame] at hg
                  rw [← Option.some.inj hg]
                  exact Or.inr ⟨hpl, h⟩
            · simp only [Option.some.injEq, Prod.mk.injEq] at hrun
              rw [← hrun.1] at hg1
              rcases status_of_mapSet _ _ _ _ _ _ _ hgame hg hg1 with h | ⟨-, h2, h3⟩
              · exact Or.inl (by rw [h])
              · exact Or.inl (by rw [h3, h2]; exact hst)


/-- The game found under `code` after the turn end run on a registry in which
`c` was set to `game1`, a game of the status of the old entry. -/
theorem turnEnd_after_set (E : Engine) (c code : String) (game game1 g g1 : GameRoom)
    (handle : Option Nat) (gameCode : Option String)
    (hgame : mapGet E.activeGames c = some game) (hst : game1.status = game.status)
    (hg : mapGet E.activeGames code = some g)
    (hg1 : mapGet (handleTurnEnd (clearInterval
      { E with activeGames := mapSet E.activeGames c game1 } handle)
      gameCode).1.activeGames code = some g1) :
    g1.status = g.status ∨ (g1.status = .roundEnd ∨ g1.status = .gameEnd) := by
  cases hmid : mapGet (mapSet E.activeGames c game1) code with
  | none =>
    by_cases hcc : code = c
    · rw [hcc, mapGet_mapSet_same] at hmid; cases hmid
    · rw [mapGet_mapSet_ne _ _ _ _ hcc, hg] at hmid; cases hmid
  | some g2 =>
    have hmid2 : mapGet (clearInterval
        { E with activeGames := mapSet E.activeGames c game1 } handle).activeGames code =
        some g2 := by
      rw [clearInterval_activeGames]; exact hmid
    have h2 : g2.status = g.status := by
      rcases status_of_mapSet _ _ _ _ _ _ _ hgame hg hmid with h | ⟨-, h2, h3⟩
      · rw [h]
      · rw [h3, h2]; exact hst
    rcases handleTurnEnd_status _ _ _ _ _ hmid2 hg1 with h | ⟨-, h⟩
    · exact Or.inl (h.trans h2)
    · exact Or.inr h

theorem leave_status_step (E : Engine) (socket : Socket) (code : String) (g g1 : GameRoom)
    (hg : mapGet E.activeGames code = some g)
    (hg1 : mapGet (handleLeaveGame E socket).1.activeGames code = some g1) :
    g1.status = g.status ∨
      (g.status = .playing ∧ (g1.status = .roundEnd ∨ g1.status = .gameEnd)) := by
  have same : mapGet E.activeGames code = some g1 → g1.status = g.status := by
    intro h3
    rw [hg] at h3
    rw [Option.some.inj h3]
  unfold handleLeaveGame at hg1
  split at hg1
  · exact Or.inl (same hg1)
  · rename_i c hc
    split at hg1
    · exact Or.inl (same hg1)
    · rename_i game hgame
      simp only at hg1
      split at hg1
      · obtain ⟨-, h2⟩ := mapGet_mapDelete _ _ _ _ hg1
        exact Or.inl (same h2)
      · split at hg1
        · split at hg1
          · rcases status_of_mapSet _ _ _ _ _ _ _ hgame hg hg1 with h | ⟨-, h2, h3⟩
            · exact Or.inl (by rw [h])
            · exact Or.inl (by rw [h3, h2]; rfl)
          · rcases status_of_mapSet _ _ _ _ _ _ _ hgame hg hg1 with h | ⟨-, h2, h3⟩
            · exact Or.inl (by rw [h])
            · exact Or.inl (by rw [h3, h2]; rfl)
        · split at hg1
          · rename_i hdr
            have hpl : game.status = .playing := hdr.1
            by_cases hcc : code = c
            · subst hcc
              rw [hgame] at hg
              rw [← Option.some.inj hg]
              rcases turnEnd_after_set E code code game (game.removePlayer socket.id) game g1
                  _ _ hgame rfl hgame hg1 with h | h
              · exact Or.inl h
              · exact Or.inr ⟨hpl, h⟩
            · have hmid : mapGet (clearInterval
                  { E with activeGames := mapSet E.activeGames c (game.removePlayer socket.id) }
                  (game.removePlayer socket.id).timerInterval).activeGames code = some g := by
                rw [clearInterval_activeGames]
                show mapGet (mapSet E.activeGames c _) code = some g
                rw [mapGet_mapSet_ne _ _ _ _ hcc]; exact hg
              rcases handleTurnEnd_status _ _ _ _ _ hmid hg1 with h | ⟨hcode, -⟩
              · exact Or.inl h
              · rw [hc] at hcode
                exact absurd (Option.some.inj hcode).symm hcc
          · rcases status_of_mapSet _ _ _ _ _ _ _ hgame hg hg1 with h | ⟨-, h2, h3⟩
            · exact Or.inl (by rw [h])
            · exact Or.inl (by rw [h3, h2]; rfl)

theorem tick_status_step (E : Engine) (socket : Socket) (handle : Nat) (deadExpired : Bool)
    (code : String) (g g1 : GameRoom) (hg : mapGet E.activeGames code = some g)
    (hg1 : mapGet (onTick E socket handle deadExpired).1.activeGames code = some g1) :
    g1.status = g.status ∨ (g1.status = .roundEnd ∨ g1.status = .gameEnd) := by
  have same : mapGet E.activeGames code = some g1 → g1.status = g.status := by
    intro h3
    rw [hg] at h3
    rw [Option.some.inj h3]
  unfold onTick at hg1
  split at hg1
  · exact Or.inl (same hg1)
  · rename_i interval _
    split at hg1
    · rename_i game hgame
      simp only at hg1
      split at hg1
      · exact turnEnd_after_set E _ code game { game with timeLeft := game.timeLeft - 1 } g g1
          _ _ hgame rfl hg hg1
      · rcases status_of_mapSet _ _ _ _ _ _ _ hgame hg hg1 with h | ⟨-, h2, h3⟩
        · exact Or.inl (by rw [h])
        · exact Or.inl (by rw [h3, h2])
    · split at hg1
      · rcases handleTurnEnd_status _ _ _ _ _ hg hg1 with h | ⟨-, h⟩
        · exact Or.inl h
        · exact Or.inr h
      · exact Or.inl (same hg1)


theorem setPlayerReady_status (g : GameRoom) (socketId : String) (isReady : Bool) :
    (g.setPlayerReady socketId isReady).status = g.status := by
  unfold GameRoom.setPlayerReady
  split <;> rfl

/-- C15, as stated, fails: `game:next-round` moves the lobby `GAME01` to
`playing`; after a `game:restart` during a turn the countdown is still live and
its ticks move the lobby to `roundEnd`; and `game:start` moves a game that has
reached `gameEnd` back to `playing`. -/
theorem status_machine_counterexample :
    statusView (worldAfter (lobbyEvents "easy")) = some .lobby ∧
    statusView (worldAfter (lobbyEvents "easy" ++ [("p1", .nextRound 3)])) = some .playing ∧
    statusView (worldAfter (shortMatch ++ [("p0", .restart)])) = some .lobby ∧
    statusView (worldAfter (shortMatch ++
      [("p0", .restart), ("p0", .tick 0 false), ("p0", .tick 0 false)])) = some .roundEnd ∧
    statusView (worldAfter (shortMatch ++
      [("p1", .guess "car" 1), ("p0", .nextRound 0), ("p0", .guess "cat" 2)])) =
        some .gameEnd ∧
    statusView (worldAfter (shortMatch ++
      [("p1", .guess "car" 1), ("p0", .nextRound 0), ("p0", .guess "cat" 2),
        ("p0", .start 5)])) = some .playing := by
  decide

/-- C15 (amended): every change of the status of a registered game made by an
event is one of: to `playing` by `game:start` or `game:next-round`, from any
status; from `playing` to `roundEnd` or `gameEnd` by the turn end that
`game:guess` or `game:leave` runs; to `roundEnd` or `gameEnd` by the turn end
that a countdown tick runs; to `lobby` by `game:restart`.  The other events
(`game:create` of another code, `game:join`, `game:ready`, `game:draw`,
`game:clear-canvas`) change no status. -/
theorem status_transitions (E E1 : Engine) (socket socket1 : Socket) (ev : GameEvent)
    (code : String) (g g1 : GameRoom)
    (hrun : runEvent E socket ev = some (E1, socket1))
    (hfresh : ∀ userName settings now, ev ≠ .create userName settings code now)
    (hg : mapGet E.activeGames code = some g) (hg1 : mapGet E1.activeGames code = some g1)
    (hchange : g1.status ≠ g.status) :
    (((∃ rnd, ev = .start rnd) ∨ (∃ rnd, ev = .nextRound rnd)) ∧ g1.status = .playing) ∨
    (((∃ guess now, ev = .guess guess now) ∨ ev = .leave) ∧ g.status = .playing ∧
      (g1.status = .roundEnd ∨ g1.status = .gameEnd)) ∨
    ((∃ handle deadExpired, ev = .tick handle deadExpired) ∧
      (g1.status = .roundEnd ∨ g1.status = .gameEnd)) ∨
    (ev = .restart ∧ g1.status = .lobby) := by
  have same : ∀ E2 : Engine, E2 = E → mapGet E2.activeGames code = some g1 → False := by
    intro E2 h2 h3
    rw [h2, hg] at h3
    exact hchange (by rw [Option.some.inj h3])
  have viaSet : ∀ (c : String) (game game1 : GameRoom), mapGet E.activeGames c = some game →
      mapGet (mapSet E.activeGames c game1) code = some g1 → game1.status = game.status →
      False := by
    intro c game game1 hc h3 hst
    rcases status_of_mapSet _ _ _ _ _ _ _ hc hg h3 with h | ⟨-, h2, h3⟩
    · exact hchange (by rw [h])
    · exact hchange (by rw [h3, h2]; exact hst)
  cases ev with
  | create userName settings c now =>
    exfalso
    simp only [runEvent, Option.some.injEq, Prod.mk.injEq] at hrun
    have hc : code ≠ c := fun e => hfresh userName settings now (by rw [e])
    rw [← hrun.1] at hg1
    simp only [onGameCreate] at hg1
    rw [mapGet_mapSet_ne _ _ _ _ hc, hg] at hg1
    exact hchange (by rw [Option.some.inj hg1])
  | join gameCode userName =>
    exfalso
    simp only [runEvent, Option.some.injEq, Prod.mk.injEq] at hrun
    rw [← hrun.1] at hg1
    unfold onGameJoin at hg1
    simp only at hg1
    split at hg1
    · exact same _ rfl hg1
    · rename_i game hgame
      split at hg1
      · exact same _ rfl hg1
      · split at hg1
        · exact same _ rfl hg1
        · exact viaSet _ game _ hgame hg1 rfl
  | ready isReady =>
    exfalso
    simp only [runEvent, Option.some.injEq, Prod.mk.injEq] at hrun
    rw [← hrun.1] at hg1
    unfold onGameReady at hg1
    split at hg1
    · exact same _ rfl hg1
    · split at hg1
      · exact same _ rfl hg1
      · rename_i game hgame
        exact viaSet _ game _ hgame hg1 (setPlayerReady_status _ _ _)
  | start rnd =>
    refine Or.inl ⟨Or.inl ⟨rnd, rfl⟩, ?_⟩
    simp only [runEvent, Option.map_eq_some', Prod.mk.injEq, Prod.exists] at hrun
    obtain ⟨E2, ack, hstart, hE, -⟩ := hrun
    subst hE
    unfold onGameStart at hstart
    split at hstart
    · cases hstart; exact (same _ rfl hg1).elim
    · rename_i c hc
      split at hstart
      · cases hstart; exact (same _ rfl hg1).elim
      · rename_i game hgame
        split at hstart
        · cases hstart; exact (same _ rfl hg1).elim
        · split at hstart
          · cases hstart; exact (same _ rfl hg1).elim
          · split at hstart
            · cases hstart
            · rename_i game1 hsg
              simp only [Option.some.injEq, Prod.mk.injEq] at hstart
              rw [← hstart.1] at hg1
              simp only [startCountdown] at hg1
              have hpl := (startGame_fields _ _ _ hsg).1
              rcases status_of_mapSet _ _ _ _ _ _ _ hgame hg hg1 with h | ⟨-, -, h3⟩
              · exact absurd (by rw [h]) hchange
              · rw [h3]; exact hpl
  | guess guess now =>
    refine Or.inr (Or.inl ⟨Or.inl ⟨guess, now, rfl⟩, ?_⟩)
    simp only [runEvent, Option.map_eq_some', Prod.mk.injEq, Prod.exists] at hrun
    obtain ⟨E2, res, hgu, hE, -⟩ := hrun
    subst hE
    rcases guess_status_step _ _ _ _ _ _ _ _ _ hgu hg hg1 with h | h
    · exact absurd h hchange
    · exact h
  | draw data =>
    exfalso
    simp only [runEvent, Option.some.injEq, Prod.mk.injEq] at hrun
    rw [← hrun.1] at hg1
    unfold onGameDraw at hg1
    split at hg1
    · exact same _ rfl hg1
    · split at hg1
      · exact same _ rfl hg1
      · rename_i game hgame
        split at hg1
        · exact same _ rfl hg1
        · split at hg1
          · exact same _ rfl hg1
          · exact viaSet _ game _ hgame hg1 rfl
  | clearCanvas =>
    exfalso
    simp only [runEvent, Option.some.injEq, Prod.mk.injEq] at hrun
    rw [← hrun.1] at hg1
    unfold onGameClearCanvas at hg1
    split at hg1
    · exact same _ rfl hg1
    · split at hg1
      · exact same _ rfl hg1
      · rename_i game hgame
        split at hg1
        · exact same _ rfl hg1
        · split at hg1
          · exact same _ rfl hg1
          · exact viaSet _ game _ hgame hg1 rfl
  | nextRound rnd =>
    refine Or.inl ⟨Or.inr ⟨rnd, rfl⟩, ?_⟩
    simp only [runEvent, Option.map_eq_some', Prod.mk.injEq] at hrun
    obtain ⟨E2, hnr, hE, -⟩ := hrun
    subst hE
    unfold onGameNextRound at hnr
    split at hnr
    · cases hnr; exact (same _ rfl hg1).elim
    · split at hnr
      · cases hnr; exact (same _ rfl hg1).elim
      · rename_i game hgame
        split at hnr
        · cases hnr
        · rename_i info game1 hturn
          simp only [Option.some.injEq] at hnr
          rw [← hnr] at hg1
          simp only [startCountdown] at hg1
          obtain ⟨-, -, -, -, -, -, -, -, -, hst, -⟩ := startNewTurn_fields _ _ _ _ hturn
          rcases status_of_mapSet _ _ _ _ _ _ _ hgame hg hg1 with h | ⟨-, -, h3⟩
          · exact absurd (by rw [h]) hchange
          · rw [h3]; exact hst
  | restart =>
    refine Or.inr (Or.inr (Or.inr ⟨rfl, ?_⟩))
    simp only [runEvent, Option.some.injEq, Prod.mk.injEq] at hrun
    rw [← hrun.1] at hg1
    unfold onGameRestart at hg1
    split at hg1
    · exact (same _ rfl hg1).elim
    · split at hg1
      · exact (same _ rfl hg1).elim
      · rename_i game hgame
        rcases status_of_mapSet _ _ _ _ _ _ _ hgame hg hg1 with h | ⟨-, -, h3⟩
        · exact absurd (by rw [h]) hchange
        · rw [h3]; rfl
  | leave =>
    refine Or.inr (Or.inl ⟨Or.inr rfl, ?_⟩)
    simp only [runEvent, Option.some.injEq] at hrun
    have hE : (handleLeaveGame E socket).1 = E1 := by rw [hrun]
    rw [← hE] at hg1
    rcases leave_status_step _ _ _ _ _ hg hg1 with h | h
    · exact absurd h hchange
    · exact h
  | tick handle deadExpired =>
    refine Or.inr (Or.inr (Or.inl ⟨⟨handle, deadExpired, rfl⟩, ?_⟩))
    simp only [runEvent, Option.some.injEq, Prod.mk.injEq] at hrun
    rw [← hrun.1] at hg1
    rcases tick_status_step _ _ _ _ _ _ _ hg hg1 with h | h
    · exact absurd h hchange
    · exact h


/-- C15 (amended) at a concrete input: the host `p0` starts the lobby `duel 2`,
which moves from `lobby` to `playing`. -/
theorem status_transitions_witness :
    (((∃ rnd, GameEvent.start 7 = .start rnd) ∨ (∃ rnd, GameEvent.start 7 = .nextRound rnd)) ∧
      (startedDuel 2).status = .playing) ∨
    (((∃ guess now, GameEvent.start 7 = .guess guess now) ∨ GameEvent.start 7 = .leave) ∧
      (duel 2).status = .playing ∧
      ((startedDuel 2).status = .roundEnd ∨ (startedDuel 2).status = .gameEnd)) ∨
    ((∃ handle deadExpired, GameEvent.start 7 = .tick handle deadExpired) ∧
      ((startedDuel 2).status = .roundEnd ∨ (startedDuel 2).status = .gameEnd)) ∨
    (GameEvent.start 7 = .restart ∧ (startedDuel 2).status = .lobby) :=
  status_transitions (engineOf (duel 2))
    (startCountdown (engineOf (duel 2)) (gameSocket "p0" "GAME01") "GAME01" (startedDuel 2))
    (gameSocket "p0" "GAME01") (gameSocket "p0" "GAME01") (.start 7) "GAME01" (duel 2)
    { startedDuel 2 with timerInterval := some 0 } (by decide) (fun _ _ _ h => nomatch h)
    (by decide) (by decide) (by decide)

theorem sortByScore_perm (xs : List LeaderboardEntry) : (sortByScore xs).Perm xs :=
  List.perm_insertionSort _ xs

theorem sortByScore_sorted (xs : List LeaderboardEntry) :
    (sortByScore xs).Pairwise fun a b => a.score ≥ b.score := by
  haveI : IsTotal LeaderboardEntry (fun a b => compareScore a b ≤ 0) :=
    ⟨fun a b => by unfold compareScore; omega⟩
  haveI : IsTrans LeaderboardEntry (fun a b => compareScore a b ≤ 0) :=
    ⟨fun a b c hab hbc => by unfold compareScore at *; omega⟩
  have h := List.sorted_insertionSort (fun a b : LeaderboardEntry => compareScore a b ≤ 0) xs
  unfold sortByScore
  refine List.Pairwise.imp ?_ h
  intro a b hab
  unfold compareScore at hab
  omega

theorem sortByScore_stable (xs : List LeaderboardEntry) (s : Int) :
    (sortByScore xs).filter (fun e => decide (e.score = s)) =
      xs.filter (fun e => decide (e.score = s)) := by
  have hpw : (xs.filter fun e => decide (e.score = s)).Pairwise
      fun a b => compareScore a b ≤ 0 := by
    rw [List.pairwise_iff_forall_sublist]
    intro a b hab
    have ha := hab.subset (List.mem_cons_self a [b])
    have hb := hab.subset (List.mem_cons_of_mem a (List.mem_singleton_self b))
    simp only [List.mem_filter, decide_eq_true_eq] at ha hb
    unfold compareScore
    omega
  have hsub : List.Sublist (xs.filter fun e => decide (e.score = s)) (sortByScore xs) :=
    List.sublist_insertionSort hpw (List.filter_sublist xs)
  have hsub2 := hsub.filter fun e => decide (e.score = s)
  rw [List.filter_filter] at hsub2
  simp only [Bool.and_self] at hsub2
  have hlen : ((sortByScore xs).filter fun e => decide (e.score = s)).length =
      (xs.filter fun e => decide (e.score = s)).length :=
    ((sortByScore_perm xs).filter _).length_eq
  exact (hsub2.eq_of_length hlen.symm).symm

/-- C21: for every game state, `getLeaderboard` is a permutation of the current
players, each annotated with `scores[id] || 0`; it is sorted in non-increasing
order of score; players of equal score keep their join order (for every score
`s`, the entries of score `s` are those of the join-ordered list, in the same
order); `getWinner` is `null` iff there is no player, and otherwise it is the
first element of the leaderboard, one of the annotated players, and no entry
has a higher score. -/
theorem getLeaderboard_sorted_perm (g : GameRoom) :
    g.getLeaderboard.Perm (scoredPlayers g) ∧
    (∀ e ∈ scoredPlayers g, e.score = (mapGet g.scores e.id).getD 0) ∧
    (scoredPlayers g).map LeaderboardEntry.toPlayer = mapValues g.players ∧
    g.getLeaderboard.Pairwise (fun a b => a.score ≥ b.score) ∧
    (∀ s : Int, g.getLeaderboard.filter (fun e => decide (e.score = s)) =
      (scoredPlayers g).filter (fun e => decide (e.score = s))) ∧
    (g.getWinner = none ↔ g.players = []) ∧
    (∀ w, g.getWinner = some w →
      g.getLeaderboard.head? = some w ∧ w ∈ scoredPlayers g ∧
      ∀ e ∈ scoredPlayers g, e.score ≤ w.score) := by
  have hperm : g.getLeaderboard.Perm (scoredPlayers g) := sortByScore_perm _
  have hsorted : g.getLeaderboard.Pairwise (fun a b => a.score ≥ b.score) :=
    sortByScore_sorted _
  refine ⟨hperm, ?_, ?_, hsorted, fun s => sortByScore_stable _ s, ?_, ?_⟩
  · intro e he
    unfold scoredPlayers at he
    obtain ⟨p, -, rfl⟩ := List.mem_map.mp he
    rfl
  · unfold scoredPlayers GameRoom.getPlayersList
    rw [List.map_map]
    exact List.map_id _
  · unfold GameRoom.getWinner
    rw [List.head?_eq_none_iff]
    constructor
    · intro h
      have hl := hperm.length_eq
      rw [h] at hl
      unfold scoredPlayers GameRoom.getPlayersList mapValues at hl
      simp only [List.length_nil, List.length_map] at hl
      exact List.length_eq_zero.mp hl.symm
    · intro h
      have hl := hperm.length_eq
      unfold scoredPlayers GameRoom.getPlayersList mapValues at hl
      rw [h] at hl
      exact List.length_eq_zero.mp hl
  · intro w hw
    unfold GameRoom.getWinner at hw
    refine ⟨hw, ?_, ?_⟩
    · exact hperm.subset (List.mem_of_mem_head? hw)
    · intro e he
      have he2 : e ∈ g.getLeaderboard := hperm.symm.subset he
      cases hL : g.getLeaderboard with
      | nil => rw [hL] at hw; cases hw
      | cons x rest =>
        rw [hL] at hw hsorted he2
        simp only [List.head?_cons, Option.some.injEq] at hw
        subst hw
        rcases List.mem_cons.mp he2 with rfl | hmem
        · exact le_refl _
        · exact (List.pairwise_cons.mp hsorted).1 e hmem

theorem getLeaderboard_sorted_perm_witness :
    scoredTrio.getLeaderboard.map (fun e => (e.id, e.score)) =
      [("p1", 250), ("p0", 40), ("p2", 40)] ∧
    (scoredTrio.getWinner.map fun e => e.id) = some "p1" ∧
    scoredTrio.getLeaderboard.Perm (scoredPlayers scoredTrio) :=
  ⟨by decide, by decide, (getLeaderboard_sorted_perm scoredTrio).1⟩

/-- C23: two game states that are equal except for `currentWord`, `usedWords`
and `drawHistory` have equal snapshots: `getGameState` reads none of the three
fields, so the snapshot does not depend on the secret word. -/
theorem getGameState_hides_word (g1 g2 : GameRoom)
    (h : { g1 with currentWord := g2.currentWord, usedWords := g2.usedWords,
                   drawHistory := g2.drawHistory } = g2) :
    g1.getGameState = g2.getGameState := by
  rw [← h]
  rfl

theorem getGameState_hides_word_witness :
    (startedDuel 2).currentWord = some "car" ∧
    (otherWord (startedDuel 2)).currentWord = some "dog" ∧
    (startedDuel 2).getGameState = (otherWord (startedDuel 2)).getGameState :=
  ⟨by decide, by decide, getGameState_hides_word (startedDuel 2) (otherWord (startedDuel 2)) rfl⟩

theorem mapSet_of_absent {κ ν : Type} [DecidableEq κ] (m : JSMap κ ν) (k : κ) (v : ν)
    (h : mapGet m k = none) : mapSet m k v = m ++ [(k, v)] := by
  induction m with
  | nil => rfl
  | cons e rest ih =>
    obtain ⟨k', v'⟩ := e
    by_cases hk : k' = k
    · simp [mapGet, hk] at h
    · simp only [mapGet, if_neg hk] at h
      simp only [mapSet, if_neg hk, ih h, List.cons_append]

/-- C25, counterexample: in a game created for up to 10 players, the ninth
player to join (`j = 8`) gets the colour `hsl(360, 70%, 60%)`, whose hue 360 is
not `(8 * 45) mod 360 = 0`; and after `p1` has left a lobby of three, the next
player to join (the join of index 3) gets the hue 90 that `p2` already has, not
`(3 * 45) mod 360 = 135`. -/
theorem colour_hue_counterexample :
    colourView (worldAfter crowdEvents) "p8" = some "hsl(360, 70%, 60%)" ∧
    (colourView (worldAfter crowdEvents) "p8").bind hueOf = some 360 ∧
    (8 * 45) % 360 = 0 ∧
    (colourView (worldAfter (lobbyEvents "easy" ++
      [("p1", .leave), ("p3", .join "GAME01" "Dee")])) "p3").bind hueOf = some 90 ∧
    (colourView (worldAfter (lobbyEvents "easy" ++
      [("p1", .leave), ("p3", .join "GAME01" "Dee")])) "p2").bind hueOf = some 90 ∧
    (3 * 45) % 360 = 135 := by
  decide

/-- C25 (as amended): a player added by `addPlayer` to a game that has `n`
players gets the colour `hsl(H, 70%, 60%)` with `H = n * 45`, written without
reduction modulo 360.  A new player is appended to the roster, so `n` is its
position there (the join index when nobody has left before).  `H` is
`(n * 45) mod 360` exactly when `n < 8`, and the hue read back from the colour
string is `n * 45` (checked for every `n < 64`). -/
theorem addPlayer_colour (g : GameRoom) (socketId name : String)
    (hnew : mapGet g.players socketId = none) :
    (g.addPlayer socketId name).2.getPlayersList =
      g.getPlayersList ++ [(g.addPlayer socketId name).1] ∧
    (g.addPlayer socketId name).1.color = hslColor (g.getPlayersList.length * 45) ∧
    (g.addPlayer socketId name).1.color =
      "hsl(" ++ toString (g.getPlayersList.length * 45) ++ ", 70%, 60%)" ∧
    (g.getPlayersList.length * 45 % 360 = g.getPlayersList.length * 45 ↔
      g.getPlayersList.length < 8) ∧
    (g.getPlayersList.length < 64 →
      hueOf (g.addPlayer socketId name).1.color = some (g.getPlayersList.length * 45)) := by
  have hlen : g.getPlayersList.length = mapSize g.players := by
    unfold GameRoom.getPlayersList mapValues mapSize
    exact List.length_map _ _
  have hcol : (g.addPlayer socketId name).1.color = hslColor (g.getPlayersList.length * 45) := by
    rw [hlen]
    rfl
  refine ⟨?_, hcol, hcol, ?_, ?_⟩
  · unfold GameRoom.getPlayersList GameRoom.addPlayer mapValues
    simp only [mapSet_of_absent _ _ _ hnew, List.map_append, List.map_cons, List.map_nil]
  · constructor
    · intro h
      by_contra hge
      have h8 : 360 ≤ g.getPlayersList.length * 45 := by omega
      have hlt := Nat.mod_lt (g.getPlayersList.length * 45) (by decide : 360 > 0)
      omega
    · intro h
      exact Nat.mod_eq_of_lt (by omega)
  · intro h
    rw [hcol]
    have hall : ∀ n < 64, hueOf (hslColor (n * 45)) = some (n * 45) := by
      set_option maxRecDepth 100000 in decide
    exact hall _ h

theorem addPlayer_colour_witness :
    mapGet trio.players "p3" = none ∧
    (trio.addPlayer "p3" "Dee").1.color = "hsl(135, 70%, 60%)" ∧
    (trio.addPlayer "p3" "Dee").2.getPlayersList =
      trio.getPlayersList ++ [(trio.addPlayer "p3" "Dee").1] :=
  ⟨by decide, by decide, (addPlayer_colour trio "p3" "Dee" (by decide)).1⟩

theorem roundHalfEven_tie (p q : Nat) (hq : 0 < q)
    (h : 2 * (roundHalfEven p q * q) = 2 * p + q ∨ 2 * p = 2 * (roundHalfEven p q * q) + q) :
    roundHalfEven p q % 2 = 0 := by
  have hdm := Nat.div_add_mod p q
  have hlt := Nat.mod_lt p hq
  have hmul : (p / q + 1) * q = q * (p / q) + q := by ring
  have hmul0 : (p / q) * q = q * (p / q) := by ring
  unfold roundHalfEven at h ⊢
  simp only at h ⊢
  split
  · rename_i h1
    rw [if_pos h1, hmul0] at h
    omega
  · rename_i h1
    rw [if_neg h1] at h
    split
    · rename_i h2
      rw [if_pos h2, hmul] at h
      omega
    · rename_i h2
      rw [if_neg h2] at h
      split
      · rename_i h3
        exact h3
      · omega

theorem roundHalfEven_tie_rat (n d : Nat) (hd : 0 < d)
    (h : |(roundHalfEven n d : ℚ) - (n : ℚ) / d| = 1 / 2) : roundHalfEven n d % 2 = 0 := by
  have hdq : (0 : ℚ) < d := by exact_mod_cast hd
  apply roundHalfEven_tie n d hd
  rcases abs_eq (by norm_num : (0 : ℚ) ≤ 1 / 2) |>.mp h with h1 | h1
  · left
    have e : (roundHalfEven n d : ℚ) = (n : ℚ) / d + 1 / 2 := by linarith
    have e2 : (2 : ℚ) * (roundHalfEven n d * d) = 2 * n + d := by
      rw [e]; field_simp; ring
    exact_mod_cast e2
  · right
    have e : (roundHalfEven n d : ℚ) = (n : ℚ) / d - 1 / 2 := by linarith
    have e2 : (2 : ℚ) * n = 2 * (roundHalfEven n d * d) + d := by
      rw [e]; field_simp; ring
    exact_mod_cast e2

theorem nearest_mono (m m2 : Nat) (R R2 : ℚ) (h1 : |(m : ℚ) - R| ≤ 1 / 2)
    (h2 : |(m2 : ℚ) - R2| ≤ 1 / 2) (t1 : |(m : ℚ) - R| = 1 / 2 → m % 2 = 0)
    (t2 : |(m2 : ℚ) - R2| = 1 / 2 → m2 % 2 = 0) (hRR : R ≤ R2) : m ≤ m2 := by
  by_contra hlt
  have hge : m2 + 1 ≤ m := by omega
  have hgeq : (m2 : ℚ) + 1 ≤ m := by exact_mod_cast hge
  obtain ⟨a1, a2⟩ := abs_le.mp h1
  obtain ⟨b1, b2⟩ := abs_le.mp h2
  have e1 : (m : ℚ) - R = 1 / 2 := by linarith
  have e2 : (m2 : ℚ) - R2 = -(1 / 2) := by linarith
  have e3 : (m : ℚ) = m2 + 1 := by linarith
  have e4 : m = m2 + 1 := by exact_mod_cast e3
  have p1 := t1 (by rw [e1]; norm_num)
  have p2 := t2 (by rw [e2]; norm_num)
  omega
theorem round53_spec (p q : Nat) (hp : 0 < p) (hq : 0 < q) :
    ∃ R : ℚ, R * 2 ^ (round53 p q).exp = (p : ℚ) / q ∧ 2 ^ 52 ≤ R ∧ R < 2 ^ 53 ∧
      |((round53 p q).mant : ℚ) - R| ≤ 1 / 2 ∧
      (|((round53 p q).mant : ℚ) - R| = 1 / 2 → (round53 p q).mant % 2 = 0) := by
  obtain ⟨hp1, hp2⟩ := bitLength_spec p hp
  obtain ⟨hq1, hq2⟩ := bitLength_spec q hq
  have hlp : 1 ≤ bitLength p := by
    by_contra hc
    have : bitLength p = 0 := by omega
    rw [this] at hp2
    simp at hp2
    omega
  have hlq : 1 ≤ bitLength q := by
    by_contra hc
    have : bitLength q = 0 := by omega
    rw [this] at hq2
    simp at hq2
    omega
  have hP : (2 : ℚ) ^ bitLength p ≤ 2 * p := by
    have h : 2 ^ bitLength p ≤ 2 * p := by
      have e : 2 ^ bitLength p = 2 * 2 ^ (bitLength p - 1) := by
        rw [← pow_succ']; congr 1; omega
      omega
    exact_mod_cast h
  have hQ2 : (2 : ℚ) ^ bitLength q ≤ 2 * q := by
    have h : 2 ^ bitLength q ≤ 2 * q := by
      have e : 2 ^ bitLength q = 2 * 2 ^ (bitLength q - 1) := by
        rw [← pow_succ']; congr 1; omega
      omega
    exact_mod_cast h
  have hP2 : (p : ℚ) < 2 ^ bitLength p := by exact_mod_cast hp2
  have hQ : (q : ℚ) ≤ 2 ^ bitLength q := by exact_mod_cast hq2.le
  have hpq : (0 : ℚ) < p := by exact_mod_cast hp
  have hqq : (0 : ℚ) < q := by exact_mod_cast hq
  generalize hs : (53 - ((bitLength p : Int) - (bitLength q : Int)) : Int) = s
  have hpow : (2 : ℚ) ^ s * 2 ^ bitLength p = 2 ^ 53 * 2 ^ bitLength q := by
    have e1 : (2 : ℚ) ^ bitLength p = (2 : ℚ) ^ (bitLength p : Int) := (zpow_natCast _ _).symm
    have e2 : (2 : ℚ) ^ bitLength q = (2 : ℚ) ^ (bitLength q : Int) := (zpow_natCast _ _).symm
    have e3 : (2 : ℚ) ^ 53 = (2 : ℚ) ^ (53 : Int) := by norm_num
    rw [e1, e2, e3, ← zpow_add₀ (two_ne_zero), ← zpow_add₀ (two_ne_zero)]
    congr 1
    omega
  have hPpos : (0 : ℚ) < 2 ^ bitLength p := by positivity
  have hQpos : (0 : ℚ) < 2 ^ bitLength q := by positivity
  have e2s : (2 : ℚ) ^ s = 2 ^ 53 * 2 ^ bitLength q / 2 ^ bitLength p := by
    rw [eq_div_iff hPpos.ne']; exact hpow
  have hlow : (2 : ℚ) ^ 52 ≤ (p : ℚ) / q * 2 ^ s := by
    rw [e2s, div_mul_div_comm, le_div_iff₀ (by positivity)]
    have h1 : (q : ℚ) * 2 ^ bitLength p ≤ 2 ^ bitLength q * (2 * p) :=
      mul_le_mul hQ hP hPpos.le (by positivity)
    nlinarith
  have hhigh : (p : ℚ) / q * 2 ^ s < 2 ^ 54 := by
    rw [e2s, div_mul_div_comm, div_lt_iff₀ (by positivity)]
    have h1 : (p : ℚ) * 2 ^ bitLength q < 2 ^ bitLength p * (2 * q) :=
      mul_lt_mul hP2 hQ2 hQpos hPpos.le
    nlinarith
  have hratio : ((p * 2 ^ s.toNat : ℕ) : ℚ) / ((q * 2 ^ (-s).toNat : ℕ) : ℚ) =
      (p : ℚ) / q * 2 ^ s := by
    push_cast
    rw [← two_zpow_toNat s]
    field_simp
  have hdpos : 0 < q * 2 ^ (-s).toNat := by positivity
  have hinv : (2 : ℚ) ^ s * 2 ^ (-s) = 1 := by
    rw [← zpow_add₀ (two_ne_zero)]; simp
  unfold round53
  have hne : ¬ (p = 0 ∨ q = 0) := by omega
  simp only [if_neg hne, hs]
  split
  · rename_i hsmall
    refine ⟨(p : ℚ) / q * 2 ^ s, ?_, hlow, ?_, ?_, ?_⟩
    · rw [mul_assoc, hinv, mul_one]
    · rw [← hratio, div_lt_iff₀ (by exact_mod_cast hdpos)]
      have h := (Nat.div_lt_iff_lt_mul hdpos).mp hsmall
      exact_mod_cast h
    · rw [← hratio]
      exact roundHalfEven_abs _ _ hdpos
    · rw [← hratio]
      exact roundHalfEven_tie_rat _ _ hdpos
  · have hd2 : 0 < 2 * (q * 2 ^ (-s).toNat) := by positivity
    rename_i hbig
    have hbig2 : 2 ^ 53 * (q * 2 ^ (-s).toNat) ≤ p * 2 ^ s.toNat :=
      (Nat.le_div_iff_mul_le hdpos).mp (by omega)
    have hR : ((p * 2 ^ s.toNat : ℕ) : ℚ) / ((2 * (q * 2 ^ (-s).toNat) : ℕ) : ℚ) =
        (p : ℚ) / q * 2 ^ s / 2 := by
      rw [← hratio]; push_cast; field_simp; ring
    have hR52 : (2 : ℚ) ^ 52 ≤ (p : ℚ) / q * 2 ^ s / 2 := by
      rw [← hR, le_div_iff₀ (by exact_mod_cast hd2)]
      have h' : ((2 ^ 53 * (q * 2 ^ (-s).toNat) : ℕ) : ℚ) ≤ ((p * 2 ^ s.toNat : ℕ) : ℚ) := by
        exact_mod_cast hbig2
      push_cast at h' ⊢
      linarith
    refine ⟨(p : ℚ) / q * 2 ^ s / 2, ?_, hR52, ?_, ?_, ?_⟩
    · have e1 : (2 : ℚ) ^ (1 - s) = 2 * 2 ^ (-s) := by
        rw [sub_eq_add_neg, zpow_add₀ (two_ne_zero)]; simp
      rw [e1]
      have : (p : ℚ) / q * 2 ^ s / 2 * (2 * 2 ^ (-s)) = (p : ℚ) / q * (2 ^ s * 2 ^ (-s)) := by ring
      rw [this, hinv, mul_one]
    · have : (2 : ℚ) ^ 54 = 2 * 2 ^ 53 := by norm_num
      rw [this] at hhigh
      linarith
    · rw [← hR]
      exact roundHalfEven_abs _ _ hd2
    · rw [← hR]
      exact roundHalfEven_tie_rat _ _ hd2

theorem round53_mono (p q p2 q2 : Nat) (hp : 0 < p) (hq : 0 < q) (hp2 : 0 < p2) (hq2 : 0 < q2)
    (h : (p : ℚ) / q ≤ (p2 : ℚ) / q2) : (round53 p q).toRat ≤ (round53 p2 q2).toRat := by
  obtain ⟨R, hR, hlo, hhi, habs, htie⟩ := round53_spec p q hp hq
  obtain ⟨R2, hR2, hlo2, hhi2, habs2, htie2⟩ := round53_spec p2 q2 hp2 hq2
  unfold Dyadic.toRat
  generalize (round53 p q).mant = m at *
  generalize (round53 p q).exp = e at *
  generalize (round53 p2 q2).mant = m2 at *
  generalize (round53 p2 q2).exp = e2 at *
  have hE : (0 : ℚ) < 2 ^ e := by positivity
  have hE2 : (0 : ℚ) < 2 ^ e2 := by positivity
  have hm53 : (m : ℚ) ≤ 2 ^ 53 := by
    have h1 : (m : ℚ) < 2 ^ 53 + 1 := by
      have := (abs_le.mp habs).2
      linarith
    have h2 : m < 2 ^ 53 + 1 := by exact_mod_cast h1
    have h3 : m ≤ 2 ^ 53 := by omega
    exact_mod_cast h3
  have hm52 : (2 : ℚ) ^ 52 ≤ m2 := by
    have h1 : (2 : ℚ) ^ 52 - 1 < m2 := by
      have := (abs_le.mp habs2).1
      linarith
    have h3 : 2 ^ 52 ≤ m2 := by
      by_contra hc
      have h4 : m2 + 1 ≤ 2 ^ 52 := by omega
      have h5 : (m2 : ℚ) + 1 ≤ 2 ^ 52 := by exact_mod_cast h4
      linarith
    exact_mod_cast h3
  rcases lt_trichotomy e e2 with hlt | heq | hgt
  · have hstep : (2 : ℚ) ^ 53 * 2 ^ e ≤ 2 ^ 52 * 2 ^ e2 := by
      have e1 : (2 : ℚ) ^ 53 * 2 ^ e = 2 ^ (53 + e) := by
        rw [zpow_add₀ (two_ne_zero)]; norm_num
      have e3 : (2 : ℚ) ^ 52 * 2 ^ e2 = 2 ^ (52 + e2) := by
        rw [zpow_add₀ (two_ne_zero)]; norm_num
      rw [e1, e3]
      exact zpow_le_zpow_right₀ (by norm_num) (by omega)
    calc (m : ℚ) * 2 ^ e ≤ 2 ^ 53 * 2 ^ e := mul_le_mul_of_nonneg_right hm53 hE.le
      _ ≤ 2 ^ 52 * 2 ^ e2 := hstep
      _ ≤ m2 * 2 ^ e2 := mul_le_mul_of_nonneg_right hm52 hE2.le
  · subst heq
    have hRR : R ≤ R2 := by
      have : R * 2 ^ e ≤ R2 * 2 ^ e := by rw [hR, hR2]; exact h
      exact le_of_mul_le_mul_right this hE
    have hmm := nearest_mono m m2 R R2 habs habs2 htie htie2 hRR
    have : (m : ℚ) ≤ m2 := by exact_mod_cast hmm
    exact mul_le_mul_of_nonneg_right this hE.le
  · exfalso
    have hstep : (2 : ℚ) ^ 53 * 2 ^ e2 ≤ 2 ^ 52 * 2 ^ e := by
      have e1 : (2 : ℚ) ^ 53 * 2 ^ e2 = 2 ^ (53 + e2) := by
        rw [zpow_add₀ (two_ne_zero)]; norm_num
      have e3 : (2 : ℚ) ^ 52 * 2 ^ e = 2 ^ (52 + e) := by
        rw [zpow_add₀ (two_ne_zero)]; norm_num
      rw [e1, e3]
      exact zpow_le_zpow_right₀ (by norm_num) (by omega)
    have h1 : (p2 : ℚ) / q2 < 2 ^ 53 * 2 ^ e2 := by
      rw [← hR2]; exact mul_lt_mul_of_pos_right hhi2 hE2
    have h2 : (2 : ℚ) ^ 52 * 2 ^ e ≤ (p : ℚ) / q := by
      rw [← hR]; exact mul_le_mul_of_nonneg_right hlo hE.le
    linarith
theorem round53_mant_pos (p q : Nat) (hp : 0 < p) (hq : 0 < q) : 0 < (round53 p q).mant := by
  obtain ⟨R, -, hlo, -, habs, -⟩ := round53_spec p q hp hq
  rcases Nat.eq_zero_or_pos (round53 p q).mant with hz | hpos
  · rw [hz] at habs
    have := (abs_le.mp habs).1
    norm_num at this hlo
    linarith
  · exact hpos

theorem Dyadic.floor_eq (x : Dyadic) : x.floor = ⌊x.toRat⌋₊ := by
  rw [Dyadic.toRat_eq_div, Nat.floor_div_eq_div]
  rfl

theorem Dyadic.mulNat_mono (x y : Dyadic) (c : Nat) (hx : 0 < x.mant) (hy : 0 < y.mant)
    (hc : 0 < c) (h : x.toRat ≤ y.toRat) : (x.mulNat c).toRat ≤ (y.mulNat c).toRat := by
  have ex : ((x.mant * c * 2 ^ x.exp.toNat : ℕ) : ℚ) / ((2 ^ (-x.exp).toNat : ℕ) : ℚ) =
      c * x.toRat := by
    rw [Dyadic.toRat_eq_div]
    push_cast
    ring
  have ey : ((y.mant * c * 2 ^ y.exp.toNat : ℕ) : ℚ) / ((2 ^ (-y.exp).toNat : ℕ) : ℚ) =
      c * y.toRat := by
    rw [Dyadic.toRat_eq_div]
    push_cast
    ring
  unfold Dyadic.mulNat
  apply round53_mono _ _ _ _ (by positivity) (by positivity) (by positivity) (by positivity)
  rw [ex, ey]
  exact mul_le_mul_of_nonneg_left h (by positivity)

/-- The binary64 time bonus does not decrease when `timeLeft` grows. -/
theorem timeBonusOf_mono (t t2 r : Nat) (hr : 0 < r) (h : t ≤ t2) :
    timeBonusOf t r ≤ timeBonusOf t2 r := by
  have hunf : ∀ k : Nat, timeBonusOf k r = (((round53 k r).mulNat 50).floor : Int) := by
    intro k
    simp [timeBonusOf]
  rw [hunf, hunf]
  rcases Nat.eq_zero_or_pos t with h0 | htpos
  · subst h0
    have : ((round53 0 r).mulNat 50).floor = 0 := by
      simp [round53, Dyadic.mulNat, Dyadic.floor]
    rw [this]
    exact_mod_cast Nat.zero_le _
  · have ht2 : 0 < t2 := by omega
    have hrq : (0 : ℚ) < r := by exact_mod_cast hr
    have hle : (t : ℚ) / r ≤ (t2 : ℚ) / r := by
      apply div_le_div_of_nonneg_right _ hrq.le
      exact_mod_cast h
    have h1 := round53_mono t r t2 r htpos hr ht2 hr hle
    have h2 := Dyadic.mulNat_mono _ _ 50 (round53_mant_pos t r htpos hr)
      (round53_mant_pos t2 r ht2 hr) (by norm_num) h1
    rw [Dyadic.floor_eq, Dyadic.floor_eq]
    exact_mod_cast Nat.floor_mono h2

/-- The binary64 time bonus lies between 0 and 50 while `timeLeft` is between 0
and `roundTime`. -/
theorem timeBonusOf_bounds (t r : Nat) (hr : 0 < r) (ht : t ≤ r) :
    0 ≤ timeBonusOf t r ∧ timeBonusOf t r ≤ 50 := by
  have hunf : timeBonusOf t r = (((round53 t r).mulNat 50).floor : Int) := by
    simp [timeBonusOf]
  rw [hunf]
  refine ⟨by exact_mod_cast Nat.zero_le _, ?_⟩
  rcases Nat.eq_zero_or_pos t with h0 | htpos
  · subst h0
    have : ((round53 0 r).mulNat 50).floor = 0 := by
      simp [round53, Dyadic.mulNat, Dyadic.floor]
    rw [this]
    norm_num
  · have hrq : (0 : ℚ) < r := by exact_mod_cast hr
    have hu1 : (t : ℚ) / r ≤ 1 := by
      rw [div_le_one hrq]; exact_mod_cast ht
    have hu0 : (0 : ℚ) < (t : ℚ) / r := by
      have : (0 : ℚ) < t := by exact_mod_cast htpos
      positivity
    have hX := abs_le.mp (round53_err t r htpos hr)
    have hY := abs_le.mp (Dyadic.mulNat_err (round53 t r) 50 (round53_mant_pos t r htpos hr)
      (by norm_num))
    obtain ⟨hB0, -⟩ := Dyadic.floor_le ((round53 t r).mulNat 50)
    have hlt : (((round53 t r).mulNat 50).floor : ℚ) < 51 := by
      have h1 : (round53 t r).toRat ≤ 1 + 1 / 2 ^ 53 := by
        have h := hX.2
        have h3 : (t : ℚ) / r / 2 ^ 53 ≤ 1 / 2 ^ 53 :=
          div_le_div_of_nonneg_right hu1 (by positivity)
        linarith
      have h2 : ((round53 t r).mulNat 50).toRat ≤ 50 * (round53 t r).toRat * (1 + 1 / 2 ^ 53) := by
        have h := hY.2
        have e : ((50 : ℕ) : ℚ) = 50 := by norm_num
        rw [e] at h
        linarith
      have h3 : 50 * (round53 t r).toRat * (1 + 1 / 2 ^ 53) ≤
          50 * (1 + 1 / 2 ^ 53) * (1 + 1 / 2 ^ 53) := by
        apply mul_le_mul_of_nonneg_right _ (by positivity)
        linarith
      have h4 : (50 : ℚ) * (1 + 1 / 2 ^ 53) * (1 + 1 / 2 ^ 53) < 51 := by norm_num
      linarith
    have : ((round53 t r).mulNat 50).floor < 51 := by exact_mod_cast hlt
    omega

/-- C29, as stated, fails in its last part: with three earlier correct guessers,
58 seconds before the end of a 100-second turn, the fourth guesser gets 128
points, while `100 + floor(50 * timeLeft / roundTime)` is 129. -/
theorem guess_bounds_counterexample :
    (crowdedTurn 100 42).correctGuessers = ["p1", "p2", "p3"] ∧
    (crowdedTurn 100 42).currentDrawerId = some "p0" ∧
    (crowdedTurn 100 42).settings.roundTime = 100 ∧
    (crowdedTurn 100 42).timeLeft = 58 ∧
    ((crowdedTurn 100 42).submitGuess "p4" "p4" "car" 0).map Prod.fst = some (.correct 128) ∧
    (100 : Int) + ((50 * 58 / 100 : Nat) : Int) = 129 := by
  decide

/-- C29 (as amended): for every `roundTime > 0`, every `timeLeft` with
`0 <= timeLeft <= roundTime` and every number `n` of earlier correct guessers, a
correct guess is awarded `points` with `100 <= points <= 180`; the points do not
decrease when `timeLeft` grows nor when `n` shrinks (stated for any second game
`g2` of the same turn length with at least as much time left and at most as
many earlier guessers); for `n >= 3` they are `100 + B`, where `B` is
`Math.floor((timeLeft / roundTime) * 50)` as binary64 arithmetic gives it: the
exact `floor(50 * timeLeft / roundTime)` or one less (for `roundTime <= 2 ^ 45`),
and the exact value for the turn lengths 30, 60, 90 and 120. -/
theorem guess_points_bounds (g : GameRoom) (socketId playerName guess w : String) (now : Nat)
    (hd : some socketId ≠ g.currentDrawerId) (hg : socketId ∉ g.correctGuessers)
    (hw : g.currentWord = some w)
    (heq : trim (toLowerCase guess) = trim (toLowerCase w))
    (hr : 0 < g.settings.roundTime) (h0 : 0 ≤ g.timeLeft)
    (h1 : g.timeLeft ≤ g.settings.roundTime) :
    ∃ points : Int,
      (g.submitGuess socketId playerName guess now).map Prod.fst = some (.correct points) ∧
      100 ≤ points ∧ points ≤ 180 ∧
      (3 ≤ g.correctGuessers.length →
        points = 100 + timeBonusOf g.timeLeft g.settings.roundTime ∧
        (g.settings.roundTime ≤ 2 ^ 45 →
          100 + specTimeBonus g.timeLeft g.settings.roundTime - 1 ≤ points ∧
          points ≤ 100 + specTimeBonus g.timeLeft g.settings.roundTime) ∧
        (g.settings.roundTime ∈ [30, 60, 90, 120] →
          points = 100 + specTimeBonus g.timeLeft g.settings.roundTime)) ∧
      ∀ (g2 : GameRoom) (socketId2 playerName2 guess2 w2 : String) (now2 : Nat),
        some socketId2 ≠ g2.currentDrawerId → socketId2 ∉ g2.correctGuessers →
        g2.currentWord = some w2 → trim (toLowerCase guess2) = trim (toLowerCase w2) →
        g2.settings.roundTime = g.settings.roundTime →
        g.timeLeft ≤ g2.timeLeft → g2.correctGuessers.length ≤ g.correctGuessers.length →
        ∃ points2 : Int,
          (g2.submitGuess socketId2 playerName2 guess2 now2).map Prod.fst =
            some (.correct points2) ∧
          points ≤ points2 := by
  obtain ⟨t, ht⟩ := Int.eq_ofNat_of_zero_le h0
  have htr : t ≤ g.settings.roundTime := by
    rw [ht] at h1
    exact_mod_cast h1
  obtain ⟨hB0, hB50⟩ := timeBonusOf_bounds t g.settings.roundTime hr htr
  refine ⟨100 + timeBonusOf g.timeLeft g.settings.roundTime +
    max 0 (30 - (g.correctGuessers.length : Int) * 10), ?_, ?_, ?_, ?_, ?_⟩
  · rw [submitGuess_correct_eq g socketId playerName guess w now _ _ hd hg hw heq rfl rfl]
    rfl
  · rw [ht]
    omega
  · rw [ht]
    omega
  · intro hn
    have hmax : max 0 (30 - (g.correctGuessers.length : Int) * 10) = 0 := by omega
    refine ⟨by rw [hmax]; ring, ?_, ?_⟩
    · intro hbig
      obtain ⟨n1, n2⟩ := timeBonusOf_near t g.settings.roundTime hr htr hbig
      rw [hmax, ht, specTimeBonus_eq_div]
      omega
    · intro hmem
      rw [hmax, timeBonusOf_exact_offered g.timeLeft g.settings.roundTime hmem h0 h1]
      ring
  · intro g2 socketId2 playerName2 guess2 w2 now2 hd2 hg2 hw2 heq2 hrt htl hlen
    refine ⟨100 + timeBonusOf g2.timeLeft g2.settings.roundTime +
      max 0 (30 - (g2.correctGuessers.length : Int) * 10), ?_, ?_⟩
    · rw [submitGuess_correct_eq g2 socketId2 playerName2 guess2 w2 now2 _ _ hd2 hg2 hw2 heq2
        rfl rfl]
      rfl
    · obtain ⟨t2, ht2⟩ := Int.eq_ofNat_of_zero_le (le_trans h0 htl)
      have htt : t ≤ t2 := by
        rw [ht, ht2] at htl
        exact_mod_cast htl
      have hmono := timeBonusOf_mono t t2 g.settings.roundTime hr htt
      rw [hrt, ht, ht2]
      omega

theorem guess_points_bounds_witness :
    ∃ points : Int,
      ((runningGame 60 15).submitGuess "p1" "p1" "car" 0).map Prod.fst =
        some (.correct points) ∧ 100 ≤ points ∧ points ≤ 180 :=
  let ⟨points, h1, h2, h3, _⟩ := guess_points_bounds (runningGame 60 15) "p1" "p1" "car" "car" 0
    (by decide) (by decide) (by decide) (by decide) (by decide) (by decide) (by decide)
  ⟨points, h1, h2, h3⟩

/-- A game whose difficulty names no tier makes `game:start` throw once the
guards have passed, and only such a game does. -/
theorem onGameStart_throws_iff (E : Engine) (socket : Socket) (rnd : Nat) (code : String)
    (game : GameRoom) (hcode : socket.gameCode = some code)
    (hgame : mapGet E.activeGames code = some game) (hhost : socket.id = game.hostId)
    (h2 : 2 ≤ mapSize game.players) :
    onGameStart E socket rnd = none ↔ WORD_CATEGORIES game.settings.difficulty = none := by
  have hcan : game.canStart = true := by
    unfold GameRoom.canStart
    exact decide_eq_true h2
  have hne : game.getPlayersList ≠ [] := by
    intro h
    have hl : game.getPlayersList.length = mapSize game.players := by
      unfold GameRoom.getPlayersList mapValues mapSize
      exact List.length_map _ _
    rw [h] at hl
    simp only [List.length_nil] at hl
    omega
  unfold onGameStart
  simp only [hcode, hgame, hhost, ne_eq, not_true_eq_false, if_false, hcan, Bool.not_true]
  cases htier : WORD_CATEGORIES game.settings.difficulty with
  | some words =>
    obtain ⟨g1, hg1⟩ := startGame_total game rnd hne (by rw [htier]; rfl)
    simp [hg1]
  | none =>
    have hthrow : game.startGame rnd = none := by
      unfold GameRoom.startGame GameRoom.startNewTurn GameRoom.getRandomWord
      simp only [htier]
      split <;> rfl
    simp [hthrow]

/-- C26, as stated, fails: a `game:next-round` that arrives during the first
turn calls `startNewTurn` a second time (a second word is drawn and a second
countdown started) with no `endTurn` in between, so `currentTurn` is 0 at both
invocations and the drawer is `p0` both times; and a `game:start` that arrives
after the first turn has ended (`currentTurn = 1`) sets `currentTurn` back to 0
with no `game:restart`. -/
theorem turn_counter_counterexample :
    turnView (worldAfter quickMatch) =
      some ⟨.playing, 0, some "p0", some "car", ["car"], 2, [("p0", 0), ("p1", 0), ("p2", 0)], []⟩ ∧
    turnView (worldAfter (quickMatch ++ [("p1", .nextRound 3)])) =
      some ⟨.playing, 0, some "p0", some "moon", ["car", "moon"], 2,
        [("p0", 0), ("p1", 0), ("p2", 0)], []⟩ ∧
    (gameView (worldAfter (quickMatch ++ [("p1", .nextRound 3)]))).map
      (fun v => v.timerInterval) = some (some 1) ∧
    (turnView (worldAfter (quickMatch ++ twoGuesses))).map
      (fun v => v.currentTurn) = some 1 ∧
    (turnView (worldAfter (quickMatch ++ twoGuesses ++ [("p0", .start 5)]))).map
      (fun v => v.currentTurn) = some 0 := by
  decide

/-- C27: `p1` sends `game:next-round` during the first turn of `GAME01`.  The
handler starts countdown 1 and leaves countdown 0 live; a tick of the older
countdown 0 decrements `timeLeft`; the turn end run by countdown 1 cancels
countdown 1 only, and the next tick of countdown 0 ends a further turn. -/
theorem second_countdown_started :
    gameView (worldAfter quickMatch) =
      some ⟨.playing, 0, some "p0", "p0", ["p0", "p1", "p2"], ["p0", "p1", "p2"], some 0, [0]⟩ ∧
    gameView (worldAfter (quickMatch ++ [("p1", .nextRound 3)])) =
      some ⟨.playing, 0, some "p0", "p0", ["p0", "p1", "p2"], ["p0", "p1", "p2"], some 1,
        [0, 1]⟩ ∧
    (turnView (worldAfter (quickMatch ++ [("p1", .nextRound 3)]))).map
      (fun v => v.timeLeft) = some 2 ∧
    (turnView (worldAfter (quickMatch ++ [("p1", .nextRound 3), ("p0", .tick 0 false)]))).map
      (fun v => v.timeLeft) = some 1 ∧
    gameView (worldAfter (quickMatch ++
      [("p1", .nextRound 3), ("p0", .tick 0 false), ("p1", .tick 1 false)])) =
      some ⟨.playing, 1, some "p0", "p0", ["p0", "p1", "p2"], ["p0", "p1", "p2"], some 1, [0]⟩ ∧
    gameView (worldAfter (quickMatch ++
      [("p1", .nextRound 3), ("p0", .tick 0 false), ("p1", .tick 1 false),
        ("p0", .tick 0 false)])) =
      some ⟨.playing, 2, some "p0", "p0", ["p0", "p1", "p2"], ["p0", "p1", "p2"], some 1, [0]⟩ := by
  decide

/-- C28: `game:create` accepts the settings `{difficulty: 'Hard'}` (the tier keys
are lower-case), `p1` and `p2` join, and the host's `game:start` throws: the run
has no next state. -/
theorem start_crashes_on_client_settings :
    (mapGet (worldAfter (lobbyEvents "Hard")).engine.activeGames "GAME01").map
      (fun g => (g.settings, g.hostId, mapKeys g.players)) =
      some (⟨8, 60, 3, "Hard"⟩, "p0", ["p0", "p1", "p2"]) ∧
    WORD_CATEGORIES "Hard" = none ∧
    World.initial.run (lobbyEvents "Hard" ++ [("p0", .start 0)]) = none ∧
    (World.initial.run (lobbyEvents "hard" ++ [("p0", .start 0)])).isSome = true := by
  decide

/-- C30: the countdown of the first turn of `GAME01` (2 seconds, drawer `p0`,
word `car`) runs out with nobody having guessed.  The turn end returns
`nextTurn` and broadcasts the word; the status stays `playing`, and the guess
`car` that `p1` then sends is scored: 130 points for `p1` and 25 for the
drawer. -/
theorem guess_scored_after_turn_end :
    (onTick (worldAfter (quickMatch ++ [("p0", .tick 0 false)])).engine
      ((worldAfter (quickMatch ++ [("p0", .tick 0 false)])).socket "p0") 0 false).2 =
      some .nextTurn ∧
    turnView (worldAfter (quickMatch ++ [("p0", .tick 0 false), ("p0", .tick 0 false)])) =
      some ⟨.playing, 1, some "p0", some "car", ["car"], 0,
        [("p0", 0), ("p1", 0), ("p2", 0)], []⟩ ∧
    turnView (worldAfter (quickMatch ++
      [("p0", .tick 0 false), ("p0", .tick 0 false), ("p1", .guess "car" 5)])) =
      some ⟨.playing, 1, some "p0", some "car", ["car"], 0,
        [("p0", 25), ("p1", 130), ("p2", 0)], ["p1"]⟩ := by
  decide

/-- Once a turn end has moved the game to `roundEnd` or `gameEnd`, `game:guess`
returns before `submitGuess`: nothing is scored. -/
theorem onGameGuess_not_playing (E : Engine) (socket : Socket) (guess code : String)
    (now : Nat) (game : GameRoom) (hcode : socket.gameCode = some code)
    (hgame : mapGet E.activeGames code = some game) (hst : game.status ≠ .playing) :
    onGameGuess E socket guess now = some (E, none) := by
  unfold onGameGuess
  simp only [hcode, hgame, hst, ne_eq, not_false_eq_true, if_true]

theorem lookup_mapSet {ν : Type} (m : JSMap String ν) (c code : String) (v g1 : ν)
    (h : mapGet (mapSet m c v) code = some g1) :
    (code = c ∧ g1 = v) ∨ (code ≠ c ∧ mapGet m code = some g1) := by
  by_cases hc : code = c
  · subst hc
    rw [mapGet_mapSet_same] at h
    exact Or.inl ⟨rfl, (Option.some.inj h).symm⟩
  · rw [mapGet_mapSet_ne _ _ _ _ hc] at h
    exact Or.inr ⟨hc, h⟩

theorem handleTurnEnd_lookup (E : Engine) (gameCode : Option String) (code : String)
    (g1 : GameRoom) (h : mapGet (handleTurnEnd E gameCode).1.activeGames code = some g1) :
    mapGet E.activeGames code = some g1 ∨
      (gameCode = some code ∧ ∃ g, mapGet E.activeGames code = some g ∧ g1 = g.endTurn.2) := by
  unfold handleTurnEnd at h
  cases gameCode with
  | none => exact Or.inl h
  | some c =>
    simp only at h
    cases hc : mapGet E.activeGames c with
    | none =>
      rw [hc] at h
      exact Or.inl h
    | some game =>
      rw [hc] at h
      simp only at h
      rcases lookup_mapSet _ _ _ _ _ h with ⟨h1, h2⟩ | ⟨-, h2⟩
      · subst h1
        exact Or.inr ⟨rfl, game, hc, h2⟩
      · exact Or.inl h2

/-- The game found under `code` after one game event: the game that was there
before, or a change of it that the event's handler makes, or the game that
`game:create` has just built. -/
theorem runEvent_games (E E1 : Engine) (socket socket1 : Socket) (ev : GameEvent)
    (hrun : runEvent E socket ev = some (E1, socket1)) (code : String) (g1 : GameRoom)
    (hg1 : mapGet E1.activeGames code = some g1) :
    mapGet E.activeGames code = some g1 ∨
    (∃ g, mapGet E.activeGames code = some g ∧ GameChange socket ev g g1) ∨
    (∃ userName settings now, ev = .create userName settings code now ∧
      g1 = ((GameRoom.new code socket.id userName settings now).addPlayer socket.id userName).2) := by
  cases ev with
  | create userName settings c now =>
    simp only [runEvent, Option.some.injEq, Prod.mk.injEq] at hrun
    rw [← hrun.1] at hg1
    simp only [onGameCreate] at hg1
    rcases lookup_mapSet _ _ _ _ _ hg1 with ⟨h1, h2⟩ | ⟨-, h2⟩
    · subst h1
      exact Or.inr (Or.inr ⟨userName, settings, now, rfl, h2⟩)
    · exact Or.inl h2
  | join gameCode userName =>
    simp only [runEvent, Option.some.injEq, Prod.mk.injEq] at hrun
    rw [← hrun.1] at hg1
    unfold onGameJoin at hg1
    simp only at hg1
    split at hg1
    · exact Or.inl hg1
    · rename_i game hgame
      split at hg1
      · exact Or.inl hg1
      · rename_i hlobby
        have hl : game.status = .lobby := by
          by_contra hn; exact hlobby hn
        split at hg1
        · exact Or.inl hg1
        · rcases lookup_mapSet _ _ _ _ _ hg1 with ⟨h1, h2⟩ | ⟨-, h2⟩
          · subst h1
            rw [h2]
            exact Or.inr (Or.inl ⟨game, hgame, .join gameCode userName game hl⟩)
          · exact Or.inl h2
  | ready isReady =>
    simp only [runEvent, Option.some.injEq, Prod.mk.injEq] at hrun
    rw [← hrun.1] at hg1
    unfold onGameReady at hg1
    split at hg1
    · exact Or.inl hg1
    · rename_i c hc
      split at hg1
      · exact Or.inl hg1
      · rename_i game hgame
        rcases lookup_mapSet _ _ _ _ _ hg1 with ⟨h1, h2⟩ | ⟨-, h2⟩
        · subst h1
          rw [h2]
          exact Or.inr (Or.inl ⟨game, hgame, .ready isReady game⟩)
        · exact Or.inl h2
  | start rnd =>
    simp only [runEvent, Option.map_eq_some', Prod.mk.injEq, Prod.exists] at hrun
    obtain ⟨E2, ack, hstart, hE, -⟩ := hrun
    subst hE
    unfold onGameStart at hstart
    split at hstart
    · cases hstart; exact Or.inl hg1
    · rename_i c hc
      split at hstart
      · cases hstart; exact Or.inl hg1
      · rename_i game hgame
        split at hstart
        · cases hstart; exact Or.inl hg1
        · split at hstart
          · cases hstart; exact Or.inl hg1
          · split at hstart
            · cases hstart
            · rename_i game1 hsg
              simp only [Option.some.injEq, Prod.mk.injEq] at hstart
              rw [← hstart.1] at hg1
              simp only [startCountdown] at hg1
              rcases lookup_mapSet _ _ _ _ _ hg1 with ⟨h1, h2⟩ | ⟨-, h2⟩
              · subst h1
                rw [h2]
                exact Or.inr (Or.inl ⟨game, hgame, .start rnd _ game game1 hsg⟩)
              · exact Or.inl h2
  | guess guess now =>
    simp only [runEvent, Option.map_eq_some', Prod.mk.injEq, Prod.exists] at hrun
    obtain ⟨E2, res, hgu, hE, -⟩ := hrun
    subst hE
    unfold onGameGuess at hgu
    split at hgu
    · cases hgu; exact Or.inl hg1
    · rename_i c hc
      split at hgu
      · cases hgu; exact Or.inl hg1
      · rename_i game hgame
        split at hgu
        · cases hgu; exact Or.inl hg1
        · rename_i hplaying
          have hpl : game.status = .playing := by
            by_contra hn; exact hplaying hn
          split at hgu
          · cases hgu; exact Or.inl hg1
          · rename_i player hplayer
            split at hgu
            · cases hgu
            · rename_i r game1 hsub
              simp only at hgu
              split at hgu
              · simp only [Option.some.injEq] at hgu
                have hE1 : E2 = (handleTurnEnd (clearInterval
                    { E with activeGames := mapSet E.activeGames c game1 } game1.timerInterval)
                    socket.gameCode).1 := by rw [hgu]
                rw [hE1] at hg1
                rcases handleTurnEnd_lookup _ _ _ _ hg1 with h | ⟨hcode, g, h, h3⟩
                · rw [clearInterval_activeGames] at h
                  rcases lookup_mapSet _ _ _ _ _ h with ⟨h1, h2⟩ | ⟨-, h2⟩
                  · subst h1
                    rw [h2]
                    exact Or.inr (Or.inl ⟨game, hgame,
                      .guess guess now game game1 player.name r hpl hsub⟩)
                  · exact Or.inl h2
                · rw [clearInterval_activeGames] at h
                  have hcc : c = code := by
                    rw [hc] at hcode; exact Option.some.inj hcode
                  subst hcc
                  simp only [mapGet_mapSet_same, Option.some.injEq] at h
                  subst h
                  rw [h3]
                  exact Or.inr (Or.inl ⟨game, hgame,
                    .guessEnd guess now game game1 player.name r hpl hsub⟩)
              · simp only [Option.some.injEq, Prod.mk.injEq] at hgu
                rw [← hgu.1] at hg1
                rcases lookup_mapSet _ _ _ _ _ hg1 with ⟨h1, h2⟩ | ⟨-, h2⟩
                · subst h1
                  rw [h2]
                  exact Or.inr (Or.inl ⟨game, hgame,
                    .guess guess now game game1 player.name r hpl hsub⟩)
                · exact Or.inl h2
  | draw data =>
    simp only [runEvent, Option.some.injEq, Prod.mk.injEq] at hrun
    rw [← hrun.1] at hg1
    unfold onGameDraw at hg1
    split at hg1
    · exact Or.inl hg1
    · split at hg1
      · exact Or.inl hg1
      · rename_i game hgame
        split at hg1
        · exact Or.inl hg1
        · split at hg1
          · exact Or.inl hg1
          · rcases lookup_mapSet _ _ _ _ _ hg1 with ⟨h1, h2⟩ | ⟨-, h2⟩
            · subst h1
              rw [h2]
              exact Or.inr (Or.inl ⟨game, hgame, .draw data game⟩)
            · exact Or.inl h2
  | clearCanvas =>
    simp only [runEvent, Option.some.injEq, Prod.mk.injEq] at hrun
    rw [← hrun.1] at hg1
    unfold onGameClearCanvas at hg1
    split at hg1
    · exact Or.inl hg1
    · split at hg1
      · exact Or.inl hg1
      · rename_i game hgame
        split at hg1
        · exact Or.inl hg1
        · split at hg1
          · exact Or.inl hg1
          · rcases lookup_mapSet _ _ _ _ _ hg1 with ⟨h1, h2⟩ | ⟨-, h2⟩
            · subst h1
              rw [h2]
              exact Or.inr (Or.inl ⟨game, hgame, .clearCanvas game⟩)
            · exact Or.inl h2
  | nextRound rnd =>
    simp only [runEvent, Option.map_eq_some', Prod.mk.injEq] at hrun
    obtain ⟨E2, hnr, hE, -⟩ := hrun
    subst hE
    unfold onGameNextRound at hnr
    split at hnr
    · cases hnr; exact Or.inl hg1
    · split at hnr
      · cases hnr; exact Or.inl hg1
      · rename_i game hgame
        split at hnr
        · cases hnr
        · rename_i info game1 hturn
          simp only [Option.some.injEq] at hnr
          rw [← hnr] at hg1
          simp only [startCountdown] at hg1
          rcases lookup_mapSet _ _ _ _ _ hg1 with ⟨h1, h2⟩ | ⟨-, h2⟩
          · subst h1
            rw [h2]
            exact Or.inr (Or.inl ⟨game, hgame, .nextRound rnd _ game game1 info hturn⟩)
          · exact Or.inl h2
  | restart =>
    simp only [runEvent, Option.some.injEq, Prod.mk.injEq] at hrun
    rw [← hrun.1] at hg1
    unfold onGameRestart at hg1
    split at hg1
    · exact Or.inl hg1
    · split at hg1
      · exact Or.inl hg1
      · rename_i game hgame
        rcases lookup_mapSet _ _ _ _ _ hg1 with ⟨h1, h2⟩ | ⟨-, h2⟩
        · subst h1
          rw [h2]
          exact Or.inr (Or.inl ⟨game, hgame, .restart game⟩)
        · exact Or.inl h2
  | leave =>
    simp only [runEvent, Option.some.injEq] at hrun
    have hE : (handleLeaveGame E socket).1 = E1 := by rw [hrun]
    rw [← hE] at hg1
    unfold handleLeaveGame at hg1
    split at hg1
    · exact Or.inl hg1
    · rename_i c hc
      split at hg1
      · exact Or.inl hg1
      · rename_i game hgame
        simp only at hg1
        split at hg1
        · exact Or.inl (mapGet_mapDelete _ _ _ _ hg1).2
        · rename_i hsize
          have hrest : (game.removePlayer socket.id).players ≠ [] := by
            intro h
            apply hsize
            rw [h]
            rfl
          split at hg1
          · split at hg1
            · rename_i newHost tl hlist
              rcases lookup_mapSet _ _ _ _ _ hg1 with ⟨h1, h2⟩ | ⟨-, h2⟩
              · subst h1
                rw [h2]
                exact Or.inr (Or.inl ⟨game, hgame, .leaveHost game newHost hrest⟩)
              · exact Or.inl h2
            · rcases lookup_mapSet _ _ _ _ _ hg1 with ⟨h1, h2⟩ | ⟨-, h2⟩
              · subst h1
                rw [h2]
                exact Or.inr (Or.inl ⟨game, hgame, .leave game hrest⟩)
              · exact Or.inl h2
          · split at hg1
            · rename_i hdr
              rcases handleTurnEnd_lookup _ _ _ _ hg1 with h | ⟨hcode, g, h, h3⟩
              · rw [clearInterval_activeGames] at h
                rcases lookup_mapSet _ _ _ _ _ h with ⟨h1, h2⟩ | ⟨-, h2⟩
                · subst h1
                  rw [h2]
                  exact Or.inr (Or.inl ⟨game, hgame, .leave game hrest⟩)
                · exact Or.inl h2
              · rw [clearInterval_activeGames] at h
                have hcc : c = code := by
                  rw [hc] at hcode; exact Option.some.inj hcode
                subst hcc
                simp only [mapGet_mapSet_same, Option.some.injEq] at h
                subst h
                rw [h3]
                exact Or.inr (Or.inl ⟨game, hgame, .leaveDrawer game hrest hdr.1⟩)
            · rcases lookup_mapSet _ _ _ _ _ hg1 with ⟨h1, h2⟩ | ⟨-, h2⟩
              · subst h1
                rw [h2]
                exact Or.inr (Or.inl ⟨game, hgame, .leave game hrest⟩)
              · exact Or.inl h2
  | tick handle deadExpired =>
    simp only [runEvent, Option.some.injEq, Prod.mk.injEq] at hrun
    rw [← hrun.1] at hg1
    unfold onTick at hg1
    split at hg1
    · exact Or.inl hg1
    · rename_i interval _
      split at hg1
      · rename_i game hgame
        simp only at hg1
        split at hg1
        · rcases handleTurnEnd_lookup _ _ _ _ hg1 with h | ⟨hcode, g, h, h3⟩
          · rw [clearInterval_activeGames] at h
            rcases lookup_mapSet _ _ _ _ _ h with ⟨h1, h2⟩ | ⟨-, h2⟩
            · subst h1
              rw [h2]
              exact Or.inr (Or.inl ⟨game, hgame, .tick handle deadExpired game⟩)
            · exact Or.inl h2
          · rw [clearInterval_activeGames] at h
            rcases lookup_mapSet _ _ _ _ _ h with ⟨h1, h2⟩ | ⟨-, h2⟩
            · subst h1
              rw [h3, h2]
              exact Or.inr (Or.inl ⟨game, hgame, .tickEnd handle deadExpired game⟩)
            · rw [h3]
              exact Or.inr (Or.inl ⟨g, h2, .tickOther handle deadExpired g⟩)
        · rcases lookup_mapSet _ _ _ _ _ hg1 with ⟨h1, h2⟩ | ⟨-, h2⟩
          · subst h1
            rw [h2]
            exact Or.inr (Or.inl ⟨game, hgame, .tick handle deadExpired game⟩)
          · exact Or.inl h2
      · split at hg1
        · rcases handleTurnEnd_lookup _ _ _ _ hg1 with h | ⟨hcode, g, h, h3⟩
          · exact Or.inl h
          · rw [h3]
            exact Or.inr (Or.inl ⟨g, h, .tickOther handle deadExpired g⟩)
        · exact Or.inl hg1

theorem submitGuess_frame (g g1 : GameRoom) (socketId playerName guess : String) (now : Nat)
    (r : GuessResult) (h : g.submitGuess socketId playerName guess now = some (r, g1)) :
    g1.currentTurn = g.currentTurn ∧ g1.players = g.players ∧
      g1.currentWord = g.currentWord ∧ g1.currentDrawerId = g.currentDrawerId := by
  unfold GameRoom.submitGuess at h
  split at h
  · cases h; exact ⟨rfl, rfl, rfl, rfl⟩
  · split at h
    · cases h; exact ⟨rfl, rfl, rfl, rfl⟩
    · split at h
      · cases h
      · simp only at h
        split at h
        · cases h; exact ⟨rfl, rfl, rfl, rfl⟩
        · cases h; exact ⟨rfl, rfl, rfl, rfl⟩

theorem endTurn_frame (g : GameRoom) :
    g.endTurn.2.currentTurn = g.currentTurn + 1 ∧ g.endTurn.2.players = g.players ∧
      g.endTurn.2.currentWord = g.currentWord := by
  unfold GameRoom.endTurn
  simp only
  split
  · split
    · exact ⟨rfl, rfl, rfl⟩
    · exact ⟨rfl, rfl, rfl⟩
  · exact ⟨rfl, rfl, rfl⟩

theorem setPlayerReady_turn (g : GameRoom) (socketId : String) (isReady : Bool) :
    (g.setPlayerReady socketId isReady).currentTurn = g.currentTurn := by
  unfold GameRoom.setPlayerReady
  split <;> rfl

/-- What one change of a registered game does to `currentTurn`: nothing, or
one more (the turn end run by a guess, a leave or a tick), or back to 0
(`game:start`, `game:restart`). -/
theorem gameChange_turn (socket : Socket) (ev : GameEvent) (g g1 : GameRoom)
    (h : GameChange socket ev g g1) :
    g1.currentTurn = g.currentTurn ∨
    (g1.currentTurn = g.currentTurn + 1 ∧
      ((∃ guess now, ev = .guess guess now) ∨ ev = .leave ∨
        ∃ handle deadExpired, ev = .tick handle deadExpired)) ∨
    (g1.currentTurn = 0 ∧ ((∃ rnd, ev = .start rnd) ∨ ev = .restart)) := by
  cases h with
  | join gameCode userName g0 hlobby => exact Or.inl rfl
  | ready isReady g0 => exact Or.inl (setPlayerReady_turn _ _ _)
  | start rnd handle g0 g2 hstart =>
    exact Or.inr (Or.inr ⟨(startGame_fields _ _ _ hstart).2.2.1, Or.inl ⟨rnd, rfl⟩⟩)
  | guess guess now g0 g2 name r hplaying hguess =>
    exact Or.inl (submitGuess_frame _ _ _ _ _ _ _ hguess).1
  | guessEnd guess now g0 g2 name r hplaying hguess =>
    refine Or.inr (Or.inl ⟨?_, Or.inl ⟨guess, now, rfl⟩⟩)
    rw [(endTurn_frame _).1, (submitGuess_frame _ _ _ _ _ _ _ hguess).1]
  | draw data g0 => exact Or.inl rfl
  | clearCanvas g0 => exact Or.inl rfl
  | nextRound rnd handle g0 g2 info hturn =>
    obtain ⟨-, -, -, -, -, -, -, -, -, -, -, h11, -⟩ := startNewTurn_fields _ _ _ _ hturn
    exact Or.inl h11
  | restart g0 => exact Or.inr (Or.inr ⟨rfl, Or.inr rfl⟩)
  | leave g0 hrest => exact Or.inl rfl
  | leaveHost g0 newHost hrest => exact Or.inl rfl
  | leaveDrawer g0 hrest hplaying =>
    exact Or.inr (Or.inl ⟨(endTurn_frame _).1, Or.inr (Or.inl rfl)⟩)
  | tick handle deadExpired g0 => exact Or.inl rfl
  | tickEnd handle deadExpired g0 =>
    exact Or.inr (Or.inl ⟨(endTurn_frame _).1, Or.inr (Or.inr ⟨handle, deadExpired, rfl⟩)⟩)
  | tickOther handle deadExpired g0 =>
    exact Or.inr (Or.inl ⟨(endTurn_frame _).1, Or.inr (Or.inr ⟨handle, deadExpired, rfl⟩)⟩)

/-- What one game event does to the `currentTurn` of a game registered before
and after it. -/
theorem runEvent_turn (E E1 : Engine) (socket socket1 : Socket) (ev : GameEvent)
    (code : String) (g g1 : GameRoom)
    (hrun : runEvent E socket ev = some (E1, socket1))
    (hfresh : ∀ userName settings now, ev ≠ .create userName settings code now)
    (hg : mapGet E.activeGames code = some g) (hg1 : mapGet E1.activeGames code = some g1) :
    g1.currentTurn = g.currentTurn ∨
    (g1.currentTurn = g.currentTurn + 1 ∧
      ((∃ guess now, ev = .guess guess now) ∨ ev = .leave ∨
        ∃ handle deadExpired, ev = .tick handle deadExpired)) ∨
    (g1.currentTurn = 0 ∧ ((∃ rnd, ev = .start rnd) ∨ ev = .restart)) := by
  rcases runEvent_games E E1 socket socket1 ev hrun code g1 hg1 with h | ⟨g0, h0, hch⟩ | h
  · rw [hg] at h
    rw [Option.some.inj h]
    exact Or.inl rfl
  · rw [hg] at h0
    rw [Option.some.inj h0]
    exact gameChange_turn socket ev g0 g1 hch
  · obtain ⟨userName, settings, now, hev, -⟩ := h
    exact absurd hev (hfresh userName settings now)

theorem deliver_runEvent (W W1 : World) (id : String) (ev : GameEvent)
    (h : W.deliver id ev = some W1) :
    ∃ socket1, runEvent W.engine (W.socket id) ev = some (W1.engine, socket1) := by
  unfold World.deliver at h
  simp only [Option.map_eq_some'] at h
  obtain ⟨r, hr, hW⟩ := h
  refine ⟨r.2, ?_⟩
  rw [hr, ← hW]

theorem run_registered_back (evs : List (String × GameEvent)) :
    ∀ (W W1 : World) (code : String) (g1 : GameRoom), W.run evs = some W1 →
      (∀ e ∈ evs, QuietFor code e.2) → mapGet W1.engine.activeGames code = some g1 →
      ∃ g, mapGet W.engine.activeGames code = some g := by
  induction evs with
  | nil =>
    intro W W1 code g1 hrun _ hg1
    simp only [World.run, Option.some.injEq] at hrun
    subst hrun
    exact ⟨g1, hg1⟩
  | cons e rest ih =>
    intro W W1 code g1 hrun hq hg1
    obtain ⟨id, ev⟩ := e
    simp only [World.run, Option.bind_eq_some] at hrun
    obtain ⟨W2, hd, hrest⟩ := hrun
    obtain ⟨g2, hg2⟩ := ih W2 W1 code g1 hrest
      (fun e he => hq e (List.mem_cons_of_mem _ he)) hg1
    obtain ⟨socket1, hev⟩ := deliver_runEvent W W2 id ev hd
    have hquiet := hq (id, ev) (List.mem_cons_self _ _)
    rcases runEvent_games _ _ _ _ _ hev code g2 hg2 with h | ⟨g0, h0, -⟩ | h
    · exact ⟨g2, h⟩
    · exact ⟨g0, h0⟩
    · obtain ⟨userName, settings, now, hc, -⟩ := h
      exact absurd hc (hquiet.2.2 userName settings now)

theorem run_turn_mono (evs : List (String × GameEvent)) :
    ∀ (W W1 : World) (code : String) (g g1 : GameRoom), W.run evs = some W1 →
      (∀ e ∈ evs, QuietFor code e.2) → mapGet W.engine.activeGames code = some g →
      mapGet W1.engine.activeGames code = some g1 →
      g.currentTurn ≤ g1.currentTurn ∧ g1.currentTurn ≤ g.currentTurn + evs.length := by
  induction evs with
  | nil =>
    intro W W1 code g g1 hrun _ hg hg1
    simp only [World.run, Option.some.injEq] at hrun
    subst hrun
    rw [hg] at hg1
    rw [Option.some.inj hg1]
    exact ⟨le_refl _, by simp⟩
  | cons e rest ih =>
    intro W W1 code g g1 hrun hq hg hg1
    obtain ⟨id, ev⟩ := e
    simp only [World.run, Option.bind_eq_some] at hrun
    obtain ⟨W2, hd, hrest⟩ := hrun
    have hqrest : ∀ e ∈ rest, QuietFor code e.2 := fun e he => hq e (List.mem_cons_of_mem _ he)
    obtain ⟨g2, hg2⟩ := run_registered_back rest W2 W1 code g1 hrest hqrest hg1
    obtain ⟨i1, i2⟩ := ih W2 W1 code g2 g1 hrest hqrest hg2 hg1
    obtain ⟨socket1, hev⟩ := deliver_runEvent W W2 id ev hd
    have hquiet := hq (id, ev) (List.mem_cons_self _ _)
    simp only [List.length_cons]
    rcases runEvent_turn _ _ _ _ _ code g g2 hev hquiet.2.2 hg hg2 with h | ⟨h, -⟩ | ⟨-, h⟩
    · omega
    · omega
    · rcases h with ⟨rnd, h⟩ | h
      · exact absurd h (hquiet.1 rnd)
      · exact absurd h hquiet.2.1

/-- C26 (as amended): over a run of game events, `currentTurn` of a game that is
registered before and after changes only as follows.  A single event leaves it
as it is, or adds exactly 1 (the one `endTurn` that the turn-end path of a
`game:guess`, a `game:leave` or a countdown tick applies), or sets it to 0
(`game:start`, `game:restart`); `game:next-round`, which calls `startNewTurn`,
never changes it.  Hence over a run without `game:start`, `game:restart` and
`game:create` of the code, `currentTurn` never decreases and grows by at most
one per event. -/
theorem turn_counter_steps (W W1 : World) (evs : List (String × GameEvent)) (code : String)
    (g g1 : GameRoom) (hrun : W.run evs = some W1)
    (hg : mapGet W.engine.activeGames code = some g)
    (hg1 : mapGet W1.engine.activeGames code = some g1) :
    ((∀ e ∈ evs, QuietFor code e.2) →
      g.currentTurn ≤ g1.currentTurn ∧ g1.currentTurn ≤ g.currentTurn + evs.length) ∧
    (∀ id ev, evs = [(id, ev)] →
      (∀ userName settings now, ev ≠ .create userName settings code now) →
      (g1.currentTurn = g.currentTurn ∨
        (g1.currentTurn = g.currentTurn + 1 ∧
          ((∃ guess now, ev = .guess guess now) ∨ ev = .leave ∨
            ∃ handle deadExpired, ev = .tick handle deadExpired)) ∨
        (g1.currentTurn = 0 ∧ ((∃ rnd, ev = .start rnd) ∨ ev = .restart))) ∧
      ((∃ rnd, ev = .nextRound rnd) → g1.currentTurn = g.currentTurn)) := by
  refine ⟨fun hq => run_turn_mono evs W W1 code g g1 hrun hq hg hg1, ?_⟩
  intro id ev hevs hfresh
  subst hevs
  simp only [World.run, Option.bind_eq_some, Option.some.injEq] at hrun
  obtain ⟨W2, hd, hW⟩ := hrun
  subst hW
  obtain ⟨socket1, hev⟩ := deliver_runEvent W W2 id ev hd
  have h := runEvent_turn _ _ _ _ _ code g g1 hev hfresh hg hg1
  refine ⟨h, ?_⟩
  rintro ⟨rnd, rfl⟩
  rcases h with h | ⟨-, h⟩ | ⟨-, h⟩
  · exact h
  · rcases h with ⟨_, _, h⟩ | h | ⟨_, _, h⟩ <;> cases h
  · rcases h with ⟨_, h⟩ | h <;> cases h

theorem turn_counter_steps_witness :
    (gameOf (worldAfter quickMatch)).currentTurn = 0 ∧
    (gameOf (worldAfter (quickMatch ++ twoGuesses))).currentTurn = 1 ∧
    ((gameOf (worldAfter quickMatch)).currentTurn ≤
        (gameOf (worldAfter (quickMatch ++ twoGuesses))).currentTurn ∧
      (gameOf (worldAfter (quickMatch ++ twoGuesses))).currentTurn ≤
        (gameOf (worldAfter quickMatch)).currentTurn + twoGuesses.length) :=
  ⟨by decide, by decide,
    (turn_counter_steps (worldAfter quickMatch) (worldAfter (quickMatch ++ twoGuesses))
      twoGuesses "GAME01" (gameOf (worldAfter quickMatch))
      (gameOf (worldAfter (quickMatch ++ twoGuesses)))
      (by decide) (by decide) (by decide)).1
      (by
        intro e he
        simp only [twoGuesses, List.mem_cons, List.mem_singleton, List.not_mem_nil,
          or_false] at he
        rcases he with rfl | rfl
        · exact ⟨(fun _ h => nomatch h), (fun h => nomatch h), (fun _ _ _ h => nomatch h)⟩
        · exact ⟨(fun _ h => nomatch h), (fun h => nomatch h), (fun _ _ _ h => nomatch h)⟩)⟩

theorem mapSet_ne_nil {κ ν : Type} [DecidableEq κ] (m : JSMap κ ν) (k : κ) (v : ν) :
    mapSet m k v ≠ [] := by
  cases m with
  | nil => simp [mapSet]
  | cons e rest =>
    obtain ⟨k', v'⟩ := e
    unfold mapSet
    split <;> simp

theorem mem_mapKeys_mapSet {κ ν : Type} [DecidableEq κ] (m : JSMap κ ν) (k : κ) (v : ν)
    (x : κ) : x ∈ mapKeys (mapSet m k v) ↔ x = k ∨ x ∈ mapKeys m := by
  rw [mapKeys_mapSet]
  split
  · rename_i hk
    constructor
    · intro h; exact Or.inr h
    · rintro (h | h)
      · rw [h]; exact hk
      · exact h
  · simp only [List.mem_append, List.mem_singleton]
    constructor
    · rintro (h | h)
      · exact Or.inr h
      · exact Or.inl h
    · rintro (h | h)
      · exact Or.inr h
      · exact Or.inl h

theorem mem_mapKeys_mapDelete {κ ν : Type} [DecidableEq κ] (m : JSMap κ ν) (k x : κ) :
    x ∈ mapKeys (mapDelete m k) ↔ x ≠ k ∧ x ∈ mapKeys m := by
  rw [mapDelete_eq_filter]
  unfold mapKeys
  simp only [List.mem_map, List.mem_filter, decide_eq_true_eq]
  constructor
  · rintro ⟨e, ⟨he, hne⟩, rfl⟩
    exact ⟨hne, e, he, rfl⟩
  · rintro ⟨hne, e, he, rfl⟩
    exact ⟨e, ⟨he, hne⟩, rfl⟩

theorem mapGet_mapDelete_same {κ ν : Type} [DecidableEq κ] (m : JSMap κ ν) (k : κ) :
    mapGet (mapDelete m k) k = none := by
  induction m with
  | nil => rfl
  | cons e rest ih =>
    obtain ⟨k', v'⟩ := e
    by_cases h : k' = k
    · simp only [mapDelete, if_pos h, ih]
    · simp only [mapDelete, if_neg h, mapGet, ih]

theorem mapKeys_markFirstHost (m : JSMap String Player) :
    mapKeys (markFirstHost m) = mapKeys m := by
  cases m with
  | nil => rfl
  | cons e rest =>
    obtain ⟨k, v⟩ := e
    rfl

theorem setPlayerReady_keys (g : GameRoom) (socketId : String) (isReady : Bool) :
    mapKeys (g.setPlayerReady socketId isReady).players = mapKeys g.players := by
  unfold GameRoom.setPlayerReady
  split
  · rename_i player hp
    have hmem : socketId ∈ mapKeys g.players :=
      (mapGet_isSome_iff_mem _ _).mp (by rw [hp]; rfl)
    show mapKeys (mapSet g.players socketId _) = mapKeys g.players
    rw [mapKeys_mapSet, if_pos hmem]
  · rfl

/-- What one change of a registered game does to the keys of its players map:
nothing, or the connection that joins is added, or the connection that leaves
is removed and somebody stays. -/
theorem gameChange_keys (socket : Socket) (ev : GameEvent) (g g1 : GameRoom)
    (h : GameChange socket ev g g1) :
    mapKeys g1.players = mapKeys g.players ∨
    ((∃ gameCode userName, ev = .join gameCode userName) ∧
      ∀ x, x ∈ mapKeys g1.players ↔ x = socket.id ∨ x ∈ mapKeys g.players) ∨
    (ev = .leave ∧ g1.players ≠ [] ∧
      ∀ x, x ∈ mapKeys g1.players ↔ x ≠ socket.id ∧ x ∈ mapKeys g.players) := by
  cases h with
  | join gameCode userName g0 hlobby =>
    exact Or.inr (Or.inl ⟨⟨gameCode, userName, rfl⟩, fun x => mem_mapKeys_mapSet _ _ _ x⟩)
  | ready isReady g0 => exact Or.inl (setPlayerReady_keys _ _ _)
  | start rnd handle g0 g2 hstart =>
    exact Or.inl (by rw [← (startGame_fields _ _ _ hstart).2.2.2.1])
  | guess guess now g0 g2 name r hplaying hguess =>
    exact Or.inl (by rw [(submitGuess_frame _ _ _ _ _ _ _ hguess).2.1])
  | guessEnd guess now g0 g2 name r hplaying hguess =>
    exact Or.inl (by rw [(endTurn_frame _).2.1, (submitGuess_frame _ _ _ _ _ _ _ hguess).2.1])
  | draw data g0 => exact Or.inl rfl
  | clearCanvas g0 => exact Or.inl rfl
  | nextRound rnd handle g0 g2 info hturn =>
    obtain ⟨-, -, -, -, -, -, -, -, -, -, -, -, h12, -⟩ := startNewTurn_fields _ _ _ _ hturn
    exact Or.inl (by rw [← h12])
  | restart g0 => exact Or.inl rfl
  | leave g0 hrest =>
    exact Or.inr (Or.inr ⟨rfl, hrest, fun x => mem_mapKeys_mapDelete _ _ x⟩)
  | leaveHost g0 newHost hrest =>
    refine Or.inr (Or.inr ⟨rfl, ?_, fun x => ?_⟩)
    · intro hnil
      apply hrest
      have hk : mapKeys (markFirstHost (g.removePlayer socket.id).players) = [] := by
        show mapKeys _ = []
        have : markFirstHost (g.removePlayer socket.id).players = [] := hnil
        rw [this]; rfl
      rw [mapKeys_markFirstHost] at hk
      exact List.map_eq_nil_iff.mp hk
    · show x ∈ mapKeys (markFirstHost (g.removePlayer socket.id).players) ↔ _
      rw [mapKeys_markFirstHost]
      exact mem_mapKeys_mapDelete _ _ x
  | leaveDrawer g0 hrest hplaying =>
    refine Or.inr (Or.inr ⟨rfl, ?_, fun x => ?_⟩)
    · rw [(endTurn_frame _).2.1]; exact hrest
    · rw [(endTurn_frame _).2.1]
      exact mem_mapKeys_mapDelete _ _ x
  | tick handle deadExpired g0 => exact Or.inl rfl
  | tickEnd handle deadExpired g0 => exact Or.inl (by rw [(endTurn_frame _).2.1])
  | tickOther handle deadExpired g0 => exact Or.inl (by rw [(endTurn_frame _).2.1])

theorem gameChange_players_ne (socket : Socket) (ev : GameEvent) (g g1 : GameRoom)
    (h : GameChange socket ev g g1) (hne : g.players ≠ []) : g1.players ≠ [] := by
  have key : ∀ m : JSMap String Player, m ≠ [] ↔ mapKeys m ≠ [] := by
    intro m
    unfold mapKeys
    rw [Ne, Ne, List.map_eq_nil_iff]
  rcases gameChange_keys socket ev g g1 h with h1 | ⟨-, h1⟩ | ⟨-, h1, -⟩
  · rw [key, h1, ← key]; exact hne
  · rw [key]
    intro hnil
    have := (h1 socket.id).mpr (Or.inl rfl)
    rw [hnil] at this
    exact absurd this (List.not_mem_nil _)
  · exact h1
theorem handleTurnEnd_rooms (E : Engine) (gameCode : Option String) :
    (handleTurnEnd E gameCode).1.activeRooms = E.activeRooms := by
  unfold handleTurnEnd
  split
  · rfl
  · split <;> rfl

theorem clearInterval_rooms (E : Engine) (h : Option Nat) :
    (clearInterval E h).activeRooms = E.activeRooms := by
  cases h <;> rfl

/-- The game handlers leave the registry of rooms as it is. -/
theorem runEvent_rooms (E E1 : Engine) (socket socket1 : Socket) (ev : GameEvent)
    (hrun : runEvent E socket ev = some (E1, socket1)) : E1.activeRooms = E.activeRooms := by
  cases ev with
  | create userName settings c now =>
    simp only [runEvent, Option.some.injEq, Prod.mk.injEq] at hrun
    rw [← hrun.1]
    rfl
  | join gameCode userName =>
    simp only [runEvent, Option.some.injEq, Prod.mk.injEq] at hrun
    rw [← hrun.1]
    unfold onGameJoin
    simp only
    split
    · rfl
    · split
      · rfl
      · split <;> rfl
  | ready isReady =>
    simp only [runEvent, Option.some.injEq, Prod.mk.injEq] at hrun
    rw [← hrun.1]
    unfold onGameReady
    split
    · rfl
    · split <;> rfl
  | start rnd =>
    simp only [runEvent, Option.map_eq_some', Prod.mk.injEq, Prod.exists] at hrun
    obtain ⟨E2, ack, hstart, hE, -⟩ := hrun
    subst hE
    unfold onGameStart at hstart
    split at hstart
    · cases hstart; rfl
    · split at hstart
      · cases hstart; rfl
      · split at hstart
        · cases hstart; rfl
        · split at hstart
          · cases hstart; rfl
          · split at hstart
            · cases hstart
            · cases hstart; rfl
  | guess guess now =>
    simp only [runEvent, Option.map_eq_some', Prod.mk.injEq, Prod.exists] at hrun
    obtain ⟨E2, res, hgu, hE, -⟩ := hrun
    subst hE
    unfold onGameGuess at hgu
    split at hgu
    · cases hgu; rfl
    · split at hgu
      · cases hgu; rfl
      · split at hgu
        · cases hgu; rfl
        · split at hgu
          · cases hgu; rfl
          · split at hgu
            · cases hgu
            · simp only at hgu
              split at hgu
              · simp only [Option.some.injEq] at hgu
                have hE1 := congrArg Prod.fst hgu
                simp only at hE1
                rw [← hE1, handleTurnEnd_rooms, clearInterval_rooms]
              · cases hgu; rfl
  | draw data =>
    simp only [runEvent, Option.some.injEq, Prod.mk.injEq] at hrun
    rw [← hrun.1]
    unfold onGameDraw
    split
    · rfl
    · split
      · rfl
      · split
        · rfl
        · split <;> rfl
  | clearCanvas =>
    simp only [runEvent, Option.some.injEq, Prod.mk.injEq] at hrun
    rw [← hrun.1]
    unfold onGameClearCanvas
    split
    · rfl
    · split
      · rfl
      · split
        · rfl
        · split <;> rfl
  | nextRound rnd =>
    simp only [runEvent, Option.map_eq_some', Prod.mk.injEq] at hrun
    obtain ⟨E2, hnr, hE, -⟩ := hrun
    subst hE
    unfold onGameNextRound at hnr
    split at hnr
    · cases hnr; rfl
    · split at hnr
      · cases hnr; rfl
      · split at hnr
        · cases hnr
        · cases hnr; rfl
  | restart =>
    simp only [runEvent, Option.some.injEq, Prod.mk.injEq] at hrun
    rw [← hrun.1]
    unfold onGameRestart
    split
    · rfl
    · split <;> rfl
  | leave =>
    simp only [runEvent, Option.some.injEq] at hrun
    have hE : (handleLeaveGame E socket).1 = E1 := by rw [hrun]
    rw [← hE]
    unfold handleLeaveGame
    split
    · rfl
    · split
      · rfl
      · simp only
        split
        · exact clearInterval_rooms _ _
        · split
          · split <;> rfl
          · split
            · rw [handleTurnEnd_rooms, clearInterval_rooms]
            · rfl
  | tick handle deadExpired =>
    simp only [runEvent, Option.some.injEq, Prod.mk.injEq] at hrun
    rw [← hrun.1]
    unfold onTick
    split
    · rfl
    · split
      · simp only
        split
        · rw [handleTurnEnd_rooms, clearInterval_rooms]
        · rfl
      · split
        · exact handleTurnEnd_rooms _ _
        · rfl

theorem handleLeaveRoom_games (E : Engine) (socket : Socket) :
    (handleLeaveRoom E socket).1.activeGames = E.activeGames ∧
      (handleLeaveRoom E socket).1.intervals = E.intervals ∧
      (handleLeaveRoom E socket).2.gameCode = socket.gameCode ∧
      (handleLeaveRoom E socket).2.id = socket.id := by
  unfold handleLeaveRoom
  split
  · exact ⟨rfl, rfl, rfl, rfl⟩
  · split
    · exact ⟨rfl, rfl, rfl, rfl⟩
    · refine ⟨?_, ?_, rfl, rfl⟩
      · dsimp only
        split
        · rfl
        · split
          · split <;> rfl
          · rfl
      · dsimp only
        split
        · rfl
        · split
          · split <;> rfl
          · rfl

/-- The room found under `code` after `handleLeaveRoom`: the room that was there
before, or that room without the leaving connection, somebody staying. -/
theorem handleLeaveRoom_lookup (E : Engine) (socket : Socket) (code : String) (r1 : ActiveRoom)
    (h : mapGet (handleLeaveRoom E socket).1.activeRooms code = some r1) :
    mapGet E.activeRooms code = some r1 ∨
    (∃ r, mapGet E.activeRooms code = some r ∧ socket.roomCode = some code ∧
      r1.participants = mapDelete r.participants socket.id ∧ r1.participants ≠ []) := by
  unfold handleLeaveRoom at h
  split at h
  · exact Or.inl h
  · rename_i c hc
    split at h
    · exact Or.inl h
    · rename_i room hroom
      simp only at h
      split at h
      · exact Or.inl (mapGet_mapDelete _ _ _ _ h).2
      · rename_i hsize
        have hrest : (room.removeParticipant socket.id).participants ≠ [] := by
          intro hnil
          apply hsize
          rw [hnil]
          rfl
        have done : ∀ r2 : ActiveRoom,
            mapGet (mapSet E.activeRooms c r2) code = some r1 →
            r2.participants = (room.removeParticipant socket.id).participants →
            mapGet E.activeRooms code = some r1 ∨
            (∃ r, mapGet E.activeRooms code = some r ∧ socket.roomCode = some code ∧
              r1.participants = mapDelete r.participants socket.id ∧ r1.participants ≠ []) := by
          intro r2 hl hr2
          rcases lookup_mapSet _ _ _ _ _ hl with ⟨h1, h2⟩ | ⟨-, h2⟩
          · subst h1
            refine Or.inr ⟨room, hroom, hc, ?_, ?_⟩
            · rw [h2, hr2]; rfl
            · rw [h2, hr2]; exact hrest
          · exact Or.inl h2
        split at h
        · split at h
          · dsimp only at h
            exact done _ h rfl
          · dsimp only at h
            exact done _ h rfl
        · dsimp only at h
          exact done _ h rfl

theorem addDrawEvent_participants (r : ActiveRoom) (e : DrawEvent) :
    (r.addDrawEvent e).participants = r.participants := by
  unfold ActiveRoom.addDrawEvent
  simp only
  split <;> rfl

theorem onCreateRoom_frame (E : Engine) (socket : Socket) (userName : String)
    (userId : Option String) (c : String) (now : Nat) (dbOk : Bool) :
    (onCreateRoom E socket userName userId c now dbOk).1.activeGames = E.activeGames ∧
    (onCreateRoom E socket userName userId c now dbOk).1.intervals = E.intervals ∧
    (onCreateRoom E socket userName userId c now dbOk).2.1.gameCode = socket.gameCode ∧
    (onCreateRoom E socket userName userId c now dbOk).2.1.id = socket.id := by
  unfold onCreateRoom
  split <;> exact ⟨rfl, rfl, rfl, rfl⟩

theorem onCreateRoom_lookup (E : Engine) (socket : Socket) (userName : String)
    (userId : Option String) (c : String) (now : Nat) (dbOk : Bool) (code : String)
    (r1 : ActiveRoom)
    (h : mapGet (onCreateRoom E socket userName userId c now dbOk).1.activeRooms code = some r1) :
    mapGet E.activeRooms code = some r1 ∨
    ((onCreateRoom E socket userName userId c now dbOk).2.1.roomCode = some code ∧
      mapKeys r1.participants = [socket.id]) := by
  unfold onCreateRoom at h ⊢
  split
  · rename_i hfail
    rw [if_pos hfail] at h
    exact Or.inl h
  · rename_i hfail
    rw [if_neg hfail] at h
    dsimp only at h ⊢
    rcases lookup_mapSet _ _ _ _ _ h with ⟨h1, h2⟩ | ⟨-, h2⟩
    · subst h1
      refine Or.inr ⟨rfl, ?_⟩
      rw [h2]
      rfl
    · exact Or.inl h2

theorem onDraw_lookup (E : Engine) (socket : Socket) (data : String) (now : Nat)
    (code : String) (r1 : ActiveRoom)
    (h : mapGet (onDraw E socket data now).activeRooms code = some r1) :
    (onDraw E socket data now).activeGames = E.activeGames ∧
    (onDraw E socket data now).intervals = E.intervals ∧
    (mapGet E.activeRooms code = some r1 ∨
      ∃ r, mapGet E.activeRooms code = some r ∧ r1.participants = r.participants) := by
  unfold onDraw at h ⊢
  split
  · rename_i hc
    simp only [hc] at h
    exact ⟨rfl, rfl, Or.inl h⟩
  · rename_i c hc
    simp only [hc] at h
    split
    · rename_i hroom
      simp only [hroom] at h
      exact ⟨rfl, rfl, Or.inl h⟩
    · rename_i room hroom
      simp only [hroom] at h
      refine ⟨rfl, rfl, ?_⟩
      rcases lookup_mapSet _ _ _ _ _ h with ⟨h1, h2⟩ | ⟨-, h2⟩
      · subst h1
        exact Or.inr ⟨room, hroom, by rw [h2, addDrawEvent_participants]⟩
      · exact Or.inl h2

theorem onClearCanvas_lookup (E : Engine) (socket : Socket) (code : String) (r1 : ActiveRoom)
    (h : mapGet (onClearCanvas E socket).activeRooms code = some r1) :
    (onClearCanvas E socket).activeGames = E.activeGames ∧
    (onClearCanvas E socket).intervals = E.intervals ∧
    (mapGet E.activeRooms code = some r1 ∨
      ∃ r, mapGet E.activeRooms code = some r ∧ r1.participants = r.participants) := by
  unfold onClearCanvas at h ⊢
  split
  · rename_i hc
    simp only [hc] at h
    exact ⟨rfl, rfl, Or.inl h⟩
  · rename_i c hc
    simp only [hc] at h
    split
    · rename_i hroom
      simp only [hroom] at h
      exact ⟨rfl, rfl, Or.inl h⟩
    · rename_i room hroom
      simp only [hroom] at h
      refine ⟨rfl, rfl, ?_⟩
      rcases lookup_mapSet _ _ _ _ _ h with ⟨h1, h2⟩ | ⟨-, h2⟩
      · subst h1
        exact Or.inr ⟨room, hroom, by rw [h2]; rfl⟩
      · exact Or.inl h2
theorem ne_nil_of_mem_mapKeys {κ ν : Type} (m : JSMap κ ν) (k : κ) (h : k ∈ mapKeys m) :
    m ≠ [] := by
  intro hnil
  rw [hnil] at h
  exact absurd h (List.not_mem_nil _)

theorem mapDelete_last {ν : Type} (m : JSMap String ν) (k : String)
    (h : ∀ e ∈ m, e.1 = k) : mapDelete m k = [] := by
  rw [mapDelete_eq_filter, List.filter_eq_nil_iff]
  intro e he
  simp [h e he]

/-- When the only participant of a room leaves, `handleLeaveRoom` deletes the
room. -/
theorem leaveRoom_last (E : Engine) (socket : Socket) (code : String) (room : ActiveRoom)
    (hc : socket.roomCode = some code) (hr : mapGet E.activeRooms code = some room)
    (hlast : ∀ e ∈ room.participants, e.1 = socket.id) :
    mapGet (handleLeaveRoom E socket).1.activeRooms code = none := by
  have hdel : mapSize (room.removeParticipant socket.id).participants = 0 := by
    unfold ActiveRoom.removeParticipant mapSize
    simp only [mapDelete_last _ _ hlast, List.length_nil]
  unfold handleLeaveRoom
  simp only [hc, hr, hdel, if_true]
  exact mapGet_mapDelete_same _ _

/-- When the only player of a game leaves, `handleLeaveGame` deletes the game
and clears the interval the game holds; the other intervals stay. -/
theorem leaveGame_last (E : Engine) (socket : Socket) (code : String) (game : GameRoom)
    (hc : socket.gameCode = some code) (hg : mapGet E.activeGames code = some game)
    (hlast : ∀ e ∈ game.players, e.1 = socket.id) :
    mapGet (handleLeaveGame E socket).1.activeGames code = none ∧
    (handleLeaveGame E socket).1.intervals = (clearInterval E game.timerInterval).intervals ∧
    ∀ i ∈ (handleLeaveGame E socket).1.intervals, some i.handle ≠ game.timerInterval := by
  have hdel : mapSize (game.removePlayer socket.id).players = 0 := by
    unfold GameRoom.removePlayer mapSize
    simp only [mapDelete_last _ _ hlast, List.length_nil]
  have hint : (handleLeaveGame E socket).1.intervals =
      (clearInterval E game.timerInterval).intervals := by
    unfold handleLeaveGame
    simp only [hc, hg, hdel, if_true]
    rfl
  refine ⟨?_, hint, ?_⟩
  · unfold handleLeaveGame
    simp only [hc, hg, hdel, if_true]
    exact mapGet_mapDelete_same _ _
  · intro i hi
    rw [hint] at hi
    cases htimer : game.timerInterval with
    | none => exact fun h => nomatch h
    | some handle =>
      rw [htimer] at hi
      simp only [clearInterval, List.mem_filter, decide_eq_true_eq] at hi
      intro heq
      exact hi.2 (Option.some.inj heq)

theorem handleLeaveGame_socket (E : Engine) (socket : Socket) :
    (handleLeaveGame E socket).2.id = socket.id ∧
    (handleLeaveGame E socket).2.roomCode = socket.roomCode ∧
    ((handleLeaveGame E socket).2 = socket ∨ (handleLeaveGame E socket).2.gameCode = none) := by
  unfold handleLeaveGame
  split
  · exact ⟨rfl, rfl, Or.inl rfl⟩
  · split
    · exact ⟨rfl, rfl, Or.inl rfl⟩
    · exact ⟨rfl, rfl, Or.inr rfl⟩

theorem handleLeaveGame_other (E : Engine) (socket : Socket) (code : String) (g1 : GameRoom)
    (h : mapGet (handleLeaveGame E socket).1.activeGames code = some g1)
    (hne : socket.gameCode ≠ some code) : mapGet E.activeGames code = some g1 := by
  unfold handleLeaveGame at h
  split at h
  · exact h
  · rename_i c hc
    have hcc : code ≠ c := fun e => hne (by rw [hc, e])
    split at h
    · exact h
    · rename_i game hgame
      dsimp only at h
      split at h
      · exact (mapGet_mapDelete _ _ _ _ h).2
      · split at h
        · split at h
          · dsimp only at h
            rw [mapGet_mapSet_ne _ _ _ _ hcc] at h
            exact h
          · dsimp only at h
            rw [mapGet_mapSet_ne _ _ _ _ hcc] at h
            exact h
        · split at h
          · rcases handleTurnEnd_lookup _ _ _ _ h with h1 | ⟨h1, -⟩
            · rw [clearInterval_activeGames] at h1
              dsimp only at h1
              rw [mapGet_mapSet_ne _ _ _ _ hcc] at h1
              exact h1
            · exact absurd h1 hne
          · dsimp only at h
            rw [mapGet_mapSet_ne _ _ _ _ hcc] at h
            exact h

theorem handleLeaveGame_own (E : Engine) (socket : Socket) (code : String) (g g1 : GameRoom)
    (hc : socket.gameCode = some code) (hg : mapGet E.activeGames code = some g)
    (h : mapGet (handleLeaveGame E socket).1.activeGames code = some g1) :
    (handleLeaveGame E socket).2.gameCode = none ∧
    ∀ x, x ∈ mapKeys g1.players ↔ x ≠ socket.id ∧ x ∈ mapKeys g.players := by
  have hsock : (handleLeaveGame E socket).2.gameCode = none := by
    unfold handleLeaveGame
    simp only [hc, hg]
  refine ⟨hsock, ?_⟩
  have key : ∀ g2 : GameRoom, mapKeys g2.players = mapKeys (g.removePlayer socket.id).players →
      ∀ x, x ∈ mapKeys g2.players ↔ x ≠ socket.id ∧ x ∈ mapKeys g.players := by
    intro g2 hk x
    rw [hk]
    exact mem_mapKeys_mapDelete _ _ x
  unfold handleLeaveGame at h
  simp only [hc, hg] at h
  split at h
  · rw [mapGet_mapDelete_same] at h
    cases h
  · split at h
    · split at h
      · dsimp only at h
        rw [mapGet_mapSet_same] at h
        rw [← Option.some.inj h]
        exact key _ (mapKeys_markFirstHost _)
      · dsimp only at h
        rw [mapGet_mapSet_same] at h
        rw [← Option.some.inj h]
        exact key _ rfl
    · split at h
      · rw [handleTurnEnd_registered _ code (g.removePlayer socket.id)
          (by rw [clearInterval_activeGames]; exact mapGet_mapSet_same _ _ _)] at h
        dsimp only at h
        rw [mapGet_mapSet_same] at h
        rw [← Option.some.inj h]
        exact key _ (by rw [(endTurn_frame _).2.1])
      · dsimp only at h
        rw [mapGet_mapSet_same] at h
        rw [← Option.some.inj h]
        exact key _ rfl

theorem handleLeaveRoom_socket (E : Engine) (socket : Socket) :
    (handleLeaveRoom E socket).2 = socket ∨ (handleLeaveRoom E socket).2.roomCode = none := by
  unfold handleLeaveRoom
  split
  · exact Or.inl rfl
  · split
    · exact Or.inl rfl
    · exact Or.inr rfl

theorem handleLeaveRoom_other (E : Engine) (socket : Socket) (code : String) (r1 : ActiveRoom)
    (h : mapGet (handleLeaveRoom E socket).1.activeRooms code = some r1)
    (hne : socket.roomCode ≠ some code) : mapGet E.activeRooms code = some r1 := by
  rcases handleLeaveRoom_lookup E socket code r1 h with h1 | ⟨r, -, h2, -⟩
  · exact h1
  · exact absurd h2 hne

theorem handleLeaveRoom_own (E : Engine) (socket : Socket) (code : String) (r r1 : ActiveRoom)
    (hc : socket.roomCode = some code) (hr : mapGet E.activeRooms code = some r)
    (h : mapGet (handleLeaveRoom E socket).1.activeRooms code = some r1) :
    (handleLeaveRoom E socket).2.roomCode = none ∧
    ∀ x, x ∈ mapKeys r1.participants ↔ x ≠ socket.id ∧ x ∈ mapKeys r.participants := by
  have hsock : (handleLeaveRoom E socket).2.roomCode = none := by
    unfold handleLeaveRoom
    simp only [hc, hr]
  refine ⟨hsock, ?_⟩
  have key : ∀ r2 : ActiveRoom, r2.participants = (r.removeParticipant socket.id).participants →
      ∀ x, x ∈ mapKeys r2.participants ↔ x ≠ socket.id ∧ x ∈ mapKeys r.participants := by
    intro r2 hk x
    rw [hk]
    exact mem_mapKeys_mapDelete _ _ x
  unfold handleLeaveRoom at h
  simp only [hc, hr] at h
  split at h
  · rw [mapGet_mapDelete_same] at h
    cases h
  · split at h
    · split at h
      · dsimp only at h
        rw [mapGet_mapSet_same] at h
        rw [← Option.some.inj h]
        exact key _ rfl
      · dsimp only at h
        rw [mapGet_mapSet_same] at h
        rw [← Option.some.inj h]
        exact key _ rfl
    · dsimp only at h
      rw [mapGet_mapSet_same] at h
      rw [← Option.some.inj h]
      exact key _ rfl

theorem onGameJoin_lookup (E : Engine) (socket : Socket) (gameCode userName : String)
    (code : String) (g1 : GameRoom)
    (h : mapGet (onGameJoin E socket gameCode userName).1.activeGames code = some g1) :
    (onGameJoin E socket gameCode userName).2.1.id = socket.id ∧
    (onGameJoin E socket gameCode userName).2.1.roomCode = socket.roomCode ∧
    ((mapGet E.activeGames code = some g1 ∧
        ((onGameJoin E socket gameCode userName).2.1 = socket ∨
          code ≠ toUpperCase gameCode)) ∨
      ((onGameJoin E socket gameCode userName).2.1.gameCode = some code ∧
        ∃ g, mapGet E.activeGames code = some g ∧
          ∀ x, x ∈ mapKeys g1.players ↔ x = socket.id ∨ x ∈ mapKeys g.players)) := by
  unfold onGameJoin at h ⊢
  dsimp only at h ⊢
  split
  · rename_i hnone
    rw [hnone] at h
    exact ⟨rfl, rfl, Or.inl ⟨h, Or.inl rfl⟩⟩
  · rename_i game hgame
    rw [hgame] at h
    dsimp only at h
    split
    · rename_i hst
      rw [if_pos hst] at h
      exact ⟨rfl, rfl, Or.inl ⟨h, Or.inl rfl⟩⟩
    · rename_i hst
      rw [if_neg hst] at h
      split
      · rename_i hfull
        rw [if_pos hfull] at h
        exact ⟨rfl, rfl, Or.inl ⟨h, Or.inl rfl⟩⟩
      · rename_i hfull
        rw [if_neg hfull] at h
        dsimp only at h ⊢
        refine ⟨rfl, rfl, ?_⟩
        rcases lookup_mapSet _ _ _ _ _ h with ⟨h1, h2⟩ | ⟨h1, h2⟩
        · subst h1
          refine Or.inr ⟨rfl, game, hgame, fun x => ?_⟩
          rw [h2]
          exact mem_mapKeys_mapSet _ _ _ x
        · exact Or.inl ⟨h2, Or.inr h1⟩

theorem onGameCreate_lookup (E : Engine) (socket : Socket) (userName : String)
    (settings : SettingsInput) (c : String) (now : Nat) (code : String) (g1 : GameRoom)
    (h : mapGet (onGameCreate E socket userName settings c now).1.activeGames code = some g1) :
    (onGameCreate E socket userName settings c now).2.1.id = socket.id ∧
    (onGameCreate E socket userName settings c now).2.1.roomCode = socket.roomCode ∧
    (onGameCreate E socket userName settings c now).2.1.gameCode = some c ∧
    ((code ≠ c ∧ mapGet E.activeGames code = some g1) ∨
      (code = c ∧ mapKeys g1.players = [socket.id])) := by
  unfold onGameCreate at h ⊢
  dsimp only at h ⊢
  refine ⟨rfl, rfl, rfl, ?_⟩
  rcases lookup_mapSet _ _ _ _ _ h with ⟨h1, h2⟩ | ⟨h1, h2⟩
  · refine Or.inr ⟨h1, ?_⟩
    rw [h2]
    rfl
  · exact Or.inl ⟨h1, h2⟩
theorem runEvent_socket_same (E E1 : Engine) (socket socket1 : Socket) (ev : GameEvent)
    (hrun : runEvent E socket ev = some (E1, socket1))
    (hkind : ¬ EntersGame (.game ev)) (hleave : ev ≠ .leave) : socket1 = socket := by
  cases ev with
  | create userName settings c now => exact absurd trivial hkind
  | join gameCode userName => exact absurd trivial hkind
  | leave => exact absurd rfl hleave
  | ready isReady =>
    simp only [runEvent, Option.some.injEq, Prod.mk.injEq] at hrun
    exact hrun.2.symm
  | start rnd =>
    simp only [runEvent, Option.map_eq_some', Prod.mk.injEq] at hrun
    obtain ⟨_, _, _, h⟩ := hrun
    exact h.symm
  | guess guess now =>
    simp only [runEvent, Option.map_eq_some', Prod.mk.injEq] at hrun
    obtain ⟨_, _, _, h⟩ := hrun
    exact h.symm
  | draw data =>
    simp only [runEvent, Option.some.injEq, Prod.mk.injEq] at hrun
    exact hrun.2.symm
  | clearCanvas =>
    simp only [runEvent, Option.some.injEq, Prod.mk.injEq] at hrun
    exact hrun.2.symm
  | nextRound rnd =>
    simp only [runEvent, Option.map_eq_some', Prod.mk.injEq] at hrun
    obtain ⟨_, _, _, h⟩ := hrun
    exact h.symm
  | restart =>
    simp only [runEvent, Option.some.injEq, Prod.mk.injEq] at hrun
    exact hrun.2.symm
  | tick handle deadExpired =>
    simp only [runEvent, Option.some.injEq, Prod.mk.injEq] at hrun
    exact hrun.2.symm

/-- Where a player found in a registered game after a game event comes from: it
is the delivering connection, whose game code is now the code of that game, or
it was a player of the game registered there before. -/
theorem runEvent_member (E E1 : Engine) (socket socket1 : Socket) (ev : GameEvent)
    (hrun : runEvent E socket ev = some (E1, socket1)) :
    socket1.id = socket.id ∧ socket1.roomCode = socket.roomCode ∧
    ∀ code g1, mapGet E1.activeGames code = some g1 → ∀ x ∈ mapKeys g1.players,
      (x = socket.id ∧ socket1.gameCode = some code) ∨
      (∃ g, mapGet E.activeGames code = some g ∧ x ∈ mapKeys g.players ∧
        (x ≠ socket.id ∨ socket1.gameCode = socket.gameCode ∨ socket.gameCode ≠ some code ∨
          EntersGame (.game ev))) := by
  by_cases hcreate : ∃ userName settings c now, ev = .create userName settings c now
  · obtain ⟨userName, settings, c, now, rfl⟩ := hcreate
    simp only [runEvent, Option.some.injEq, Prod.mk.injEq] at hrun
    obtain ⟨hE, hs⟩ := hrun
    subst hE hs
    refine ⟨rfl, rfl, ?_⟩
    intro code g1 h x hx
    obtain ⟨-, -, hcode, hl⟩ := onGameCreate_lookup _ _ _ _ _ _ _ _ h
    rcases hl with ⟨-, h2⟩ | ⟨h1, h2⟩
    · exact Or.inr ⟨g1, h2, hx, Or.inr (Or.inr (Or.inr trivial))⟩
    · rw [h2, List.mem_singleton] at hx
      exact Or.inl ⟨hx, by rw [h1]; exact hcode⟩
  by_cases hjoin : ∃ gameCode userName, ev = .join gameCode userName
  · obtain ⟨gameCode, userName, rfl⟩ := hjoin
    simp only [runEvent, Option.some.injEq, Prod.mk.injEq] at hrun
    obtain ⟨hE, hs⟩ := hrun
    subst hE hs
    refine ⟨?_, ?_, ?_⟩
    · unfold onGameJoin
      dsimp only
      split
      · rfl
      · split
        · rfl
        · split <;> rfl
    · unfold onGameJoin
      dsimp only
      split
      · rfl
      · split
        · rfl
        · split <;> rfl
    · intro code g1 h x hx
      obtain ⟨-, -, hl⟩ := onGameJoin_lookup _ _ _ _ _ _ h
      rcases hl with ⟨h1, -⟩ | ⟨h1, g, hg, hkeys⟩
      · exact Or.inr ⟨g1, h1, hx, Or.inr (Or.inr (Or.inr trivial))⟩
      · rcases (hkeys x).mp hx with hx1 | hx1
        · exact Or.inl ⟨hx1, h1⟩
        · exact Or.inr ⟨g, hg, hx1, Or.inr (Or.inr (Or.inr trivial))⟩
  by_cases hleave : ev = .leave
  · subst hleave
    simp only [runEvent, Option.some.injEq] at hrun
    have hE : (handleLeaveGame E socket).1 = E1 := by rw [hrun]
    have hs : (handleLeaveGame E socket).2 = socket1 := by rw [hrun]
    subst hE hs
    obtain ⟨s1, s2, -⟩ := handleLeaveGame_socket E socket
    refine ⟨s1, s2, ?_⟩
    intro code g1 h x hx
    by_cases hc : socket.gameCode = some code
    · cases hg : mapGet E.activeGames code with
      | none =>
        exfalso
        unfold handleLeaveGame at h
        simp only [hc, hg] at h
        cases h
      | some g =>
        obtain ⟨-, hkeys⟩ := handleLeaveGame_own E socket code g g1 hc hg h
        obtain ⟨hx1, hx2⟩ := (hkeys x).mp hx
        exact Or.inr ⟨g, rfl, hx2, Or.inl hx1⟩
    · exact Or.inr ⟨g1, handleLeaveGame_other E socket code g1 h hc, hx,
        Or.inr (Or.inr (Or.inl hc))⟩
  · have hkind : ¬ EntersGame (.game ev) := by
      intro h
      cases ev with
      | create userName settings c now => exact hcreate ⟨userName, settings, c, now, rfl⟩
      | join gameCode userName => exact hjoin ⟨gameCode, userName, rfl⟩
      | _ => exact h
    have hsame := runEvent_socket_same E E1 socket socket1 ev hrun hkind hleave
    subst hsame
    refine ⟨rfl, rfl, ?_⟩
    intro code g1 h x hx
    rcases runEvent_games E E1 socket1 socket1 ev hrun code g1 h with h1 | ⟨g, hg, hch⟩ | h1
    · exact Or.inr ⟨g1, h1, hx, Or.inr (Or.inl rfl)⟩
    · rcases gameChange_keys socket1 ev g g1 hch with hk | ⟨⟨gc, un, he⟩, -⟩ | ⟨he, -⟩
      · rw [hk] at hx
        exact Or.inr ⟨g, hg, hx, Or.inr (Or.inl rfl)⟩
      · exact absurd ⟨gc, un, he⟩ hjoin
      · exact absurd he hleave
    · obtain ⟨userName, settings, now, he, -⟩ := h1
      exact absurd ⟨userName, settings, code, now, he⟩ hcreate
theorem attached_update_rooms {ev : ServerEvent} (E E1 : Engine) (σ : String → Socket)
    (id : String) (socket1 : Socket) (hatt : Attached E σ) (hord : EntersRoom ev → (σ id).roomCode = none)
    (hmem : ∀ code r1, mapGet E1.activeRooms code = some r1 → ∀ x ∈ mapKeys r1.participants,
      (x = (σ id).id ∧ socket1.roomCode = some code) ∨
      (∃ r, mapGet E.activeRooms code = some r ∧ x ∈ mapKeys r.participants ∧
        (x ≠ (σ id).id ∨ socket1.roomCode = (σ id).roomCode ∨ (σ id).roomCode ≠ some code ∨
          EntersRoom ev))) :
    ∀ code r1, mapGet E1.activeRooms code = some r1 → ∀ x ∈ mapKeys r1.participants,
      (Function.update σ id socket1 x).roomCode = some code := by
  intro code r1 h x hx
  have hid : (σ id).id = id := hatt.1 id
  rcases hmem code r1 h x hx with ⟨h1, h2⟩ | ⟨r, hr, hxr, hopt⟩
  · rw [hid] at h1
    rw [h1, Function.update_same]
    exact h2
  · have hI := hatt.2.1 code r hr x hxr
    by_cases hxi : x = id
    · subst hxi
      rw [Function.update_same]
      rcases hopt with h1 | h1 | h1 | h1
      · exact absurd hid.symm h1
      · rw [h1]; exact hI
      · exact absurd hI h1
      · rw [hord h1] at hI
        cases hI
    · rw [Function.update_noteq hxi]
      exact hI

theorem attached_update_games {ev : ServerEvent} (E E1 : Engine) (σ : String → Socket)
    (id : String) (socket1 : Socket) (hatt : Attached E σ) (hord : EntersGame ev → (σ id).gameCode = none)
    (hmem : ∀ code g1, mapGet E1.activeGames code = some g1 → ∀ x ∈ mapKeys g1.players,
      (x = (σ id).id ∧ socket1.gameCode = some code) ∨
      (∃ g, mapGet E.activeGames code = some g ∧ x ∈ mapKeys g.players ∧
        (x ≠ (σ id).id ∨ socket1.gameCode = (σ id).gameCode ∨ (σ id).gameCode ≠ some code ∨
          EntersGame ev))) :
    ∀ code g1, mapGet E1.activeGames code = some g1 → ∀ x ∈ mapKeys g1.players,
      (Function.update σ id socket1 x).gameCode = some code := by
  intro code g1 h x hx
  have hid : (σ id).id = id := hatt.1 id
  rcases hmem code g1 h x hx with ⟨h1, h2⟩ | ⟨g, hg, hxg, hopt⟩
  · rw [hid] at h1
    rw [h1, Function.update_same]
    exact h2
  · have hI := hatt.2.2 code g hg x hxg
    by_cases hxi : x = id
    · subst hxi
      rw [Function.update_same]
      rcases hopt with h1 | h1 | h1 | h1
      · exact absurd hid.symm h1
      · rw [h1]; exact hI
      · exact absurd hI h1
      · rw [hord h1] at hI
        cases hI
    · rw [Function.update_noteq hxi]
      exact hI

theorem attached_update_ids (σ : String → Socket) (id : String) (socket1 : Socket)
    (hids : ∀ x, (σ x).id = x) (h1 : socket1.id = (σ id).id) :
    ∀ x, (Function.update σ id socket1 x).id = x := by
  intro x
  by_cases hxi : x = id
  · subst hxi
    rw [Function.update_same, h1]
    exact hids x
  · rw [Function.update_noteq hxi]
    exact hids x

/-- A game event keeps every member attached to its session. -/
theorem attached_gameStep (E E1 : Engine) (σ : String → Socket) (id : String)
    (socket1 : Socket) (gev : GameEvent)
    (hrun : runEvent E (σ id) gev = some (E1, socket1))
    (hord : EntersGame (.game gev) → (σ id).gameCode = none) (hatt : Attached E σ) :
    Attached E1 (Function.update σ id socket1) := by
  obtain ⟨m1, m2, m4⟩ := runEvent_member E E1 (σ id) socket1 gev hrun
  refine ⟨attached_update_ids σ id socket1 hatt.1 m1, ?_,
    attached_update_games E E1 σ id socket1 hatt hord m4⟩
  intro code r1 h x hx
  rw [runEvent_rooms E E1 (σ id) socket1 gev hrun] at h
  have hI := hatt.2.1 code r1 h x hx
  by_cases hxi : x = id
  · subst hxi
    rw [Function.update_same, m2]
    exact hI
  · rw [Function.update_noteq hxi]
    exact hI

theorem mapDelete_mapSet_same {κ ν : Type} [DecidableEq κ] (m : JSMap κ ν) (k : κ) (v : ν) :
    mapDelete (mapSet m k v) k = mapDelete m k := by
  induction m with
  | nil => simp [mapSet, mapDelete]
  | cons e rest ih =>
    obtain ⟨k', v'⟩ := e
    by_cases h : k' = k
    · simp [mapSet, mapDelete, h]
    · simp [mapSet, mapDelete, h, ih]

theorem mapSet_mapSet_same {κ ν : Type} [DecidableEq κ] (m : JSMap κ ν) (k : κ) (v w : ν) :
    mapSet (mapSet m k v) k w = mapSet m k w := by
  induction m with
  | nil => simp [mapSet]
  | cons e rest ih =>
    obtain ⟨k', v'⟩ := e
    by_cases h : k' = k
    · simp [mapSet, h]
    · simp [mapSet, h, ih]

/-- The function `handleLeaveRoom` run in one go is its part before the `await`
followed by its part after it, with the room object still registered. -/
theorem handleLeaveRoom_phases (E : Engine) (socket : Socket) :
    handleLeaveRoom E socket =
      match leaveRoomBegin E socket with
      | none => (E, socket)
      | some (E1, code, _) => leaveRoomEnd E1 socket ⟨code, none⟩ := by
  unfold handleLeaveRoom leaveRoomBegin
  cases hc : socket.roomCode with
  | none => rfl
  | some code =>
    simp only
    cases hr : mapGet E.activeRooms code with
    | none => rfl
    | some room =>
      simp only [leaveRoomEnd, HeldRoom.room, mapGet_mapSet_same, Option.getD_some, hc,
        mapDelete_mapSet_same, mapSet_mapSet_same]
      congr 1
      split
      · rfl
      · split
        · split
          · rename_i hl
            simp only [hl]
          · rename_i hl
            simp only [hl]
        · rfl

/-- A call of `handleLeaveRoom` gives control back having run in one go, or
suspended after removing the connection from its room. -/
theorem leaveRoomNow_cases (E : Engine) (socket : Socket) :
    leaveRoomNow E socket = handleLeaveRoom E socket ∨
    ∃ code room, socket.roomCode = some code ∧ mapGet E.activeRooms code = some room ∧
      leaveRoomNow E socket =
        ({ E with activeRooms := mapSet E.activeRooms code (room.removeParticipant socket.id) },
          socket) := by
  rw [handleLeaveRoom_phases]
  unfold leaveRoomNow
  cases hb : leaveRoomBegin E socket with
  | none => exact Or.inl rfl
  | some r =>
    obtain ⟨E1, code, awaits⟩ := r
    cases awaits with
    | false => exact Or.inl rfl
    | true =>
      right
      unfold leaveRoomBegin at hb
      cases hc : socket.roomCode with
      | none => simp [hc] at hb
      | some c =>
        simp only [hc] at hb
        cases hr : mapGet E.activeRooms c with
        | none => simp [hr] at hb
        | some room =>
          simp only [hr, Option.some.injEq, Prod.mk.injEq] at hb
          obtain ⟨h1, h2, -⟩ := hb
          subst h1 h2
          exact ⟨c, room, rfl, hr, rfl⟩

theorem onJoinRoom_spec (E E1 : Engine) (socket socket1 : Socket) (roomCode userName : String)
    (userId : Option String) (now : Nat)
    (h : onJoinRoom E socket roomCode userName userId now = some (E1, socket1)) :
    E1.activeGames = E.activeGames ∧ E1.intervals = E.intervals ∧
    socket1.gameCode = socket.gameCode ∧ socket1.id = socket.id ∧
    ∀ code r1, mapGet E1.activeRooms code = some r1 →
      mapGet E.activeRooms code = some r1 ∨
      (socket1.roomCode = some code ∧
        ∀ x ∈ mapKeys r1.participants, x = socket.id ∨
          ∃ r, mapGet E.activeRooms code = some r ∧ x ∈ mapKeys r.participants) := by
  unfold onJoinRoom at h
  dsimp only at h
  cases hr : mapGet E.activeRooms (toUpperCase roomCode) with
  | none => simp [hr] at h
  | some room =>
    simp only [hr, Option.some.injEq, Prod.mk.injEq] at h
    obtain ⟨h1, h2⟩ := h
    subst h1 h2
    refine ⟨rfl, rfl, rfl, rfl, ?_⟩
    intro code r1 hl
    dsimp only at hl
    rcases lookup_mapSet _ _ _ _ _ hl with ⟨e1, e2⟩ | ⟨-, e2⟩
    · subst e1
      refine Or.inr ⟨rfl, ?_⟩
      intro x hx
      rw [e2] at hx
      rcases (mem_mapKeys_mapSet _ _ _ _).mp hx with hx1 | hx1
      · exact Or.inl hx1
      · exact Or.inr ⟨room, hr, hx1⟩
    · exact Or.inl e2

theorem joinRestored_spec (E : Engine) (socket : Socket) (c hostName userName : String)
    (userId : Option String) (now : Nat) :
    (joinRestored E socket c hostName userName userId now).1.activeGames = E.activeGames ∧
    (joinRestored E socket c hostName userName userId now).1.intervals = E.intervals ∧
    (joinRestored E socket c hostName userName userId now).2.gameCode = socket.gameCode ∧
    (joinRestored E socket c hostName userName userId now).2.id = socket.id ∧
    ∀ code r1,
      mapGet (joinRestored E socket c hostName userName userId now).1.activeRooms code = some r1 →
      mapGet E.activeRooms code = some r1 ∨
      ((joinRestored E socket c hostName userName userId now).2.roomCode = some code ∧
        mapKeys r1.participants = [socket.id]) := by
  refine ⟨rfl, rfl, rfl, rfl, ?_⟩
  intro code r1 hl
  unfold joinRestored at hl ⊢
  dsimp only at hl ⊢
  rcases lookup_mapSet _ _ _ _ _ hl with ⟨e1, e2⟩ | ⟨-, e2⟩
  · subst e1
    refine Or.inr ⟨rfl, ?_⟩
    rw [e2]
    rfl
  · exact Or.inl e2

/-- The part of `handleLeaveRoom` after the `await` adds no room and no
participant. -/
theorem leaveRoomEnd_spec (E : Engine) (socket : Socket) (held : HeldRoom) :
    (leaveRoomEnd E socket held).1.activeGames = E.activeGames ∧
    (leaveRoomEnd E socket held).1.intervals = E.intervals ∧
    (leaveRoomEnd E socket held).2.gameCode = socket.gameCode ∧
    (leaveRoomEnd E socket held).2.id = socket.id ∧
    (leaveRoomEnd E socket held).2.roomCode = none ∧
    ∀ code r1, mapGet (leaveRoomEnd E socket held).1.activeRooms code = some r1 →
      ∃ r, mapGet E.activeRooms code = some r ∧ r1.participants = r.participants := by
  have hframe : (leaveRoomEnd E socket held).1.activeGames = E.activeGames ∧
      (leaveRoomEnd E socket held).1.intervals = E.intervals := by
    unfold leaveRoomEnd
    dsimp only
    split
    · split <;> exact ⟨rfl, rfl⟩
    · split
      · split <;> exact ⟨rfl, rfl⟩
      · exact ⟨rfl, rfl⟩
  refine ⟨hframe.1, hframe.2, rfl, rfl, rfl, ?_⟩
  intro code r1 hl
  unfold leaveRoomEnd at hl
  dsimp only at hl
  split at hl
  · split at hl
    · exact ⟨r1, (mapGet_mapDelete _ _ _ _ hl).2, rfl⟩
    · exact ⟨r1, hl, rfl⟩
  · rename_i hsize
    split at hl
    · split at hl
      · rename_i newHost tail hlist hdet
        dsimp only at hl
        rcases lookup_mapSet _ _ _ _ _ hl with ⟨e1, e2⟩ | ⟨-, e2⟩
        · subst e1
          cases hreg : mapGet E.activeRooms held.code with
          | none =>
            exfalso
            apply hsize
            simp only [HeldRoom.room, hdet, hreg]
            rfl
          | some r =>
            refine ⟨r, rfl, ?_⟩
            rw [e2]
            simp only [HeldRoom.room, hdet, hreg, Option.getD_some]
        · exact ⟨r1, e2, rfl⟩
      · exact ⟨r1, hl, rfl⟩
    · exact ⟨r1, hl, rfl⟩


/-- Where a participant found in a registered room after a whiteboard event
comes from: it is the delivering connection, which has entered and whose room
code is now the code of that room, or it was a participant of the room
registered there before. -/
theorem roomStep_member (E E1 : Engine) (socket socket1 : Socket) (ev : ServerEvent)
    (hstep : serverStep E socket ev = some (E1, socket1))
    (hgame : ∀ gev, ev ≠ .game gev) (hdisc : ev ≠ .disconnect) :
    socket1.id = socket.id ∧ socket1.gameCode = socket.gameCode ∧
    E1.activeGames = E.activeGames ∧
    (roomRequest ev = false → socket1.roomCode = socket.roomCode) ∧
    ∀ code r1, mapGet E1.activeRooms code = some r1 → ∀ x ∈ mapKeys r1.participants,
      (EntersRoom ev ∧ x = socket.id ∧ socket1.roomCode = some code) ∨
      (∃ r, mapGet E.activeRooms code = some r ∧ x ∈ mapKeys r.participants ∧
        (x ≠ socket.id ∨ socket1.roomCode = socket.roomCode ∨ socket.roomCode ≠ some code ∨
          EntersRoom ev)) := by
  cases ev with
  | game gev => exact absurd rfl (hgame gev)
  | disconnect => exact absurd rfl hdisc
  | createRoom userName userId c now =>
    simp only [serverStep] at hstep
    split at hstep
    · simp only [Option.some.injEq, Prod.mk.injEq] at hstep
      obtain ⟨hE, hs⟩ := hstep
      subst hE hs
      exact ⟨rfl, rfl, rfl, (fun h => nomatch h),
        fun code r1 h x hx => Or.inr ⟨r1, h, hx, Or.inr (Or.inl rfl)⟩⟩
    · simp only [Option.some.injEq, Prod.mk.injEq] at hstep
      obtain ⟨hE, hs⟩ := hstep
      subst hE hs
      obtain ⟨f1, -, f3, f4⟩ := onCreateRoom_frame E socket userName userId c now true
      refine ⟨f4, f3, f1, (fun h => nomatch h), ?_⟩
      intro code r1 h x hx
      rcases onCreateRoom_lookup _ _ _ _ _ _ _ _ _ h with h1 | ⟨h1, h2⟩
      · exact Or.inr ⟨r1, h1, hx, Or.inr (Or.inr (Or.inr trivial))⟩
      · rw [h2, List.mem_singleton] at hx
        exact Or.inl ⟨trivial, hx, h1⟩
  | joinRoom roomCode userName userId now =>
    simp only [serverStep, Option.some.injEq] at hstep
    cases hj : onJoinRoom E socket roomCode userName userId now with
    | none =>
      rw [hj] at hstep
      simp only [Option.getD_none, Prod.mk.injEq] at hstep
      obtain ⟨hE, hs⟩ := hstep
      subst hE hs
      exact ⟨rfl, rfl, rfl, (fun h => nomatch h),
        fun code r1 h x hx => Or.inr ⟨r1, h, hx, Or.inr (Or.inl rfl)⟩⟩
    | some r =>
      rw [hj] at hstep
      simp only [Option.getD_some] at hstep
      subst hstep
      obtain ⟨f1, -, f3, f4, f5⟩ := onJoinRoom_spec E _ socket _ roomCode userName userId now hj
      refine ⟨f4, f3, f1, (fun h => nomatch h), ?_⟩
      intro code r1 h x hx
      rcases f5 code r1 h with h1 | ⟨h1, h3⟩
      · exact Or.inr ⟨r1, h1, hx, Or.inr (Or.inr (Or.inr trivial))⟩
      · rcases h3 x hx with hx1 | ⟨r, hr, hx1⟩
        · exact Or.inl ⟨trivial, hx1, h1⟩
        · exact Or.inr ⟨r, hr, hx1, Or.inr (Or.inr (Or.inr trivial))⟩
  | draw data now =>
    simp only [serverStep, Option.some.injEq, Prod.mk.injEq] at hstep
    obtain ⟨hE, hs⟩ := hstep
    subst hE hs
    have hgames : (onDraw E socket data now).activeGames = E.activeGames := by
      unfold onDraw
      split
      · rfl
      · split <;> rfl
    refine ⟨rfl, rfl, hgames, fun _ => rfl, ?_⟩
    intro code r1 h x hx
    rcases (onDraw_lookup _ _ _ _ _ _ h).2.2 with h1 | ⟨r, hr, h2⟩
    · exact Or.inr ⟨r1, h1, hx, Or.inr (Or.inl rfl)⟩
    · rw [h2] at hx
      exact Or.inr ⟨r, hr, hx, Or.inr (Or.inl rfl)⟩
  | clearCanvas =>
    simp only [serverStep, Option.some.injEq, Prod.mk.injEq] at hstep
    obtain ⟨hE, hs⟩ := hstep
    subst hE hs
    have hgames : (onClearCanvas E socket).activeGames = E.activeGames := by
      unfold onClearCanvas
      split
      · rfl
      · split <;> rfl
    refine ⟨rfl, rfl, hgames, fun _ => rfl, ?_⟩
    intro code r1 h x hx
    rcases (onClearCanvas_lookup _ _ _ _ h).2.2 with h1 | ⟨r, hr, h2⟩
    · exact Or.inr ⟨r1, h1, hx, Or.inr (Or.inl rfl)⟩
    · rw [h2] at hx
      exact Or.inr ⟨r, hr, hx, Or.inr (Or.inl rfl)⟩
  | leaveRoom =>
    simp only [serverStep, Option.some.injEq] at hstep
    rcases leaveRoomNow_cases E socket with hnow | ⟨c, room, hc, hroom, hnow⟩
    · rw [hnow] at hstep
      have hE : (handleLeaveRoom E socket).1 = E1 := by rw [hstep]
      have hs : (handleLeaveRoom E socket).2 = socket1 := by rw [hstep]
      subst hE hs
      obtain ⟨f1, -, f3, f4⟩ := handleLeaveRoom_games E socket
      refine ⟨f4, f3, f1, (fun h => nomatch h), ?_⟩
      intro code r1 h x hx
      by_cases hc : socket.roomCode = some code
      · cases hr : mapGet E.activeRooms code with
        | none =>
          exfalso
          unfold handleLeaveRoom at h
          simp only [hc, hr] at h
          cases h
        | some r =>
          obtain ⟨-, hkeys⟩ := handleLeaveRoom_own E socket code r r1 hc hr h
          obtain ⟨hx1, hx2⟩ := (hkeys x).mp hx
          exact Or.inr ⟨r, rfl, hx2, Or.inl hx1⟩
      · exact Or.inr ⟨r1, handleLeaveRoom_other E socket code r1 h hc, hx,
          Or.inr (Or.inr (Or.inl hc))⟩
    · rw [hnow] at hstep
      simp only [Prod.mk.injEq] at hstep
      obtain ⟨hE, hs⟩ := hstep
      subst hE hs
      refine ⟨rfl, rfl, rfl, (fun h => nomatch h), ?_⟩
      intro code r1 h x hx
      dsimp only at h
      rcases lookup_mapSet _ _ _ _ _ h with ⟨e1, e2⟩ | ⟨-, e2⟩
      · subst e1
        rw [e2] at hx
        obtain ⟨hx1, hx2⟩ := (mem_mapKeys_mapDelete _ _ _).mp hx
        exact Or.inr ⟨room, hroom, hx2, Or.inl hx1⟩
      · exact Or.inr ⟨r1, e2, hx, Or.inr (Or.inl rfl)⟩

/-- A block of handler code run for connection `id` keeps every member attached
to its session when it changes no game, adds no participant but `id`, and `id`
only to the room whose code the connection then has. -/
theorem attached_block (E E1 : Engine) (σ : String → Socket) (id : String) (socket1 : Socket)
    (entering : Prop) (hatt : Attached E σ) (hord : entering → (σ id).roomCode = none)
    (hid : socket1.id = (σ id).id) (hgc : socket1.gameCode = (σ id).gameCode)
    (hgames : E1.activeGames = E.activeGames)
    (hmem : ∀ code r1, mapGet E1.activeRooms code = some r1 → ∀ x ∈ mapKeys r1.participants,
      (entering ∧ x = (σ id).id ∧ socket1.roomCode = some code) ∨
      (∃ r, mapGet E.activeRooms code = some r ∧ x ∈ mapKeys r.participants ∧
        (x ≠ (σ id).id ∨ socket1.roomCode = (σ id).roomCode ∨ (σ id).roomCode ≠ some code ∨
          entering))) :
    Attached E1 (Function.update σ id socket1) := by
  have hsid : (σ id).id = id := hatt.1 id
  refine ⟨attached_update_ids σ id socket1 hatt.1 hid, ?_, ?_⟩
  · intro code r1 h x hx
    rcases hmem code r1 h x hx with ⟨-, h1, h2⟩ | ⟨r, hr, hxr, hopt⟩
    · rw [hsid] at h1
      rw [h1, Function.update_same]
      exact h2
    · have hI := hatt.2.1 code r hr x hxr
      by_cases hxi : x = id
      · subst hxi
        rw [Function.update_same]
        rcases hopt with h1 | h1 | h1 | h1
        · exact absurd hsid.symm h1
        · rw [h1]; exact hI
        · exact absurd hI h1
        · rw [hord h1] at hI
          cases hI
      · rw [Function.update_noteq hxi]
        exact hI
  · intro code g1 h x hx
    rw [hgames] at h
    have hI := hatt.2.2 code g1 h x hx
    by_cases hxi : x = id
    · subst hxi
      rw [Function.update_same, hgc]
      exact hI
    · rw [Function.update_noteq hxi]
      exact hI

theorem attached_roomStep (E E1 : Engine) (σ : String → Socket) (id : String)
    (socket1 : Socket) (ev : ServerEvent)
    (hstep : serverStep E (σ id) ev = some (E1, socket1))
    (hgame : ∀ gev, ev ≠ .game gev) (hdisc : ev ≠ .disconnect)
    (hord : EntersRoom ev → (σ id).roomCode = none) (hatt : Attached E σ) :
    Attached E1 (Function.update σ id socket1) := by
  obtain ⟨m1, m2, m3, -, m4⟩ := roomStep_member E E1 (σ id) socket1 ev hstep hgame hdisc
  exact attached_block E E1 σ id socket1 (EntersRoom ev) hatt hord m1 m2 m3 m4

/-- Every orderly event of the server keeps every member attached to its
session, up to the return or the suspension of its handler. -/
theorem attached_step (E E1 : Engine) (σ : String → Socket) (id : String)
    (socket1 : Socket) (ev : ServerEvent)
    (hstep : serverStep E (σ id) ev = some (E1, socket1))
    (hord : Orderly (σ id) ev) (hatt : Attached E σ) :
    Attached E1 (Function.update σ id socket1) := by
  by_cases hgame : ∃ gev, ev = .game gev
  · obtain ⟨gev, rfl⟩ := hgame
    exact attached_gameStep E E1 σ id socket1 gev hstep hord.2 hatt
  by_cases hdisc : ev = .disconnect
  · subst hdisc
    simp only [serverStep, Option.some.injEq] at hstep
    have hmid : serverStep E (σ id) .leaveRoom =
        some ((leaveRoomNow E (σ id)).1, (leaveRoomNow E (σ id)).2) := rfl
    have h1 := attached_roomStep E _ σ id _ .leaveRoom hmid (fun gev h => nomatch h)
      (fun h => nomatch h) (fun h => h.elim) hatt
    have hrun : runEvent (leaveRoomNow E (σ id)).1
        (Function.update σ id (leaveRoomNow E (σ id)).2 id) .leave = some (E1, socket1) := by
      rw [Function.update_same, ← hstep]
      rfl
    have h2 := attached_gameStep _ E1 (Function.update σ id (leaveRoomNow E (σ id)).2) id
      socket1 .leave hrun (fun h => h.elim) h1
    rw [Function.update_idem] at h2
    exact h2
  · exact attached_roomStep E E1 σ id socket1 ev hstep
      (fun gev h => hgame ⟨gev, h⟩) hdisc hord.1 hatt

theorem orderly_spec (socket : Socket) (ev : ServerEvent) (h : orderly socket ev = true) :
    Orderly socket ev := by
  cases ev with
  | createRoom userName userId c now =>
    exact ⟨fun _ => Option.isNone_iff_eq_none.mp h, fun hf => hf.elim⟩
  | joinRoom roomCode userName userId now =>
    exact ⟨fun _ => Option.isNone_iff_eq_none.mp h, fun hf => hf.elim⟩
  | game gev =>
    cases gev with
    | create userName settings c now =>
      exact ⟨fun hf => hf.elim, fun _ => Option.isNone_iff_eq_none.mp h⟩
    | join gameCode userName =>
      exact ⟨fun hf => hf.elim, fun _ => Option.isNone_iff_eq_none.mp h⟩
    | _ => exact ⟨fun hf => hf.elim, fun hf => hf.elim⟩
  | _ => exact ⟨fun hf => hf.elim, fun hf => hf.elim⟩

/-- What any event does to the rooms and to the room code of its connection:
a participant found in a room afterwards is the connection itself, which has
entered, or was in that room before; an event that is none of `create-room`,
`join-room`, `leave-room` and `disconnect` keeps the room code. -/
theorem serverStep_rooms (E E1 : Engine) (socket socket1 : Socket) (ev : ServerEvent)
    (hstep : serverStep E socket ev = some (E1, socket1)) :
    socket1.id = socket.id ∧
    (roomRequest ev = false → socket1.roomCode = socket.roomCode) ∧
    ∀ code r1, mapGet E1.activeRooms code = some r1 → ∀ x ∈ mapKeys r1.participants,
      (EntersRoom ev ∧ x = socket.id) ∨
      (∃ r, mapGet E.activeRooms code = some r ∧ x ∈ mapKeys r.participants) := by
  by_cases hgame : ∃ gev, ev = .game gev
  · obtain ⟨gev, rfl⟩ := hgame
    have hrun : runEvent E socket gev = some (E1, socket1) := hstep
    obtain ⟨m1, m2, -⟩ := runEvent_member E E1 socket socket1 gev hrun
    refine ⟨m1, fun _ => m2, ?_⟩
    intro code r1 h x hx
    rw [runEvent_rooms E E1 socket socket1 gev hrun] at h
    exact Or.inr ⟨r1, h, hx⟩
  by_cases hdisc : ev = .disconnect
  · subst hdisc
    simp only [serverStep, Option.some.injEq] at hstep
    have hmid : serverStep E socket .leaveRoom =
        some ((leaveRoomNow E socket).1, (leaveRoomNow E socket).2) := rfl
    obtain ⟨m1, -, -, -, m4⟩ := roomStep_member E _ socket _ .leaveRoom hmid
      (fun gev h => nomatch h) (fun h => nomatch h)
    have hrun : runEvent (leaveRoomNow E socket).1 (leaveRoomNow E socket).2 .leave =
        some (E1, socket1) := by
      rw [← hstep]
      rfl
    obtain ⟨g1, -, -⟩ := runEvent_member _ E1 _ socket1 .leave hrun
    refine ⟨g1.trans m1, (fun h => nomatch h), ?_⟩
    intro code r1 h x hx
    rw [runEvent_rooms _ E1 _ socket1 .leave hrun] at h
    rcases m4 code r1 h x hx with ⟨he, -⟩ | ⟨r, hr, hxr, -⟩
    · exact he.elim
    · exact Or.inr ⟨r, hr, hxr⟩
  · obtain ⟨m1, -, -, m3, m4⟩ := roomStep_member E E1 socket socket1 ev hstep
      (fun gev h => hgame ⟨gev, h⟩) hdisc
    refine ⟨m1, m3, ?_⟩
    intro code r1 h x hx
    rcases m4 code r1 h x hx with ⟨he, hx1, -⟩ | ⟨r, hr, hxr, -⟩
    · exact Or.inl ⟨he, hx1⟩
    · exact Or.inr ⟨r, hr, hxr⟩


theorem socket_mapSet (sockets : JSMap String Socket) (E E1 : Engine) (id : String)
    (socket1 : Socket) :
    World.socket ⟨E1, mapSet sockets id socket1⟩ =
      Function.update (World.socket ⟨E, sockets⟩) id socket1 := by
  funext x
  by_cases hx : x = id
  · subst hx
    rw [Function.update_same]
    unfold World.socket
    simp only [mapGet_mapSet_same, Option.getD_some]
  · rw [Function.update_noteq hx]
    unfold World.socket
    simp only [mapGet_mapSet_ne _ _ _ _ hx]

theorem detach_socketId (gone : Option (String × ActiveRoom)) (p : Suspended) :
    (Suspended.detach gone p).socketId = p.socketId := by
  unfold Suspended.detach
  split
  · split
    · split <;> rfl
    · rfl
  · rfl

theorem detach_safe (gone : Option (String × ActiveRoom)) (p : Suspended) (E : Engine)
    (σ : String → Socket) (h : p.Safe E σ) : (Suspended.detach gone p).Safe E σ := by
  unfold Suspended.detach
  split
  · split
    · split <;> exact h
    · exact h
  · exact h

theorem entersRoom_roomRequest (ev : ServerEvent) (h : EntersRoom ev) : roomRequest ev = true := by
  cases ev <;> first | rfl | exact h.elim

/-- A suspended handler stays safe over an event of another connection, and over
an event of its own connection that is none of `create-room`, `join-room`,
`leave-room` and `disconnect`. -/
theorem safe_step (E E1 : Engine) (σ : String → Socket) (id : String) (socket1 : Socket)
    (ev : ServerEvent) (q : Suspended)
    (hstep : serverStep E (σ id) ev = some (E1, socket1)) (hids : ∀ x, (σ x).id = x)
    (hq : q.Safe E σ) (hne : q.socketId = id → roomRequest ev = false) :
    q.Safe E1 (Function.update σ id socket1) := by
  obtain ⟨-, m2, m3⟩ := serverStep_rooms E E1 (σ id) socket1 ev hstep
  have hcode : ∀ x, (σ x).roomCode = none → (x = id → roomRequest ev = false) →
      (Function.update σ id socket1 x).roomCode = none := by
    intro x hx hreq
    by_cases hxi : x = id
    · subst hxi
      rw [Function.update_same, m2 (hreq rfl)]
      exact hx
    · rw [Function.update_noteq hxi]
      exact hx
  have hrooms : ∀ x, (∀ code room, mapGet E.activeRooms code = some room →
      x ∉ mapKeys room.participants) → (x = id → roomRequest ev = false) →
      ∀ code room, mapGet E1.activeRooms code = some room → x ∉ mapKeys room.participants := by
    intro x hx hreq code room h hmem
    rcases m3 code room h x hmem with ⟨he, hxi⟩ | ⟨r, hr, hxr⟩
    · rw [hids id] at hxi
      have := hreq hxi
      rw [entersRoom_roomRequest ev he] at this
      cases this
    · exact hx code r hr hxr
  cases q with
  | createRoom idq userName userId code => exact hcode idq hq hne
  | joinRoom idq userName userId code => exact hcode idq hq hne
  | leaveRoom idq held => exact hrooms idq hq hne

/-- A suspended handler of another connection stays safe over a block of
handler code that adds no participant but its own connection. -/
theorem safe_block (E E1 : Engine) (σ : String → Socket) (id : String) (socket1 : Socket)
    (q : Suspended) (hne : q.socketId ≠ id)
    (hgrow : ∀ code r1, mapGet E1.activeRooms code = some r1 → ∀ x ∈ mapKeys r1.participants,
      x = id ∨ ∃ r, mapGet E.activeRooms code = some r ∧ x ∈ mapKeys r.participants)
    (hq : q.Safe E σ) : q.Safe E1 (Function.update σ id socket1) := by
  cases q with
  | createRoom idq userName userId code =>
    have hne1 : idq ≠ id := hne
    show (Function.update σ id socket1 idq).roomCode = none
    rw [Function.update_noteq hne1]
    exact hq
  | joinRoom idq userName userId code =>
    have hne1 : idq ≠ id := hne
    show (Function.update σ id socket1 idq).roomCode = none
    rw [Function.update_noteq hne1]
    exact hq
  | leaveRoom idq held =>
    intro code room h hmem
    rcases hgrow code room h idq hmem with hx | ⟨r, hr, hxr⟩
    · exact hne hx
    · exact hq code r hr hxr

/-- The handler that an orderly event leaves suspended serves the connection of
the event and is safe. -/
theorem suspension_spec (E E1 : Engine) (σ : String → Socket) (id : String) (socket1 : Socket)
    (ev : ServerEvent) (p : Suspended)
    (hstep : serverStep E (σ id) ev = some (E1, socket1))
    (hs : suspension E (σ id) ev = some p) (hord : Orderly (σ id) ev) (hatt : Attached E σ) :
    p.socketId = id ∧ roomRequest ev = true ∧ p.Safe E1 (Function.update σ id socket1) := by
  have hsid : (σ id).id = id := hatt.1 id
  have hleave : ∀ E2 s2, leaveRoomNow E (σ id) = (E2, s2) →
      (match leaveRoomBegin E (σ id) with
        | some (_, code, true) => some (Suspended.leaveRoom (σ id).id ⟨code, none⟩)
        | _ => none) = some p →
      E2.activeRooms = E1.activeRooms →
      p.socketId = id ∧ p.Safe E1 (Function.update σ id socket1) := by
    intro E2 s2 hnow hsusp hrooms
    unfold leaveRoomNow at hnow
    cases hb : leaveRoomBegin E (σ id) with
    | none => simp [hb] at hsusp
    | some r =>
      obtain ⟨E3, code, awaits⟩ := r
      cases awaits with
      | false => simp [hb] at hsusp
      | true =>
        simp only [hb, Option.some.injEq] at hsusp
        simp only [hb, if_true, Prod.mk.injEq] at hnow
        obtain ⟨h1, h2⟩ := hnow
        subst hsusp
        refine ⟨hsid, ?_⟩
        unfold leaveRoomBegin at hb
        cases hc : (σ id).roomCode with
        | none => simp [hc] at hb
        | some c =>
          simp only [hc] at hb
          cases hr : mapGet E.activeRooms c with
          | none => simp [hr] at hb
          | some room =>
            simp only [hr, Option.some.injEq, Prod.mk.injEq] at hb
            obtain ⟨e1, e2, -⟩ := hb
            subst e2
            intro code1 room1 hl hmem
            rw [← hrooms, ← h1, ← e1] at hl
            dsimp only at hl
            rw [hsid] at hmem
            rcases lookup_mapSet _ _ _ _ _ hl with ⟨k1, k2⟩ | ⟨k1, k2⟩
            · rw [k2] at hmem
              have := (mem_mapKeys_mapDelete _ _ _).mp hmem
              rw [hsid] at this
              exact this.1 rfl
            · have hI := hatt.2.1 code1 room1 k2 id hmem
              rw [hc] at hI
              exact k1 (Option.some.inj hI).symm
  cases ev with
  | createRoom userName userId c now =>
    simp only [suspension] at hs
    simp only [serverStep] at hstep
    split at hs
    · rename_i ht
      rw [if_pos ht] at hstep
      simp only [Option.some.injEq, Prod.mk.injEq] at hs hstep
      subst hs
      refine ⟨hsid, rfl, ?_⟩
      show (Function.update σ id socket1 (σ id).id).roomCode = none
      rw [hsid, Function.update_same, ← hstep.2]
      exact hord.1 trivial
    · cases hs
  | joinRoom roomCode userName userId now =>
    simp only [suspension] at hs
    simp only [serverStep, Option.some.injEq] at hstep
    split at hs
    · rename_i hlive
      simp only [Option.some.injEq] at hs
      subst hs
      have hj : onJoinRoom E (σ id) roomCode userName userId now = none := by
        unfold onJoinRoom
        simp only [hlive]
      rw [hj] at hstep
      simp only [Option.getD_none, Prod.mk.injEq] at hstep
      refine ⟨hsid, rfl, ?_⟩
      show (Function.update σ id socket1 (σ id).id).roomCode = none
      rw [hsid, Function.update_same, ← hstep.2]
      exact hord.1 trivial
    · cases hs
  | leaveRoom =>
    simp only [serverStep, Option.some.injEq] at hstep
    obtain ⟨h1, h2⟩ := hleave E1 socket1 hstep hs rfl
    exact ⟨h1, rfl, h2⟩
  | disconnect =>
    simp only [serverStep, Option.some.injEq] at hstep
    have hrun : runEvent (leaveRoomNow E (σ id)).1 (leaveRoomNow E (σ id)).2 .leave =
        some (E1, socket1) := by
      rw [← hstep]
      rfl
    have hrooms := runEvent_rooms _ E1 _ socket1 .leave hrun
    obtain ⟨h1, h2⟩ := hleave (leaveRoomNow E (σ id)).1 (leaveRoomNow E (σ id)).2 rfl hs
      hrooms.symm
    exact ⟨h1, rfl, h2⟩
  | draw data now => cases hs
  | clearCanvas => cases hs
  | game gev => cases hs


theorem eraseIdx_distinct {α β : Type} (f : α → β) (l : List α) :
    ∀ (i : Nat) (p : α), l[i]? = some p → (l.map f).Nodup → ∀ q ∈ l.eraseIdx i, f q ≠ f p := by
  induction l with
  | nil => intro i p _ _ q hq; cases hq
  | cons a rest ih =>
    intro i p hp hnd q hq
    rw [List.map_cons, List.nodup_cons] at hnd
    cases i with
    | zero =>
      simp only [List.getElem?_cons_zero, Option.some.injEq] at hp
      subst hp
      simp only [List.eraseIdx_cons_zero] at hq
      intro he
      exact hnd.1 (he ▸ List.mem_map_of_mem f hq)
    | succ j =>
      simp only [List.getElem?_cons_succ] at hp
      simp only [List.eraseIdx_cons_succ, List.mem_cons] at hq
      rcases hq with rfl | hq
      · intro he
        have hmem : p ∈ rest := List.getElem?_mem hp
        exact hnd.1 (he ▸ List.mem_map_of_mem f hmem)
      · exact ih j p hp hnd.2 q hq

theorem awaits_false (S : Server) (id : String) (h : S.awaits id = false) :
    ∀ q ∈ S.pending, q.socketId ≠ id := by
  intro q hq he
  have : S.awaits id = true := by
    unfold Server.awaits
    rw [List.any_eq_true]
    exact ⟨q, hq, by simp [he]⟩
  rw [h] at this
  cases this

/-- A disciplined event keeps the server tidy. -/
theorem tidy_request (S S1 : Server) (id : String) (ev : ServerEvent)
    (hstep : S.step (.request id ev) = some S1)
    (hd : disciplined S (.request id ev) = true) (h : S.Tidy) : S1.Tidy := by
  obtain ⟨hatt, hnd, hsafe⟩ := h
  simp only [Server.step, Option.map_eq_some'] at hstep
  obtain ⟨r, hr, hS⟩ := hstep
  obtain ⟨E1, socket1⟩ := r
  simp only [disciplined, Bool.and_eq_true, Bool.or_eq_true, Bool.not_eq_true'] at hd
  obtain ⟨hord, hreq⟩ := hd
  have hord1 := orderly_spec _ _ hord
  have hσ : S1.socket = Function.update S.socket id socket1 := by
    rw [← hS]
    exact socket_mapSet S.sockets S.engine E1 id socket1
  have hE : S1.engine = E1 := by rw [← hS]
  have hP : S1.pending =
      S.pending.map (Suspended.detach (released S.engine (S.socket id) ev)) ++
        (suspension S.engine (S.socket id) ev).toList := by rw [← hS]
  have hown : ∀ q ∈ S.pending, q.socketId = id → roomRequest ev = false := by
    intro q hq he
    rcases hreq with h1 | h1
    · exact h1
    · exact absurd he (awaits_false S id h1 q hq)
  refine ⟨?_, ?_, ?_⟩
  · rw [hE, hσ]
    exact attached_step S.engine E1 S.socket id socket1 ev hr hord1 hatt
  · rw [hP, List.map_append, List.map_map]
    have hmap : (Suspended.socketId ∘ Suspended.detach (released S.engine (S.socket id) ev)) =
        Suspended.socketId := by
      funext p
      exact detach_socketId _ p
    rw [hmap]
    cases hs : suspension S.engine (S.socket id) ev with
    | none => simpa using hnd
    | some p =>
      obtain ⟨h1, h2, -⟩ := suspension_spec S.engine E1 S.socket id socket1 ev p hr hs hord1 hatt
      simp only [Option.toList_some, List.map_cons, List.map_nil]
      rw [List.nodup_append]
      refine ⟨hnd, List.nodup_singleton _, ?_⟩
      rw [List.disjoint_singleton, h1]
      rcases hreq with h3 | h3
      · rw [h2] at h3
        cases h3
      · intro hmem
        obtain ⟨q, hq, he⟩ := List.mem_map.mp hmem
        exact awaits_false S id h3 q hq he
  · intro q hq
    rw [hE, hσ]
    rw [hP, List.mem_append] at hq
    rcases hq with hq | hq
    · obtain ⟨q0, hq0, rfl⟩ := List.mem_map.mp hq
      exact detach_safe _ q0 _ _
        (safe_step S.engine E1 S.socket id socket1 ev q0 hr hatt.1 (hsafe q0 hq0) (hown q0 hq0))
    · cases hs : suspension S.engine (S.socket id) ev with
      | none => simp [hs] at hq
      | some p =>
        simp only [hs, Option.toList_some, List.mem_singleton] at hq
        subst hq
        exact (suspension_spec S.engine E1 S.socket id socket1 ev q hr hs hord1 hatt).2.2

/-- The rest of a suspended handler that is safe keeps the server tidy. -/
theorem tidy_resume (S : Server) (now : Nat) (p : Suspended) (result : DbResult)
    (h : S.Tidy) (hp : p.Safe S.engine S.socket)
    (hne : ∀ q ∈ S.pending, q.socketId ≠ p.socketId) : (S.resume now p result).Tidy := by
  obtain ⟨hatt, hnd, hsafe⟩ := h
  have hmapid : ∀ gone : Option (String × ActiveRoom),
      (S.pending.map (Suspended.detach gone)).map Suspended.socketId =
        S.pending.map Suspended.socketId := by
    intro gone
    rw [List.map_map]
    congr 1
    funext q
    exact detach_socketId _ q
  -- a block for connection `id` that adds no participant but `id`
  have block : ∀ (id : String) (E1 : Engine) (socket1 : Socket)
      (gone : Option (String × ActiveRoom)) (entering : Prop) (T : Server),
      T.engine = E1 → T.sockets = mapSet S.sockets id socket1 →
      T.pending = S.pending.map (Suspended.detach gone) →
      p.socketId = id → (entering → (S.socket id).roomCode = none) →
      socket1.id = (S.socket id).id → socket1.gameCode = (S.socket id).gameCode →
      E1.activeGames = S.engine.activeGames →
      (∀ code r1, mapGet E1.activeRooms code = some r1 → ∀ x ∈ mapKeys r1.participants,
        (entering ∧ x = (S.socket id).id ∧ socket1.roomCode = some code) ∨
        (∃ r, mapGet S.engine.activeRooms code = some r ∧ x ∈ mapKeys r.participants ∧
          (x ≠ (S.socket id).id ∨ socket1.roomCode = (S.socket id).roomCode ∨
            (S.socket id).roomCode ≠ some code ∨ entering))) → T.Tidy := by
    intro id E1 socket1 gone entering T hTE hTs hTp hid hord h1 h2 h3 hmem
    have hσ : T.socket = Function.update S.socket id socket1 := by
      have := socket_mapSet S.sockets S.engine T.engine id socket1
      rw [← hTs] at this
      exact this
    refine ⟨?_, ?_, ?_⟩
    · rw [hσ, hTE]
      exact attached_block S.engine E1 S.socket id socket1 entering hatt hord h1 h2 h3 hmem
    · rw [hTp, hmapid]
      exact hnd
    · intro q hq
      rw [hσ, hTE]
      rw [hTp] at hq
      obtain ⟨q0, hq0, rfl⟩ := List.mem_map.mp hq
      refine detach_safe _ q0 _ _ (safe_block S.engine E1 S.socket id socket1 q0 ?_ ?_
        (hsafe q0 hq0))
      · rw [← hid]
        exact hne q0 hq0
      · intro code r1 hl x hx
        rcases hmem code r1 hl x hx with ⟨-, hx1, -⟩ | ⟨r, hr, hxr, -⟩
        · rw [hatt.1 id] at hx1
          exact Or.inl hx1
        · exact Or.inr ⟨r, hr, hxr⟩
  cases result with
  | rejected =>
    have : S.resume now p .rejected = S := by
      cases p <;> rfl
    rw [this]
    exact ⟨hatt, hnd, hsafe⟩
  | fulfilled stored =>
    cases p with
    | createRoom id userName userId c =>
      obtain ⟨f1, -, f3, f4⟩ := onCreateRoom_frame S.engine (S.socket id) userName userId c now true
      refine block id _ _ _ True _ rfl rfl rfl rfl (fun _ => hp) f4 f3 f1 ?_
      intro code r1 hl x hx
      rcases onCreateRoom_lookup _ _ _ _ _ _ _ _ _ hl with h1 | ⟨h1, h2⟩
      · exact Or.inr ⟨r1, h1, hx, Or.inr (Or.inr (Or.inr trivial))⟩
      · rw [h2, List.mem_singleton] at hx
        exact Or.inl ⟨trivial, hx, h1⟩
    | joinRoom id userName userId c =>
      cases stored with
      | none => exact ⟨hatt, hnd, hsafe⟩
      | some hostName =>
        obtain ⟨f1, -, f3, f4, f5⟩ :=
          joinRestored_spec S.engine (S.socket id) c hostName userName userId now
        refine block id _ _ _ True _ rfl rfl rfl rfl (fun _ => hp) f4 f3 f1 ?_
        intro code r1 hl x hx
        rcases f5 code r1 hl with h1 | ⟨h1, h2⟩
        · exact Or.inr ⟨r1, h1, hx, Or.inr (Or.inr (Or.inr trivial))⟩
        · rw [h2, List.mem_singleton] at hx
          exact Or.inl ⟨trivial, hx, h1⟩
    | leaveRoom id held =>
      obtain ⟨f1, -, f3, f4, -, f6⟩ := leaveRoomEnd_spec S.engine (S.socket id) held
      refine block id _ _ _ False _ rfl rfl rfl rfl (fun hf => hf.elim) f4 f3 f1 ?_
      intro code r1 hl x hx
      obtain ⟨r, hr, hk⟩ := f6 code r1 hl
      rw [hk] at hx
      refine Or.inr ⟨r, hr, hx, Or.inl ?_⟩
      rw [hatt.1 id]
      intro he
      subst he
      exact hp code r hr hx

/-- Every disciplined action keeps the server tidy. -/
theorem tidy_step (S S1 : Server) (a : ServerAction) (hstep : S.step a = some S1)
    (hd : disciplined S a = true) (h : S.Tidy) : S1.Tidy := by
  cases a with
  | request id ev => exact tidy_request S S1 id ev hstep hd h
  | settle index result now =>
    simp only [Server.step] at hstep
    cases hp : S.pending[index]? with
    | none =>
      simp only [hp, Option.some.injEq] at hstep
      rw [← hstep]
      exact h
    | some p =>
      simp only [hp, Option.some.injEq] at hstep
      rw [← hstep]
      obtain ⟨hatt, hnd, hsafe⟩ := h
      have hmem : p ∈ S.pending := List.getElem?_mem hp
      have hsub : List.Sublist (S.pending.eraseIdx index) S.pending := List.eraseIdx_sublist _ _
      refine tidy_resume _ now p result ⟨hatt, ?_, ?_⟩ (hsafe p hmem) ?_
      · exact hnd.sublist (hsub.map _)
      · intro q hq
        exact hsafe q (hsub.subset hq)
      · intro q hq
        exact eraseIdx_distinct Suspended.socketId S.pending index p hp hnd q hq

theorem tidy_run (acts : List ServerAction) :
    ∀ S S1 : Server, S.run acts = some S1 → disciplinedRun S acts = true → S.Tidy → S1.Tidy := by
  induction acts with
  | nil =>
    intro S S1 h _ ht
    simp only [Server.run, Option.some.injEq] at h
    rw [← h]
    exact ht
  | cons a rest ih =>
    intro S S1 h hd ht
    simp only [Server.run, Option.bind_eq_some] at h
    obtain ⟨S2, hstep, hrest⟩ := h
    simp only [disciplinedRun, hstep, Bool.and_eq_true] at hd
    exact ih S2 S1 hrest hd.2 (tidy_step S S2 a hstep hd.1 ht)

set_option maxRecDepth 100000 in
/-- C22, as stated, fails, in two ways.  `p0`, already in the game `GAME01` and
the room `ROOM01`, creates the game `GAME02` and the room `ROOM02`; no handler
makes it leave the first ones, so `p0` is a player of both registered games and
a participant of both registered rooms, while its connection record names the
second ones only.  And the authenticated user on connection `a` sends
`create-room` twice, each time with no room code on the connection, the second
request while the first awaits the database: both handlers are suspended, and
once the database has answered `a` is a participant of the two registered
rooms `ROOM01` and `ROOM02`. -/
theorem double_membership_counterexample :
    (serverAfter doubleEntry).members =
      ([("ROOM01", ["p0"]), ("ROOM02", ["p0"])], [("GAME01", ["p0"]), ("GAME02", ["p0"])]) ∧
    (serverAfter doubleEntry).socket "p0" = ⟨"p0", some "ROOM02", some "GAME02", none⟩ ∧
    orderly (Server.initial.socket "a") (.createRoom "Ann" (some "u1") "ROOM01" 0) = true ∧
    orderly ((serverAfter (hastyEntry.take 1)).socket "a")
      (.createRoom "Ann" (some "u1") "ROOM02" 1) = true ∧
    (serverAfter (hastyEntry.take 2)).pending =
      [.createRoom "a" "Ann" (some "u1") "ROOM01", .createRoom "a" "Ann" (some "u1") "ROOM02"] ∧
    (serverAfter hastyEntry).members = ([("ROOM01", ["a"]), ("ROOM02", ["a"])], []) ∧
    (serverAfter hastyEntry).socket "a" = ⟨"a", some "ROOM02", none, some "u1"⟩ := by
  decide

/-- C22 (as amended): in every state that the server reaches from its start by
events and settled database calls, where a connection sends `create-room` or
`join-room` only while it has no room code, `game:create` or `game:join` only
while it has no game code, and none of `create-room`, `join-room`,
`leave-room` and `disconnect` while a handler serving it is suspended at a
database call (`create-room` at `Room.create`, `join-room` at `Room.findOne`,
`handleLeaveRoom` at the save of the stored room), each connection id is a key
of the participants map of at most one registered room and of the players map
of at most one registered game: the room and the game that the connection's
`roomCode` and `gameCode` name. -/
theorem single_session_membership (actions : List ServerAction) (S : Server)
    (hrun : Server.initial.run actions = some S)
    (hd : disciplinedRun Server.initial actions = true) (id : String) :
    (∀ c1 c2 r1 r2, mapGet S.engine.activeRooms c1 = some r1 →
      mapGet S.engine.activeRooms c2 = some r2 → id ∈ mapKeys r1.participants →
      id ∈ mapKeys r2.participants → c1 = c2) ∧
    (∀ c1 c2 g1 g2, mapGet S.engine.activeGames c1 = some g1 →
      mapGet S.engine.activeGames c2 = some g2 → id ∈ mapKeys g1.players →
      id ∈ mapKeys g2.players → c1 = c2) ∧
    (∀ c r, mapGet S.engine.activeRooms c = some r → id ∈ mapKeys r.participants →
      (S.socket id).roomCode = some c) ∧
    (∀ c g, mapGet S.engine.activeGames c = some g → id ∈ mapKeys g.players →
      (S.socket id).gameCode = some c) := by
  have hinit : Server.initial.Tidy :=
    ⟨⟨(fun _ => rfl), (fun code room h => nomatch h), (fun code game h => nomatch h)⟩,
      List.nodup_nil, (fun p h => nomatch h)⟩
  obtain ⟨⟨-, hrooms, hgames⟩, -, -⟩ := tidy_run actions Server.initial S hrun hd hinit
  refine ⟨?_, ?_, fun c r h hx => hrooms c r h id hx, fun c g h hx => hgames c g h id hx⟩
  · intro c1 c2 r1 r2 h1 h2 hx1 hx2
    have e1 := hrooms c1 r1 h1 id hx1
    have e2 := hrooms c2 r2 h2 id hx2
    rw [e1] at e2
    exact Option.some.inj e2
  · intro c1 c2 g1 g2 h1 h2 hx1 hx2
    have e1 := hgames c1 g1 h1 id hx1
    have e2 := hgames c2 g2 h2 id hx2
    rw [e1] at e2
    exact Option.some.inj e2

set_option maxRecDepth 100000 in
/-- C22 (as amended) at a concrete input: the run `visit`, in which an
authenticated user creates a stored room and leaves it again, is disciplined,
the runs `doubleEntry` and `hastyEntry` are not; after the first five actions
of `visit` the connection `b` is in the room `ROOM01` and in the game `GAME01`,
and in no other. -/
theorem single_session_membership_witness :
    disciplinedRun Server.initial visit = true ∧
    disciplinedRun Server.initial doubleEntry = false ∧
    disciplinedRun Server.initial hastyEntry = false ∧
    (serverAfter (visit.take 5)).members =
      ([("ROOM01", ["a", "b"])], [("GAME01", ["a", "b"])]) ∧
    (∀ c r, mapGet (serverAfter (visit.take 5)).engine.activeRooms c = some r →
      "b" ∈ mapKeys r.participants →
      ((serverAfter (visit.take 5)).socket "b").roomCode = some c) ∧
    (∀ c g, mapGet (serverAfter (visit.take 5)).engine.activeGames c = some g →
      "b" ∈ mapKeys g.players →
      ((serverAfter (visit.take 5)).socket "b").gameCode = some c) :=
  ⟨by decide, by decide, by decide, by decide,
    (single_session_membership (visit.take 5) (serverAfter (visit.take 5))
      (by decide) (by decide) "b").2.2.1,
    (single_session_membership (visit.take 5) (serverAfter (visit.take 5))
      (by decide) (by decide) "b").2.2.2⟩

set_option maxRecDepth 100000 in
/-- C24 fails on the code for a stored room: the authenticated user on
connection `a` creates the room `ROOM01` and leaves it; `handleLeaveRoom`
removes the participant and is suspended at the save of the stored room, and
for as long as the save is pending `ROOM01` is registered with no participant,
while the connection keeps its room code.  An event handled in that time meets
the empty room: `join-room` of `b` finds it registered and joins it.  Only when
the save is fulfilled does the rest of `handleLeaveRoom` delete the room.  A
room of an anonymous user, and a game, are deleted within the event that makes
them empty. -/
theorem empty_room_registered_during_save :
    (serverAfter (lastLeave.take 2)).members = ([("ROOM01", ["a"])], []) ∧
    (serverAfter lastLeave).members = ([("ROOM01", [])], []) ∧
    (serverAfter lastLeave).pending = [.leaveRoom "a" ⟨"ROOM01", none⟩] ∧
    (serverAfter lastLeave).socket "a" = ⟨"a", some "ROOM01", none, some "u1"⟩ ∧
    (serverAfter (lastLeave ++ [.request "b" (.joinRoom "room01" "Bob" none 2)])).members =
      ([("ROOM01", ["b"])], []) ∧
    (Server.initial.run (lastLeave ++ [.settle 0 (.fulfilled none) 2])).map Server.members =
      some ([], []) ∧
    (Server.initial.run [.request "a" (.createRoom "Ann" none "ROOM01" 0),
      .request "a" .leaveRoom]).map Server.members = some ([], []) ∧
    (Server.initial.run [.request "a" (.game (.create "Ann" ⟨none, none, none, none⟩ "GAME01" 0)),
      .request "a" (.game .leave)]).map Server.members = some ([], []) :=
  ⟨by decide, by decide, by decide, by decide, by decide, by decide, by decide, by decide⟩

end DrawIt
